import Mathlib

/-!
Rucbase storage core: index key comparison, B+ tree index, table lock manager,
buffer pool manager.

A shallow embedding of `src/index/ix_index_handle.{h,cpp}`,
`src/transaction/concurrency/lock_manager.{h,cpp}` and
`src/storage/buffer_pool_manager.cpp`.

Conventions of the embedding
* a byte buffer (`const char *`) is a `List Nat`; a byte is read modulo 256 and
  a read past the end of the list gives 0;
* `int` values are `Int`, sizes and slot indices are `Nat` where the source
  keeps them non-negative;
* for the index, the buffer pool and the pager are abstracted to a page store
  (page number to page contents): a node handle is the page number, every read
  and write goes to the page, the pool is taken to have a frame for every
  fetch, and pin counts are not part of the index model;
* the buffer pool manager is embedded on its own: a `Page *` is the index of
  the frame in `pages_`, `nullptr` is `none`, the page table is an association
  list in insertion order, and the latch is not modelled (calls are atomic);
* an access outside a node's slot arrays, a failed `assert`, or a fetch of a
  page that was never written makes the modelled operation return `none`.
-/

namespace Rucbase

/-! ## Column types and key comparison (`ix_index_handle.h`) -/

/-- Modelled from the spec: the column types `INT32`, `FLOAT32`, `FIXED_STRING` of
the column metadata (`defs.h` is not among the sources), under the names that
`ix_compare` switches on. -/
inductive ColType where
  | TYPE_INT
  | TYPE_FLOAT
  | TYPE_STRING
deriving DecidableEq, Repr

/-- The byte at position `i` of a buffer (as `unsigned char`). -/
def byteAt (a : List Nat) (i : Nat) : Nat := a.getD i 0 % 256

/-- The 32-bit little-endian word stored at the start of a buffer. -/
def readU32 (a : List Nat) : Nat :=
  byteAt a 0 + 256 * byteAt a 1 + 65536 * byteAt a 2 + 16777216 * byteAt a 3

/-- Reading of `*(int *)a`: the two's complement value of the word at `a`. -/
def readInt (a : List Nat) : Int :=
  if readU32 a < 2147483648 then (readU32 a : Int) else (readU32 a : Int) - 4294967296

/-- Whether a 32-bit pattern is an IEEE-754 binary32 NaN. -/
def floatIsNaN (u : Nat) : Bool := (u / 8388608) % 256 == 255 && u % 8388608 != 0

/-- Position of a non-NaN binary32 pattern on the number line, up to a
strictly monotone map: sign-magnitude order, with `-0` and `+0` both at 0. -/
def floatRank (u : Nat) : Int :=
  if u < 2147483648 then (u : Int) else -((u : Int) - 2147483648)

/-- Reading of `fa < fb` for `float fa = *(float *)a`, `float fb = *(float *)b`. -/
def floatLt (a b : List Nat) : Bool :=
  !floatIsNaN (readU32 a) && !floatIsNaN (readU32 b) &&
    decide (floatRank (readU32 a) < floatRank (readU32 b))

/-- Reading of `memcmp(a, b, n)`: the difference of the first pair of bytes that
differ among the first `n`, 0 when there is none.  C fixes only the sign of
the result, which is all the callers use. -/
def memcmp : List Nat → List Nat → Nat → Int
  | _, _, 0 => 0
  | a, b, n + 1 =>
    if byteAt a 0 = byteAt b 0 then memcmp a.tail b.tail n
    else (byteAt a 0 : Int) - (byteAt b 0 : Int)

/-- Single-column `ix_compare(a, b, type, col_len)`; the `default` branch is
not reachable for a value of the three column types. -/
def ix_compare_col (a b : List Nat) (type : ColType) (col_len : Nat) : Int :=
  match type with
  | .TYPE_INT =>
    let ia := readInt a
    let ib := readInt b
    if ia < ib then -1 else if ia > ib then 1 else 0
  | .TYPE_FLOAT =>
    if floatLt a b then -1 else if floatLt b a then 1 else 0
  | .TYPE_STRING => memcmp a b col_len

/-- The loop of the multi-column `ix_compare`, entered at column `i` with
running byte offset `offset`; `col_lens[i]` is `col_lens.headD 0`. -/
def ix_compare_loop (a b : List Nat) (offset : Nat) : List ColType → List Nat → Int
  | [], _ => 0
  | t :: ts, col_lens =>
    let res := ix_compare_col (a.drop offset) (b.drop offset) t (col_lens.headD 0)
    if res ≠ 0 then res
    else ix_compare_loop a b (offset + col_lens.headD 0) ts col_lens.tail

/-- Multi-column `ix_compare(a, b, col_types, col_lens)`. -/
def ix_compare (a b : List Nat) (col_types : List ColType) (col_lens : List Nat) : Int :=
  ix_compare_loop a b 0 col_types col_lens

/-- Byte offset of column `i`: the sum of the declared lengths before it. -/
def colOffset (col_lens : List Nat) (i : Nat) : Nat := (col_lens.take i).sum

/-- Result of the per-type comparison of column `i`, taken at its offset. -/
def colResult (a b : List Nat) (col_types : List ColType) (col_lens : List Nat) (i : Nat) : Int :=
  match col_types[i]? with
  | some t => ix_compare_col (a.drop (colOffset col_lens i)) (b.drop (colOffset col_lens i)) t
      (col_lens.getD i 0)
  | none => 0

/-- Result of the per-type comparison of column `i` when the key starts at byte
`off` of both buffers. -/
def colResultAt (a b : List Nat) (off : Nat) (types : List ColType) (lens : List Nat) (i : Nat) : Int :=
  match types[i]? with
  | some t => ix_compare_col (a.drop (off + colOffset lens i)) (b.drop (off + colOffset lens i)) t
      (lens.getD i 0)
  | none => 0

/-! ## B+ tree node pages (`IxNodeHandle`) -/

/-- Modelled from the spec: the record identifier `Rid`, the pair `(page_no,
slot_no)`; in an internal node `page_no` is the child page. -/
structure Rid where
  page_no : Int
  slot_no : Int
deriving DecidableEq, Repr

/-- Modelled from the spec: the iterator position `Iid`, leaf page and slot. -/
structure Iid where
  page_no : Int
  slot_no : Int
deriving DecidableEq, Repr

/-- Modelled from the spec: `INVALID_PAGE_ID`, the page number that names no
page (`defs.h` is not among the sources). -/
def INVALID_PAGE_ID : Int := -1

/-- Modelled from the spec: `IX_NO_PAGE`, the root page number of an empty index;
the code uses it and `INVALID_PAGE_ID` for the same `parent` and `root_page_`
fields, so they are the same number. -/
def IX_NO_PAGE : Int := -1

/-- Modelled from the spec: the B+ tree file header (`ix_defs.h` is not among the
sources), with the fields the index handle reads or writes under the names
the code uses. -/
structure IxFileHdr where
  num_pages_ : Int
  root_page_ : Int
  col_types_ : List ColType
  col_lens_ : List Nat
  col_tot_len_ : Nat
  btree_order_ : Nat
  first_leaf_ : Int
  last_leaf_ : Int
deriving DecidableEq, Repr

/-- Modelled from the spec: the node page layout, that is the `IxPageHdr` fields
used by `IxNodeHandle`, then the key slots and the rid slots.  Both slot arrays have `btree_order_ + 1` slots; the slots at
`num_key` and beyond keep whatever was last written to them. -/
structure IxNode where
  parent : Int
  num_key : Nat
  is_leaf : Bool
  prev_leaf : Int
  next_leaf : Int
  keys : List (List Nat)
  rids : List Rid
deriving DecidableEq, Repr

/-- The `operators` of `halfFind`. -/
inductive operators where
  | LOWER
  | UPPER
deriving DecidableEq, Repr

namespace IxNode

/-- Embeds `get_size()`. -/
def get_size (n : IxNode) : Nat := n.num_key

/-- Embeds `get_max_size()`. -/
def get_max_size (hdr : IxFileHdr) : Nat := hdr.btree_order_ + 1

/-- Embeds `get_min_size()`. -/
def get_min_size (hdr : IxFileHdr) : Nat := get_max_size hdr / 2

/-- Embeds `get_key(key_idx)`: the key slot, when it lies inside the slot array. -/
def get_key (n : IxNode) (key_idx : Nat) : Option (List Nat) := n.keys[key_idx]?

/-- Embeds `get_rid(rid_idx)`: the rid slot, when it lies inside the slot array. -/
def get_rid (n : IxNode) (rid_idx : Nat) : Option Rid := n.rids[rid_idx]?

/-- Embeds `value_at(i)`. -/
def value_at (n : IxNode) (i : Nat) : Option Int := (n.get_rid i).map Rid.page_no

/-- Embeds `is_root_page()`. -/
def is_root_page (n : IxNode) : Bool := n.parent == INVALID_PAGE_ID

/-- Embeds `is_full()`. -/
def is_full (hdr : IxFileHdr) (n : IxNode) : Bool := n.get_size == get_max_size hdr

/-- Overwrite the slots `pos, pos+1, ..` of a slot array with `xs`; `none` when
the write would leave the array. -/
def writeSlots {α : Type} (l : List α) (pos : Nat) (xs : List α) : Option (List α) :=
  if pos + xs.length ≤ l.length then some (l.take pos ++ xs ++ l.drop (pos + xs.length))
  else none

/-- Embeds `set_key(key_idx, key)`. -/
def set_key (n : IxNode) (key_idx : Nat) (key : List Nat) : Option IxNode :=
  (writeSlots n.keys key_idx [key]).map (fun ks => { n with keys := ks })

/-- Embeds `set_rid(rid_idx, rid)`. -/
def set_rid (n : IxNode) (rid_idx : Nat) (rid : Rid) : Option IxNode :=
  (writeSlots n.rids rid_idx [rid]).map (fun rs => { n with rids := rs })

/-- The `while (left < right)` loop of `halfFind`; `fuel` bounds the number of
iterations, `right - left` is enough. -/
def halfFindLoop (hdr : IxFileHdr) (n : IxNode) (target : List Nat) (op : operators) :
    Nat → Nat → Nat → Option Nat
  | 0, left, right => if left < right then none else some left
  | fuel + 1, left, right =>
    if left < right then
      let mid := (left + right) / 2
      match n.get_key mid with
      | none => none
      | some k =>
        let compareRes := ix_compare target k hdr.col_types_ hdr.col_lens_
        if compareRes ≥ 0 then
          if op = operators.LOWER ∧ compareRes = 0 then halfFindLoop hdr n target op fuel left mid
          else halfFindLoop hdr n target op fuel (mid + 1) right
        else halfFindLoop hdr n target op fuel left mid
    else some left

/-- Embeds `halfFind(target, op)`. -/
def halfFind (hdr : IxFileHdr) (n : IxNode) (target : List Nat) (op : operators) : Option Nat :=
  halfFindLoop hdr n target op n.num_key 0 n.num_key

/-- Embeds `IxNodeHandle::lower_bound(target)`. -/
def lower_bound (hdr : IxFileHdr) (n : IxNode) (target : List Nat) : Option Nat :=
  halfFind hdr n target operators.LOWER

/-- Embeds `IxNodeHandle::upper_bound(target)`. -/
def upper_bound (hdr : IxFileHdr) (n : IxNode) (target : List Nat) : Option Nat :=
  halfFind hdr n target operators.UPPER

/-- Embeds `locateKeyIndex(key)`: the slot of `key`, or -1. -/
def locateKeyIndex (hdr : IxFileHdr) (n : IxNode) (key : List Nat) : Option Int :=
  match lower_bound hdr n key with
  | none => none
  | some index =>
    if index ≠ n.get_size then
      match n.get_key index with
      | none => none
      | some k =>
        if ix_compare key k hdr.col_types_ hdr.col_lens_ = 0 then some (index : Int) else some (-1)
    else some (-1)

/-- Embeds `leaf_lookup(key, value)`: `some r` when the key is found with rid `r`. -/
def leaf_lookup (hdr : IxFileHdr) (n : IxNode) (key : List Nat) : Option (Option Rid) :=
  match locateKeyIndex hdr n key with
  | none => none
  | some index =>
    if index ≠ -1 then
      match n.get_rid index.toNat with
      | none => none
      | some r => some (some r)
    else some none

/-- Embeds `internal_lookup(key)`. -/
def internal_lookup (hdr : IxFileHdr) (n : IxNode) (key : List Nat) : Option Int :=
  match upper_bound hdr n key with
  | none => none
  | some index => n.value_at (if index ≠ 0 then index - 1 else index)

/-- Embeds `insert_pairs(pos, key, rid, n)` with the `n` pairs given as two lists. -/
def insert_pairs (n : IxNode) (pos : Nat) (key : List (List Nat)) (rid : List Rid) : Option IxNode :=
  if pos ≤ n.get_size then
    let resSize := n.get_size - pos
    match writeSlots n.keys (pos + key.length) ((n.keys.drop pos).take resSize),
          writeSlots n.rids (pos + rid.length) ((n.rids.drop pos).take resSize) with
    | some ks, some rs =>
      match writeSlots ks pos key, writeSlots rs pos rid with
      | some ks2, some rs2 => some { n with keys := ks2, rids := rs2, num_key := n.num_key + key.length }
      | _, _ => none
    | _, _ => none
  else some n

/-- Embeds `insert_pair(pos, key, rid)`. -/
def insert_pair (n : IxNode) (pos : Nat) (key : List Nat) (rid : Rid) : Option IxNode :=
  insert_pairs n pos [key] [rid]

/-- Embeds `IxNodeHandle::insert(key, value)`: the node afterwards and the returned size. -/
def insert (hdr : IxFileHdr) (n : IxNode) (key : List Nat) (value : Rid) : Option (IxNode × Nat) :=
  match lower_bound hdr n key with
  | none => none
  | some index =>
    match n.get_key index with
    | none => none
    | some k =>
      if ix_compare key k hdr.col_types_ hdr.col_lens_ = 0 then some (n, n.get_size)
      else
        match insert_pair n index key value with
        | none => none
        | some n2 => some (n2, n2.get_size)

/-- Embeds `erase_pair(pos)`. -/
def erase_pair (n : IxNode) (pos : Nat) : Option IxNode :=
  if pos < n.get_size then
    let resSize := n.get_size - pos - 1
    match writeSlots n.keys pos ((n.keys.drop (pos + 1)).take resSize),
          writeSlots n.rids pos ((n.rids.drop (pos + 1)).take resSize) with
    | some ks, some rs => some { n with keys := ks, rids := rs, num_key := n.num_key - 1 }
    | _, _ => none
  else none

/-- Embeds `IxNodeHandle::remove(key)`: the node afterwards and the returned size. -/
def remove (hdr : IxFileHdr) (n : IxNode) (key : List Nat) : Option (IxNode × Nat) :=
  match locateKeyIndex hdr n key with
  | none => none
  | some index =>
    if index ≠ -1 then
      match erase_pair n index.toNat with
      | none => none
      | some n2 => some (n2, n2.get_size)
    else some (n, n.get_size)

/-- The `for` loop of `find_child`, from slot `rid_idx`, over `cnt` slots. -/
def find_child_loop (n : IxNode) (child_page_no : Int) : Nat → Nat → Option Nat
  | 0, _ => none
  | cnt + 1, rid_idx =>
    match n.get_rid rid_idx with
    | none => none
    | some r => if r.page_no = child_page_no then some rid_idx
                else find_child_loop n child_page_no cnt (rid_idx + 1)

/-- Embeds `find_child(child)`: the slot of the child page; `none` when the
assertion `rid_idx < num_key` fails. -/
def find_child (n : IxNode) (child_page_no : Int) : Option Nat :=
  find_child_loop n child_page_no n.num_key 0

end IxNode

/-! ## The index handle (`IxIndexHandle`) -/

/-- State of one open index: the cached file header, the node pages of the
index file as seen through the buffer pool, and the pager's next page number
for the file. -/
structure IxIndexHandle where
  file_hdr_ : IxFileHdr
  pages : List (Int × IxNode)
  next_page_no : Int
deriving DecidableEq, Repr

/-- Index operations: state passing over the handle, `none` on a fault. -/
def IxM (α : Type) : Type := IxIndexHandle → Option (α × IxIndexHandle)

/-- Return a value, leaving the handle as it is. -/
def IxM.pure {α : Type} (a : α) : IxM α := fun h => some (a, h)

/-- Sequencing: a fault in the first step ends the operation. -/
@[noinline] def IxM.bind {α β : Type} (x : IxM α) (f : α → IxM β) : IxM β := fun h =>
  match x h with
  | none => none
  | some (a, h2) => f a h2

instance : Monad IxM where
  pure := IxM.pure
  bind := IxM.bind

/-- The faulting operation. -/
def IxM.fault {α : Type} : IxM α := fun _ => none

/-- The current handle. -/
def IxM.handle : IxM IxIndexHandle := fun h => some (h, h)

/-- Replace the contents of page `page_no` in a page store. -/
def storePage (page_no : Int) (n : IxNode) : List (Int × IxNode) → List (Int × IxNode)
  | [] => [(page_no, n)]
  | (p, m) :: rest => if p = page_no then (p, n) :: rest else (p, m) :: storePage page_no n rest

/-- A page whose memory was reset: every header field and every slot is 0. -/
def zeroPage (hdr : IxFileHdr) : IxNode :=
  { parent := 0, num_key := 0, is_leaf := false, prev_leaf := 0, next_leaf := 0,
    keys := List.replicate (hdr.btree_order_ + 1) (List.replicate hdr.col_tot_len_ 0),
    rids := List.replicate (hdr.btree_order_ + 1) ⟨0, 0⟩ }

namespace IxIndexHandle

/-- Lift a node-level result into the index monad. -/
def liftOpt {α : Type} (o : Option α) : IxM α := fun h => o.map (fun a => (a, h))

/-- The cached file header. -/
def hdr : IxM IxFileHdr := fun h => some (h.file_hdr_, h)

/-- Embeds `fetch_node(page_no)`: the node stored in the page. -/
def fetch_node (page_no : Int) : IxM IxNode := fun h => (h.pages.lookup page_no).map (fun n => (n, h))

/-- Write through a node handle: the page now holds `n`. -/
def put_node (page_no : Int) (n : IxNode) : IxM Unit :=
  fun h => some ((), { h with pages := storePage page_no n h.pages })

/-- Update of the cached file header. -/
def set_hdr (f : IxFileHdr → IxFileHdr) : IxM Unit :=
  fun h => some ((), { h with file_hdr_ := f h.file_hdr_ })

/-- Embeds `update_root_page_no(root)`. -/
def update_root_page_no (root : Int) : IxM Unit := set_hdr (fun f => { f with root_page_ := root })

/-- Embeds `release_node_handle(node)`. -/
def release_node_handle : IxM Unit := set_hdr (fun f => { f with num_pages_ := f.num_pages_ - 1 })

/-- Embeds `create_node()`: a fresh zeroed page with the next page number. -/
def create_node : IxM Int := fun h =>
  some (h.next_page_no,
    { file_hdr_ := { h.file_hdr_ with num_pages_ := h.file_hdr_.num_pages_ + 1 },
      pages := storePage h.next_page_no (zeroPage h.file_hdr_) h.pages,
      next_page_no := h.next_page_no + 1 })

/-- The descent loop of `find_leaf_page`, standing at page `page_no`. -/
def find_leaf_page_loop (key : List Nat) : Nat → Int → IxM Int
  | 0, _ => IxM.fault
  | fuel + 1, page_no => do
    let nodeHandle ← fetch_node page_no
    if nodeHandle.is_leaf then pure page_no
    else do
      let f ← hdr
      let nowNode ← liftOpt (nodeHandle.internal_lookup f key)
      find_leaf_page_loop key fuel nowNode

/-- Embeds `find_leaf_page(key, ..)`: the page number of the leaf reached from the root. -/
def find_leaf_page (key : List Nat) : IxM Int := do
  let h ← IxM.handle
  find_leaf_page_loop key (h.pages.length + 1) h.file_hdr_.root_page_

/-- Embeds `get_value(key, result, ..)`: the returned flag and the result vector. -/
def get_value (key : List Nat) (result : List Rid) : IxM (Bool × List Rid) := do
  let leaf ← find_leaf_page key
  let node ← fetch_node leaf
  let f ← hdr
  match ← liftOpt (node.leaf_lookup f key) with
  | some r => pure (true, result ++ [r])
  | none => pure (false, result)

/-- Embeds `maintain_child(node, child_idx)`. -/
def maintain_child (node_no : Int) (child_idx : Nat) : IxM Unit := do
  let node ← fetch_node node_no
  if !node.is_leaf then do
    let child_page_no ← liftOpt (node.value_at child_idx)
    let child ← fetch_node child_page_no
    put_node child_page_no { child with parent := node_no }
  else pure ()

/-- Embeds `maintain_child(node, i)` for `i = start, .., start + cnt - 1`. -/
def maintain_children (node_no : Int) : Nat → Nat → IxM Unit
  | 0, _ => pure ()
  | cnt + 1, start => do
    maintain_child node_no start
    maintain_children node_no cnt (start + 1)

/-- The copy loop of `evenlyDistributePairs`, from `i`, over `cnt` slots. -/
def copyPairs (newNode_no originNode_no : Int) (newKeyNum : Nat) : Nat → Nat → IxM Unit
  | 0, _ => pure ()
  | cnt + 1, i => do
    let originNode ← fetch_node originNode_no
    let k ← liftOpt (originNode.get_key (newKeyNum + i))
    let r ← liftOpt (originNode.get_rid (newKeyNum + i))
    let newNode ← fetch_node newNode_no
    let n1 ← liftOpt (newNode.set_key i k)
    let n2 ← liftOpt (n1.set_rid i r)
    put_node newNode_no n2
    copyPairs newNode_no originNode_no newKeyNum cnt (i + 1)

/-- Embeds `evenlyDistributePairs(newNode, originNode)`. -/
def evenlyDistributePairs (newNode_no originNode_no : Int) : IxM Unit := do
  let originNode ← fetch_node originNode_no
  let newKeyNum := originNode.get_size / 2
  let newNode ← fetch_node newNode_no
  put_node newNode_no { newNode with is_leaf := originNode.is_leaf,
                                     num_key := originNode.get_size - newKeyNum }
  let originNode ← fetch_node originNode_no
  put_node originNode_no { originNode with num_key := newKeyNum }
  let originNode ← fetch_node originNode_no
  let newNode ← fetch_node newNode_no
  put_node newNode_no { newNode with parent := originNode.parent }
  let newNode ← fetch_node newNode_no
  copyPairs newNode_no originNode_no newKeyNum newNode.get_size 0

/-- Embeds `insertLeaf(originNode, newNode, keep)`. -/
def insertLeaf (originNode_no newNode_no : Int) (keep : Bool) : IxM Unit := do
  let originNode ← fetch_node originNode_no
  let newNode ← fetch_node newNode_no
  put_node newNode_no { newNode with next_leaf := originNode.next_leaf }
  if keep then do
    let newNode ← fetch_node newNode_no
    put_node newNode_no { newNode with prev_leaf := originNode_no }
    let originNode ← fetch_node originNode_no
    put_node originNode_no { originNode with next_leaf := newNode_no }
  else pure ()
  let newNode ← fetch_node newNode_no
  if newNode.next_leaf ≠ INVALID_PAGE_ID then do
    let nextNode ← fetch_node newNode.next_leaf
    put_node newNode.next_leaf { nextNode with prev_leaf := newNode_no }
  else pure ()

/-- Embeds `updateLastLeaf(originNode, newNode)`. -/
def updateLastLeaf (originNode_no newNode_no : Int) : IxM Unit := do
  let f ← hdr
  if originNode_no = f.last_leaf_ then set_hdr (fun f => { f with last_leaf_ := newNode_no })
  else pure ()

/-- Embeds `split(node)`: the page number of the new right sibling. -/
def split (node_no : Int) : IxM Int := do
  let newNode_no ← create_node
  evenlyDistributePairs newNode_no node_no
  let newNode ← fetch_node newNode_no
  if newNode.is_leaf then insertLeaf node_no newNode_no true
  else maintain_children newNode_no newNode.get_size 0
  pure newNode_no

/-- Embeds `setNewRoot(root, left, right)`. -/
def setNewRoot (root_no left_no right_no : Int) : IxM Unit := do
  let root ← fetch_node root_no
  put_node root_no { root with is_leaf := false, num_key := 2, parent := INVALID_PAGE_ID }
  update_root_page_no root_no
  let left ← fetch_node left_no
  let lk ← liftOpt (left.get_key 0)
  let root ← fetch_node root_no
  let r1 ← liftOpt (root.set_key 0 lk)
  let r2 ← liftOpt (r1.set_rid 0 ⟨left_no, -1⟩)
  put_node root_no r2
  let right ← fetch_node right_no
  let rk ← liftOpt (right.get_key 0)
  let root ← fetch_node root_no
  let r3 ← liftOpt (root.set_key 1 rk)
  let r4 ← liftOpt (r3.set_rid 1 ⟨right_no, -1⟩)
  put_node root_no r4
  let root ← fetch_node root_no
  maintain_children root_no root.get_size 0

/-- Embeds `insert_into_parent(old_node, key, new_node, ..)`; the call back into
`splitNodeIfFull` is the argument `splitParent`. -/
def insert_into_parent (splitParent : Int → IxM Unit) (old_node_no : Int) (key : List Nat)
    (new_node_no : Int) : IxM Unit := do
  let old_node ← fetch_node old_node_no
  if old_node.is_root_page then do
    let newRoot_no ← create_node
    setNewRoot newRoot_no old_node_no new_node_no
  else do
    let parent ← fetch_node old_node.parent
    let f ← hdr
    let (parent2, _) ← liftOpt (parent.insert f key ⟨new_node_no, -1⟩)
    put_node old_node.parent parent2
    splitParent old_node.parent

/-- Embeds `splitNodeIfFull(node, ..)`; `fuel` bounds the number of levels climbed
through `insert_into_parent`. -/
def splitNodeIfFull : Nat → Int → IxM Unit
  | 0, _ => IxM.fault
  | fuel + 1, node_no => do
    let node ← fetch_node node_no
    let f ← hdr
    if node.is_full f then do
      let newNode_no ← split node_no
      let newNode ← fetch_node newNode_no
      let key ← liftOpt (newNode.get_key 0)
      insert_into_parent (splitNodeIfFull fuel) node_no key newNode_no
      let node ← fetch_node node_no
      if node.is_leaf then updateLastLeaf node_no newNode_no else pure ()
    else pure ()

/-- Embeds `insert_entry(key, value, ..)`: 1 when the pair was inserted, 0 otherwise. -/
def insert_entry (key : List Nat) (value : Rid) : IxM Int := do
  let leaf_no ← find_leaf_page key
  let leaf ← fetch_node leaf_no
  let f ← hdr
  let originSize := leaf.get_size
  let (leaf2, nowSize) ← liftOpt (leaf.insert f key value)
  put_node leaf_no leaf2
  if nowSize > originSize then do
    let h ← IxM.handle
    splitNodeIfFull (h.pages.length + 1) leaf_no
    pure 1
  else pure 0

/-- The loop of `maintain_parent`, standing at `curr`. -/
def maintain_parent_loop : Nat → Int → IxM Unit
  | 0, _ => IxM.fault
  | fuel + 1, curr_no => do
    let curr ← fetch_node curr_no
    if curr.parent ≠ IX_NO_PAGE then do
      let parent ← fetch_node curr.parent
      let rank ← liftOpt (parent.find_child curr_no)
      let parent_key ← liftOpt (parent.get_key rank)
      let child_first_key ← liftOpt (curr.get_key 0)
      let f ← hdr
      if memcmp parent_key child_first_key f.col_tot_len_ = 0 then pure ()
      else do
        let parent2 ← liftOpt (parent.set_key rank child_first_key)
        put_node curr.parent parent2
        maintain_parent_loop fuel curr.parent
    else pure ()

/-- Embeds `maintain_parent(node)`. -/
def maintain_parent (node_no : Int) : IxM Unit := do
  let h ← IxM.handle
  maintain_parent_loop (h.pages.length + 1) node_no

/-- Embeds `getNeighbor(index, parent)`: the page number of the sibling. -/
def getNeighbor (index : Nat) (parent : IxNode) : IxM Int :=
  if index ≠ 0 then liftOpt (parent.value_at (index - 1))
  else liftOpt (parent.value_at (index + 1))

/-- Embeds `adjust_root(old_root_node)`. -/
def adjust_root (old_root_no : Int) : IxM Bool := do
  let old_root_node ← fetch_node old_root_no
  if !old_root_node.is_leaf && old_root_node.get_size == 1 then do
    let child_no ← liftOpt (old_root_node.value_at 0)
    let child ← fetch_node child_no
    put_node child_no { child with parent := INVALID_PAGE_ID }
    update_root_page_no child_no
    release_node_handle
    pure true
  else if old_root_node.is_leaf && old_root_node.get_size == 0 then do
    update_root_page_no INVALID_PAGE_ID
    let _ ← fetch_node old_root_no
    release_node_handle
    pure true
  else pure false

/-- Embeds `redistribute(neighbor_node, node, parent, index)`. -/
def redistribute (neighbor_no node_no parent_no : Int) (index : Nat) : IxM Unit := do
  if index ≠ 0 then do
    let neighbor_node ← fetch_node neighbor_no
    if neighbor_node.get_size = 0 then IxM.fault else pure ()
    let rmIndex := neighbor_node.get_size - 1
    let k ← liftOpt (neighbor_node.get_key rmIndex)
    let r ← liftOpt (neighbor_node.get_rid rmIndex)
    let node ← fetch_node node_no
    let node2 ← liftOpt (node.insert_pair 0 k r)
    put_node node_no node2
    let neighbor_node ← fetch_node neighbor_no
    let neighbor2 ← liftOpt (neighbor_node.erase_pair rmIndex)
    put_node neighbor_no neighbor2
    let node ← fetch_node node_no
    let k0 ← liftOpt (node.get_key 0)
    let parent ← fetch_node parent_no
    let parent2 ← liftOpt (parent.set_key index k0)
    put_node parent_no parent2
    maintain_child node_no 0
  else do
    let neighbor_node ← fetch_node neighbor_no
    let k ← liftOpt (neighbor_node.get_key 0)
    let r ← liftOpt (neighbor_node.get_rid 0)
    let node ← fetch_node node_no
    let node2 ← liftOpt (node.insert_pair node.get_size k r)
    put_node node_no node2
    let neighbor_node ← fetch_node neighbor_no
    let neighbor2 ← liftOpt (neighbor_node.erase_pair 0)
    put_node neighbor_no neighbor2
    let neighbor_node ← fetch_node neighbor_no
    let k0 ← liftOpt (neighbor_node.get_key 0)
    let parent ← fetch_node parent_no
    let parent2 ← liftOpt (parent.set_key 1 k0)
    put_node parent_no parent2
    let node ← fetch_node node_no
    if node.get_size = 0 then IxM.fault else pure ()
    maintain_child node_no (node.get_size - 1)

/-- The move loop of `coalesce`: pair `i` of `node` goes to slot
`neighborSize + i` of `neighbor_node`, for `cnt` pairs from `i`. -/
def coalesceMove (neighbor_no node_no : Int) (neighborSize : Nat) : Nat → Nat → IxM Unit
  | 0, _ => pure ()
  | cnt + 1, i => do
    let node ← fetch_node node_no
    let k ← liftOpt (node.get_key i)
    let r ← liftOpt (node.get_rid i)
    let neighbor_node ← fetch_node neighbor_no
    let neighbor2 ← liftOpt (neighbor_node.insert_pair (neighborSize + i) k r)
    put_node neighbor_no neighbor2
    maintain_child neighbor_no (neighborSize + i)
    coalesceMove neighbor_no node_no neighborSize cnt (i + 1)

/-- Embeds `coalesce(&neighbor_node, &node, &parent, index, ..)`; the call back into
`coalesce_or_redistribute` is the argument `recurse`. -/
def coalesce (recurse : Int → IxM Bool) (neighbor_no node_no parent_no : Int) (index : Nat) :
    IxM Bool := do
  let (neighbor_no, node_no, index) :=
    if index = 0 then (node_no, neighbor_no, 1) else (neighbor_no, node_no, index)
  let neighbor_node ← fetch_node neighbor_no
  let node ← fetch_node node_no
  let neighborSize := neighbor_node.get_size
  let nodeSize := node.get_size
  coalesceMove neighbor_no node_no neighborSize nodeSize 0
  let node ← fetch_node node_no
  if node.is_leaf then do
    updateLastLeaf node_no neighbor_no
    insertLeaf node_no neighbor_no false
  else pure ()
  release_node_handle
  let parent ← fetch_node parent_no
  let parent2 ← liftOpt (parent.erase_pair index)
  put_node parent_no parent2
  let neighbor_node ← fetch_node neighbor_no
  let k0 ← liftOpt (neighbor_node.get_key 0)
  let parent ← fetch_node parent_no
  let parent3 ← liftOpt (parent.set_key (index - 1) k0)
  let parent4 ← liftOpt (parent3.set_rid (index - 1) ⟨neighbor_no, -1⟩)
  put_node parent_no parent4
  maintain_child parent_no (index - 1)
  recurse parent_no

/-- Embeds `coalesce_or_redistribute(node, ..)`; `fuel` bounds the number of levels
climbed through `coalesce`. -/
def coalesce_or_redistribute : Nat → Int → IxM Bool
  | 0, _ => IxM.fault
  | fuel + 1, node_no => do
    let node ← fetch_node node_no
    if node.is_root_page then adjust_root node_no
    else do
      let parent_no := node.parent
      let parent ← fetch_node parent_no
      let index ← liftOpt (parent.find_child node_no)
      let neighbor_no ← getNeighbor index parent
      let neighbor ← fetch_node neighbor_no
      let f ← hdr
      if node.get_size + neighbor.get_size ≥ IxNode.get_min_size f * 2 then do
        redistribute neighbor_no node_no parent_no index
        maintain_parent node_no
        maintain_parent neighbor_no
        pure true
      else coalesce (coalesce_or_redistribute fuel) neighbor_no node_no parent_no index

/-- Embeds `delete_entry(key, ..)`; the page queued on the transaction by
`append_index_deleted_page` is not part of the index state and is left out. -/
def delete_entry (key : List Nat) : IxM Bool := do
  let leaf_no ← find_leaf_page key
  let leaf ← fetch_node leaf_no
  let f ← hdr
  let originSize := leaf.get_size
  let (leaf2, nowSize) ← liftOpt (leaf.remove f key)
  put_node leaf_no leaf2
  if originSize > nowSize then do
    let h ← IxM.handle
    let _ ← coalesce_or_redistribute (h.pages.length + 1) leaf_no
    pure true
  else pure false

/-- Embeds `leaf_end()`. -/
def leaf_end : IxM Iid := do
  let f ← hdr
  let node ← fetch_node f.last_leaf_
  pure ⟨f.last_leaf_, node.get_size⟩

/-- Embeds `leaf_begin()`. -/
def leaf_begin : IxM Iid := do
  let f ← hdr
  pure ⟨f.first_leaf_, 0⟩

/-- Embeds `IxIndexHandle::lower_bound(key)`. -/
def lower_bound (key : List Nat) : IxM Iid := do
  let node_no ← find_leaf_page key
  let node ← fetch_node node_no
  let f ← hdr
  let key_idx ← liftOpt (node.lower_bound f key)
  if key_idx = node.get_size then leaf_end
  else pure ⟨node_no, key_idx⟩

/-- Embeds `IxIndexHandle::upper_bound(key)`. -/
def upper_bound (key : List Nat) : IxM Iid := do
  let node_no ← find_leaf_page key
  let node ← fetch_node node_no
  let f ← hdr
  let key_idx ← liftOpt (node.upper_bound f key)
  if key_idx = node.get_size then leaf_end
  else pure ⟨node_no, key_idx⟩

end IxIndexHandle

/-! ## Runs of index operations -/

/-- The key bytes of a one-column `int` key (little endian). -/
def intKey (n : Nat) : List Nat := [n % 256, n / 256 % 256, n / 65536 % 256, n / 16777216 % 256]

/-- Modelled from the spec: `IxManager::create_index` is not among the sources.
The fresh index follows the page layout named at `IxIndexHandle::file_hdr_`
(page 0 the file header, page 1 the leaf header page, page 2 the root) and at
`create_node` (the first page handed out is page 3): the root is an empty leaf
with zeroed slots, first and last leaf are the root, and the leaf header page
closes the leaf chain on both sides. -/
def emptyIndex (col_types : List ColType) (col_lens : List Nat) (order : Nat) : IxIndexHandle :=
  let f : IxFileHdr :=
    { num_pages_ := 3, root_page_ := 2, col_types_ := col_types, col_lens_ := col_lens,
      col_tot_len_ := col_lens.sum, btree_order_ := order, first_leaf_ := 2, last_leaf_ := 2 }
  { file_hdr_ := f,
    pages := [(1, { zeroPage f with parent := IX_NO_PAGE, is_leaf := true, prev_leaf := 2, next_leaf := 2 }),
              (2, { zeroPage f with parent := IX_NO_PAGE, is_leaf := true, prev_leaf := 1, next_leaf := 1 })],
    next_page_no := 3 }

/-- A call of one of the two mutating entry points. -/
inductive IxOp where
  | insert (key : List Nat) (value : Rid)
  | delete (key : List Nat)
deriving DecidableEq, Repr

/-- Run one call, dropping its return value. -/
def IxOp.exec : IxOp → IxM Unit
  | .insert key value => do let _ ← IxIndexHandle.insert_entry key value
  | .delete key => do let _ ← IxIndexHandle.delete_entry key

/-- Run a sequence of calls from a given state. -/
def runOps : List IxOp → IxIndexHandle → Option IxIndexHandle
  | [], h => some h
  | op :: ops, h =>
    match op.exec h with
    | none => none
    | some (_, h2) => runOps ops h2

/-- Keys met walking the leaf chain forward: the keys `0..num_key-1` of the leaf
at `page_no`, then on through `next_leaf` until the leaf `last` has been visited. -/
def chainKeys (h : IxIndexHandle) (last : Int) : Nat → Int → Option (List (List Nat))
  | 0, _ => none
  | fuel + 1, page_no =>
    match h.pages.lookup page_no with
    | none => none
    | some n =>
      if page_no = last then some (n.keys.take n.num_key)
      else (chainKeys h last fuel n.next_leaf).map (fun rest => n.keys.take n.num_key ++ rest)

/-- The key sequence of the whole leaf chain, from `first_leaf_` to `last_leaf_`. -/
def leafChainKeys (h : IxIndexHandle) : Option (List (List Nat)) :=
  chainKeys h h.file_hdr_.last_leaf_ (h.pages.length + 1) h.file_hdr_.first_leaf_

/-! ## Structural properties of an index state -/

/-- Page numbers of the subtree below `page_no`, parents before children, found
by following the child pointers of the slots in use. -/
def subtreePages (h : IxIndexHandle) : Nat → Int → List Int
  | 0, _ => []
  | fuel + 1, page_no =>
    match h.pages.lookup page_no with
    | none => []
    | some n =>
      if n.is_leaf then [page_no]
      else page_no :: (n.rids.take n.num_key).flatMap (fun r => subtreePages h fuel r.page_no)

/-- Page numbers of all nodes of the tree, the root first. -/
def treePages (h : IxIndexHandle) : List Int :=
  subtreePages h (h.pages.length + 1) h.file_hdr_.root_page_

/-- Whether every non-root node of the tree holds between `⌈order/2⌉` and
`order` keys. -/
def sizeInvariant (h : IxIndexHandle) : Bool :=
  (treePages h).all (fun page_no =>
    page_no == h.file_hdr_.root_page_ ||
    match h.pages.lookup page_no with
    | none => false
    | some n => decide ((h.file_hdr_.btree_order_ + 1) / 2 ≤ n.num_key) &&
                decide (n.num_key ≤ h.file_hdr_.btree_order_))

/-- Whether key `i` of the internal node `n` equals the first key of its child `i`. -/
def separatorOk (h : IxIndexHandle) (n : IxNode) (i : Nat) : Bool :=
  match n.get_key i, n.value_at i with
  | some k, some child_no =>
    match h.pages.lookup child_no with
    | some child =>
      match child.get_key 0 with
      | some k0 => decide (memcmp k k0 h.file_hdr_.col_tot_len_ = 0)
      | none => false
    | none => false
  | _, _ => false

/-- Whether in every internal node of the tree each key in use equals the
first key of the child next to it. -/
def separatorInvariant (h : IxIndexHandle) : Bool :=
  (treePages h).all (fun page_no =>
    match h.pages.lookup page_no with
    | none => false
    | some n => n.is_leaf || (List.range n.num_key).all (fun i => separatorOk h n i))

/-- Whether a key sequence is non-decreasing under `ix_compare`. -/
def keysNonDecreasing (f : IxFileHdr) : List (List Nat) → Bool
  | a :: b :: rest =>
    decide (ix_compare a b f.col_types_ f.col_lens_ ≤ 0) && keysNonDecreasing f (b :: rest)
  | _ => true

/-- Whether the leaf chain can be walked from `first_leaf_` to `last_leaf_` and
its key sequence is non-decreasing. -/
def chainSorted (h : IxIndexHandle) : Bool :=
  match leafChainKeys h with
  | none => false
  | some ks => keysNonDecreasing h.file_hdr_ ks

/-- Key comparison under the column layout of a file header. -/
def keyCmp (f : IxFileHdr) (a b : List Nat) : Int := ix_compare a b f.col_types_ f.col_lens_

/-- The slots in use lie inside both slot arrays and the keys in use are
strictly increasing. -/
def NodeSorted (f : IxFileHdr) (n : IxNode) : Prop :=
  n.num_key ≤ n.keys.length ∧ n.num_key ≤ n.rids.length ∧
  ∀ i j a b, i < j → j < n.num_key → n.keys[i]? = some a → n.keys[j]? = some b → keyCmp f a b < 0

/-- The key `x` lies in the half-open range from `lo` to `hi`; a bound that is
`none` is absent. -/
def InBounds (f : IxFileHdr) (lo hi : Option (List Nat)) (x : List Nat) : Prop :=
  (∀ l, lo = some l → keyCmp f l x ≤ 0) ∧ (∀ u, hi = some u → keyCmp f x u < 0)

/-- The node holds, among its keys in use, one that compares equal to `k`. -/
def InNode (f : IxFileHdr) (n : IxNode) (k : List Nat) : Prop :=
  ∃ i x, i < n.num_key ∧ n.keys[i]? = some x ∧ keyCmp f k x = 0

/-- The subtree of height `d` below `page_no` is a search tree for the range
from `lo` to `hi`: every node is sorted, every leaf key lies in the range, and
child `i` of an internal node covers the range from key `i` (from `lo` for
child 0) to key `i + 1` (to `hi` for the last child). -/
def WFSub (h : IxIndexHandle) : Nat → Int → Option (List Nat) → Option (List Nat) → Prop
  | 0, page_no, lo, hi =>
    ∃ n, h.pages.lookup page_no = some n ∧ n.is_leaf = true ∧ NodeSorted h.file_hdr_ n ∧
      ∀ i x, i < n.num_key → n.keys[i]? = some x → InBounds h.file_hdr_ lo hi x
  | d + 1, page_no, lo, hi =>
    ∃ n, h.pages.lookup page_no = some n ∧ n.is_leaf = false ∧ 0 < n.num_key ∧
      NodeSorted h.file_hdr_ n ∧
      (∀ i x, 0 < i → i < n.num_key → n.keys[i]? = some x → InBounds h.file_hdr_ lo hi x) ∧
      ∀ i r, i < n.num_key → n.rids[i]? = some r →
        WFSub h d r.page_no (if i = 0 then lo else n.keys[i]?)
          (if i + 1 < n.num_key then n.keys[i + 1]? else hi)

/-- A well-formed, non-empty index: the root page exists and is the root of a
search tree whose height does not exceed the number of pages, and the last
leaf named in the file header exists. -/
def WellFormed (h : IxIndexHandle) : Prop :=
  (∃ d, d ≤ h.pages.length ∧ WFSub h d h.file_hdr_.root_page_ none none) ∧
  ∃ n, h.pages.lookup h.file_hdr_.last_leaf_ = some n

/-- Some leaf reached from `page_no` through the child pointers in use holds a
key that compares equal to `k`. -/
def StoredSub (h : IxIndexHandle) (k : List Nat) : Nat → Int → Prop
  | 0, _ => False
  | fuel + 1, page_no =>
    ∃ n, h.pages.lookup page_no = some n ∧
      ((n.is_leaf = true ∧ InNode h.file_hdr_ n k) ∨
       (n.is_leaf = false ∧ ∃ i r, i < n.num_key ∧ n.rids[i]? = some r ∧ StoredSub h k fuel r.page_no))

/-- The key `k` is stored in the index: a leaf of the tree holds it. -/
def Stored (h : IxIndexHandle) (k : List Nat) : Prop :=
  ∃ fuel, StoredSub h k fuel h.file_hdr_.root_page_

/-- The index of one `int` column and order 4 used in the concrete runs. -/
def intIndex : IxIndexHandle := emptyIndex [ColType.TYPE_INT] [4] 4

/-- Insert the `int` key `n` with the rid `(n, 0)`. -/
def ins (n : Nat) : IxOp := IxOp.insert (intKey n) ⟨n, 0⟩

/-- Delete the `int` key `n`. -/
def del (n : Nat) : IxOp := IxOp.delete (intKey n)

/-- The branch taken by `halfFind` at a key `x`: continue to the right of it. -/
def goesRight (f : IxFileHdr) (target : List Nat) (op : operators) (x : List Nat) : Prop :=
  0 ≤ keyCmp f target x ∧ ¬(op = operators.LOWER ∧ keyCmp f target x = 0)

/-! ## A checker for well-formedness -/

/-- Decision of `InBounds`. -/
def inBoundsB (f : IxFileHdr) (lo hi : Option (List Nat)) (x : List Nat) : Bool :=
  (match lo with
   | none => true
   | some l => decide (keyCmp f l x ≤ 0)) &&
  (match hi with
   | none => true
   | some u => decide (keyCmp f x u < 0))

/-- Decision of `NodeSorted`. -/
def nodeSortedB (f : IxFileHdr) (n : IxNode) : Bool :=
  decide (n.num_key ≤ n.keys.length) && decide (n.num_key ≤ n.rids.length) &&
  decide (List.Pairwise (fun a b => keyCmp f a b < 0) (n.keys.take n.num_key))

/-- A check that implies `WFSub`. -/
def wfSubB (h : IxIndexHandle) : Nat → Int → Option (List Nat) → Option (List Nat) → Bool
  | 0, page_no, lo, hi =>
    match h.pages.lookup page_no with
    | none => false
    | some n =>
      n.is_leaf && nodeSortedB h.file_hdr_ n &&
      (n.keys.take n.num_key).all (inBoundsB h.file_hdr_ lo hi)
  | d + 1, page_no, lo, hi =>
    match h.pages.lookup page_no with
    | none => false
    | some n =>
      !n.is_leaf && decide (0 < n.num_key) && nodeSortedB h.file_hdr_ n &&
      ((n.keys.take n.num_key).drop 1).all (inBoundsB h.file_hdr_ lo hi) &&
      (List.range n.num_key).all (fun i =>
        match n.rids[i]? with
        | none => false
        | some r => wfSubB h d r.page_no (if i = 0 then lo else n.keys[i]?)
            (if i + 1 < n.num_key then n.keys[i + 1]? else hi))

/-- The index reached by inserting 10, 20, 30, 40, 50 into `intIndex`: the root
(page 4) over the leaves `[10, 20]` (page 2) and `[30, 40, 50]` (page 3). -/
def twoLeafIndex : IxIndexHandle :=
  { file_hdr_ := { num_pages_ := 5, root_page_ := 4, col_types_ := [ColType.TYPE_INT],
                   col_lens_ := [4], col_tot_len_ := 4, btree_order_ := 4, first_leaf_ := 2,
                   last_leaf_ := 3 },
    pages :=
      [(1, { parent := -1, num_key := 0, is_leaf := true, prev_leaf := 3, next_leaf := 2,
             keys := List.replicate 5 (intKey 0), rids := List.replicate 5 ⟨0, 0⟩ }),
       (2, { parent := 4, num_key := 2, is_leaf := true, prev_leaf := 1, next_leaf := 3,
             keys := [intKey 10, intKey 20, intKey 30, intKey 40, intKey 50],
             rids := [⟨10, 0⟩, ⟨20, 0⟩, ⟨30, 0⟩, ⟨40, 0⟩, ⟨50, 0⟩] }),
       (3, { parent := 4, num_key := 3, is_leaf := true, prev_leaf := 2, next_leaf := 1,
             keys := [intKey 30, intKey 40, intKey 50, intKey 0, intKey 0],
             rids := [⟨30, 0⟩, ⟨40, 0⟩, ⟨50, 0⟩, ⟨0, 0⟩, ⟨0, 0⟩] }),
       (4, { parent := -1, num_key := 2, is_leaf := false, prev_leaf := 0, next_leaf := 0,
             keys := [intKey 10, intKey 30, intKey 0, intKey 0, intKey 0],
             rids := [⟨2, -1⟩, ⟨3, -1⟩, ⟨0, 0⟩, ⟨0, 0⟩, ⟨0, 0⟩] })],
    next_page_no := 5 }

/-! ## Table lock manager (`lock_manager.h`, `lock_manager.cpp`) -/

/-- Embeds `LockManager::LockMode`. -/
inductive LockMode where
  | SHARED
  | EXLUCSIVE
  | INTENTION_SHARED
  | INTENTION_EXCLUSIVE
  | S_IX
deriving DecidableEq, Repr

/-- Embeds `LockManager::GroupLockMode`. -/
inductive GroupLockMode where
  | NON_LOCK
  | IS
  | IX
  | S
  | X
  | SIX
deriving DecidableEq, Repr

/-- Embeds `LockManager::LockRequest`. -/
structure LockRequest where
  txn_id_ : Int
  lock_mode_ : LockMode
  granted_ : Bool
deriving DecidableEq, Repr

/-- Embeds `LockManager::LockRequestQueue` (the condition variable is not used under
no-wait and is left out). -/
structure LockRequestQueue where
  request_queue_ : List LockRequest
  group_lock_mode_ : GroupLockMode
  shared_lock_num_ : Int
  IX_lock_num_ : Int
deriving DecidableEq, Repr

/-- A default-constructed queue. -/
def LockRequestQueue.empty : LockRequestQueue :=
  { request_queue_ := [], group_lock_mode_ := .NON_LOCK, shared_lock_num_ := 0, IX_lock_num_ := 0 }

/-- Modelled from the spec: the granularity of a `LockDataId` (`txn_defs.h` is not
among the sources). -/
inductive LockDataType where
  | TABLE
  | RECORD
deriving DecidableEq, Repr

/-- Modelled from the spec: `LockDataId`, the table's file descriptor, the record
for a row lock, and the granularity. -/
structure LockDataId where
  fd_ : Int
  rid_ : Rid
  type_ : LockDataType
deriving DecidableEq, Repr

/-- Embeds `LockDataId(fd, LockDataType::TABLE)`. -/
def LockDataId.table (tab_fd : Int) : LockDataId := { fd_ := tab_fd, rid_ := ⟨-1, -1⟩, type_ := .TABLE }

/-- Modelled from the spec: the states of a transaction handle. -/
inductive TransactionState where
  | DEFAULT
  | GROWING
  | SHRINKING
  | COMMITTED
  | ABORTED
deriving DecidableEq, Repr

/-- Modelled from the spec: the two abort reasons thrown by the lock manager,
under the names the code uses. -/
inductive AbortReason where
  | LOCK_ON_SHIRINKING
  | DEADLOCK_PREVENTION
deriving DecidableEq, Repr

/-- Modelled from the spec: the part of the transaction handle that the lock
manager touches, identifier, state and lock set (`transaction.h` is not among
the sources). -/
structure Transaction where
  txn_id_ : Int
  state_ : TransactionState
  lock_set_ : List LockDataId
deriving DecidableEq, Repr

/-- How a lock-manager call ends: a returned `bool`, or a thrown
`TransactionAbortException(txn_id, reason)`. -/
inductive LockOutcome where
  | returned (b : Bool)
  | thrown (txn_id : Int) (reason : AbortReason)
deriving DecidableEq, Repr

/-- Embeds `LockManager`: the global lock table. -/
structure LockManager where
  lock_table_ : List (LockDataId × LockRequestQueue)
deriving DecidableEq, Repr

namespace LockManager

/-- Embeds `lock_table_[lockId]` as a read: the queue stored there, a default one when absent. -/
def queueAt (lm : LockManager) (lockId : LockDataId) : LockRequestQueue :=
  (lm.lock_table_.lookup lockId).getD LockRequestQueue.empty

/-- Store a queue in a lock table under `lockId`. -/
def storeQueue (lockId : LockDataId) (q : LockRequestQueue) :
    List (LockDataId × LockRequestQueue) → List (LockDataId × LockRequestQueue)
  | [] => [(lockId, q)]
  | (i, p) :: rest => if i = lockId then (i, q) :: rest else (i, p) :: storeQueue lockId q rest

/-- Embeds `lock_table_[lockId] = q`. -/
def setQueue (lm : LockManager) (lockId : LockDataId) (q : LockRequestQueue) : LockManager :=
  { lock_table_ := storeQueue lockId q lm.lock_table_ }

/-- Embeds `checkAndSetState(txn, stage)`: the transaction afterwards and the reason
thrown, if any. -/
def checkAndSetState (txn : Transaction) (stage : Bool) : Transaction × Option AbortReason :=
  if !stage then
    match txn.state_ with
    | .DEFAULT => ({ txn with state_ := .GROWING }, none)
    | .GROWING => (txn, none)
    | _ => (txn, some .LOCK_ON_SHIRINKING)
  else
    match txn.state_ with
    | .GROWING => ({ txn with state_ := .SHRINKING }, none)
    | .DEFAULT => (txn, none)
    | .SHRINKING => (txn, none)
    | _ => (txn, some .LOCK_ON_SHIRINKING)

/-- Embeds `addLockIfNoPrev(lockId)`. -/
def addLockIfNoPrev (lm : LockManager) (lockId : LockDataId) : LockManager :=
  match lm.lock_table_.lookup lockId with
  | none => setQueue lm lockId LockRequestQueue.empty
  | some _ => lm

/-- Embeds `noWait(lock_request_queue, id, type)`: the reason thrown, if any. -/
def noWait (lock_request_queue : LockRequestQueue) (type : Int) : Option AbortReason :=
  if type = 1 then
    if lock_request_queue.group_lock_mode_ = .IX ∨ lock_request_queue.group_lock_mode_ = .X ∨
        lock_request_queue.group_lock_mode_ = .SIX then some .DEADLOCK_PREVENTION
    else none
  else if type = 2 then
    if lock_request_queue.group_lock_mode_ ≠ .NON_LOCK then some .DEADLOCK_PREVENTION else none
  else if type = 3 then
    if lock_request_queue.group_lock_mode_ = .S ∨ lock_request_queue.group_lock_mode_ = .X ∨
        lock_request_queue.group_lock_mode_ = .SIX then some .DEADLOCK_PREVENTION
    else none
  else none

/-- Embeds `addLock(lock_request_queue, txn, lockId, type)`. -/
def addLock (lock_request_queue : LockRequestQueue) (txn : Transaction) (lockId : LockDataId)
    (type : Int) : LockRequestQueue × Transaction :=
  let txnId := txn.txn_id_
  let (mode, q) : LockMode × LockRequestQueue :=
    if type = 1 then
      (.SHARED, { lock_request_queue with
                    shared_lock_num_ := lock_request_queue.shared_lock_num_ + 1,
                    group_lock_mode_ := GroupLockMode.S })
    else if type = 2 then
      (.EXLUCSIVE, { lock_request_queue with group_lock_mode_ := .X })
    else if type = 3 then
      (.INTENTION_EXCLUSIVE, { lock_request_queue with
                    IX_lock_num_ := lock_request_queue.IX_lock_num_ + 1,
                    group_lock_mode_ := GroupLockMode.IX })
    else (.SHARED, lock_request_queue)
  let lock_request : LockRequest := { txn_id_ := txnId, lock_mode_ := mode, granted_ := true }
  ({ q with request_queue_ := q.request_queue_ ++ [lock_request] },
   { txn with lock_set_ := if lockId ∈ txn.lock_set_ then txn.lock_set_ else txn.lock_set_ ++ [lockId] })

/-- Embeds `lockGreaterThan(lock, type)`. -/
def lockGreaterThan (lock : LockMode) (type : Int) : Bool :=
  if type = 1 then
    if lock = .SHARED ∨ lock = .EXLUCSIVE ∨ lock = .S_IX then true else false
  else if type = 2 then
    if lock = .EXLUCSIVE then true else false
  else if type = 3 then
    if lock = .EXLUCSIVE ∨ lock = .S_IX ∨ lock = .INTENTION_EXCLUSIVE then true else false
  else false

/-- Embeds `upgradeLockMode(lock_request_queue, lock_request, type)`: the queue with
the request's counters and group mode updated, the request itself afterwards,
and the returned flag. -/
def upgradeLockMode (lock_request_queue : LockRequestQueue) (lock_request : LockRequest) (type : Int) :
    LockRequestQueue × LockRequest × Bool :=
  let lock := lock_request.lock_mode_
  if type = 1 then
    if lock = .INTENTION_SHARED then
      ({ lock_request_queue with
           shared_lock_num_ := lock_request_queue.shared_lock_num_ + 1,
           group_lock_mode_ := GroupLockMode.S },
       { lock_request with lock_mode_ := .SHARED }, true)
    else if lock = .INTENTION_EXCLUSIVE then
      ({ lock_request_queue with
           shared_lock_num_ := lock_request_queue.shared_lock_num_ + 1,
           group_lock_mode_ := GroupLockMode.SIX },
       { lock_request with lock_mode_ := .S_IX }, true)
    else if lockGreaterThan lock 1 then (lock_request_queue, lock_request, true)
    else (lock_request_queue, lock_request, false)
  else if type = 2 then
    if lock_request_queue.request_queue_.length = 1 then
      ({ lock_request_queue with group_lock_mode_ := .X },
       { lock_request with lock_mode_ := .EXLUCSIVE }, true)
    else if lockGreaterThan lock 2 then (lock_request_queue, lock_request, true)
    else (lock_request_queue, lock_request, false)
  else if type = 3 then
    if lock = .INTENTION_SHARED then
      ({ lock_request_queue with
           IX_lock_num_ := lock_request_queue.IX_lock_num_ + 1,
           group_lock_mode_ := GroupLockMode.IX },
       { lock_request with lock_mode_ := .INTENTION_EXCLUSIVE }, true)
    else if lock = .SHARED ∧ lock_request_queue.shared_lock_num_ = 1 then
      ({ lock_request_queue with
           IX_lock_num_ := lock_request_queue.IX_lock_num_ + 1,
           group_lock_mode_ := GroupLockMode.SIX },
       { lock_request with lock_mode_ := .S_IX }, true)
    else if lockGreaterThan lock 2 then (lock_request_queue, lock_request, true)
    else (lock_request_queue, lock_request, false)
  else (lock_request_queue, lock_request, false)

/-- The `for (auto& iter : request_queue_)` loop of `addLockOnTable`: `seen` are
the requests already passed, `rest` those still to visit.  Gives the queue
afterwards and whether the loop returned `true`. -/
def upgradeLoop (txnId : Int) (type : Int) (q : LockRequestQueue) :
    List LockRequest → List LockRequest → LockRequestQueue × Bool
  | _, [] => (q, false)
  | seen, iter :: rest =>
    if iter.txn_id_ = txnId then
      match upgradeLockMode q iter type with
      | (q2, iter2, true) => ({ q2 with request_queue_ := seen ++ iter2 :: rest }, true)
      | (_, _, false) => upgradeLoop txnId type q (seen ++ [iter]) rest
    else upgradeLoop txnId type q (seen ++ [iter]) rest

/-- Embeds `addLockOnTable(txn, tab_fd, type)`. -/
def addLockOnTable (lm : LockManager) (txn : Transaction) (tab_fd : Int) (type : Int) :
    LockManager × Transaction × LockOutcome :=
  match checkAndSetState txn false with
  | (txn1, some reason) => (lm, txn1, .thrown txn1.txn_id_ reason)
  | (txn1, none) =>
    let lock_data_id := LockDataId.table tab_fd
    let lm1 := addLockIfNoPrev lm lock_data_id
    let lock_request_queue := queueAt lm1 lock_data_id
    let txnId := txn1.txn_id_
    match upgradeLoop txnId type lock_request_queue [] lock_request_queue.request_queue_ with
    | (q2, true) => (setQueue lm1 lock_data_id q2, txn1, .returned true)
    | (_, false) =>
      match noWait lock_request_queue type with
      | some reason => (lm1, txn1, .thrown txnId reason)
      | none =>
        let (q3, txn2) := addLock lock_request_queue txn1 lock_data_id type
        (setQueue lm1 lock_data_id q3, txn2, .returned true)

/-- Embeds `lock_shared_on_record`. -/
def lock_shared_on_record (lm : LockManager) (txn : Transaction) (_rid : Rid) (_tab_fd : Int) :
    LockManager × Transaction × LockOutcome := (lm, txn, .returned true)

/-- Embeds `lock_exclusive_on_record`. -/
def lock_exclusive_on_record (lm : LockManager) (txn : Transaction) (_rid : Rid) (_tab_fd : Int) :
    LockManager × Transaction × LockOutcome := (lm, txn, .returned true)

/-- Embeds `lock_shared_on_table`. -/
def lock_shared_on_table (lm : LockManager) (txn : Transaction) (tab_fd : Int) :
    LockManager × Transaction × LockOutcome := addLockOnTable lm txn tab_fd 1

/-- Embeds `lock_exclusive_on_table`. -/
def lock_exclusive_on_table (lm : LockManager) (txn : Transaction) (tab_fd : Int) :
    LockManager × Transaction × LockOutcome := addLockOnTable lm txn tab_fd 2

/-- Embeds `lock_IS_on_table`. -/
def lock_IS_on_table (lm : LockManager) (txn : Transaction) (_tab_fd : Int) :
    LockManager × Transaction × LockOutcome := (lm, txn, .returned true)

/-- Embeds `lock_IX_on_table`. -/
def lock_IX_on_table (lm : LockManager) (txn : Transaction) (tab_fd : Int) :
    LockManager × Transaction × LockOutcome := addLockOnTable lm txn tab_fd 3

/-- The first loop of `unlock`: erase the first request of transaction `txnId`,
adjusting the counters of the queue for its mode. -/
def eraseRequest (txnId : Int) (q : LockRequestQueue) :
    List LockRequest → List LockRequest → LockRequestQueue
  | _, [] => q
  | seen, it :: rest =>
    if it.txn_id_ = txnId then
      let q1 : LockRequestQueue :=
        match it.lock_mode_ with
        | .SHARED => { q with shared_lock_num_ := q.shared_lock_num_ - 1 }
        | .INTENTION_EXCLUSIVE => { q with IX_lock_num_ := q.IX_lock_num_ - 1 }
        | .S_IX => { q with shared_lock_num_ := q.shared_lock_num_ - 1,
                            IX_lock_num_ := q.IX_lock_num_ - 1 }
        | _ => q
      { q1 with request_queue_ := seen ++ rest }
    else eraseRequest txnId q (seen ++ [it]) rest

/-- The second loop of `unlock`: the `level` array after visiting the requests. -/
def levelsOf : List LockRequest → List Bool → List Bool
  | [], level => level
  | iter :: rest, level =>
    levelsOf rest
      (match iter.lock_mode_ with
       | .SHARED => level.set 2 true
       | .EXLUCSIVE => level.set 0 true
       | .INTENTION_SHARED => level.set 5 true
       | .INTENTION_EXCLUSIVE => level.set 4 true
       | .S_IX => level.set 1 true)

/-- The final `if` chain of `unlock` over the `level` array. -/
def groupModeOfLevels (level : List Bool) : GroupLockMode :=
  if level.getD 0 false then .X
  else if level.getD 1 false then .SIX
  else if level.getD 2 false then .S
  else if level.getD 3 false then .IX
  else if level.getD 4 false then .IS
  else .NON_LOCK

/-- Embeds `unlock(txn, lock_data_id)`. -/
def unlock (lm : LockManager) (txn : Transaction) (lock_data_id : LockDataId) :
    LockManager × Transaction × LockOutcome :=
  match checkAndSetState txn true with
  | (txn1, some reason) => (lm, txn1, .thrown txn1.txn_id_ reason)
  | (txn1, none) =>
    let lock_request_queue := queueAt lm lock_data_id
    let q1 := eraseRequest txn1.txn_id_ lock_request_queue [] lock_request_queue.request_queue_
    let level := levelsOf q1.request_queue_ [false, false, false, false, false, false]
    (setQueue lm lock_data_id { q1 with group_lock_mode_ := groupModeOfLevels level },
     txn1, .returned true)

end LockManager

/-- A call on the lock manager made on behalf of the transaction `txn_id`. -/
inductive LockCall where
  | lock_shared_on_table (txn_id : Int) (tab_fd : Int)
  | lock_exclusive_on_table (txn_id : Int) (tab_fd : Int)
  | lock_IS_on_table (txn_id : Int) (tab_fd : Int)
  | lock_IX_on_table (txn_id : Int) (tab_fd : Int)
  | unlock (txn_id : Int) (lock_data_id : LockDataId)
deriving DecidableEq, Repr

/-- The lock manager together with the transactions that have called it. -/
structure LockWorld where
  lm : LockManager
  txns : List Transaction
deriving DecidableEq, Repr

/-- The initial world: an empty lock table, no transaction yet. -/
def LockWorld.init : LockWorld := { lm := { lock_table_ := [] }, txns := [] }

/-- The transaction `txn_id` of a world; one that has made no call yet is in
state `DEFAULT` with an empty lock set. -/
def LockWorld.txn (w : LockWorld) (txn_id : Int) : Transaction :=
  (w.txns.find? (fun t => t.txn_id_ = txn_id)).getD
    { txn_id_ := txn_id, state_ := .DEFAULT, lock_set_ := [] }

/-- Put a transaction back into the list of a world. -/
def storeTxn (t : Transaction) : List Transaction → List Transaction
  | [] => [t]
  | u :: rest => if u.txn_id_ = t.txn_id_ then t :: rest else u :: storeTxn t rest

/-- The transaction a call is made for. -/
def LockCall.caller : LockCall → Int
  | .lock_shared_on_table t _ => t
  | .lock_exclusive_on_table t _ => t
  | .lock_IS_on_table t _ => t
  | .lock_IX_on_table t _ => t
  | .unlock t _ => t

/-- One call: the world afterwards and how the call ended.  A thrown exception
leaves the lock table and the transaction as they are at the `throw`. -/
def LockWorld.call (w : LockWorld) (c : LockCall) : LockWorld × LockOutcome :=
  let t := w.txn c.caller
  let r : LockManager × Transaction × LockOutcome :=
    match c with
    | .lock_shared_on_table _ fd => w.lm.lock_shared_on_table t fd
    | .lock_exclusive_on_table _ fd => w.lm.lock_exclusive_on_table t fd
    | .lock_IS_on_table _ fd => w.lm.lock_IS_on_table t fd
    | .lock_IX_on_table _ fd => w.lm.lock_IX_on_table t fd
    | .unlock _ id => w.lm.unlock t id
  ({ lm := r.1, txns := storeTxn r.2.1 w.txns }, r.2.2)

/-- The world after a sequence of calls. -/
def LockWorld.run : LockWorld → List LockCall → LockWorld
  | w, [] => w
  | w, c :: cs => (w.call c).1.run cs

/-- The compatibility matrix of the lock modes (held against requested). -/
def compatible : LockMode → LockMode → Bool
  | .INTENTION_SHARED, .EXLUCSIVE => false
  | .INTENTION_SHARED, _ => true
  | .INTENTION_EXCLUSIVE, .INTENTION_SHARED => true
  | .INTENTION_EXCLUSIVE, .INTENTION_EXCLUSIVE => true
  | .INTENTION_EXCLUSIVE, _ => false
  | .SHARED, .INTENTION_SHARED => true
  | .SHARED, .SHARED => true
  | .SHARED, _ => false
  | .S_IX, .INTENTION_SHARED => true
  | .S_IX, _ => false
  | .EXLUCSIVE, _ => false

/-- The group mode that names a request mode. -/
def groupOf : LockMode → GroupLockMode
  | .SHARED => .S
  | .EXLUCSIVE => .X
  | .INTENTION_SHARED => .IS
  | .INTENTION_EXCLUSIVE => .IX
  | .S_IX => .SIX

/-- Strength of a group mode in the order X > SIX > S > IX > IS > NON_LOCK. -/
def strength : GroupLockMode → Nat
  | .NON_LOCK => 0
  | .IS => 1
  | .IX => 2
  | .S => 3
  | .SIX => 4
  | .X => 5

/-- The strongest mode among the requests of a queue, `NON_LOCK` for none. -/
def strongest : List LockRequest → GroupLockMode
  | [] => .NON_LOCK
  | r :: rest =>
    if strength (groupOf r.lock_mode_) ≥ strength (strongest rest) then groupOf r.lock_mode_
    else strongest rest

/-- Whether every two requests of a queue that belong to different
transactions have compatible modes. -/
def pairwiseCompatible (q : List LockRequest) : Bool :=
  q.all (fun a => q.all (fun b => a.txn_id_ == b.txn_id_ || compatible a.lock_mode_ b.lock_mode_))


/-! ## Invariants of the lock table -/

/-- What every queue of a reachable lock table satisfies: the group mode is
`NON_LOCK` exactly when the queue is empty, and no request has mode IS. -/
def QueueInv (q : LockRequestQueue) : Prop :=
  (q.request_queue_ = [] ↔ q.group_lock_mode_ = GroupLockMode.NON_LOCK) ∧
  ∀ r, r ∈ q.request_queue_ → r.lock_mode_ ≠ LockMode.INTENTION_SHARED

/-- Every queue of the lock table satisfies `QueueInv`. -/
def TableInv (lm : LockManager) : Prop := ∀ lockId, QueueInv (lm.queueAt lockId)

/-! ## Buffer pool manager (`buffer_pool_manager.cpp`) -/

/-- Modelled from the spec: the page identifier `(file_id, page_no)` (`PageId` of
`page.h` is not among the sources), under the field names the code uses. -/
structure PageId where
  fd : Int
  page_no : Int
deriving DecidableEq, Repr

/-- Modelled from the spec: the page size, canonically 4096 bytes. -/
def PAGE_SIZE : Nat := 4096

/-- Modelled from the spec: a frame of the pool (`Page` of `page.h` is not among
the sources): the identity of the page it holds, the page bytes, the dirty
flag and the pin count, which is never negative. -/
structure Page where
  id_ : PageId
  data_ : List Nat
  is_dirty_ : Bool
  pin_count_ : Nat
deriving DecidableEq, Repr

/-- Embeds `Page::reset_memory()`: the page bytes become 0. -/
def Page.reset_memory (p : Page) : Page := { p with data_ := List.replicate PAGE_SIZE 0 }

/-- A frame that holds no page. -/
def Page.unused : Page :=
  { id_ := ⟨-1, INVALID_PAGE_ID⟩, data_ := List.replicate PAGE_SIZE 0, is_dirty_ := false,
    pin_count_ := 0 }

/-- Modelled from the spec: the replacer, a victim policy that is LRU over the
unpinned frames (`LRUReplacer` is not among the sources).  The list holds the
victim candidates, the most recently unpinned first. -/
structure LRUReplacer where
  LRUlist_ : List Nat
deriving DecidableEq, Repr

namespace LRUReplacer

/-- Modelled from the spec: `victim(&frame_id)` takes the least recently unpinned
candidate out of the replacer; there is none when no frame is a candidate. -/
def victim (r : LRUReplacer) : Option (Nat × LRUReplacer) :=
  match r.LRUlist_.getLast? with
  | none => none
  | some frame_id => some (frame_id, { LRUlist_ := r.LRUlist_.dropLast })

/-- Modelled from the spec: `pin(frame_id)`, the frame is no victim candidate
any more. -/
def pin (r : LRUReplacer) (frame_id : Nat) : LRUReplacer :=
  { LRUlist_ := r.LRUlist_.filter (fun f => f != frame_id) }

/-- Modelled from the spec: `unpin(frame_id)`, the frame becomes a victim
candidate, the most recently unpinned one, unless it already is one. -/
def unpin (r : LRUReplacer) (frame_id : Nat) : LRUReplacer :=
  if frame_id ∈ r.LRUlist_ then r else { LRUlist_ := frame_id :: r.LRUlist_ }

end LRUReplacer

/-- Modelled from the spec: the disk pager, read/write/allocate by `(file,
page_no)` (`DiskManager` is not among the sources): the bytes last written to
each page and the next page number of each file. -/
structure DiskManager where
  pages : List (PageId × List Nat)
  fd2pageno : List (Int × Int)
deriving DecidableEq, Repr

namespace DiskManager

/-- Modelled from the spec: `read_page(fd, page_no, ..)` gives the bytes last
written to the page, zero bytes for a page never written. -/
def read_page (d : DiskManager) (fd page_no : Int) : List Nat :=
  (d.pages.lookup ⟨fd, page_no⟩).getD (List.replicate PAGE_SIZE 0)

/-- Store the bytes of a page in the list of written pages. -/
def storeBytes (id : PageId) (bytes : List Nat) : List (PageId × List Nat) → List (PageId × List Nat)
  | [] => [(id, bytes)]
  | (i, b) :: rest => if i = id then (i, bytes) :: rest else (i, b) :: storeBytes id bytes rest

/-- Modelled from the spec: `write_page(fd, page_no, offset, num_bytes)` makes
the given bytes the contents of the page. -/
def write_page (d : DiskManager) (fd page_no : Int) (bytes : List Nat) : DiskManager :=
  { d with pages := storeBytes ⟨fd, page_no⟩ bytes d.pages }

/-- Store the next page number of a file. -/
def storeCounter (fd next : Int) : List (Int × Int) → List (Int × Int)
  | [] => [(fd, next)]
  | (i, n) :: rest => if i = fd then (i, next) :: rest else (i, n) :: storeCounter fd next rest

/-- Modelled from the spec: `allocate_page(fd)` hands out the next page number
of the file, a fresh one at every call. -/
def allocate_page (d : DiskManager) (fd : Int) : Int × DiskManager :=
  let n := (d.fd2pageno.lookup fd).getD 0
  (n, { d with fd2pageno := storeCounter fd (n + 1) d.fd2pageno })

end DiskManager

/-- Modelled from the spec: the state of the buffer pool manager
(`buffer_pool_manager.h` is not among the sources): the array of frames, the
page table, the free list, the replacer and the pager. -/
structure BufferPoolManager where
  pages_ : List Page
  page_table_ : List (PageId × Nat)
  free_list_ : List Nat
  replacer_ : LRUReplacer
  disk_manager_ : DiskManager
deriving DecidableEq, Repr

namespace BufferPoolManager

/-- The frame `pages_[frame_id]`. -/
def frame (bpm : BufferPoolManager) (frame_id : Nat) : Page := bpm.pages_.getD frame_id Page.unused

/-- Write through `&pages_[frame_id]`. -/
def setFrame (bpm : BufferPoolManager) (frame_id : Nat) (p : Page) : BufferPoolManager :=
  { bpm with pages_ := bpm.pages_.set frame_id p }

/-- Embeds `page_table_.erase(page_id)`. -/
def tableErase (t : List (PageId × Nat)) (page_id : PageId) : List (PageId × Nat) :=
  t.filter (fun e => e.1 != page_id)

/-- Embeds `page_table_[page_id] = frame_id`. -/
def tableStore (page_id : PageId) (frame_id : Nat) : List (PageId × Nat) → List (PageId × Nat)
  | [] => [(page_id, frame_id)]
  | (i, f) :: rest =>
    if i = page_id then (i, frame_id) :: rest else (i, f) :: tableStore page_id frame_id rest

/-- Embeds `page_table_.insert({page_id, frame_id})`: no effect when the key is present. -/
def tableInsert (t : List (PageId × Nat)) (page_id : PageId) (frame_id : Nat) :
    List (PageId × Nat) :=
  match t.lookup page_id with
  | some _ => t
  | none => t ++ [(page_id, frame_id)]

/-- Embeds `find_victim_page(frame_id)`: the frame found, if any. -/
def find_victim_page (bpm : BufferPoolManager) : BufferPoolManager × Option Nat :=
  if bpm.free_list_.isEmpty then
    match bpm.replacer_.victim with
    | some (frameId, r) =>
      ({ bpm with replacer_ := r,
                  page_table_ := tableErase bpm.page_table_ (bpm.frame frameId).id_ },
       some frameId)
    | none => (bpm, none)
  else
    ({ bpm with free_list_ := bpm.free_list_.tail }, bpm.free_list_.head?)

/-- Embeds `update_page(page, new_page_id, new_frame_id)` with `page` the frame
`pages_[frame_id]`. -/
def update_page (bpm : BufferPoolManager) (frame_id : Nat) (new_page_id : PageId)
    (new_frame_id : Nat) : BufferPoolManager :=
  let page := bpm.frame frame_id
  let bpm1 : BufferPoolManager :=
    if page.is_dirty_ then
      { (bpm.setFrame frame_id { page with is_dirty_ := false }) with
        disk_manager_ := bpm.disk_manager_.write_page page.id_.fd page.id_.page_no page.data_ }
    else bpm
  let bpm2 : BufferPoolManager :=
    match bpm1.page_table_.lookup new_page_id with
    | some _ => { bpm1 with page_table_ := tableStore new_page_id new_frame_id bpm1.page_table_ }
    | none => bpm1
  bpm2.setFrame frame_id { (bpm2.frame frame_id).reset_memory with id_ := new_page_id }

/-- Embeds `fetch_page(page_id)`: the frame of the returned page, `none` for `nullptr`. -/
def fetch_page (bpm : BufferPoolManager) (page_id : PageId) : BufferPoolManager × Option Nat :=
  match bpm.page_table_.lookup page_id with
  | some frame_id =>
    let bpm1 := { bpm with replacer_ := bpm.replacer_.pin frame_id }
    (bpm1.setFrame frame_id
      { (bpm1.frame frame_id) with pin_count_ := (bpm1.frame frame_id).pin_count_ + 1 },
     some frame_id)
  | none =>
    match bpm.find_victim_page with
    | (bpm1, some target) =>
      let bpm2 : BufferPoolManager :=
        if (bpm1.frame target).is_dirty_ then bpm1.update_page target page_id target
        else bpm1.setFrame target { (bpm1.frame target) with id_ := page_id }
      let page := bpm2.frame target
      let bpm3 := bpm2.setFrame target
        { page with data_ := bpm2.disk_manager_.read_page page.id_.fd page.id_.page_no }
      let bpm4 : BufferPoolManager :=
        { bpm3 with page_table_ := tableInsert bpm3.page_table_ page_id target,
                    replacer_ := bpm3.replacer_.pin target }
      (bpm4.setFrame target
        { (bpm4.frame target) with pin_count_ := (bpm4.frame target).pin_count_ + 1 },
       some target)
    | (bpm1, none) => (bpm1, none)

/-- Embeds `unpin_page(page_id, is_dirty)`. -/
def unpin_page (bpm : BufferPoolManager) (page_id : PageId) (is_dirty : Bool) :
    BufferPoolManager × Bool :=
  match bpm.page_table_.lookup page_id with
  | some frameId =>
    let page := bpm.frame frameId
    if page.pin_count_ = 0 then (bpm, false)
    else
      let page1 := { page with pin_count_ := page.pin_count_ - 1 }
      let bpm1 : BufferPoolManager :=
        if page1.pin_count_ = 0 then { bpm with replacer_ := bpm.replacer_.unpin frameId }
        else bpm
      (bpm1.setFrame frameId { page1 with is_dirty_ := is_dirty }, true)
  | none => (bpm, false)

/-- Embeds `flush_page(page_id)`. -/
def flush_page (bpm : BufferPoolManager) (page_id : PageId) : BufferPoolManager × Bool :=
  if page_id.page_no = INVALID_PAGE_ID then (bpm, false)
  else
    match bpm.page_table_.lookup page_id with
    | some frameId =>
      let page := bpm.frame frameId
      ({ bpm with disk_manager_ :=
          bpm.disk_manager_.write_page page.id_.fd page.id_.page_no page.data_ }, true)
    | none => (bpm, false)

/-- Embeds `new_page(page_id)`: the frame of the returned page, `none` for `nullptr`,
and the page identifier stored through `page_id`. -/
def new_page (bpm : BufferPoolManager) (page_id : PageId) :
    BufferPoolManager × Option Nat × PageId :=
  match bpm.find_victim_page with
  | (bpm1, some frameId) =>
    let page := bpm1.frame frameId
    let bpm2 : BufferPoolManager :=
      if page.is_dirty_ then
        { bpm1 with disk_manager_ :=
            bpm1.disk_manager_.write_page page.id_.fd page.id_.page_no page.data_ }
      else bpm1
    let (newPageNo, disk) := bpm2.disk_manager_.allocate_page page_id.fd
    let new_id : PageId := { page_id with page_no := newPageNo }
    let bpm3 : BufferPoolManager :=
      { (bpm2.setFrame frameId { (bpm2.frame frameId) with id_ := new_id }) with
        disk_manager_ := disk,
        page_table_ := tableStore new_id frameId bpm2.page_table_,
        replacer_ := bpm2.replacer_.pin frameId }
    let page3 := bpm3.frame frameId
    (bpm3.setFrame frameId ({ page3 with pin_count_ := page3.pin_count_ + 1 }).reset_memory,
     some frameId, new_id)
  | (bpm1, none) => (bpm1, none, page_id)

/-- Embeds `delete_page(page_id)`. -/
def delete_page (bpm : BufferPoolManager) (page_id : PageId) : BufferPoolManager × Bool :=
  match bpm.page_table_.lookup page_id with
  | none => (bpm, true)
  | some frameId =>
    let page := bpm.frame frameId
    if page.pin_count_ ≠ 0 then (bpm, false)
    else
      let bpm1 : BufferPoolManager :=
        { bpm with
          disk_manager_ := bpm.disk_manager_.write_page page.id_.fd page.id_.page_no page.data_,
          page_table_ := tableErase bpm.page_table_ page_id }
      let bpm2 := bpm1.setFrame frameId
        ({ (bpm1.frame frameId) with is_dirty_ := false,
                                     id_ := ⟨-1, INVALID_PAGE_ID⟩ }).reset_memory
      ({ bpm2 with free_list_ := bpm2.free_list_ ++ [frameId] }, true)

/-- The loop of `flush_all_pages` over the entries of the page table still to visit. -/
def flushEntries (bpm : BufferPoolManager) : List (PageId × Nat) → BufferPoolManager
  | [] => bpm
  | it :: rest => flushEntries (bpm.flush_page (bpm.frame it.2).id_).1 rest

/-- Embeds `flush_all_pages(fd)`. -/
def flush_all_pages (bpm : BufferPoolManager) (_fd : Int) : BufferPoolManager :=
  flushEntries bpm bpm.page_table_

/-- Modelled from the spec: the pool as its constructor leaves it
(`buffer_pool_manager.h` is not among the sources): `pool_size` unused frames,
all on the free list, an empty page table and replacer, over the given disk. -/
def init (pool_size : Nat) (disk : DiskManager) : BufferPoolManager :=
  { pages_ := List.replicate pool_size Page.unused, page_table_ := [],
    free_list_ := List.range pool_size, replacer_ := { LRUlist_ := [] }, disk_manager_ := disk }

/-- A caller stores `byte` at `offset` of the page it holds in frame `frame_id`,
through `get_data()`. -/
def writeData (bpm : BufferPoolManager) (frame_id offset byte : Nat) : BufferPoolManager :=
  bpm.setFrame frame_id
    { (bpm.frame frame_id) with data_ := (bpm.frame frame_id).data_.set offset byte }

end BufferPoolManager

/-- A call on the buffer pool, or a write by a caller into a page it has pinned. -/
inductive PoolCall where
  | fetch_page (page_id : PageId)
  | new_page (fd : Int)
  | unpin_page (page_id : PageId) (is_dirty : Bool)
  | flush_page (page_id : PageId)
  | delete_page (page_id : PageId)
  | write (page_id : PageId) (offset byte : Nat)
deriving DecidableEq, Repr

/-- The pool after one call; a write goes to the frame of the page when the
page is resident and pinned, and does nothing otherwise. -/
def BufferPoolManager.call (bpm : BufferPoolManager) : PoolCall → BufferPoolManager
  | .fetch_page page_id => (bpm.fetch_page page_id).1
  | .new_page fd => (bpm.new_page ⟨fd, INVALID_PAGE_ID⟩).1
  | .unpin_page page_id is_dirty => (bpm.unpin_page page_id is_dirty).1
  | .flush_page page_id => (bpm.flush_page page_id).1
  | .delete_page page_id => (bpm.delete_page page_id).1
  | .write page_id offset byte =>
    match bpm.page_table_.lookup page_id with
    | some frame_id =>
      if (bpm.frame frame_id).pin_count_ = 0 then bpm else bpm.writeData frame_id offset byte
    | none => bpm

/-- The pool after a sequence of calls. -/
def BufferPoolManager.run : BufferPoolManager → List PoolCall → BufferPoolManager
  | bpm, [] => bpm
  | bpm, c :: cs => (bpm.call c).run cs

/-- The bytes of a page on disk equal its bytes in the frame that holds it. -/
def diskMatchesMemory (bpm : BufferPoolManager) (page_id : PageId) : Bool :=
  match bpm.page_table_.lookup page_id with
  | some frame_id =>
    bpm.disk_manager_.read_page page_id.fd page_id.page_no == (bpm.frame frame_id).data_
  | none => false

/-- The replacer holds exactly the resident frames whose pin count is 0. -/
def ReplacerSync (bpm : BufferPoolManager) : Prop :=
  ∀ f, f ∈ bpm.replacer_.LRUlist_ ↔
    (∃ page_id, bpm.page_table_.lookup page_id = some f) ∧ (bpm.frame f).pin_count_ = 0

/-- Every frame of the pool is on the free list or holds a resident page, and
the page table names frames of the pool only. -/
def FramesAccounted (bpm : BufferPoolManager) : Prop :=
  (∀ f, f < bpm.pages_.length →
    f ∈ bpm.free_list_ ∨ ∃ page_id, bpm.page_table_.lookup page_id = some f) ∧
  (∀ page_id f, bpm.page_table_.lookup page_id = some f → f < bpm.pages_.length)

/-- The pool of the concrete runs: two frames over an empty disk. -/
def pool2 : BufferPoolManager := BufferPoolManager.init 2 { pages := [], fd2pageno := [] }

/-- A pool of one frame over an empty disk. -/
def pool1 : BufferPoolManager := BufferPoolManager.init 1 { pages := [], fd2pageno := [] }

/-- The one-frame pool after `new_page` on file 1: its frame holds the pinned
page `(1, 0)`. -/
def pinnedPool : BufferPoolManager := pool1.run [.new_page 1]

/-! ## Record scan (`rm_scan.cpp`) -/

/-- Modelled from the spec: the heap file header (`rm_defs.h` is not among the
sources), under the field names the code uses. -/
structure RmFileHdr where
  record_size : Int
  num_pages : Int
  num_records_per_page : Int
  first_free_page_no : Int
  bitmap_size : Int
deriving DecidableEq, Repr

/-- Modelled from the spec: a heap page as its handle shows it
(`RmPageHandle` is not among the sources): the bitmap of occupied slots and the
slot array, one record payload per slot. -/
structure RmPageHandle where
  bitmap : List Nat
  slots : List (List Nat)
deriving DecidableEq, Repr

/-- Modelled from the spec: a heap file (`RmFileHandle` is not among the
sources): its header and its pages by page number; page 0 is the page of the
file header and holds no records. -/
structure RmFileHandle where
  file_hdr_ : RmFileHdr
  pages : List RmPageHandle
deriving DecidableEq, Repr

/-- Modelled from the spec: `fetch_page_handle(page_no)`, the page of that
number, `none` when the file has no such page. -/
def RmFileHandle.fetch_page_handle (fh : RmFileHandle) (page_no : Int) : Option RmPageHandle :=
  if 0 ≤ page_no then fh.pages[page_no.toNat]? else none

/-- Embeds the macro `isStored(byteN, bitN)`:
`(pageHandle.bitmap[byteN] >> (7 - bitN)) & 1`. -/
def isStored (pageHandle : RmPageHandle) (byteN bitN : Nat) : Bool :=
  (byteAt pageHandle.bitmap byteN >>> (7 - bitN)) % 2 == 1

/-- Embeds the macro `slotGet(byteN, bitN)`. -/
def slotGet (byteN bitN : Nat) : Nat := byteN * 8 + bitN

/-- Embeds `PAGE_END`. -/
def PAGE_END : Int := -123

/-- Embeds `SLOT_END`. -/
def SLOT_END : Int := -123

/-- Embeds `RmScan`: the file handle is an argument of the member functions, the
state is the member `rid_`. -/
structure RmScan where
  rid_ : Rid
deriving DecidableEq, Repr

namespace RmScan

/-- The loop over `bitN` in the constructor, at `bitN` with `cnt` iterations left. -/
def ctorBitLoop (pageHandle : RmPageHandle) (byteN : Nat) : Nat → Nat → Option Nat
  | 0, _ => none
  | cnt + 1, bitN =>
    if isStored pageHandle byteN bitN then some bitN
    else ctorBitLoop pageHandle byteN cnt (bitN + 1)

/-- The loop over `byteN` in the constructor, at `byteN` with `cnt` iterations left. -/
def ctorByteLoop (pageHandle : RmPageHandle) : Nat → Nat → Option (Nat × Nat)
  | 0, _ => none
  | cnt + 1, byteN =>
    match ctorBitLoop pageHandle byteN 8 0 with
    | some bitN => some (byteN, bitN)
    | none => ctorByteLoop pageHandle cnt (byteN + 1)

/-- The loop over `pageNo` in the constructor, at `pageNo` with `cnt` iterations
left; `rid0` is what `rid_` holds when the loop finds nothing. -/
def ctorPageLoop (fh : RmFileHandle) (rid0 : Rid) : Nat → Int → Option RmScan
  | 0, _ => some ⟨rid0⟩
  | cnt + 1, pageNo =>
    match fh.fetch_page_handle pageNo with
    | none => none
    | some pageHandle =>
      match ctorByteLoop pageHandle fh.file_hdr_.bitmap_size.toNat 0 with
      | some (byteN, bitN) => some ⟨⟨pageNo, slotGet byteN bitN⟩⟩
      | none => ctorPageLoop fh rid0 cnt (pageNo + 1)

/-- Embeds the constructor `RmScan(file_handle)`.  The constructor assigns `rid_`
only when it finds a stored record; `rid0` stands for the value the
uninitialised member has otherwise.  `none` is a fetch of a page the file does
not have. -/
def new (fh : RmFileHandle) (rid0 : Rid) : Option RmScan :=
  ctorPageLoop fh rid0 (fh.file_hdr_.num_pages - 1).toNat 1

/-- The loop over `BitN` in `next`, at `BitN` with `cnt` iterations left: the
flag `theFirst` afterwards and the bit found. -/
def nextBitLoop (pageHandle : RmPageHandle) (ByteN : Nat) : Nat → Nat → Bool → Bool × Option Nat
  | 0, _, theFirst => (theFirst, none)
  | cnt + 1, BitN, _ =>
    if isStored pageHandle ByteN BitN then (false, some BitN)
    else nextBitLoop pageHandle ByteN cnt (BitN + 1) false

/-- The loop over `ByteN` in `next`, at `ByteN` with `cnt` iterations left. -/
def nextByteLoop (pageHandle : RmPageHandle) (bitN : Nat) :
    Nat → Nat → Bool → Bool × Option (Nat × Nat)
  | 0, _, theFirst => (theFirst, none)
  | cnt + 1, ByteN, theFirst =>
    let start := if theFirst then bitN + 1 else 0
    match nextBitLoop pageHandle ByteN (8 - start) start theFirst with
    | (theFirst2, some BitN) => (theFirst2, some (ByteN, BitN))
    | (theFirst2, none) => nextByteLoop pageHandle bitN cnt (ByteN + 1) theFirst2

/-- The loop over `pageNo` in `next`, at `pageNo` with `cnt` iterations left. -/
def nextPageLoop (fh : RmFileHandle) (byteN bitN : Nat) : Nat → Int → Bool → Option RmScan
  | 0, _, _ => some ⟨⟨PAGE_END, SLOT_END⟩⟩
  | cnt + 1, pageNo, theFirst =>
    match fh.fetch_page_handle pageNo with
    | none => none
    | some pageHandle =>
      let start := if theFirst then byteN else 0
      match nextByteLoop pageHandle bitN (fh.file_hdr_.bitmap_size.toNat - start) start
          theFirst with
      | (_, some (ByteN, BitN)) => some ⟨⟨pageNo, slotGet ByteN BitN⟩⟩
      | (theFirst2, none) => nextPageLoop fh byteN bitN cnt (pageNo + 1) theFirst2

/-- Embeds `RmScan::next()`.  `positionGet(slotNo)` sets `byteN = slotNo / 8` and
`bitN = slotNo - byteN`.  `none` is a fetch of a page the file does not have,
or a negative slot number, with which the loops read in front of the bitmap. -/
def next (fh : RmFileHandle) (s : RmScan) : Option RmScan :=
  if s.rid_.slot_no < 0 then none
  else
    let slotNo := s.rid_.slot_no.toNat
    let byteN := slotNo / 8
    let bitN := slotNo - byteN
    nextPageLoop fh byteN bitN (fh.file_hdr_.num_pages - s.rid_.page_no).toNat s.rid_.page_no
      true

/-- Embeds `RmScan::is_end()`. -/
def is_end (s : RmScan) : Bool := s.rid_.page_no == PAGE_END && s.rid_.slot_no == SLOT_END

/-- Embeds `RmScan::rid()`. -/
def rid (s : RmScan) : Rid := s.rid_

/-- The scan after construction and `k` calls of `next`. -/
def after (fh : RmFileHandle) (rid0 : Rid) : Nat → Option RmScan
  | 0 => RmScan.new fh rid0
  | k + 1 =>
    match after fh rid0 k with
    | none => none
    | some s => s.next fh

end RmScan

/-- Modelled from the spec: the slot of a Rid is occupied when its bitmap bit is
set; the bit of slot `8 * byteN + bitN` is the one `isStored(byteN, bitN)`
reads.  The page is one of the record pages `1 .. num_pages - 1` and the bit
lies in the `bitmap_size` bytes of the bitmap. -/
def RmFileHandle.occupied (fh : RmFileHandle) (rid : Rid) : Prop :=
  1 ≤ rid.page_no ∧ rid.page_no < fh.file_hdr_.num_pages ∧ 0 ≤ rid.slot_no ∧
  rid.slot_no.toNat / 8 < fh.file_hdr_.bitmap_size.toNat ∧
  ∃ pageHandle, fh.fetch_page_handle rid.page_no = some pageHandle ∧
    isStored pageHandle (rid.slot_no.toNat / 8) (rid.slot_no.toNat % 8) = true

/-- The order of Rids: by page, then by slot. -/
def Rid.lt (a b : Rid) : Prop :=
  a.page_no < b.page_no ∨ (a.page_no = b.page_no ∧ a.slot_no < b.slot_no)

/-- A heap file of one record page with 16 slots, given by the two bytes of
its bitmap. -/
def onePageFile (b0 b1 : Nat) : RmFileHandle :=
  { file_hdr_ := { record_size := 4, num_pages := 2, num_records_per_page := 16,
                   first_free_page_no := 1, bitmap_size := 2 },
    pages := [⟨[], []⟩, ⟨[b0, b1], List.replicate 16 [0, 0, 0, 0]⟩] }

/-! ## Executors (`executor_abstract.h`, `executor_seq_scan.h`,
`executor_nestedloop_join.h`, `executor_index_scan.h`) -/

/-- Modelled from the spec: the comparison operators of a predicate (`CompOp` of
the parser definitions is not among the sources), under the names the code
tests. -/
inductive CompOp where
  | OP_EQ
  | OP_NE
  | OP_LT
  | OP_GT
  | OP_LE
  | OP_GE
deriving DecidableEq, Repr

/-- Modelled from the spec: a column reference `table.column` (`TabCol` is not
among the sources). -/
structure TabCol where
  tab_name : String
  col_name : String
deriving DecidableEq, Repr

/-- Modelled from the spec: a literal (`Value` is not among the sources): its
type and the bytes of `raw->data`. -/
structure Value where
  type : ColType
  raw : List Nat
deriving DecidableEq, Repr

/-- Modelled from the spec: a predicate `lhs_col op rhs` (`Condition` is not
among the sources), whose right side is the literal `rhs_val` when
`is_rhs_val` holds and the column `rhs_col` otherwise. -/
structure Condition where
  lhs_col : TabCol
  op : CompOp
  is_rhs_val : Bool
  rhs_col : TabCol
  rhs_val : Value
deriving DecidableEq, Repr

/-- Modelled from the spec: the metadata of a column of a record (`ColMeta` is
not among the sources), with the fields the executors read. -/
structure ColMeta where
  tab_name : String
  name : String
  type : ColType
  len : Nat
  offset : Nat
deriving DecidableEq, Repr

/-- Embeds `AbstractExecutor::get_col(rec_cols, target)`; `none` is
`ColumnNotFoundError`. -/
def get_col (rec_cols : List ColMeta) (target : TabCol) : Option ColMeta :=
  rec_cols.find? (fun col => col.tab_name == target.tab_name && col.name == target.col_name)

/-- Embeds `AbstractExecutor::op_compare(op, cmp)`; the last branch, `throw`, is
not reachable for a value of the six operators. -/
def op_compare (op : CompOp) (cmp : Int) : Bool :=
  match op with
  | .OP_EQ => cmp == 0
  | .OP_NE => cmp != 0
  | .OP_LT => decide (cmp < 0)
  | .OP_GT => decide (cmp > 0)
  | .OP_LE => decide (cmp ≤ 0)
  | .OP_GE => decide (cmp ≥ 0)

/-- Embeds `AbstractExecutor::condCheck(l_record, conds_, cols_)`; `none` is the
exception of `get_col`. -/
def condCheck (l_record : List Nat) : List Condition → List ColMeta → Option Bool
  | [], _ => some true
  | condition :: rest, cols_ =>
    match get_col cols_ condition.lhs_col with
    | none => none
    | some l_col =>
      let l_val_buf := l_record.drop l_col.offset
      let cmp : Option Int :=
        if condition.is_rhs_val then
          some (ix_compare_col l_val_buf condition.rhs_val.raw condition.rhs_val.type l_col.len)
        else
          match get_col cols_ condition.rhs_col with
          | none => none
          | some r_col =>
            some (ix_compare_col l_val_buf (l_record.drop r_col.offset) r_col.type l_col.len)
      match cmp with
      | none => none
      | some c => if !op_compare condition.op c then some false else condCheck l_record rest cols_

/-- Modelled from the spec: `get_record(rid)` checks that the bitmap bit of the
slot is set and returns a copy of the slot payload; `none` is
`RecordNotFound`, or a page the file does not have. -/
def RmFileHandle.get_record (fh : RmFileHandle) (rid : Rid) : Option (List Nat) :=
  match fh.fetch_page_handle rid.page_no with
  | none => none
  | some pageHandle =>
    if 0 ≤ rid.slot_no ∧
        isStored pageHandle (rid.slot_no.toNat / 8) (rid.slot_no.toNat % 8) = true then
      pageHandle.slots[rid.slot_no.toNat]?
    else none

/-- Embeds the state of a `SeqScanExecutor` that changes: `rid_` and `scan_`.  The
file handle, the conditions and the columns are arguments. -/
structure SeqScanExecutor where
  rid_ : Rid
  scan_ : RmScan
deriving DecidableEq, Repr

namespace SeqScanExecutor

/-- The test `condCheck(fh_->get_record(rid_, context_).get(), conds_, cols_)`. -/
def check (fh : RmFileHandle) (conds_ : List Condition) (cols_ : List ColMeta) (rid : Rid) :
    Option Bool :=
  match fh.get_record rid with
  | none => none
  | some record => condCheck record conds_ cols_

/-- The `while` loop of `beginTuple`; `fuel` bounds the number of iterations. -/
def beginLoop (fh : RmFileHandle) (conds_ : List Condition) (cols_ : List ColMeta) :
    Nat → SeqScanExecutor → Option SeqScanExecutor
  | 0, _ => none
  | fuel + 1, e =>
    if e.scan_.is_end then some e
    else
      match check fh conds_ cols_ e.rid_ with
      | none => none
      | some true => some e
      | some false =>
        match e.scan_.next fh with
        | none => none
        | some scan => beginLoop fh conds_ cols_ fuel { rid_ := scan.rid, scan_ := scan }

/-- Embeds `beginTuple()`; `rid0` is the argument of the scan's constructor. -/
def beginTuple (fh : RmFileHandle) (conds_ : List Condition) (cols_ : List ColMeta) (rid0 : Rid)
    (fuel : Nat) : Option SeqScanExecutor :=
  match RmScan.new fh rid0 with
  | none => none
  | some scan => beginLoop fh conds_ cols_ fuel { rid_ := scan.rid, scan_ := scan }

/-- The `for` loop of `nextTuple`, at its test; `fuel` bounds the number of
iterations. -/
def nextLoop (fh : RmFileHandle) (conds_ : List Condition) (cols_ : List ColMeta) :
    Nat → SeqScanExecutor → Option SeqScanExecutor
  | 0, _ => none
  | fuel + 1, e =>
    if e.scan_.is_end then some e
    else
      let e1 : SeqScanExecutor := { e with rid_ := e.scan_.rid }
      match check fh conds_ cols_ e1.rid_ with
      | none => none
      | some true => some e1
      | some false =>
        match e1.scan_.next fh with
        | none => none
        | some scan => nextLoop fh conds_ cols_ fuel { e1 with scan_ := scan }

/-- Embeds `nextTuple()`. -/
def nextTuple (fh : RmFileHandle) (conds_ : List Condition) (cols_ : List ColMeta) (fuel : Nat)
    (e : SeqScanExecutor) : Option SeqScanExecutor :=
  match e.scan_.next fh with
  | none => none
  | some scan => nextLoop fh conds_ cols_ fuel { e with scan_ := scan }

/-- Embeds `is_end()`. -/
def is_end (e : SeqScanExecutor) : Bool := e.scan_.is_end

/-- Embeds `rid()`. -/
def rid (e : SeqScanExecutor) : Rid := e.rid_

end SeqScanExecutor

/-- Modelled from the spec: a child of the join as the join sees it through
`AbstractExecutor`: a cursor over the sequence of the tuples it produces, with
the columns and the length of its tuples. -/
structure ChildExecutor where
  tuples : List (List Nat)
  pos : Nat
  cols : List ColMeta
  len : Nat
deriving DecidableEq, Repr

namespace ChildExecutor

/-- Modelled from the spec: `beginTuple()` puts the cursor on the first tuple. -/
def beginTuple (c : ChildExecutor) : ChildExecutor := { c with pos := 0 }

/-- Modelled from the spec: `nextTuple()` moves the cursor to the next tuple. -/
def nextTuple (c : ChildExecutor) : ChildExecutor := { c with pos := c.pos + 1 }

/-- Modelled from the spec: `is_end()`, the cursor is behind the last tuple. -/
def is_end (c : ChildExecutor) : Bool := decide (c.tuples.length ≤ c.pos)

/-- Modelled from the spec: `Next()`, the tuple under the cursor; there is none
at the end. -/
def Next (c : ChildExecutor) : Option (List Nat) := c.tuples[c.pos]?

end ChildExecutor

/-- Embeds `NestedLoopJoinExecutor`. -/
structure NestedLoopJoinExecutor where
  left_ : ChildExecutor
  right_ : ChildExecutor
  len_ : Nat
  cols_ : List ColMeta
  fed_conds_ : List Condition
  isend : Bool
deriving DecidableEq, Repr

namespace NestedLoopJoinExecutor

/-- Embeds the constructor. -/
def new (left right : ChildExecutor) (conds : List Condition) : NestedLoopJoinExecutor :=
  { left_ := left, right_ := right, len_ := left.len + right.len,
    cols_ := left.cols ++ right.cols.map (fun col => { col with offset := col.offset + left.len }),
    fed_conds_ := conds, isend := false }

/-- Embeds `beginTuple()`. -/
def beginTuple (j : NestedLoopJoinExecutor) : NestedLoopJoinExecutor :=
  { j with left_ := j.left_.beginTuple, right_ := j.right_.beginTuple }

/-- Embeds `is_end()`. -/
def is_end (j : NestedLoopJoinExecutor) : Bool := j.left_.is_end

/-- Embeds `get_rec()`: `len_` zero bytes overwritten with the left tuple and,
behind it, the right tuple; `none` when a child has no tuple to give. -/
def get_rec (j : NestedLoopJoinExecutor) : Option (List Nat) :=
  match j.left_.Next, j.right_.Next with
  | some l_rec, some r_rec =>
    some (l_rec ++ r_rec ++ List.replicate (j.len_ - (l_rec.length + r_rec.length)) 0)
  | _, _ => none

/-- Embeds `Next()`. -/
def Next (j : NestedLoopJoinExecutor) : Option (List Nat) := j.get_rec

/-- Embeds `NestedLoopJoinExecutor::op_compare(op, cmp)`. -/
def op_compare (op : CompOp) (cmp : Int) : Bool :=
  match op with
  | .OP_EQ => cmp == 0
  | .OP_NE => cmp != 0
  | .OP_LT => decide (cmp < 0)
  | .OP_GT => decide (cmp > 0)
  | .OP_LE => decide (cmp ≤ 0)
  | .OP_GE => decide (cmp ≥ 0)

/-- Embeds `cond_compare(l_val_buf, r_val_buf, type, col_len)`. -/
def cond_compare (l_val_buf r_val_buf : List Nat) (type : ColType) (col_len : Nat) : Int :=
  ix_compare_col l_val_buf r_val_buf type col_len

/-- The loop of `NestedLoopJoinExecutor::condCheck(l_record)` over the
conditions still to test. -/
def condLoop (cols_ : List ColMeta) (l_record : List Nat) : List Condition → Option Bool
  | [] => some true
  | condition :: rest =>
    match get_col cols_ condition.lhs_col with
    | none => none
    | some l_col =>
      let l_val_buf := l_record.drop l_col.offset
      let cmp : Option Int :=
        if condition.is_rhs_val then
          some (cond_compare l_val_buf condition.rhs_val.raw condition.rhs_val.type l_col.len)
        else
          match get_col cols_ condition.rhs_col with
          | none => none
          | some r_col =>
            some (cond_compare l_val_buf (l_record.drop r_col.offset) r_col.type l_col.len)
      match cmp with
      | none => none
      | some c => if !op_compare condition.op c then some false else condLoop cols_ l_record rest

/-- Embeds `NestedLoopJoinExecutor::condCheck(l_record)`. -/
def condCheck (j : NestedLoopJoinExecutor) (l_record : List Nat) : Option Bool :=
  condLoop j.cols_ l_record j.fed_conds_

/-- The inner `for` loop of `nextTuple` over the left child, at its test: the
executor afterwards and whether `nextTuple` returned from inside the loop. -/
def leftLoop : Nat → NestedLoopJoinExecutor → Option (NestedLoopJoinExecutor × Bool)
  | 0, _ => none
  | fuel + 1, j =>
    if j.left_.is_end then some (j, false)
    else
      match j.get_rec with
      | none => none
      | some record =>
        match j.condCheck record with
        | none => none
        | some true => some (j, true)
        | some false => leftLoop fuel { j with left_ := j.left_.nextTuple }

/-- The outer `for` loop of `nextTuple` over the right child, at its test. -/
def rightLoop : Nat → NestedLoopJoinExecutor → Option NestedLoopJoinExecutor
  | 0, _ => none
  | fuel + 1, j =>
    if j.right_.is_end then some j
    else
      let j1 : NestedLoopJoinExecutor :=
        if j.left_.is_end then { j with left_ := j.left_.beginTuple }
        else { j with left_ := j.left_.nextTuple }
      match leftLoop (j1.left_.tuples.length + 1) j1 with
      | none => none
      | some (j2, true) => some j2
      | some (j2, false) => rightLoop fuel { j2 with right_ := j2.right_.nextTuple }

/-- Embeds `nextTuple()`; the loop over the right child runs at most once for each
of its tuples and once more. -/
def nextTuple (j : NestedLoopJoinExecutor) : Option NestedLoopJoinExecutor :=
  rightLoop (j.right_.tuples.length + 1) j

/-- The consumer loop `for (beginTuple(); !is_end(); nextTuple()) Next()`, after
`beginTuple()`: the tuples produced.  `fuel` bounds the number of tuples. -/
def drain : Nat → NestedLoopJoinExecutor → Option (List (List Nat))
  | 0, _ => none
  | fuel + 1, j =>
    if j.is_end then some []
    else
      match j.Next, j.nextTuple with
      | some record, some j2 => (drain fuel j2).map (fun out => record :: out)
      | _, _ => none

/-- The tuples a consumer obtains by `beginTuple()` followed by `Next()` and
`nextTuple()` until `is_end()`. -/
def run (j : NestedLoopJoinExecutor) : Option (List (List Nat)) :=
  drain (j.left_.tuples.length * j.right_.tuples.length + 2) j.beginTuple

end NestedLoopJoinExecutor

/-- The table `T(a INT)` of the join scenario with the rows 1, 2, 3. -/
def joinLeft : ChildExecutor :=
  { tuples := [intKey 1, intKey 2, intKey 3], pos := 0,
    cols := [⟨"T", "a", .TYPE_INT, 4, 0⟩], len := 4 }

/-- The table `U(k INT, v INT)` of the join scenario with the rows `(2, 20)`,
`(3, 30)`, `(4, 40)`. -/
def joinRight : ChildExecutor :=
  { tuples := [intKey 2 ++ intKey 20, intKey 3 ++ intKey 30, intKey 4 ++ intKey 40], pos := 0,
    cols := [⟨"U", "k", .TYPE_INT, 4, 0⟩, ⟨"U", "v", .TYPE_INT, 4, 4⟩], len := 8 }

/-- The join condition `T.a = U.k`. -/
def joinCond : Condition :=
  { lhs_col := ⟨"T", "a"⟩, op := .OP_EQ, is_rhs_val := false, rhs_col := ⟨"U", "k"⟩,
    rhs_val := ⟨.TYPE_INT, []⟩ }

/-- Modelled from the spec: the result the join is to produce, the
concatenations `l ++ r` of the pairs of a left and a right tuple that satisfy
every join condition, in the order of the loops (right outside, left inside). -/
def joinPairs (left right : ChildExecutor) (conds : List Condition) : List (List Nat) :=
  right.tuples.flatMap (fun r =>
    (left.tuples.filter (fun l =>
      NestedLoopJoinExecutor.condLoop (NestedLoopJoinExecutor.new left right conds).cols_
        (l ++ r) conds == some true)).map (fun l => l ++ r))

/-- A heap file of one record page whose slots 0, 1, 2 hold the `int` records
5, 7, 9. -/
def scanFile : RmFileHandle :=
  { file_hdr_ := { record_size := 4, num_pages := 2, num_records_per_page := 16,
                   first_free_page_no := 1, bitmap_size := 2 },
    pages := [⟨[], []⟩,
      ⟨[0xE0, 0x00], [intKey 5, intKey 7, intKey 9] ++ List.replicate 13 [0, 0, 0, 0]⟩] }

/-- The columns of the table `T(a INT)`. -/
def scanCols : List ColMeta := [⟨"T", "a", .TYPE_INT, 4, 0⟩]

/-- The condition `T.a > 6`. -/
def scanCond : Condition :=
  { lhs_col := ⟨"T", "a"⟩, op := .OP_GT, is_rhs_val := true, rhs_col := ⟨"", ""⟩,
    rhs_val := ⟨.TYPE_INT, intKey 6⟩ }

namespace IndexScanExecutor

/-- The assertions at the head of `beginTuple` and `nextTuple`: every condition
has its left column, and its right column if it has one, on the scanned table. -/
def condsOnTable (tab_name_ : String) : List Condition → Bool
  | [] => true
  | cond :: rest =>
    cond.lhs_col.tab_name == tab_name_ &&
      (cond.is_rhs_val || cond.rhs_col.tab_name == tab_name_) && condsOnTable tab_name_ rest

/-- The loop of `beginTuple` over `fed_conds_` that sets `lower` and `upper`; it
stops at the first condition it uses (`break`).  `index_col_name` is the local
variable of that name. -/
def rangeLoop (index_col_name : String) (lower upper : Iid) : List Condition → IxM (Iid × Iid)
  | [] => pure (lower, upper)
  | cond :: rest =>
    if cond.is_rhs_val && cond.op != CompOp.OP_NE &&
        cond.lhs_col.col_name == index_col_name then
      match cond.op with
      | .OP_EQ => do
        let lower2 ← IxIndexHandle.lower_bound cond.rhs_val.raw
        let upper2 ← IxIndexHandle.upper_bound cond.rhs_val.raw
        pure (lower2, upper2)
      | .OP_LT => do
        let upper2 ← IxIndexHandle.lower_bound cond.rhs_val.raw
        pure (lower, upper2)
      | .OP_LE => do
        let upper2 ← IxIndexHandle.upper_bound cond.rhs_val.raw
        pure (lower, upper2)
      | .OP_GT => do
        let lower2 ← IxIndexHandle.upper_bound cond.rhs_val.raw
        pure (lower2, upper)
      | .OP_GE => do
        let lower2 ← IxIndexHandle.lower_bound cond.rhs_val.raw
        pure (lower2, upper)
      | .OP_NE => IxM.fault
    else rangeLoop index_col_name lower upper rest

/-- Embeds `beginTuple()` up to the construction of the `IxScan`: the pair
`(lower, upper)` the scan is built with.  `index_name` is the value of
`get_index_name(tab_name_, index_col_names_)`, which `beginTuple` uses as the
key of the index handle and stores in `index_col_name`; `IxManager` is not
among the sources, so the name is an argument. -/
def beginRange (tab_name_ index_name : String) (fed_conds_ : List Condition) :
    IxM (Iid × Iid) :=
  if condsOnTable tab_name_ fed_conds_ then do
    let lower ← IxIndexHandle.leaf_begin
    let upper ← IxIndexHandle.leaf_end
    rangeLoop index_name lower upper fed_conds_
  else IxM.fault

end IndexScanExecutor

/-- The condition `t.a op v` with an `int` literal. -/
def litCond (op : CompOp) (v : Nat) : Condition :=
  { lhs_col := ⟨"t", "a"⟩, op := op, is_rhs_val := true, rhs_col := ⟨"", ""⟩,
    rhs_val := ⟨.TYPE_INT, intKey v⟩ }

/-- The slots in use lie inside the key array and the keys in use are sorted
under `ix_compare`: no key compares above a later one. -/
def NodeSortedLe (f : IxFileHdr) (n : IxNode) : Prop :=
  n.num_key ≤ n.keys.length ∧
  ∀ i j a b, i < j → j < n.num_key → n.keys[i]? = some a → n.keys[j]? = some b → keyCmp f a b ≤ 0

/-- An empty leaf page of the index of the concrete runs. -/
def emptyLeaf : IxNode := { zeroPage intIndex.file_hdr_ with is_leaf := true }

/-- A leaf of the index of the concrete runs with the one key 1 in use; slot 1,
behind the keys in use, still holds the erased key 3. -/
def staleLeaf : IxNode :=
  { parent := 0, num_key := 1, is_leaf := true, prev_leaf := 0, next_leaf := 0,
    keys := [intKey 1, intKey 3, intKey 0, intKey 0, intKey 0],
    rids := [⟨1, 0⟩, ⟨3, 0⟩, ⟨0, 0⟩, ⟨0, 0⟩, ⟨0, 0⟩] }

/-- A leaf of the index of the concrete runs with the keys 10, 20, 20, 30 in use. -/
def sortedLeaf : IxNode :=
  { parent := 0, num_key := 4, is_leaf := true, prev_leaf := 0, next_leaf := 0,
    keys := [intKey 10, intKey 20, intKey 20, intKey 30, intKey 0],
    rids := [⟨10, 0⟩, ⟨20, 0⟩, ⟨20, 1⟩, ⟨30, 0⟩, ⟨0, 0⟩] }

/-- The bookkeeping of the pool is consistent: every page-table entry names a
frame of the pool whose stored identity is the key and which is not on the
free list; the free list has no frame twice; and every frame on the free list
or in the replacer is a frame of the pool with pin count 0. -/
def PoolInv (bpm : BufferPoolManager) : Prop :=
  (∀ p f, bpm.page_table_.lookup p = some f →
    f < bpm.pages_.length ∧ (bpm.frame f).id_ = p ∧ f ∉ bpm.free_list_) ∧
  bpm.free_list_.Nodup ∧
  (∀ f, f ∈ bpm.free_list_ → f < bpm.pages_.length ∧ (bpm.frame f).pin_count_ = 0) ∧
  (∀ f, f ∈ bpm.replacer_.LRUlist_ → f < bpm.pages_.length ∧ (bpm.frame f).pin_count_ = 0)

/-- The pool reached from the initial state (`pool_size` unused frames on the
free list, empty page table) through a sequence of calls. -/
def BufferPoolManager.reached (pool_size : Nat) (disk : DiskManager) (calls : List PoolCall) :
    BufferPoolManager :=
  (BufferPoolManager.init pool_size disk).run calls

/-! ## Shape of the tree around a leaf split -/

/-- No page number from `next_page_no` on is in use: `create_node` hands out
pages the store does not have yet, and page numbers are not negative. -/
def Fresh (h : IxIndexHandle) : Prop :=
  0 ≤ h.next_page_no ∧ ∀ q, h.next_page_no ≤ q → h.pages.lookup q = none

/-- An internal node with slot arrays of `order + 1` slots, at most `bound` keys
in use, and a page in the store for each of its children in use. -/
def InnerOK (h : IxIndexHandle) (n : IxNode) (bound : Nat) : Prop :=
  n.is_leaf = false ∧ n.keys.length = h.file_hdr_.btree_order_ + 1 ∧
  n.rids.length = h.file_hdr_.btree_order_ + 1 ∧ n.num_key ≤ bound ∧
  ∀ i, i < n.num_key → ∃ r c, n.rids[i]? = some r ∧ h.pages.lookup r.page_no = some c

/-- The page `x` is not among the children in use of the node. -/
def NotChild (n : IxNode) (x : Int) : Prop :=
  ∀ i r, i < n.num_key → n.rids[i]? = some r → r.page_no ≠ x

/-- The chain of ancestors above a node whose parent pointer is `par`: the
pointers lead through the pages of `c` to a root, every page of `c` holds an
internal node with room for one more key, no page of `c` is its own child, and
no page of `c` is a page further down the chain or a child in use of one. -/
def ChainOK (h : IxIndexHandle) : Int → List Int → Prop
  | par, [] => par = INVALID_PAGE_ID
  | par, q :: rest =>
    par = q ∧ q ≠ INVALID_PAGE_ID ∧
    ∃ n, h.pages.lookup q = some n ∧ InnerOK h n h.file_hdr_.btree_order_ ∧ NotChild n q ∧
      (∀ x, x ∈ rest → x ≠ q ∧ NotChild n x) ∧ ChainOK h n.parent rest

/-- The two nodes differ at most in their parent pointer. -/
def SameButParent (n n2 : IxNode) : Prop := n2 = { n with parent := n2.parent }

/-- What `insert_into_parent` may change while it climbs through the ancestors
`c`: the leaf ends and the order in the header stay, page numbers stay fresh,
and a page outside `c` keeps its node up to the parent pointer. -/
def Climbed (c : List Int) (h h2 : IxIndexHandle) : Prop :=
  h2.file_hdr_.first_leaf_ = h.file_hdr_.first_leaf_ ∧
  h2.file_hdr_.last_leaf_ = h.file_hdr_.last_leaf_ ∧
  h2.file_hdr_.btree_order_ = h.file_hdr_.btree_order_ ∧
  Fresh h2 ∧
  ∀ x m, x ∉ c → h.pages.lookup x = some m →
    ∃ m2, h2.pages.lookup x = some m2 ∧ SameButParent m m2

/-- The leaf page 3 of `twoLeafIndex` after the node inserts of 60 and 70: its
five slots are in use, that is `order + 1` keys. -/
def fullLeaf : IxNode :=
  { parent := 4, num_key := 5, is_leaf := true, prev_leaf := 2, next_leaf := 1,
    keys := [intKey 30, intKey 40, intKey 50, intKey 60, intKey 70],
    rids := [⟨30, 0⟩, ⟨40, 0⟩, ⟨50, 0⟩, ⟨60, 0⟩, ⟨70, 0⟩] }

/-- The root page 4 of `twoLeafIndex`: an internal node over the leaves 2 and 3. -/
def fullLeafParent : IxNode :=
  { parent := -1, num_key := 2, is_leaf := false, prev_leaf := 0, next_leaf := 0,
    keys := [intKey 10, intKey 30, intKey 0, intKey 0, intKey 0],
    rids := [⟨2, -1⟩, ⟨3, -1⟩, ⟨0, 0⟩, ⟨0, 0⟩, ⟨0, 0⟩] }

/-- The index `twoLeafIndex` after the insert of 60, inside the insert of 70 at
the call of `splitNodeIfFull`: the last leaf, page 3, holds 30, 40, 50, 60, 70. -/
def fullLeafIndex : IxIndexHandle :=
  { twoLeafIndex with pages := storePage 3 fullLeaf twoLeafIndex.pages }

namespace IndexScanExecutor

/-- Embeds the map `swap_op` of the constructor. -/
def swap_op : CompOp → CompOp
  | .OP_EQ => .OP_EQ
  | .OP_NE => .OP_NE
  | .OP_LT => .OP_GT
  | .OP_GT => .OP_LT
  | .OP_LE => .OP_GE
  | .OP_GE => .OP_LE

/-- Embeds the body of the constructor's loop over `conds_`: a condition whose
left column is on another table has its sides swapped and its operator
mapped through `swap_op`; `none` is the failed `assert`. -/
def swapCond (tab_name_ : String) (cond : Condition) : Option Condition :=
  if cond.lhs_col.tab_name != tab_name_ then
    if !cond.is_rhs_val && cond.rhs_col.tab_name == tab_name_ then
      some { cond with lhs_col := cond.rhs_col, rhs_col := cond.lhs_col, op := swap_op cond.op }
    else none
  else some cond

/-- The `if` chain of `eval_cond` over `cmp`; the last branch, `throw`, is not
reachable for a value of the six operators. -/
def opHolds (op : CompOp) (cmp : Int) : Bool :=
  if op = .OP_EQ then cmp == 0
  else if op = .OP_NE then cmp != 0
  else if op = .OP_LT then decide (cmp < 0)
  else if op = .OP_GT then decide (cmp > 0)
  else if op = .OP_LE then decide (cmp ≤ 0)
  else decide (cmp ≥ 0)

/-- Embeds `eval_cond(rec_cols, cond, rec)`; `none` is the exception of
`get_col` or the failed `assert`. -/
def eval_cond (rec_cols : List ColMeta) (cond : Condition) (rec : List Nat) : Option Bool :=
  match get_col rec_cols cond.lhs_col with
  | none => none
  | some lhs_col =>
    let lhs := rec.drop lhs_col.offset
    let rhs : Option (ColType × List Nat) :=
      if cond.is_rhs_val then some (cond.rhs_val.type, cond.rhs_val.raw)
      else
        match get_col rec_cols cond.rhs_col with
        | none => none
        | some rhs_col => some (rhs_col.type, rec.drop rhs_col.offset)
    match rhs with
    | none => none
    | some (rhs_type, rhs) =>
      if rhs_type = lhs_col.type then
        some (opHolds cond.op (ix_compare_col lhs rhs rhs_type lhs_col.len))
      else none

end IndexScanExecutor


/-- An internal root with exactly one key, over the leaf page 2. -/
def loneChildRoot : IxNode :=
  { parent := -1, num_key := 1, is_leaf := false, prev_leaf := 0, next_leaf := 0,
    keys := [intKey 10, intKey 30, intKey 0, intKey 0, intKey 0],
    rids := [⟨2, -1⟩, ⟨3, -1⟩, ⟨0, 0⟩, ⟨0, 0⟩, ⟨0, 0⟩] }

/-- The index `twoLeafIndex` with the root (page 4) cut down to its first key. -/
def loneChildIndex : IxIndexHandle :=
  { twoLeafIndex with pages := storePage 4 loneChildRoot twoLeafIndex.pages }


/-- The index `twoLeafIndex` inside `delete_entry` of the key 10, after the
leaf page 2 has removed the key and before `coalesce_or_redistribute`: page 2
holds the one key 20. -/
def afterRemoveIndex : IxIndexHandle :=
  { twoLeafIndex with
    pages := storePage 2
      { parent := 4, num_key := 1, is_leaf := true, prev_leaf := 1, next_leaf := 3,
        keys := [intKey 20, intKey 20, intKey 30, intKey 40, intKey 50],
        rids := [⟨20, 0⟩, ⟨20, 0⟩, ⟨30, 0⟩, ⟨40, 0⟩, ⟨50, 0⟩] } twoLeafIndex.pages }

/-- The calls that lead from `twoLeafIndex` to an index whose root has a stale
slot: two inserts fill and split the last leaf, two deletes merge the leaves
again and erase the new leaf from the root, which keeps the key 40 in the
slot behind its keys in use; the insert of 35 puts four keys into page 3. -/
def staleRootCalls : List IxOp := [ins 60, ins 70, del 70, del 60, ins 35]

/-- A heap file without record pages: `num_pages` is 1, page 0 is the page of
the file header. -/
def noRecordPageFile : RmFileHandle :=
  { file_hdr_ := { record_size := 4, num_pages := 1, num_records_per_page := 16,
                   first_free_page_no := -1, bitmap_size := 2 },
    pages := [⟨[], []⟩] }

/-- The chain of ancestors that `maintain_parent` climbs from the page `child`
whose parent pointer is `par`: the pointers lead through the pages of `c`, each
of which holds a node that has the page below it among its children in use
(`find_child` succeeds, at a slot of the key array) and is not met again
further up, to a page without parent. -/
def ParentLinks (h : IxIndexHandle) : Int → Int → List Int → Prop
  | _, par, [] => par = IX_NO_PAGE
  | child, par, q :: rest =>
    par = q ∧ q ≠ IX_NO_PAGE ∧ q ∉ rest ∧
    ∃ n rank, h.pages.lookup q = some n ∧ n.find_child child = some rank ∧
      rank < n.keys.length ∧ ParentLinks h q n.parent rest

/-- The two nodes differ at most in their key slots, of which they have the
same number. -/
def SameButKeys (n n2 : IxNode) : Prop :=
  n2 = { n with keys := n2.keys } ∧ n2.keys.length = n.keys.length

/-- A node is a leaf, or each of its children in use is a page of the store
that is none of the pages `avoid`. -/
def KidsApart (h : IxIndexHandle) (n : IxNode) (avoid : List Int) : Prop :=
  n.is_leaf = true ∨
  ∀ i, i < n.num_key → ∃ r c, n.rids[i]? = some r ∧ h.pages.lookup r.page_no = some c ∧
    r.page_no ∉ avoid

/-- What `maintain_parent` may change on its way through the pages `c`: the file
header stays, a page outside `c` stays as it is, and every page keeps its node
up to the key slots. -/
def KeysOnly (c : List Int) (h h2 : IxIndexHandle) : Prop :=
  h2.file_hdr_ = h.file_hdr_ ∧ h2.next_page_no = h.next_page_no ∧
  (∀ x, x ∉ c → h2.pages.lookup x = h.pages.lookup x) ∧
  ∀ x m, h.pages.lookup x = some m → ∃ m2, h2.pages.lookup x = some m2 ∧ SameButKeys m m2

/-- The last pair of `nb` has moved to the front of `node`: `node2` and `nb2` are
the two nodes afterwards. -/
def MovedLast (node nb node2 nb2 : IxNode) : Prop :=
  node2.num_key = node.num_key + 1 ∧ nb2.num_key = nb.num_key - 1 ∧
  node2.keys[0]? = nb.keys[nb.num_key - 1]? ∧ node2.rids[0]? = nb.rids[nb.num_key - 1]? ∧
  (∀ j, j < node.num_key →
    node2.keys[j + 1]? = node.keys[j]? ∧ node2.rids[j + 1]? = node.rids[j]?) ∧
  (∀ j, j < nb.num_key - 1 → nb2.keys[j]? = nb.keys[j]? ∧ nb2.rids[j]? = nb.rids[j]?)

/-- The first pair of `nb` has moved to the end of `node`: `node2` and `nb2` are
the two nodes afterwards. -/
def MovedFirst (node nb node2 nb2 : IxNode) : Prop :=
  node2.num_key = node.num_key + 1 ∧ nb2.num_key = nb.num_key - 1 ∧
  node2.keys[node.num_key]? = nb.keys[0]? ∧ node2.rids[node.num_key]? = nb.rids[0]? ∧
  (∀ j, j < node.num_key → node2.keys[j]? = node.keys[j]? ∧ node2.rids[j]? = node.rids[j]?) ∧
  (∀ j, j < nb.num_key - 1 →
    nb2.keys[j]? = nb.keys[j + 1]? ∧ nb2.rids[j]? = nb.rids[j + 1]?)

/-- The node `left2` holds the pairs of `left` followed by the pairs of `right`. -/
def Appended (left right left2 : IxNode) : Prop :=
  left2.num_key = left.num_key + right.num_key ∧
  (∀ j, j < left.num_key → left2.keys[j]? = left.keys[j]? ∧ left2.rids[j]? = left.rids[j]?) ∧
  (∀ j, j < right.num_key →
    left2.keys[left.num_key + j]? = right.keys[j]? ∧
    left2.rids[left.num_key + j]? = right.rids[j]?)

/-- The parent `par2` is `par` with the entry at `idx` erased: the entries
before `idx - 1` stay, the entry at `idx - 1` points to the page `left_no`, and
the entries behind `idx` have moved down by one. -/
def EntryErased (par par2 : IxNode) (idx : Nat) (left_no : Int) : Prop :=
  par2.num_key = par.num_key - 1 ∧
  (∀ j, j + 1 < idx → par2.keys[j]? = par.keys[j]? ∧ par2.rids[j]? = par.rids[j]?) ∧
  par2.rids[idx - 1]? = some ⟨left_no, -1⟩ ∧
  (∀ j, idx ≤ j → j < par.num_key - 1 →
    par2.keys[j]? = par.keys[j + 1]? ∧ par2.rids[j]? = par.rids[j + 1]?)

/-- The left leaf (page 2) of `twoLeafIndex`. -/
def twoLeafLeft : IxNode :=
  { parent := 4, num_key := 2, is_leaf := true, prev_leaf := 1, next_leaf := 3,
    keys := [intKey 10, intKey 20, intKey 30, intKey 40, intKey 50],
    rids := [⟨10, 0⟩, ⟨20, 0⟩, ⟨30, 0⟩, ⟨40, 0⟩, ⟨50, 0⟩] }

/-- The right leaf (page 3) of `twoLeafIndex`. -/
def twoLeafRight : IxNode :=
  { parent := 4, num_key := 3, is_leaf := true, prev_leaf := 2, next_leaf := 1,
    keys := [intKey 30, intKey 40, intKey 50, intKey 0, intKey 0],
    rids := [⟨30, 0⟩, ⟨40, 0⟩, ⟨50, 0⟩, ⟨0, 0⟩, ⟨0, 0⟩] }

/-- The root (page 4) of `twoLeafIndex`. -/
def twoLeafRoot : IxNode :=
  { parent := -1, num_key := 2, is_leaf := false, prev_leaf := 0, next_leaf := 0,
    keys := [intKey 10, intKey 30, intKey 0, intKey 0, intKey 0],
    rids := [⟨2, -1⟩, ⟨3, -1⟩, ⟨0, 0⟩, ⟨0, 0⟩, ⟨0, 0⟩] }

/-- The leaf page 2 of `afterRemoveIndex`, left with the key 20. -/
def shortLeaf : IxNode :=
  { parent := 4, num_key := 1, is_leaf := true, prev_leaf := 1, next_leaf := 3,
    keys := [intKey 20, intKey 20, intKey 30, intKey 40, intKey 50],
    rids := [⟨20, 0⟩, ⟨20, 0⟩, ⟨30, 0⟩, ⟨40, 0⟩, ⟨50, 0⟩] }

/-- The right leaf of `twoLeafIndex` cut down to its first key. -/
def thinLeaf : IxNode :=
  { parent := 4, num_key := 1, is_leaf := true, prev_leaf := 2, next_leaf := 1,
    keys := [intKey 30, intKey 40, intKey 50, intKey 0, intKey 0],
    rids := [⟨30, 0⟩, ⟨40, 0⟩, ⟨50, 0⟩, ⟨0, 0⟩, ⟨0, 0⟩] }

/-- The index `twoLeafIndex` with the leaf page 3 cut down to its first key:
the two leaves hold three keys together. -/
def thinLeafIndex : IxIndexHandle :=
  { twoLeafIndex with pages := storePage 3 thinLeaf twoLeafIndex.pages }

/-! ## Keys without NaN -/

/-- Whether no `float` column of the key reads as a NaN, over the columns that
remain when the running byte offset is `offset`. -/
def cleanLoop (a : List Nat) (offset : Nat) : List ColType → List Nat → Bool
  | [], _ => true
  | t :: ts, col_lens =>
    (t != ColType.TYPE_FLOAT || !floatIsNaN (readU32 (a.drop offset))) &&
      cleanLoop a (offset + col_lens.headD 0) ts col_lens.tail

/-- No `float` column of the key reads as a NaN under the column layout of the
file header.  Every key is of this kind when the layout has no `float` column. -/
def CleanKey (f : IxFileHdr) (a : List Nat) : Prop :=
  cleanLoop a 0 f.col_types_ f.col_lens_ = true

/-- No key in use of the node holds a NaN. -/
def CleanNode (f : IxFileHdr) (n : IxNode) : Prop :=
  ∀ i x, i < n.num_key → n.keys[i]? = some x → CleanKey f x

/-- No key in use on a page of the index holds a NaN. -/
def CleanIndex (h : IxIndexHandle) : Prop :=
  ∀ page_no n, h.pages.lookup page_no = some n → CleanNode h.file_hdr_ n

/-- A three-way comparison orders the arguments of the kind `P`: among them it
is antisymmetric in sign and its "at most" relation is transitive. -/
def IsOrderOn (P : List Nat → Prop) (c : List Nat → List Nat → Int) : Prop :=
  (∀ a b, P a → P b → (c a b < 0 ↔ 0 < c b a)) ∧
  (∀ a b d, P a → P b → P d → c a b ≤ 0 → c b d ≤ 0 → c a d ≤ 0)

/-- The key bytes of a one-column `float` key with the bit pattern `bits`
(little endian); `0x3F800000` is 1.0, `0x7FC00000` is a NaN. -/
def floatKey (bits : Nat) : List Nat := intKey bits

/-- The index of one `float` column and order 4. -/
def floatIndex : IxIndexHandle := emptyIndex [ColType.TYPE_FLOAT] [4] 4

/-- A node of `floatIndex` with the keys NaN, 5.0, NaN, 7.0, NaN in use. -/
def nanNode : IxNode :=
  { parent := 0, num_key := 5, is_leaf := true, prev_leaf := 0, next_leaf := 0,
    keys := [floatKey 0x7FC00000, floatKey 0x40A00000, floatKey 0x7FC00000,
             floatKey 0x40E00000, floatKey 0x7FC00000],
    rids := [⟨1, 0⟩, ⟨2, 0⟩, ⟨3, 0⟩, ⟨4, 0⟩, ⟨5, 0⟩] }

/-- The index reached by inserting 1.0 and 2.0 into `floatIndex`: the root is
the leaf page 2 with the two keys. -/
def floatPairIndex : IxIndexHandle :=
  { file_hdr_ := { num_pages_ := 3, root_page_ := 2, col_types_ := [ColType.TYPE_FLOAT],
                   col_lens_ := [4], col_tot_len_ := 4, btree_order_ := 4, first_leaf_ := 2,
                   last_leaf_ := 2 },
    pages :=
      [(1, { parent := -1, num_key := 0, is_leaf := true, prev_leaf := 2, next_leaf := 2,
             keys := List.replicate 5 (floatKey 0), rids := List.replicate 5 ⟨0, 0⟩ }),
       (2, { parent := -1, num_key := 2, is_leaf := true, prev_leaf := 1, next_leaf := 1,
             keys := [floatKey 0x3F800000, floatKey 0x40000000, floatKey 0, floatKey 0,
                      floatKey 0],
             rids := [⟨1, 0⟩, ⟨2, 0⟩, ⟨0, 0⟩, ⟨0, 0⟩, ⟨0, 0⟩] })],
    next_page_no := 3 }

/-- The key bytes of a key of two `float` columns with the bit patterns `a`, `b`. -/
def floatKey2 (a b : Nat) : List Nat := intKey a ++ intKey b

/-- The index of two `float` columns and order 4. -/
def twoFloatIndex : IxIndexHandle :=
  emptyIndex [ColType.TYPE_FLOAT, ColType.TYPE_FLOAT] [4, 4] 4

/-- The index reached by inserting `(1.0, 1.0)`, `(2.0, 5.0)`, `(3.0, NaN)` into
`twoFloatIndex`: the root is the leaf page 2 with the three keys. -/
def nanColumnIndex : IxIndexHandle :=
  { file_hdr_ := { num_pages_ := 3, root_page_ := 2,
                   col_types_ := [ColType.TYPE_FLOAT, ColType.TYPE_FLOAT],
                   col_lens_ := [4, 4], col_tot_len_ := 8, btree_order_ := 4, first_leaf_ := 2,
                   last_leaf_ := 2 },
    pages :=
      [(1, { parent := -1, num_key := 0, is_leaf := true, prev_leaf := 2, next_leaf := 2,
             keys := List.replicate 5 (floatKey2 0 0), rids := List.replicate 5 ⟨0, 0⟩ }),
       (2, { parent := -1, num_key := 3, is_leaf := true, prev_leaf := 1, next_leaf := 1,
             keys := [floatKey2 0x3F800000 0x3F800000, floatKey2 0x40000000 0x40A00000,
                      floatKey2 0x40400000 0x7FC00000, floatKey2 0 0, floatKey2 0 0],
             rids := [⟨1, 0⟩, ⟨2, 0⟩, ⟨3, 0⟩, ⟨0, 0⟩, ⟨0, 0⟩] })],
    next_page_no := 3 }

/-- A check that implies `CleanIndex`. -/
def cleanIndexB (h : IxIndexHandle) : Bool :=
  h.pages.all (fun p => (p.2.keys.take p.2.num_key).all
    (fun x => cleanLoop x 0 h.file_hdr_.col_types_ h.file_hdr_.col_lens_))

/-! ## What a scan condition asks of a record -/

/-- The relation that a comparison operator names, read on the result `cmp` of
the three-way comparison of the left value with the right value (negative:
left below right, zero: equal, positive: left above right). -/
def CompOp.Holds : CompOp → Int → Prop
  | .OP_EQ, cmp => cmp = 0
  | .OP_NE, cmp => cmp < 0 ∨ 0 < cmp
  | .OP_LT, cmp => cmp < 0
  | .OP_GT, cmp => 0 < cmp
  | .OP_LE, cmp => cmp < 0 ∨ cmp = 0
  | .OP_GE, cmp => 0 < cmp ∨ cmp = 0

/-- The record satisfies the condition `lhs_col op rhs`: the left column is a
column of the record, and the value stored at its offset stands in the relation
`op` to the right side, which is the literal of the condition or the value
stored at the offset of the right column; the two are compared as values of
the type of the right side over the length of the left column. -/
def Satisfies (cols_ : List ColMeta) (record : List Nat) (c : Condition) : Prop :=
  ∃ l_col, get_col cols_ c.lhs_col = some l_col ∧
    ((c.is_rhs_val = true ∧
        c.op.Holds (ix_compare_col (record.drop l_col.offset) c.rhs_val.raw c.rhs_val.type
          l_col.len)) ∨
     (c.is_rhs_val = false ∧ ∃ r_col, get_col cols_ c.rhs_col = some r_col ∧
        c.op.Holds (ix_compare_col (record.drop l_col.offset) (record.drop r_col.offset)
          r_col.type l_col.len)))

/-- The slot `rid` of the file holds a record, and the record satisfies every
condition of the list. -/
def Qualifies (fh : RmFileHandle) (conds_ : List Condition) (cols_ : List ColMeta) (rid : Rid) :
    Prop :=
  ∃ record, fh.get_record rid = some record ∧ ∀ c, c ∈ conds_ → Satisfies cols_ record c

/-- The slot `rid` of the file holds a record, and the record fails one of the
conditions of the list. -/
def Disqualified (fh : RmFileHandle) (conds_ : List Condition) (cols_ : List ColMeta)
    (rid : Rid) : Prop :=
  ∃ record, fh.get_record rid = some record ∧ ∃ c, c ∈ conds_ ∧ ¬Satisfies cols_ record c

/-! # Theorems -/

/-! ## Key comparison -/

theorem colOffset_succ (lens : List Nat) (i : Nat) :
    colOffset lens (i + 1) = lens.headD 0 + colOffset lens.tail i := by
  cases lens with
  | nil => simp [colOffset]
  | cons l ls => simp [colOffset]

theorem getD_succ_tail (lens : List Nat) (i : Nat) :
    lens.getD (i + 1) 0 = lens.tail.getD i 0 := by
  cases lens with
  | nil => simp
  | cons l ls => simp

theorem colResultAt_zero (a b : List Nat) (off : Nat) (t : ColType) (ts : List ColType) (lens : List Nat) :
    colResultAt a b off (t :: ts) lens 0 = ix_compare_col (a.drop off) (b.drop off) t (lens.headD 0) := by
  cases lens <;> simp [colResultAt, colOffset]

theorem colResultAt_succ (a b : List Nat) (off : Nat) (t : ColType) (ts : List ColType) (lens : List Nat)
    (i : Nat) :
    colResultAt a b off (t :: ts) lens (i + 1) = colResultAt a b (off + lens.headD 0) ts lens.tail i := by
  simp only [colResultAt, List.getElem?_cons_succ, colOffset_succ, getD_succ_tail, Nat.add_assoc]

theorem ix_compare_loop_spec (a b : List Nat) :
    ∀ (types : List ColType) (lens : List Nat) (off : Nat),
      (ix_compare_loop a b off types lens = 0 ∧
          ∀ i, i < types.length → colResultAt a b off types lens i = 0) ∨
      ∃ i, i < types.length ∧ colResultAt a b off types lens i ≠ 0 ∧
          ix_compare_loop a b off types lens = colResultAt a b off types lens i ∧
          ∀ j, j < i → colResultAt a b off types lens j = 0 := by
  intro types
  induction types with
  | nil => intro lens off; left; simp [ix_compare_loop]
  | cons t ts ih =>
    intro lens off
    by_cases h : ix_compare_col (a.drop off) (b.drop off) t (lens.headD 0) = 0
    · have hl : ix_compare_loop a b off (t :: ts) lens =
          ix_compare_loop a b (off + lens.headD 0) ts lens.tail := by
        simp only [ix_compare_loop, ne_eq, h, not_true_eq_false, if_false]
      rcases ih lens.tail (off + lens.headD 0) with ⟨h0, hall⟩ | ⟨i, hi, hne, heq, hlt⟩
      · left
        refine ⟨by rw [hl, h0], ?_⟩
        intro i hi
        cases i with
        | zero => rw [colResultAt_zero]; exact h
        | succ i =>
          rw [colResultAt_succ]
          exact hall i (by simpa using hi)
      · right
        refine ⟨i + 1, by simpa using hi, ?_, ?_, ?_⟩
        · rw [colResultAt_succ]; exact hne
        · rw [colResultAt_succ, hl]; exact heq
        · intro j hj
          cases j with
          | zero => rw [colResultAt_zero]; exact h
          | succ j => rw [colResultAt_succ]; exact hlt j (by omega)
    · right
      refine ⟨0, by simp, ?_, ?_, ?_⟩
      · rw [colResultAt_zero]; exact h
      · rw [colResultAt_zero]; simp only [ix_compare_loop, ne_eq, h, not_false_eq_true, if_true]
      · intro j hj; omega

theorem colResultAt_zero_off (a b : List Nat) (types : List ColType) (lens : List Nat) (i : Nat) :
    colResultAt a b 0 types lens i = colResult a b types lens i := by
  simp [colResultAt, colResult]

theorem memcmp_eq_zero_iff : ∀ (n : Nat) (a b : List Nat),
    memcmp a b n = 0 ↔ ∀ i, i < n → byteAt a i = byteAt b i := by
  intro n
  induction n with
  | zero => intro a b; simp [memcmp]
  | succ n ih =>
    intro a b
    have hb : ∀ (l : List Nat) (i : Nat), byteAt l.tail i = byteAt l (i + 1) := by
      intro l i; cases l <;> simp [byteAt]
    by_cases h : byteAt a 0 = byteAt b 0
    · simp only [memcmp, h, if_true]
      rw [ih]
      constructor
      · intro hh i hi
        cases i with
        | zero => exact h
        | succ i => rw [← hb, ← hb]; exact hh i (by omega)
      · intro hh i hi
        rw [hb, hb]; exact hh (i + 1) (by omega)
    · simp only [memcmp, h, if_false]
      constructor
      · intro hh; exfalso; apply h; omega
      · intro hh; exact absurd (hh 0 (by omega)) h

theorem readInt_range (a : List Nat) : -2147483648 ≤ readInt a ∧ readInt a < 2147483648 := by
  have h : ∀ i, byteAt a i < 256 := fun i => Nat.mod_lt _ (by norm_num)
  have h0 := h 0; have h1 := h 1; have h2 := h 2; have h3 := h 3
  unfold readInt readU32
  split <;> constructor <;> omega

theorem byteAt_tail (l : List Nat) (i : Nat) : byteAt l.tail i = byteAt l (i + 1) := by
  cases l <;> simp [byteAt]

theorem memcmp_neg_iff : ∀ (n : Nat) (a b : List Nat),
    memcmp a b n < 0 ↔
      ∃ i, i < n ∧ byteAt a i < byteAt b i ∧ ∀ j, j < i → byteAt a j = byteAt b j := by
  intro n
  induction n with
  | zero => intro a b; simp [memcmp]
  | succ n ih =>
    intro a b
    by_cases h : byteAt a 0 = byteAt b 0
    · simp only [memcmp, h, if_true]
      rw [ih]
      constructor
      · rintro ⟨i, hi, hlt, heq⟩
        refine ⟨i + 1, by omega, ?_, ?_⟩
        · rw [← byteAt_tail, ← byteAt_tail]; exact hlt
        · intro j hj
          cases j with
          | zero => exact h
          | succ j => rw [← byteAt_tail, ← byteAt_tail]; exact heq j (by omega)
      · rintro ⟨i, hi, hlt, heq⟩
        cases i with
        | zero => omega
        | succ i =>
          refine ⟨i, by omega, ?_, ?_⟩
          · rw [byteAt_tail, byteAt_tail]; exact hlt
          · intro j hj; rw [byteAt_tail, byteAt_tail]; exact heq (j + 1) (by omega)
    · simp only [memcmp, h, if_false]
      constructor
      · intro hlt
        exact ⟨0, by omega, by omega, fun j hj => by omega⟩
      · rintro ⟨i, hi, hlt, heq⟩
        cases i with
        | zero => omega
        | succ i => exact absurd (heq 0 (by omega)) h

/-- C8: the multi-column `ix_compare` is lexicographic.  Either it returns 0 and
every column compares equal, or it returns the result of the first column, in
declared order and taken at the running byte offset, whose comparison is not 0;
so it returns 0 exactly when every column compares equal.  An `int` column
compares the signed 32-bit values and gives -1, 0 or 1; a string column
compares as `memcmp` over the declared length: 0 exactly when the bytes agree,
negative exactly when the first differing byte is smaller. -/
theorem ix_compare_lexicographic (a b : List Nat) (col_types : List ColType) (col_lens : List Nat) :
    ((ix_compare a b col_types col_lens = 0 ∧
        ∀ i, i < col_types.length → colResult a b col_types col_lens i = 0) ∨
      ∃ i, i < col_types.length ∧ colResult a b col_types col_lens i ≠ 0 ∧
        ix_compare a b col_types col_lens = colResult a b col_types col_lens i ∧
        ∀ j, j < i → colResult a b col_types col_lens j = 0) ∧
    (ix_compare a b col_types col_lens = 0 ↔
      ∀ i, i < col_types.length → colResult a b col_types col_lens i = 0) ∧
    (∀ (x y : List Nat) (len : Nat),
      ix_compare_col x y ColType.TYPE_INT len =
        (if readInt x < readInt y then -1 else if readInt x > readInt y then 1 else 0) ∧
      -2147483648 ≤ readInt x ∧ readInt x < 2147483648) ∧
    (∀ (x y : List Nat) (len : Nat),
      ix_compare_col x y ColType.TYPE_STRING len = memcmp x y len ∧
      (memcmp x y len = 0 ↔ ∀ i, i < len → byteAt x i = byteAt y i) ∧
      (memcmp x y len < 0 ↔
        ∃ i, i < len ∧ byteAt x i < byteAt y i ∧ ∀ j, j < i → byteAt x j = byteAt y j)) := by
  have hspec := ix_compare_loop_spec a b col_types col_lens 0
  simp only [colResultAt_zero_off] at hspec
  refine ⟨hspec, ?_, ?_, ?_⟩
  · constructor
    · intro h0
      rcases hspec with ⟨_, hall⟩ | ⟨i, hi, hne, heq, _⟩
      · exact hall
      · exact absurd (heq.symm.trans h0) hne
    · intro hall
      rcases hspec with ⟨h0, _⟩ | ⟨i, hi, hne, _, _⟩
      · exact h0
      · exact absurd (hall i hi) hne
  · intro x y len
    exact ⟨rfl, readInt_range x⟩
  · intro x y len
    exact ⟨rfl, memcmp_eq_zero_iff len x y, memcmp_neg_iff len x y⟩

/-! ## Searching a well-formed index -/

theorem memcmp_antisymm : ∀ (n : Nat) (a b : List Nat), memcmp a b n < 0 ↔ 0 < memcmp b a n := by
  intro n
  induction n with
  | zero => intro a b; simp [memcmp]
  | succ n ih =>
    intro a b
    by_cases h : byteAt a 0 = byteAt b 0
    · simp only [memcmp, h, if_true]; exact ih _ _
    · have h2 : ¬byteAt b 0 = byteAt a 0 := fun hc => h hc.symm
      simp only [memcmp, h, h2, if_false]
      omega

theorem memcmp_trans : ∀ (n : Nat) (a b d : List Nat),
    memcmp a b n ≤ 0 → memcmp b d n ≤ 0 → memcmp a d n ≤ 0 := by
  intro n
  induction n with
  | zero => intro a b d; simp [memcmp]
  | succ n ih =>
    intro a b d
    by_cases h1 : byteAt a 0 = byteAt b 0 <;> by_cases h2 : byteAt b 0 = byteAt d 0 <;>
      by_cases h3 : byteAt a 0 = byteAt d 0 <;>
      simp only [memcmp, h1, h2, h3, if_true, if_false]
    · exact ih _ _ _
    · omega
    · omega
    · intro _ _; omega
    · omega
    · intro _ _; omega
    · intro _ _; omega
    · intro _ _; omega

/-! ## Key comparison orders the keys without NaN -/

theorem isOrderOn_lt_of_lt_of_le {P : List Nat → Prop} {c : List Nat → List Nat → Int}
    (ho : IsOrderOn P c) {x y z : List Nat} (hx : P x) (hy : P y) (hz : P z)
    (h1 : c x y < 0) (h2 : c y z ≤ 0) : c x z < 0 := by
  by_contra hc
  have h3 : c z x ≤ 0 := by
    by_contra h; have := (ho.1 x z hx hz).2 (by omega); omega
  have h4 : c y x ≤ 0 := ho.2 y z x hy hz hx h2 h3
  have h5 := (ho.1 x y hx hy).1 h1
  omega

theorem isOrderOn_lt_of_le_of_lt {P : List Nat → Prop} {c : List Nat → List Nat → Int}
    (ho : IsOrderOn P c) {x y z : List Nat} (hx : P x) (hy : P y) (hz : P z)
    (h1 : c x y ≤ 0) (h2 : c y z < 0) : c x z < 0 := by
  by_contra hc
  have h3 : c z x ≤ 0 := by
    by_contra h; have := (ho.1 x z hx hz).2 (by omega); omega
  have h4 : c z y ≤ 0 := ho.2 z x y hz hx hy h3 h1
  have h5 := (ho.1 y z hy hz).1 h2
  omega

theorem isOrderOn_zero_symm {P : List Nat → Prop} {c : List Nat → List Nat → Int}
    (ho : IsOrderOn P c) {x y : List Nat} (hx : P x) (hy : P y) (h : c x y = 0) : c y x = 0 := by
  have h1 := ho.1 x y hx hy
  have h2 := ho.1 y x hy hx
  by_contra hc
  rcases lt_or_gt_of_ne hc with h3 | h3
  · have := h2.1 h3; omega
  · have := h1.2 h3; omega

theorem ix_compare_col_int_order (len : Nat) (a b d : List Nat) :
    (ix_compare_col a b ColType.TYPE_INT len < 0 ↔ 0 < ix_compare_col b a ColType.TYPE_INT len) ∧
    (ix_compare_col a b ColType.TYPE_INT len ≤ 0 → ix_compare_col b d ColType.TYPE_INT len ≤ 0 →
      ix_compare_col a d ColType.TYPE_INT len ≤ 0) := by
  constructor
  · simp only [ix_compare_col]
    split_ifs <;> constructor <;> intro h <;> omega
  · simp only [ix_compare_col]
    split_ifs <;> intro h1 h2 <;> omega

theorem ix_compare_col_float_order (len : Nat) (a b d : List Nat)
    (ha : floatIsNaN (readU32 a) = false) (hb : floatIsNaN (readU32 b) = false)
    (hd : floatIsNaN (readU32 d) = false) :
    (ix_compare_col a b ColType.TYPE_FLOAT len < 0 ↔
      0 < ix_compare_col b a ColType.TYPE_FLOAT len) ∧
    (ix_compare_col a b ColType.TYPE_FLOAT len ≤ 0 →
      ix_compare_col b d ColType.TYPE_FLOAT len ≤ 0 →
      ix_compare_col a d ColType.TYPE_FLOAT len ≤ 0) := by
  constructor
  · simp only [ix_compare_col, floatLt, ha, hb, Bool.not_false, Bool.true_and,
      decide_eq_true_eq]
    split_ifs <;> constructor <;> intro h <;> omega
  · simp only [ix_compare_col, floatLt, ha, hb, hd, Bool.not_false, Bool.true_and,
      decide_eq_true_eq]
    split_ifs <;> intro h1 h2 <;> omega

theorem isOrderOn_col (t : ColType) (len off : Nat) :
    IsOrderOn
      (fun x => (t != ColType.TYPE_FLOAT || !floatIsNaN (readU32 (x.drop off))) = true)
      (fun x y => ix_compare_col (x.drop off) (y.drop off) t len) := by
  cases t with
  | TYPE_INT =>
    exact ⟨fun a b _ _ => (ix_compare_col_int_order len _ _ (a.drop off)).1,
      fun a b d _ _ _ => (ix_compare_col_int_order len _ _ _).2⟩
  | TYPE_FLOAT =>
    have hn : ∀ x : List Nat,
        (ColType.TYPE_FLOAT != ColType.TYPE_FLOAT || !floatIsNaN (readU32 (x.drop off))) = true →
          floatIsNaN (readU32 (x.drop off)) = false := by
      intro x hx
      simpa using hx
    exact ⟨fun a b ha hb => (ix_compare_col_float_order len _ _ (a.drop off) (hn a ha) (hn b hb)
        (hn a ha)).1,
      fun a b d ha hb hd => (ix_compare_col_float_order len _ _ _ (hn a ha) (hn b hb)
        (hn d hd)).2⟩
  | TYPE_STRING =>
    exact ⟨fun a b _ _ => memcmp_antisymm len _ _, fun a b d _ _ _ => memcmp_trans len _ _ _⟩

theorem isOrderOn_loop : ∀ (types : List ColType) (lens : List Nat) (off : Nat),
    IsOrderOn (fun x => cleanLoop x off types lens = true)
      (fun x y => ix_compare_loop x y off types lens) := by
  intro types
  induction types with
  | nil => intro lens off; constructor <;> simp [ix_compare_loop]
  | cons t ts ih =>
    intro lens off
    have hc := isOrderOn_col t (lens.headD 0) off
    have hr := ih lens.tail (off + lens.headD 0)
    have hunf : ∀ x y, ix_compare_loop x y off (t :: ts) lens =
        if ix_compare_col (x.drop off) (y.drop off) t (lens.headD 0) ≠ 0 then
          ix_compare_col (x.drop off) (y.drop off) t (lens.headD 0)
        else ix_compare_loop x y (off + lens.headD 0) ts lens.tail := fun x y => rfl
    have hsplit : ∀ x, cleanLoop x off (t :: ts) lens = true →
        (t != ColType.TYPE_FLOAT || !floatIsNaN (readU32 (x.drop off))) = true ∧
          cleanLoop x (off + lens.headD 0) ts lens.tail = true := by
      intro x hx
      simpa only [cleanLoop, Bool.and_eq_true] using hx
    constructor
    · intro a b ha hb
      obtain ⟨ha1, ha2⟩ := hsplit a ha
      obtain ⟨hb1, hb2⟩ := hsplit b hb
      show ix_compare_loop a b off (t :: ts) lens < 0 ↔ 0 < ix_compare_loop b a off (t :: ts) lens
      rw [hunf a b, hunf b a]
      have h1 := hc.1 a b ha1 hb1
      have h2 := hc.1 b a hb1 ha1
      have h3 := hr.1 a b ha2 hb2
      simp only [] at h1 h2 h3
      split_ifs with p q q
      · omega
      · omega
      · omega
      · exact h3
    · intro a b d ha hb hd
      obtain ⟨ha1, ha2⟩ := hsplit a ha
      obtain ⟨hb1, hb2⟩ := hsplit b hb
      obtain ⟨hd1, hd2⟩ := hsplit d hd
      show ix_compare_loop a b off (t :: ts) lens ≤ 0 → ix_compare_loop b d off (t :: ts) lens ≤ 0 →
        ix_compare_loop a d off (t :: ts) lens ≤ 0
      rw [hunf a b, hunf b d, hunf a d]
      intro hab hbd
      by_cases p : ix_compare_col (a.drop off) (b.drop off) t (lens.headD 0) = 0
      · by_cases q : ix_compare_col (b.drop off) (d.drop off) t (lens.headD 0) = 0
        · have h1 : ix_compare_col (a.drop off) (d.drop off) t (lens.headD 0) ≤ 0 :=
            hc.2 a b d ha1 hb1 hd1 (by simp only []; omega) (by simp only []; omega)
          have h2 : ix_compare_col (d.drop off) (a.drop off) t (lens.headD 0) ≤ 0 :=
            hc.2 d b a hd1 hb1 ha1
              (by have := isOrderOn_zero_symm hc hb1 hd1 q; simp only [] at this ⊢; omega)
              (by have := isOrderOn_zero_symm hc ha1 hb1 p; simp only [] at this ⊢; omega)
          have h3 : ix_compare_col (a.drop off) (d.drop off) t (lens.headD 0) = 0 := by
            have := hc.1 a d ha1 hd1
            simp only [] at this
            omega
          simp only [p, q, h3, ne_eq, not_true_eq_false, if_false] at hab hbd ⊢
          exact hr.2 a b d ha2 hb2 hd2 hab hbd
        · simp only [p, q, ne_eq, not_true_eq_false, not_false_eq_true, if_false, if_true] at hab hbd
          have h1 : ix_compare_col (a.drop off) (d.drop off) t (lens.headD 0) < 0 :=
            isOrderOn_lt_of_le_of_lt hc (x := a) (y := b) (z := d) ha1 hb1 hd1 (by omega) (by omega)
          have h2 : ix_compare_col (a.drop off) (d.drop off) t (lens.headD 0) ≠ 0 := by omega
          simp only [h2, ne_eq, not_false_eq_true, if_true]
          omega
      · simp only [p, ne_eq, not_false_eq_true, if_true] at hab
        have hbd2 : ix_compare_col (b.drop off) (d.drop off) t (lens.headD 0) ≤ 0 := by
          by_cases q : ix_compare_col (b.drop off) (d.drop off) t (lens.headD 0) = 0
          · omega
          · simp only [q, ne_eq, not_false_eq_true, if_true] at hbd; exact hbd
        have h1 : ix_compare_col (a.drop off) (d.drop off) t (lens.headD 0) < 0 :=
          isOrderOn_lt_of_lt_of_le hc (x := a) (y := b) (z := d) ha1 hb1 hd1 (by omega) hbd2
        have h2 : ix_compare_col (a.drop off) (d.drop off) t (lens.headD 0) ≠ 0 := by omega
        simp only [h2, ne_eq, not_false_eq_true, if_true]
        omega

theorem keyCmp_orders_clean (f : IxFileHdr) : IsOrderOn (CleanKey f) (keyCmp f) :=
  isOrderOn_loop f.col_types_ f.col_lens_ 0

theorem cleanLoop_of_no_float (a : List Nat) : ∀ (types : List ColType),
    ColType.TYPE_FLOAT ∉ types → ∀ (lens : List Nat) (off : Nat),
      cleanLoop a off types lens = true := by
  intro types
  induction types with
  | nil => intro _ lens off; rfl
  | cons t ts ih =>
    intro hmem lens off
    have ht : t ≠ ColType.TYPE_FLOAT := fun hc => hmem (by simp [hc])
    have hts : ColType.TYPE_FLOAT ∉ ts := fun hc => hmem (by simp [hc])
    simp only [cleanLoop, Bool.and_eq_true, Bool.or_eq_true, bne_iff_ne, ne_eq]
    exact ⟨Or.inl ht, ih hts _ _⟩

theorem cleanKey_of_no_float (f : IxFileHdr) (hf : ColType.TYPE_FLOAT ∉ f.col_types_)
    (a : List Nat) : CleanKey f a :=
  cleanLoop_of_no_float a f.col_types_ hf f.col_lens_ 0

/-! ## Order facts for key comparison -/

theorem keyCmp_ge_of_le {f : IxFileHdr} {a b : List Nat} (ha : CleanKey f a) (hb : CleanKey f b)
    (h : keyCmp f a b ≤ 0) : 0 ≤ keyCmp f b a := by
  by_contra hc
  have h1 : keyCmp f b a < 0 := by omega
  have h2 := ((keyCmp_orders_clean f).1 b a hb ha).1 h1
  omega

theorem keyCmp_le_of_ge {f : IxFileHdr} {a b : List Nat} (ha : CleanKey f a) (hb : CleanKey f b)
    (h : 0 ≤ keyCmp f a b) : keyCmp f b a ≤ 0 := by
  by_contra hc
  have h1 : 0 < keyCmp f b a := by omega
  have h2 := ((keyCmp_orders_clean f).1 a b ha hb).2 h1
  omega

theorem keyCmp_trans {f : IxFileHdr} {a b c : List Nat} (ha : CleanKey f a) (hb : CleanKey f b)
    (hc : CleanKey f c) (h1 : keyCmp f a b ≤ 0) (h2 : keyCmp f b c ≤ 0) : keyCmp f a c ≤ 0 :=
  (keyCmp_orders_clean f).2 a b c ha hb hc h1 h2

theorem keyCmp_lt_of_lt_of_le {f : IxFileHdr} {a b c : List Nat} (ha : CleanKey f a)
    (hb : CleanKey f b) (hc : CleanKey f c)
    (h1 : keyCmp f a b < 0) (h2 : keyCmp f b c ≤ 0) : keyCmp f a c < 0 :=
  isOrderOn_lt_of_lt_of_le (keyCmp_orders_clean f) ha hb hc h1 h2

theorem keyCmp_lt_of_le_of_lt {f : IxFileHdr} {a b c : List Nat} (ha : CleanKey f a)
    (hb : CleanKey f b) (hc : CleanKey f c)
    (h1 : keyCmp f a b ≤ 0) (h2 : keyCmp f b c < 0) : keyCmp f a c < 0 :=
  isOrderOn_lt_of_le_of_lt (keyCmp_orders_clean f) ha hb hc h1 h2

theorem keyCmp_symm_zero {f : IxFileHdr} {a b : List Nat} (ha : CleanKey f a)
    (hb : CleanKey f b) (h : keyCmp f a b = 0) : keyCmp f b a = 0 :=
  isOrderOn_zero_symm (keyCmp_orders_clean f) ha hb h

/-! ## The binary search of a node -/

theorem goesRight_mono {f : IxFileHdr} (target : List Nat) (op : operators)
    {a b : List Nat} (ht : CleanKey f target) (ha : CleanKey f a) (hb : CleanKey f b)
    (hab : keyCmp f a b < 0) (hgo : goesRight f target op b) :
    goesRight f target op a := by
  have h1 : keyCmp f b target ≤ 0 := keyCmp_le_of_ge ht hb hgo.1
  have h2 : keyCmp f a target < 0 := keyCmp_lt_of_lt_of_le ha hb ht hab h1
  have h3 := ((keyCmp_orders_clean f).1 a target ha ht).1 h2
  exact ⟨by omega, fun hc => by omega⟩

theorem halfFindLoop_spec {f : IxFileHdr} (n : IxNode) (hs : NodeSorted f n)
    (hcn : CleanNode f n) (target : List Nat) (ht : CleanKey f target) (op : operators) :
    ∀ (fuel left right : Nat), left ≤ right → right ≤ n.num_key → right - left ≤ fuel →
      (∀ i x, i < left → n.keys[i]? = some x → goesRight f target op x) →
      (∀ i x, right ≤ i → i < n.num_key → n.keys[i]? = some x → ¬goesRight f target op x) →
      ∃ r, IxNode.halfFindLoop f n target op fuel left right = some r ∧ r ≤ n.num_key ∧
        (∀ i x, i < r → n.keys[i]? = some x → goesRight f target op x) ∧
        (∀ i x, r ≤ i → i < n.num_key → n.keys[i]? = some x → ¬goesRight f target op x) := by
  intro fuel
  induction fuel with
  | zero =>
    intro left right hlr hrn hfuel hL hR
    have : left = right := by omega
    subst this
    refine ⟨left, ?_, hrn, hL, hR⟩
    simp [IxNode.halfFindLoop]
  | succ fuel ih =>
    intro left right hlr hrn hfuel hL hR
    by_cases hlt : left < right
    · have hmid : (left + right) / 2 < n.num_key := by omega
      have hlen : (left + right) / 2 < n.keys.length := by have := hs.1; omega
      obtain ⟨k, hk⟩ : ∃ k, n.keys[(left + right) / 2]? = some k :=
        ⟨n.keys[(left + right) / 2], List.getElem?_eq_getElem hlen⟩
      have hgk : n.get_key ((left + right) / 2) = some k := hk
      have hkc : CleanKey f k := hcn _ k hmid hk
      by_cases hgo : goesRight f target op k
      · -- continue in (mid, right)
        have hstep : IxNode.halfFindLoop f n target op (fuel + 1) left right =
            IxNode.halfFindLoop f n target op fuel ((left + right) / 2 + 1) right := by
          have h1 : 0 ≤ ix_compare target k f.col_types_ f.col_lens_ := hgo.1
          have h2 : ¬(op = operators.LOWER ∧ ix_compare target k f.col_types_ f.col_lens_ = 0) := hgo.2
          simp only [IxNode.halfFindLoop, hlt, if_true, hgk, ge_iff_le, h1, h2, if_false]
        rw [hstep]
        apply ih ((left + right) / 2 + 1) right (by omega) hrn (by omega) _ hR
        intro i x hi hx
        by_cases him : i = (left + right) / 2
        · subst him; rw [hk] at hx; cases hx; exact hgo
        · exact goesRight_mono target op ht (hcn i x (by omega) hx) hkc
            (hs.2.2 i ((left + right) / 2) x k (by omega) hmid hx hk) hgo
      · -- continue in (left, mid)
        have hstep : IxNode.halfFindLoop f n target op (fuel + 1) left right =
            IxNode.halfFindLoop f n target op fuel left ((left + right) / 2) := by
          unfold goesRight keyCmp at hgo
          by_cases h1 : 0 ≤ ix_compare target k f.col_types_ f.col_lens_
          · have h2 : op = operators.LOWER ∧ ix_compare target k f.col_types_ f.col_lens_ = 0 := by
              by_contra hc; exact hgo ⟨h1, hc⟩
            simp only [IxNode.halfFindLoop, hlt, if_true, hgk, ge_iff_le, h1, h2, and_self, ite_self]
          · simp only [IxNode.halfFindLoop, hlt, if_true, hgk, ge_iff_le, h1, if_false]
        rw [hstep]
        apply ih left ((left + right) / 2) (by omega) (by omega) (by omega) hL
        intro i x hi hin hx
        by_cases him : i = (left + right) / 2
        · subst him; rw [hk] at hx; cases hx; exact hgo
        · intro hc
          exact hgo (goesRight_mono target op ht hkc (hcn i x hin hx)
            (hs.2.2 ((left + right) / 2) i k x (by omega) hin hk hx) hc)
    · have : left = right := by omega
      subst this
      refine ⟨left, ?_, hrn, hL, hR⟩
      simp [IxNode.halfFindLoop]

theorem halfFind_spec {f : IxFileHdr} (n : IxNode) (hs : NodeSorted f n) (hcn : CleanNode f n)
    (target : List Nat) (ht : CleanKey f target) (op : operators) :
    ∃ r, IxNode.halfFind f n target op = some r ∧ r ≤ n.num_key ∧
      (∀ i x, i < r → n.keys[i]? = some x → goesRight f target op x) ∧
      (∀ i x, r ≤ i → i < n.num_key → n.keys[i]? = some x → ¬goesRight f target op x) := by
  unfold IxNode.halfFind
  apply halfFindLoop_spec n hs hcn target ht op n.num_key 0 n.num_key (by omega) (by omega)
    (by omega)
  · intro i x hi; omega
  · intro i x hi hi2; omega

theorem lower_upper_spec {f : IxFileHdr} (n : IxNode) (hs : NodeSorted f n)
    (hcn : CleanNode f n) (k : List Nat) (hkc : CleanKey f k) :
    ∃ rl ru, IxNode.lower_bound f n k = some rl ∧ IxNode.upper_bound f n k = some ru ∧
      rl ≤ ru ∧ ru ≤ n.num_key ∧ (rl = ru ↔ ¬InNode f n k) := by
  obtain ⟨rl, hrl, hrln, hl1, hl2⟩ := halfFind_spec n hs hcn k hkc operators.LOWER
  obtain ⟨ru, hru, hrun, hu1, hu2⟩ := halfFind_spec n hs hcn k hkc operators.UPPER
  have hkey : ∀ i, i < n.num_key → ∃ x, n.keys[i]? = some x := fun i hi =>
    ⟨n.keys.get ⟨i, by have := hs.1; omega⟩, List.getElem?_eq_getElem _⟩
  -- readings of the four facts
  have L1 : ∀ i x, i < rl → n.keys[i]? = some x → 0 < keyCmp f k x := by
    intro i x hi hx
    have h := hl1 i x hi hx
    have h1 := h.1
    have h2 : keyCmp f k x ≠ 0 := fun hc => h.2 ⟨rfl, hc⟩
    omega
  have L2 : ∀ i x, rl ≤ i → i < n.num_key → n.keys[i]? = some x → keyCmp f k x ≤ 0 := by
    intro i x hi hin hx
    have h := hl2 i x hi hin hx
    by_contra hc
    exact h ⟨by omega, fun hh => by omega⟩
  have U1 : ∀ i x, i < ru → n.keys[i]? = some x → 0 ≤ keyCmp f k x :=
    fun i x hi hx => (hu1 i x hi hx).1
  have U2 : ∀ i x, ru ≤ i → i < n.num_key → n.keys[i]? = some x → keyCmp f k x < 0 := by
    intro i x hi hin hx
    have h := hu2 i x hi hin hx
    by_contra hc
    exact h ⟨by omega, fun hh => by cases hh.1⟩
  have hle : rl ≤ ru := by
    by_contra hc
    obtain ⟨x, hx⟩ := hkey ru (by omega)
    have h1 := L1 ru x (by omega) hx
    have h2 := U2 ru x (le_refl _) (by omega) hx
    omega
  refine ⟨rl, ru, hrl, hru, hle, hrun, ?_, ?_⟩
  · rintro heq ⟨i, x, hi, hx, hc⟩
    by_cases hil : i < rl
    · have := L1 i x hil hx; omega
    · have := U2 i x (by omega) hi hx; omega
  · intro hnot
    by_contra hne
    obtain ⟨x, hx⟩ := hkey rl (by omega)
    have h1 := U1 rl x (by omega) hx
    have h2 := L2 rl x (le_refl _) (by omega) hx
    exact hnot ⟨rl, x, by omega, hx, by omega⟩

theorem upper_bound_routes {f : IxFileHdr} (n : IxNode) (hs : NodeSorted f n)
    (hcn : CleanNode f n) (hpos : 0 < n.num_key) (k : List Nat) (hkc : CleanKey f k) :
    ∃ ru r, IxNode.upper_bound f n k = some ru ∧
      (if ru ≠ 0 then ru - 1 else ru) < n.num_key ∧
      n.rids[(if ru ≠ 0 then ru - 1 else ru)]? = some r ∧
      IxNode.internal_lookup f n k = some r.page_no ∧
      ∀ i, i < n.num_key → InBounds f (if i = 0 then none else n.keys[i]?)
          (if i + 1 < n.num_key then n.keys[i + 1]? else none) k →
        i = (if ru ≠ 0 then ru - 1 else ru) := by
  obtain ⟨ru, hru, hrun, hu1, hu2⟩ := halfFind_spec n hs hcn k hkc operators.UPPER
  have hidx : (if ru ≠ 0 then ru - 1 else ru) < n.num_key := by split <;> omega
  have hlen : (if ru ≠ 0 then ru - 1 else ru) < n.rids.length := by have := hs.2.1; omega
  refine ⟨ru, n.rids[(if ru ≠ 0 then ru - 1 else ru)], hru, hidx, List.getElem?_eq_getElem hlen, ?_, ?_⟩
  · have hru2 : IxNode.upper_bound f n k = some ru := hru
    simp only [IxNode.internal_lookup, hru2, IxNode.value_at, IxNode.get_rid,
      List.getElem?_eq_getElem hlen, Option.map_some']
  · intro i hi hb
    have hkey : ∀ j, j < n.num_key → ∃ x, n.keys[j]? = some x := fun j hj =>
      ⟨n.keys.get ⟨j, by have := hs.1; omega⟩, List.getElem?_eq_getElem _⟩
    have U2 : ∀ j x, ru ≤ j → j < n.num_key → n.keys[j]? = some x → keyCmp f k x < 0 := by
      intro j x hj hjn hx
      have h := hu2 j x hj hjn hx
      by_contra hc
      exact h ⟨by omega, fun hh => by cases hh.1⟩
    have hup : ru ≤ i + 1 := by
      by_cases hlast : i + 1 < n.num_key
      · obtain ⟨x, hx⟩ := hkey (i + 1) hlast
        have h1 : keyCmp f k x < 0 := hb.2 x (by simp [hlast, hx])
        by_contra hc
        have := (hu1 (i + 1) x (by omega) hx).1
        omega
      · omega
    by_cases hi0 : i = 0
    · subst hi0; split <;> omega
    · obtain ⟨x, hx⟩ := hkey i hi
      have h1 : keyCmp f x k ≤ 0 := hb.1 x (by simp [hi0, hx])
      have h2 : 0 ≤ keyCmp f k x := keyCmp_ge_of_le (hcn i x hi hx) hkc h1
      have hlow : i + 1 ≤ ru := by
        by_contra hc
        have := U2 i x (by omega) hi hx
        omega
      split <;> omega

/-! ## Descent to a leaf -/

theorem find_leaf_page_loop_step (key : List Nat) (fuel : Nat) (page_no : Int) (h : IxIndexHandle)
    (n : IxNode) (hn : h.pages.lookup page_no = some n) :
    IxIndexHandle.find_leaf_page_loop key (fuel + 1) page_no h =
      if n.is_leaf then some (page_no, h)
      else match n.internal_lookup h.file_hdr_ key with
        | none => none
        | some c => IxIndexHandle.find_leaf_page_loop key fuel c h := by
  cases hl : n.is_leaf
  · cases hi : n.internal_lookup h.file_hdr_ key <;>
      simp [IxIndexHandle.find_leaf_page_loop, bind, IxM.bind, IxIndexHandle.fetch_node, hn, hl,
        IxIndexHandle.hdr, IxIndexHandle.liftOpt, hi]
  · simp [IxIndexHandle.find_leaf_page_loop, bind, IxM.bind, IxIndexHandle.fetch_node, hn, hl,
      pure, IxM.pure]

theorem inBounds_of_equal {f : IxFileHdr} {lo hi : Option (List Nat)}
    {x k : List Nat} (hlo : ∀ l, lo = some l → CleanKey f l) (hhi : ∀ u, hi = some u → CleanKey f u)
    (hxc : CleanKey f x) (hkc : CleanKey f k)
    (hx : InBounds f lo hi x) (hk : keyCmp f k x = 0) : InBounds f lo hi k := by
  constructor
  · intro l hl
    exact keyCmp_trans (hlo l hl) hxc hkc (hx.1 l hl)
      (by have := keyCmp_symm_zero hkc hxc hk; omega)
  · intro u hu
    exact keyCmp_lt_of_le_of_lt hkc hxc (hhi u hu) (by omega) (hx.2 u hu)

theorem stored_inBounds (h : IxIndexHandle) (hci : CleanIndex h) (k : List Nat)
    (hkc : CleanKey h.file_hdr_ k) :
    ∀ (d : Nat) (page_no : Int) (lo hi : Option (List Nat)),
      (∀ l, lo = some l → CleanKey h.file_hdr_ l) → (∀ u, hi = some u → CleanKey h.file_hdr_ u) →
      WFSub h d page_no lo hi →
      ∀ fuel, StoredSub h k fuel page_no → InBounds h.file_hdr_ lo hi k := by
  intro d
  induction d with
  | zero =>
    intro page_no lo hi hlo hhi hwf fuel hst
    obtain ⟨n, hn, hleaf, hs, hb⟩ := hwf
    cases fuel with
    | zero => exact absurd hst (by simp [StoredSub])
    | succ fuel =>
      obtain ⟨n2, hn2, hcase⟩ := hst
      rw [hn] at hn2; cases hn2
      rcases hcase with ⟨_, i, x, hi, hx, hc⟩ | ⟨hfalse, _⟩
      · exact inBounds_of_equal hlo hhi (hci page_no n hn i x hi hx) hkc (hb i x hi hx) hc
      · rw [hleaf] at hfalse; cases hfalse
  | succ d ih =>
    intro page_no lo up hlo hhi hwf fuel hst
    obtain ⟨n, hn, hleaf, hpos, hs, hsep, hch⟩ := hwf
    have hcn : CleanNode h.file_hdr_ n := hci page_no n hn
    have hkey : ∀ j, j < n.num_key → ∃ x, n.keys[j]? = some x := fun j hj =>
      ⟨n.keys.get ⟨j, by have := hs.1; omega⟩, List.getElem?_eq_getElem _⟩
    cases fuel with
    | zero => exact absurd hst (by simp [StoredSub])
    | succ fuel =>
      obtain ⟨n2, hn2, hcase⟩ := hst
      rw [hn] at hn2; cases hn2
      rcases hcase with ⟨htrue, _⟩ | ⟨_, i, r, hi, hr, hsub⟩
      · rw [hleaf] at htrue; cases htrue
      · have hlo2 : ∀ l, (if i = 0 then lo else n.keys[i]?) = some l → CleanKey h.file_hdr_ l := by
          intro l hl
          by_cases hi0 : i = 0
          · rw [if_pos hi0] at hl
            exact hlo l hl
          · rw [if_neg hi0] at hl
            exact hcn i l hi hl
        have hhi2 : ∀ u, (if i + 1 < n.num_key then n.keys[i + 1]? else up) = some u →
            CleanKey h.file_hdr_ u := by
          intro u hu
          by_cases hlast : i + 1 < n.num_key
          · rw [if_pos hlast] at hu
            exact hcn (i + 1) u hlast hu
          · rw [if_neg hlast] at hu
            exact hhi u hu
        have hb := ih r.page_no _ _ hlo2 hhi2 (hch i r hi hr) fuel hsub
        constructor
        · intro l hl
          by_cases hi0 : i = 0
          · exact hb.1 l (by simp [hi0, hl])
          · obtain ⟨x, hx⟩ := hkey i hi
            have h1 := (hsep i x (by omega) hi hx).1 l hl
            have h2 := hb.1 x (by simp [hi0, hx])
            exact keyCmp_trans (hlo l hl) (hcn i x hi hx) hkc h1 h2
        · intro u hu
          by_cases hlast : i + 1 < n.num_key
          · obtain ⟨y, hy⟩ := hkey (i + 1) hlast
            have h1 := (hsep (i + 1) y (by omega) hlast hy).2 u hu
            have h2 := hb.2 y (by simp [hlast, hy])
            exact keyCmp_lt_of_lt_of_le hkc (hcn (i + 1) y hlast hy) (hhi u hu) h2 (by omega)
          · exact hb.2 u (by simp [hlast, hu])

theorem find_leaf_page_loop_spec (h : IxIndexHandle) (hci : CleanIndex h) (k : List Nat)
    (hkc : CleanKey h.file_hdr_ k) :
    ∀ (d : Nat) (page_no : Int) (lo hi : Option (List Nat)), WFSub h d page_no lo hi →
      ∀ fuel, d < fuel →
        ∃ leaf n, IxIndexHandle.find_leaf_page_loop k fuel page_no h = some (leaf, h) ∧
          h.pages.lookup leaf = some n ∧ NodeSorted h.file_hdr_ n ∧
          (∀ fuel2, StoredSub h k fuel2 page_no → InNode h.file_hdr_ n k) ∧
          (InNode h.file_hdr_ n k → StoredSub h k (d + 1) page_no) := by
  intro d
  induction d with
  | zero =>
    intro page_no lo hi hwf fuel hfuel
    obtain ⟨n, hn, hleaf, hs, hb⟩ := hwf
    obtain ⟨fuel, rfl⟩ : ∃ g, fuel = g + 1 := ⟨fuel - 1, by omega⟩
    refine ⟨page_no, n, ?_, hn, hs, ?_, ?_⟩
    · rw [find_leaf_page_loop_step k fuel page_no h n hn, hleaf]; rfl
    · intro fuel2 hst
      cases fuel2 with
      | zero => exact absurd hst (by simp [StoredSub])
      | succ fuel2 =>
        obtain ⟨n2, hn2, hcase⟩ := hst
        rw [hn] at hn2; cases hn2
        rcases hcase with ⟨_, hin⟩ | ⟨hfalse, _⟩
        · exact hin
        · rw [hleaf] at hfalse; cases hfalse
    · intro hin
      exact ⟨n, hn, Or.inl ⟨hleaf, hin⟩⟩
  | succ d ih =>
    intro page_no lo hi hwf fuel hfuel
    obtain ⟨n, hn, hleaf, hpos, hs, hsep, hch⟩ := hwf
    have hcn : CleanNode h.file_hdr_ n := hci page_no n hn
    obtain ⟨fuel, rfl⟩ : ∃ g, fuel = g + 1 := ⟨fuel - 1, by omega⟩
    obtain ⟨ru, r, hru, hidx, hr, hlook, huniq⟩ := upper_bound_routes n hs hcn hpos k hkc
    have hchild := hch _ r hidx hr
    obtain ⟨leaf, m, hfind, hm, hms, hin1, hin2⟩ := ih r.page_no _ _ hchild fuel (by omega)
    refine ⟨leaf, m, ?_, hm, hms, ?_, ?_⟩
    · rw [find_leaf_page_loop_step k fuel page_no h n hn, hleaf]
      simp only [Bool.false_eq_true, if_false, hlook]
      exact hfind
    · intro fuel2 hst
      cases fuel2 with
      | zero => exact absurd hst (by simp [StoredSub])
      | succ fuel2 =>
        obtain ⟨n2, hn2, hcase⟩ := hst
        rw [hn] at hn2; cases hn2
        rcases hcase with ⟨htrue, _⟩ | ⟨_, i, r2, hi, hr2, hsub⟩
        · rw [hleaf] at htrue; cases htrue
        · have hb2 : InBounds h.file_hdr_ (if i = 0 then none else n.keys[i]?)
              (if i + 1 < n.num_key then n.keys[i + 1]? else none) k := by
            -- the subtree of child `i` is also a search tree for the range cut
            -- by the keys of this node alone
            have hsub2 : ∀ (d2 : Nat) (q : Int) (lo2 hi2 lo3 hi3 : Option (List Nat)),
                (∀ l, lo3 = some l → lo2 = some l) → (∀ u, hi3 = some u → hi2 = some u) →
                WFSub h d2 q lo2 hi2 → WFSub h d2 q lo3 hi3 := by
              intro d2
              induction d2 with
              | zero =>
                intro q lo2 hi2 lo3 hi3 hl hu hw
                obtain ⟨n3, hn3, hleaf3, hs3, hb3⟩ := hw
                refine ⟨n3, hn3, hleaf3, hs3, ?_⟩
                intro j x hj hx
                exact ⟨fun l hl3 => (hb3 j x hj hx).1 l (hl l hl3),
                  fun u hu3 => (hb3 j x hj hx).2 u (hu u hu3)⟩
              | succ d2 ih2 =>
                intro q lo2 hi2 lo3 hi3 hl hu hw
                obtain ⟨n3, hn3, hleaf3, hpos3, hs3, hsep3, hch3⟩ := hw
                refine ⟨n3, hn3, hleaf3, hpos3, hs3, ?_, ?_⟩
                · intro j x hj0 hj hx
                  exact ⟨fun l hl3 => (hsep3 j x hj0 hj hx).1 l (hl l hl3),
                    fun u hu3 => (hsep3 j x hj0 hj hx).2 u (hu u hu3)⟩
                · intro j r3 hj hr3
                  apply ih2 r3.page_no _ _ _ _ _ _ (hch3 j r3 hj hr3)
                  · intro l hl3
                    by_cases hj0 : j = 0
                    · rw [if_pos hj0] at hl3 ⊢
                      exact hl l hl3
                    · rw [if_neg hj0] at hl3 ⊢
                      exact hl3
                  · intro u hu3
                    by_cases hjl : j + 1 < n3.num_key
                    · rw [if_pos hjl] at hu3 ⊢
                      exact hu3
                    · rw [if_neg hjl] at hu3 ⊢
                      exact hu u hu3
            have hw2 : WFSub h d r2.page_no (if i = 0 then none else n.keys[i]?)
                (if i + 1 < n.num_key then n.keys[i + 1]? else none) := by
              apply hsub2 d r2.page_no _ _ _ _ _ _ (hch i r2 hi hr2)
              · intro l hl
                by_cases hi0 : i = 0
                · rw [if_pos hi0] at hl; cases hl
                · rw [if_neg hi0] at hl ⊢
                  exact hl
              · intro u hu
                by_cases hlast : i + 1 < n.num_key
                · rw [if_pos hlast] at hu ⊢
                  exact hu
                · rw [if_neg hlast] at hu; cases hu
            apply stored_inBounds h hci k hkc d r2.page_no _ _ _ _ hw2 fuel2 hsub
            · intro l hl
              by_cases hi0 : i = 0
              · rw [if_pos hi0] at hl; cases hl
              · rw [if_neg hi0] at hl
                exact hcn i l hi hl
            · intro u hu
              by_cases hlast : i + 1 < n.num_key
              · rw [if_pos hlast] at hu
                exact hcn (i + 1) u hlast hu
              · rw [if_neg hlast] at hu; cases hu
          have hieq := huniq i hi hb2
          subst hieq
          rw [hr] at hr2; cases hr2
          exact hin1 fuel2 hsub
    · intro hin
      exact ⟨n, hn, Or.inr ⟨hleaf, _, r, hidx, hr, hin2 hin⟩⟩

/-! ## The iterator positions of the index -/

theorem index_lower_bound_eval (h : IxIndexHandle) (k : List Nat) (leaf : Int) (n m : IxNode)
    (rl : Nat)
    (hfind : IxIndexHandle.find_leaf_page_loop k (h.pages.length + 1) h.file_hdr_.root_page_ h =
      some (leaf, h))
    (hn : h.pages.lookup leaf = some n) (hm : h.pages.lookup h.file_hdr_.last_leaf_ = some m)
    (hrl : IxNode.lower_bound h.file_hdr_ n k = some rl) :
    IxIndexHandle.lower_bound k h =
      some (if rl = n.num_key then ⟨h.file_hdr_.last_leaf_, m.num_key⟩ else ⟨leaf, rl⟩, h) := by
  by_cases hc : rl = n.num_key
  · simp [IxIndexHandle.lower_bound, IxIndexHandle.find_leaf_page, bind, IxM.bind, IxM.handle,
      hfind, IxIndexHandle.fetch_node, hn, hm, IxIndexHandle.hdr, IxIndexHandle.liftOpt, hrl,
      IxNode.get_size, hc, IxIndexHandle.leaf_end, pure, IxM.pure]
  · simp [IxIndexHandle.lower_bound, IxIndexHandle.find_leaf_page, bind, IxM.bind, IxM.handle,
      hfind, IxIndexHandle.fetch_node, hn, IxIndexHandle.hdr, IxIndexHandle.liftOpt, hrl,
      IxNode.get_size, hc, pure, IxM.pure]

theorem index_upper_bound_eval (h : IxIndexHandle) (k : List Nat) (leaf : Int) (n m : IxNode)
    (ru : Nat)
    (hfind : IxIndexHandle.find_leaf_page_loop k (h.pages.length + 1) h.file_hdr_.root_page_ h =
      some (leaf, h))
    (hn : h.pages.lookup leaf = some n) (hm : h.pages.lookup h.file_hdr_.last_leaf_ = some m)
    (hru : IxNode.upper_bound h.file_hdr_ n k = some ru) :
    IxIndexHandle.upper_bound k h =
      some (if ru = n.num_key then ⟨h.file_hdr_.last_leaf_, m.num_key⟩ else ⟨leaf, ru⟩, h) := by
  by_cases hc : ru = n.num_key
  · simp [IxIndexHandle.upper_bound, IxIndexHandle.find_leaf_page, bind, IxM.bind, IxM.handle,
      hfind, IxIndexHandle.fetch_node, hn, hm, IxIndexHandle.hdr, IxIndexHandle.liftOpt, hru,
      IxNode.get_size, hc, IxIndexHandle.leaf_end, pure, IxM.pure]
  · simp [IxIndexHandle.upper_bound, IxIndexHandle.find_leaf_page, bind, IxM.bind, IxM.handle,
      hfind, IxIndexHandle.fetch_node, hn, IxIndexHandle.hdr, IxIndexHandle.liftOpt, hru,
      IxNode.get_size, hc, pure, IxM.pure]

/-- C4 (amended): in a well-formed, non-empty index whose keys in use hold no NaN
in a `float` column, for every key `k` without NaN in a `float` column (every
key, when the layout has no `float` column): `lower_bound(k)` and
`upper_bound(k)` both return a position without changing the index, and the
two positions are the same `Iid` if and only if `k` is not stored in the index,
that is, no leaf holds a key in use that compares equal to `k`. -/
theorem lower_bound_eq_upper_bound_iff_absent (h : IxIndexHandle) (k : List Nat)
    (hclean : CleanIndex h) (hk : CleanKey h.file_hdr_ k) (hwf : WellFormed h) :
    ∃ lower upper, IxIndexHandle.lower_bound k h = some (lower, h) ∧
      IxIndexHandle.upper_bound k h = some (upper, h) ∧
      (lower = upper ↔ ¬Stored h k) := by
  obtain ⟨⟨d, hd, hsub⟩, m, hm⟩ := hwf
  obtain ⟨leaf, n, hfind, hn, hs, hin1, hin2⟩ :=
    find_leaf_page_loop_spec h hclean k hk d _ _ _ hsub (h.pages.length + 1) (by omega)
  obtain ⟨rl, ru, hrl, hru, hle, hrun, hiff⟩ := lower_upper_spec n hs (hclean leaf n hn) k hk
  refine ⟨_, _, index_lower_bound_eval h k leaf n m rl hfind hn hm hrl,
    index_upper_bound_eval h k leaf n m ru hfind hn hm hru, ?_⟩
  have hstored : Stored h k ↔ InNode h.file_hdr_ n k :=
    ⟨fun ⟨fuel, hst⟩ => hin1 fuel hst, fun hin => ⟨d + 1, hin2 hin⟩⟩
  rw [hstored, ← hiff]
  constructor
  · intro heq
    by_contra hne
    have hlt : rl < n.num_key := by omega
    have h1 : ¬rl = n.num_key := by omega
    rw [if_neg h1] at heq
    by_cases h2 : ru = n.num_key
    · rw [if_pos h2] at heq
      have hp : leaf = h.file_hdr_.last_leaf_ := congrArg Iid.page_no heq
      have hsl : (rl : Int) = (m.num_key : Int) := congrArg Iid.slot_no heq
      rw [hp, hm] at hn
      cases hn
      omega
    · rw [if_neg h2] at heq
      have hsl : (rl : Int) = (ru : Int) := congrArg Iid.slot_no heq
      omega
  · intro heq
    subst heq
    rfl

/-! ## Soundness of the well-formedness checker -/

theorem inBoundsB_sound {f : IxFileHdr} {lo hi : Option (List Nat)} {x : List Nat}
    (h : inBoundsB f lo hi x = true) : InBounds f lo hi x := by
  unfold inBoundsB at h
  rw [Bool.and_eq_true] at h
  constructor
  · intro l hl; subst hl; simpa using h.1
  · intro u hu; subst hu; simpa using h.2

theorem nodeSortedB_sound {f : IxFileHdr} {n : IxNode} (h : nodeSortedB f n = true) :
    NodeSorted f n := by
  unfold nodeSortedB at h
  simp only [Bool.and_eq_true, decide_eq_true_eq] at h
  obtain ⟨⟨h1, h2⟩, h3⟩ := h
  refine ⟨h1, h2, ?_⟩
  intro i j a b hij hj ha hb
  rw [List.pairwise_iff_getElem] at h3
  have hlen : (n.keys.take n.num_key).length = n.num_key := by
    rw [List.length_take]; omega
  have hi2 : i < (n.keys.take n.num_key).length := by omega
  have hj2 : j < (n.keys.take n.num_key).length := by omega
  have h4 := h3 i j hi2 hj2 hij
  have ea : (n.keys.take n.num_key)[i] = a := by
    have : (n.keys.take n.num_key)[i]? = some a := by
      rw [List.getElem?_take_of_lt (by omega)]; exact ha
    rw [List.getElem?_eq_getElem hi2] at this
    exact Option.some.inj this
  have eb : (n.keys.take n.num_key)[j] = b := by
    have : (n.keys.take n.num_key)[j]? = some b := by
      rw [List.getElem?_take_of_lt (by omega)]; exact hb
    rw [List.getElem?_eq_getElem hj2] at this
    exact Option.some.inj this
  rw [ea, eb] at h4
  exact h4

theorem wfSubB_sound (h : IxIndexHandle) :
    ∀ (d : Nat) (page_no : Int) (lo hi : Option (List Nat)),
      wfSubB h d page_no lo hi = true → WFSub h d page_no lo hi := by
  intro d
  induction d with
  | zero =>
    intro page_no lo hi hb
    unfold wfSubB at hb
    cases hn : h.pages.lookup page_no with
    | none => rw [hn] at hb; cases hb
    | some n =>
      rw [hn] at hb
      simp only [Bool.and_eq_true, List.all_eq_true] at hb
      obtain ⟨⟨hleaf, hs⟩, hall⟩ := hb
      refine ⟨n, hn, hleaf, nodeSortedB_sound hs, ?_⟩
      intro i x hi hx
      apply inBoundsB_sound
      apply hall
      rw [List.mem_iff_getElem?]
      exact ⟨i, by rw [List.getElem?_take_of_lt hi]; exact hx⟩
  | succ d ih =>
    intro page_no lo hi hb
    unfold wfSubB at hb
    cases hn : h.pages.lookup page_no with
    | none => rw [hn] at hb; cases hb
    | some n =>
      rw [hn] at hb
      simp only [Bool.and_eq_true, List.all_eq_true, decide_eq_true_eq, Bool.not_eq_true',
        List.mem_range] at hb
      obtain ⟨⟨⟨⟨hleaf, hpos⟩, hs⟩, hsep⟩, hch⟩ := hb
      refine ⟨n, hn, hleaf, hpos, nodeSortedB_sound hs, ?_, ?_⟩
      · intro i x hi0 hi hx
        apply inBoundsB_sound
        apply hsep
        rw [List.mem_iff_getElem?]
        refine ⟨i - 1, ?_⟩
        rw [List.getElem?_drop, List.getElem?_take_of_lt (by omega)]
        have : 1 + (i - 1) = i := by omega
        rw [this]; exact hx
      · intro i r hi hr
        have hc := hch i hi
        rw [hr] at hc
        exact ih _ _ _ hc

/-! ## A two-leaf index -/

theorem twoLeafIndex_reached :
    runOps [ins 10, ins 20, ins 30, ins 40, ins 50] intIndex = some twoLeafIndex := by
  decide!

theorem twoLeafIndex_wellFormed : WellFormed twoLeafIndex := by
  refine ⟨⟨1, by decide, wfSubB_sound twoLeafIndex 1 _ _ _ (by decide!)⟩, ?_⟩
  exact ⟨_, (by decide! : twoLeafIndex.pages.lookup twoLeafIndex.file_hdr_.last_leaf_ =
    some { parent := 4, num_key := 3, is_leaf := true, prev_leaf := 2, next_leaf := 1,
           keys := [intKey 30, intKey 40, intKey 50, intKey 0, intKey 0],
           rids := [⟨30, 0⟩, ⟨40, 0⟩, ⟨50, 0⟩, ⟨0, 0⟩, ⟨0, 0⟩] })⟩

theorem lookup_some_mem {α : Type} (l : List (Int × α)) (a : Int) (b : α)
    (h : l.lookup a = some b) : (a, b) ∈ l := by
  induction l with
  | nil => cases h
  | cons p rest ih =>
    obtain ⟨q, m⟩ := p
    by_cases hq : a = q
    · subst hq
      simp only [List.lookup, beq_self_eq_true] at h
      cases h
      exact List.mem_cons_self _ _
    · have hb : (a == q) = false := by simpa using hq
      simp only [List.lookup, hb] at h
      exact List.mem_cons_of_mem _ (ih h)

theorem cleanIndexB_sound (h : IxIndexHandle) (hb : cleanIndexB h = true) : CleanIndex h := by
  intro page_no n hn i x hi hx
  unfold cleanIndexB at hb
  rw [List.all_eq_true] at hb
  have h1 := hb (page_no, n) (lookup_some_mem _ _ _ hn)
  rw [List.all_eq_true] at h1
  apply h1 x
  rw [List.mem_iff_getElem?]
  exact ⟨i, by rw [List.getElem?_take_of_lt hi]; exact hx⟩

theorem floatPairIndex_wellFormed : WellFormed floatPairIndex :=
  ⟨⟨0, by decide, wfSubB_sound floatPairIndex 0 _ _ _ (by decide!)⟩, _, rfl⟩

theorem nanColumnIndex_wellFormed : WellFormed nanColumnIndex :=
  ⟨⟨0, by decide, wfSubB_sound nanColumnIndex 0 _ _ _ (by decide!)⟩, _, rfl⟩

/-- C4 (amended) at two concrete indexes.  The two-leaf index of one `int`
column is well formed, all keys of its layout are free of NaN, and the
positions for the stored key 30 are as the theorem says.  The index of one
`float` column with the keys 1.0 and 2.0 is well formed and free of NaN, and
the theorem holds for the key 2.0, for which the two positions are `(2, 1)`
and the end position `(2, 2)`. -/
theorem lower_bound_eq_upper_bound_iff_absent_witness :
    (CleanIndex twoLeafIndex ∧ CleanKey twoLeafIndex.file_hdr_ (intKey 30) ∧
      WellFormed twoLeafIndex ∧
      ∃ lower upper,
        IxIndexHandle.lower_bound (intKey 30) twoLeafIndex = some (lower, twoLeafIndex) ∧
        IxIndexHandle.upper_bound (intKey 30) twoLeafIndex = some (upper, twoLeafIndex) ∧
        (lower = upper ↔ ¬Stored twoLeafIndex (intKey 30))) ∧
    (CleanIndex floatPairIndex ∧ CleanKey floatPairIndex.file_hdr_ (floatKey 0x40000000) ∧
      WellFormed floatPairIndex ∧
      IxIndexHandle.lower_bound (floatKey 0x40000000) floatPairIndex =
        some (⟨2, 1⟩, floatPairIndex) ∧
      IxIndexHandle.upper_bound (floatKey 0x40000000) floatPairIndex =
        some (⟨2, 2⟩, floatPairIndex) ∧
      ∃ lower upper,
        IxIndexHandle.lower_bound (floatKey 0x40000000) floatPairIndex =
          some (lower, floatPairIndex) ∧
        IxIndexHandle.upper_bound (floatKey 0x40000000) floatPairIndex =
          some (upper, floatPairIndex) ∧
        (lower = upper ↔ ¬Stored floatPairIndex (floatKey 0x40000000))) :=
  ⟨⟨fun _ n _ _ x _ _ => cleanKey_of_no_float _ (by decide) x,
     cleanKey_of_no_float _ (by decide) _, twoLeafIndex_wellFormed,
     lower_bound_eq_upper_bound_iff_absent twoLeafIndex (intKey 30)
       (fun _ n _ _ x _ _ => cleanKey_of_no_float _ (by decide) x)
       (cleanKey_of_no_float _ (by decide) _) twoLeafIndex_wellFormed⟩,
   ⟨cleanIndexB_sound floatPairIndex (by decide!),
     (by show cleanLoop _ _ _ _ = true; decide!), floatPairIndex_wellFormed,
     by decide!, by decide!,
     lower_bound_eq_upper_bound_iff_absent floatPairIndex (floatKey 0x40000000)
       (cleanIndexB_sound floatPairIndex (by decide!))
       (by show cleanLoop _ _ _ _ = true; decide!)
       floatPairIndex_wellFormed⟩⟩

/-- C4 (the claim as stated, at two failing inputs).  The index of one `float`
column reached by inserting 1.0 and 2.0 is well formed; for the key NaN
`lower_bound` returns `(2, 0)` and `upper_bound` the end position `(2, 2)`,
although NaN is not among the keys of the leaves and `insert_entry(NaN)`
inserts nothing.  The index of two `float` columns reached by inserting
`(1.0, 1.0)`, `(2.0, 5.0)`, `(3.0, NaN)` is well formed; for the key
`(NaN, 3.0)` both calls return `(2, 1)`, although the key `(3.0, NaN)` of the
leaf compares equal to it under `ix_compare`, so that it is stored. -/
theorem bounds_disagree_with_stored_float_keys :
    (runOps [IxOp.insert (floatKey 0x3F800000) ⟨1, 0⟩, IxOp.insert (floatKey 0x40000000) ⟨2, 0⟩]
        floatIndex = some floatPairIndex ∧
      WellFormed floatPairIndex ∧
      leafChainKeys floatPairIndex = some [floatKey 0x3F800000, floatKey 0x40000000] ∧
      floatKey 0x7FC00000 ∉ [floatKey 0x3F800000, floatKey 0x40000000] ∧
      (IxIndexHandle.insert_entry (floatKey 0x7FC00000) ⟨9, 0⟩ floatPairIndex).map
        (fun p => p.1) = some 0 ∧
      IxIndexHandle.lower_bound (floatKey 0x7FC00000) floatPairIndex =
        some (⟨2, 0⟩, floatPairIndex) ∧
      IxIndexHandle.upper_bound (floatKey 0x7FC00000) floatPairIndex =
        some (⟨2, 2⟩, floatPairIndex)) ∧
    (runOps [IxOp.insert (floatKey2 0x3F800000 0x3F800000) ⟨1, 0⟩,
          IxOp.insert (floatKey2 0x40000000 0x40A00000) ⟨2, 0⟩,
          IxOp.insert (floatKey2 0x40400000 0x7FC00000) ⟨3, 0⟩] twoFloatIndex =
        some nanColumnIndex ∧
      WellFormed nanColumnIndex ∧
      keyCmp nanColumnIndex.file_hdr_ (floatKey2 0x7FC00000 0x40400000)
        (floatKey2 0x40400000 0x7FC00000) = 0 ∧
      Stored nanColumnIndex (floatKey2 0x7FC00000 0x40400000) ∧
      IxIndexHandle.lower_bound (floatKey2 0x7FC00000 0x40400000) nanColumnIndex =
        some (⟨2, 1⟩, nanColumnIndex) ∧
      IxIndexHandle.upper_bound (floatKey2 0x7FC00000 0x40400000) nanColumnIndex =
        some (⟨2, 1⟩, nanColumnIndex)) :=
  ⟨⟨by decide!, floatPairIndex_wellFormed, by decide!, by decide!, by decide!, by decide!,
     by decide!⟩,
   ⟨by decide!, nanColumnIndex_wellFormed, by decide!,
     ⟨1, _, rfl, Or.inl ⟨rfl, 2, floatKey2 0x40400000 0x7FC00000, by decide, rfl, by decide!⟩⟩,
     by decide!, by decide!⟩⟩

/-! ## Concrete runs of the index -/

/-- C1 (the code at a failing input): in the index reached by inserting 1 and 3
and deleting 3, the key 3 is not stored, yet `insert_entry(3, r)` returns 0 and
the following `get_value(3)` returns false with an empty result. -/
theorem insert_entry_then_get_value_misses :
    (runOps [ins 1, ins 3, del 3] intIndex).bind leafChainKeys = some [intKey 1] ∧
    (runOps [ins 1, ins 3, del 3] intIndex).bind (fun h =>
      (IxIndexHandle.insert_entry (intKey 3) ⟨7, 0⟩ h).bind (fun p =>
        (IxIndexHandle.get_value (intKey 3) [] p.2).map (fun q => (p.1, q.1)))) =
      some (0, (false, [])) := by
  decide!

/-- C2 (the code at a failing input): in the index reached by the run below the
key 50 is found by `get_value`; `delete_entry(50)` returns true, and afterwards
`get_value(50)` still returns true and appends a rid. -/
theorem delete_entry_then_get_value_finds :
    (runOps [ins 10, ins 20, ins 30, ins 40, ins 50, ins 5, ins 15, del 5, del 10, del 15,
        ins 60, ins 50] intIndex).bind (fun h =>
      (IxIndexHandle.get_value (intKey 50) [] h).map (fun q => q.1)) = some (true, [⟨50, 0⟩]) ∧
    (runOps [ins 10, ins 20, ins 30, ins 40, ins 50, ins 5, ins 15, del 5, del 10, del 15,
        ins 60, ins 50] intIndex).bind (fun h =>
      (IxIndexHandle.delete_entry (intKey 50) h).bind (fun p =>
        (IxIndexHandle.get_value (intKey 50) [] p.2).map (fun q => (p.1, q.1)))) =
      some (true, (true, [⟨50, 0⟩])) := by
  decide!

/-- C3 (the code at a failing input): with the leaves `[10, 20]` (page 2) and
`[30, 40, 50]` (page 3), `lower_bound(25)` and `upper_bound(20)` both return
`leaf_end()`, the position `(3, 3)`, although the entry at `(3, 0)` holds 30. -/
theorem lower_bound_skips_next_leaf :
    (runOps [ins 10, ins 20, ins 30, ins 40, ins 50] intIndex).bind leafChainKeys =
      some [intKey 10, intKey 20, intKey 30, intKey 40, intKey 50] ∧
    (runOps [ins 10, ins 20, ins 30, ins 40, ins 50] intIndex).bind (fun h =>
      (h.pages.lookup 3).bind (fun n => n.get_key 0)) = some (intKey 30) ∧
    (runOps [ins 10, ins 20, ins 30, ins 40, ins 50] intIndex).bind (fun h =>
      (IxIndexHandle.leaf_end h).map (fun q => q.1)) = some ⟨3, 3⟩ ∧
    (runOps [ins 10, ins 20, ins 30, ins 40, ins 50] intIndex).bind (fun h =>
      (IxIndexHandle.lower_bound (intKey 25) h).map (fun q => q.1)) = some ⟨3, 3⟩ ∧
    (runOps [ins 10, ins 20, ins 30, ins 40, ins 50] intIndex).bind (fun h =>
      (IxIndexHandle.upper_bound (intKey 20) h).map (fun q => q.1)) = some ⟨3, 3⟩ := by
  decide!

/-- C5 (the code at a failing input): the tree with the leaves `[10, 20]` and
`[30, 40, 50, 60]` satisfies the size invariant of order 4; `delete_entry(60)`
returns true and leaves a tree that violates it (the left leaf holds one key). -/
theorem delete_entry_breaks_size_invariant :
    (runOps [ins 10, ins 20, ins 30, ins 40, ins 50, ins 60] intIndex).map sizeInvariant =
      some true ∧
    (runOps [ins 10, ins 20, ins 30, ins 40, ins 50, ins 60] intIndex).bind (fun h =>
      (IxIndexHandle.delete_entry (intKey 60) h).map (fun p =>
        (p.1, sizeInvariant p.2, (p.2.pages.lookup 2).map IxNode.get_size))) =
      some (true, false, some 1) := by
  decide!

/-- C6 (the code at a failing input): the tree with the leaves `[10, 20]` and
`[30, 40, 50]` has every separator equal to the first key of its child;
`insert_entry(5, r)` returns 1 and leaves the root key 0 at 10 while the first
key of child 0 is 5. -/
theorem insert_entry_breaks_separator_invariant :
    (runOps [ins 10, ins 20, ins 30, ins 40, ins 50] intIndex).map separatorInvariant =
      some true ∧
    (runOps [ins 10, ins 20, ins 30, ins 40, ins 50] intIndex).bind (fun h =>
      (IxIndexHandle.insert_entry (intKey 5) ⟨5, 0⟩ h).map (fun p =>
        (p.1, separatorInvariant p.2,
          (p.2.pages.lookup p.2.file_hdr_.root_page_).bind (fun n => n.get_key 0),
          (p.2.pages.lookup 2).bind (fun n => n.get_key 0)))) =
      some (1, false, some (intKey 10), some (intKey 5)) := by
  decide!

/-- C7 (the code at a failing input): after the nine inserts below the leaf
chain reads 2, 3, 6, 4, 5, 7, 8, 10, 12, which is not non-decreasing. -/
theorem leaf_chain_unsorted_after_inserts :
    (runOps [ins 4, ins 5, ins 8, ins 10, ins 12, ins 3, ins 7, ins 2, ins 6] intIndex).bind
        leafChainKeys =
      some [intKey 2, intKey 3, intKey 6, intKey 4, intKey 5, intKey 7, intKey 8, intKey 10,
        intKey 12] ∧
    (runOps [ins 4, ins 5, ins 8, ins 10, ins 12, ins 3, ins 7, ins 2, ins 6] intIndex).map
        chainSorted = some false := by
  decide!

/-! ## Concrete runs of the lock manager -/

/-- C9 (the code at a failing input): after transactions 1 and 2 take IX on
table 7 and transaction 1 asks for S, the queue holds SIX for transaction 1
next to IX for transaction 2, two modes the matrix declares incompatible. -/
theorem lock_queue_holds_incompatible_modes :
    ((LockWorld.init.run [.lock_IX_on_table 1 7, .lock_IX_on_table 2 7,
        .lock_shared_on_table 1 7]).lm.queueAt (LockDataId.table 7)).request_queue_ =
      [⟨1, .S_IX, true⟩, ⟨2, .INTENTION_EXCLUSIVE, true⟩] ∧
    pairwiseCompatible ((LockWorld.init.run [.lock_IX_on_table 1 7, .lock_IX_on_table 2 7,
        .lock_shared_on_table 1 7]).lm.queueAt (LockDataId.table 7)).request_queue_ = false := by
  decide!

/-- C10 (the code at a failing input): after transactions 1 and 2 take IX on
table 7 and transaction 2 unlocks, the queue still holds the IX request of
transaction 1 but its group mode is IS, not the strongest mode IX. -/
theorem unlock_sets_wrong_group_mode :
    ((LockWorld.init.run [.lock_IX_on_table 1 7, .lock_IX_on_table 2 7,
        .unlock 2 (LockDataId.table 7)]).lm.queueAt (LockDataId.table 7)).request_queue_ =
      [⟨1, .INTENTION_EXCLUSIVE, true⟩] ∧
    ((LockWorld.init.run [.lock_IX_on_table 1 7, .lock_IX_on_table 2 7,
        .unlock 2 (LockDataId.table 7)]).lm.queueAt (LockDataId.table 7)).group_lock_mode_ =
      GroupLockMode.IS ∧
    strongest ((LockWorld.init.run [.lock_IX_on_table 1 7, .lock_IX_on_table 2 7,
        .unlock 2 (LockDataId.table 7)]).lm.queueAt (LockDataId.table 7)).request_queue_ =
      GroupLockMode.IX := by
  decide!

/-! ## The lock table as a map -/

theorem lookup_storeQueue (lockId a : LockDataId) (q : LockRequestQueue) :
    ∀ l : List (LockDataId × LockRequestQueue),
      (LockManager.storeQueue lockId q l).lookup a = if a = lockId then some q else l.lookup a := by
  intro l
  induction l with
  | nil =>
    by_cases h : a = lockId
    · simp [LockManager.storeQueue, List.lookup, h]
    · have hb : (a == lockId) = false := beq_eq_false_iff_ne.mpr h
      simp [LockManager.storeQueue, List.lookup, h, hb]
  | cons p rest ih =>
    obtain ⟨i, p⟩ := p
    by_cases hi : i = lockId
    · by_cases h : a = lockId
      · simp [LockManager.storeQueue, List.lookup, hi, h]
      · have hb : (a == lockId) = false := beq_eq_false_iff_ne.mpr h
        simp [LockManager.storeQueue, List.lookup, hi, h, hb]
    · by_cases h : a = i
      · have h2 : ¬i = lockId := hi
        subst h
        simp [LockManager.storeQueue, List.lookup, h2]
      · have hb : (a == i) = false := beq_eq_false_iff_ne.mpr h
        simp [LockManager.storeQueue, List.lookup, hi, hb, ih]

theorem queueAt_setQueue (lm : LockManager) (lockId a : LockDataId) (q : LockRequestQueue) :
    (lm.setQueue lockId q).queueAt a = if a = lockId then q else lm.queueAt a := by
  unfold LockManager.queueAt LockManager.setQueue
  rw [lookup_storeQueue]
  by_cases h : a = lockId <;> simp [h]

theorem queueAt_addLockIfNoPrev (lm : LockManager) (lockId a : LockDataId) :
    (lm.addLockIfNoPrev lockId).queueAt a = lm.queueAt a := by
  unfold LockManager.addLockIfNoPrev
  cases h : lm.lock_table_.lookup lockId with
  | none =>
    simp only [queueAt_setQueue]
    by_cases ha : a = lockId
    · subst ha; simp [LockManager.queueAt, h]
    · simp [ha]
  | some q => rfl

/-! ## The lock-table invariant is kept by every call -/

theorem upgradeLockMode_false (q : LockRequestQueue) (iter : LockRequest) (type : Int)
    (h : (LockManager.upgradeLockMode q iter type).2.2 = false) :
    LockManager.upgradeLockMode q iter type = (q, iter, false) := by
  unfold LockManager.upgradeLockMode at h ⊢
  simp only []
  simp only [] at h
  split_ifs at h ⊢ <;> simp_all

theorem upgradeLockMode_true (q : LockRequestQueue) (iter : LockRequest) (type : Int)
    (hq : QueueInv q) (hmem : iter ∈ q.request_queue_)
    (h : (LockManager.upgradeLockMode q iter type).2.2 = true) :
    (LockManager.upgradeLockMode q iter type).1.request_queue_ = q.request_queue_ ∧
    (LockManager.upgradeLockMode q iter type).1.group_lock_mode_ ≠ GroupLockMode.NON_LOCK ∧
    (LockManager.upgradeLockMode q iter type).2.1.lock_mode_ ≠ LockMode.INTENTION_SHARED := by
  have hne : q.request_queue_ ≠ [] := List.ne_nil_of_mem hmem
  have hg : q.group_lock_mode_ ≠ GroupLockMode.NON_LOCK := fun hc => hne (hq.1.2 hc)
  have hm := hq.2 iter hmem
  unfold LockManager.upgradeLockMode at h ⊢
  simp only []
  simp only [] at h
  split_ifs at h ⊢ <;> simp_all

theorem upgradeLoop_spec (txnId type : Int) (q : LockRequestQueue) (hq : QueueInv q) :
    ∀ (rest seen : List LockRequest), q.request_queue_ = seen ++ rest →
      ((LockManager.upgradeLoop txnId type q seen rest).2 = false →
        LockManager.upgradeLoop txnId type q seen rest = (q, false)) ∧
      ((LockManager.upgradeLoop txnId type q seen rest).2 = true →
        QueueInv (LockManager.upgradeLoop txnId type q seen rest).1) := by
  intro rest
  induction rest with
  | nil => intro seen _; simp [LockManager.upgradeLoop]
  | cons iter rest ih =>
    intro seen hsplit
    have hnext := ih (seen ++ [iter]) (by simp [hsplit])
    have hmem : iter ∈ q.request_queue_ := by simp [hsplit]
    by_cases hid : iter.txn_id_ = txnId
    · cases hb : (LockManager.upgradeLockMode q iter type).2.2 with
      | false =>
        have heq := upgradeLockMode_false q iter type hb
        have hstep : LockManager.upgradeLoop txnId type q seen (iter :: rest) =
            LockManager.upgradeLoop txnId type q (seen ++ [iter]) rest := by
          simp only [LockManager.upgradeLoop, hid, if_true, heq]
        rw [hstep]; exact hnext
      | true =>
        obtain ⟨h1, h2, h3⟩ := upgradeLockMode_true q iter type hq hmem hb
        have hstep : LockManager.upgradeLoop txnId type q seen (iter :: rest) =
            ({ (LockManager.upgradeLockMode q iter type).1 with
                request_queue_ := seen ++ (LockManager.upgradeLockMode q iter type).2.1 :: rest },
              true) := by
          simp only [LockManager.upgradeLoop, hid, if_true]
          generalize LockManager.upgradeLockMode q iter type = r at hb
          obtain ⟨r1, r2, r3⟩ := r
          simp only at hb
          subst hb
          rfl
        rw [hstep]
        refine ⟨fun hc => by simp at hc, fun _ => ⟨?_, ?_⟩⟩
        · simp only
          constructor
          · intro hc; simp at hc
          · intro hc; exact absurd hc h2
        · intro r hr
          simp only [List.mem_append, List.mem_cons] at hr
          rcases hr with hr | hr | hr
          · exact hq.2 r (by simp [hsplit, hr])
          · rw [hr]; exact h3
          · exact hq.2 r (by simp [hsplit, hr])
    · have hstep : LockManager.upgradeLoop txnId type q seen (iter :: rest) =
          LockManager.upgradeLoop txnId type q (seen ++ [iter]) rest := by
        simp only [LockManager.upgradeLoop, hid, if_false]
      rw [hstep]; exact hnext

theorem upgradeLoop_no_request (txnId type : Int) (q : LockRequestQueue) :
    ∀ (rest seen : List LockRequest), (∀ r, r ∈ rest → r.txn_id_ ≠ txnId) →
      LockManager.upgradeLoop txnId type q seen rest = (q, false) := by
  intro rest
  induction rest with
  | nil => intro seen _; rfl
  | cons iter rest ih =>
    intro seen hno
    have hid : ¬iter.txn_id_ = txnId := hno iter (by simp)
    simp only [LockManager.upgradeLoop, hid, if_false]
    exact ih _ (fun r hr => hno r (by simp [hr]))

theorem addLock_inv (q : LockRequestQueue) (txn : Transaction) (lockId : LockDataId) (type : Int)
    (hq : QueueInv q) (ht : type = 1 ∨ type = 2 ∨ type = 3) :
    QueueInv (LockManager.addLock q txn lockId type).1 := by
  rcases ht with rfl | rfl | rfl <;>
  · unfold LockManager.addLock
    refine ⟨⟨fun hc => by simp at hc, fun hc => by simp at hc⟩, ?_⟩
    intro r hr
    simp at hr
    rcases hr with hr | hr
    · exact hq.2 r hr
    · rw [hr]; simp

theorem tableInv_setQueue (lm : LockManager) (lockId : LockDataId) (q : LockRequestQueue)
    (hlm : TableInv lm) (hq : QueueInv q) : TableInv (lm.setQueue lockId q) := by
  intro a
  rw [queueAt_setQueue]
  by_cases h : a = lockId
  · simp [h, hq]
  · simp [h, hlm a]

theorem tableInv_addLockIfNoPrev (lm : LockManager) (lockId : LockDataId) (hlm : TableInv lm) :
    TableInv (lm.addLockIfNoPrev lockId) := by
  intro a
  rw [queueAt_addLockIfNoPrev]
  exact hlm a

theorem addLockOnTable_inv (lm : LockManager) (txn : Transaction) (tab_fd type : Int)
    (hlm : TableInv lm) (ht : type = 1 ∨ type = 2 ∨ type = 3) :
    TableInv (LockManager.addLockOnTable lm txn tab_fd type).1 := by
  unfold LockManager.addLockOnTable
  have h1 := tableInv_addLockIfNoPrev lm (LockDataId.table tab_fd) hlm
  have hq := h1 (LockDataId.table tab_fd)
  cases hc : LockManager.checkAndSetState txn false with
  | mk txn1 res =>
    cases res with
    | some reason => exact hlm
    | none =>
      simp only
      have hl := upgradeLoop_spec txn1.txn_id_ type _ hq
        ((lm.addLockIfNoPrev (LockDataId.table tab_fd)).queueAt
          (LockDataId.table tab_fd)).request_queue_ [] (by simp)
      cases hu : LockManager.upgradeLoop txn1.txn_id_ type
          ((lm.addLockIfNoPrev (LockDataId.table tab_fd)).queueAt (LockDataId.table tab_fd)) []
          ((lm.addLockIfNoPrev (LockDataId.table tab_fd)).queueAt
            (LockDataId.table tab_fd)).request_queue_ with
      | mk q2 b =>
        rw [hu] at hl
        cases b with
        | true => exact tableInv_setQueue _ _ _ h1 (hl.2 rfl)
        | false =>
          simp only
          cases hn : LockManager.noWait
              ((lm.addLockIfNoPrev (LockDataId.table tab_fd)).queueAt (LockDataId.table tab_fd))
              type with
          | some reason => exact h1
          | none =>
            exact tableInv_setQueue _ _ _ h1 (addLock_inv _ txn1 _ type hq ht)

theorem eraseRequest_spec (txnId : Int) (q : LockRequestQueue) :
    ∀ (rest seen : List LockRequest),
      ∀ r, r ∈ (LockManager.eraseRequest txnId q seen rest).request_queue_ →
        r ∈ seen ++ rest ∨ r ∈ q.request_queue_ := by
  intro rest
  induction rest with
  | nil => intro seen r hr; right; exact hr
  | cons it rest ih =>
    intro seen r hr
    by_cases hid : it.txn_id_ = txnId
    · left
      simp only [LockManager.eraseRequest, hid, if_true] at hr
      have : r ∈ seen ++ rest := hr
      simp only [List.mem_append, List.mem_cons] at this ⊢
      rcases this with h | h
      · exact Or.inl h
      · exact Or.inr (Or.inr h)
    · simp only [LockManager.eraseRequest, hid, if_false] at hr
      rcases ih (seen ++ [it]) r hr with h | h
      · left; simpa using h
      · right; exact h

theorem levelsOf_six (l : List LockRequest) :
    ∀ a b c d e f : Bool,
      LockManager.levelsOf l [a, b, c, d, e, f] =
        [a || l.any (fun r => decide (r.lock_mode_ = LockMode.EXLUCSIVE)),
         b || l.any (fun r => decide (r.lock_mode_ = LockMode.S_IX)),
         c || l.any (fun r => decide (r.lock_mode_ = LockMode.SHARED)),
         d,
         e || l.any (fun r => decide (r.lock_mode_ = LockMode.INTENTION_EXCLUSIVE)),
         f || l.any (fun r => decide (r.lock_mode_ = LockMode.INTENTION_SHARED))] := by
  induction l with
  | nil => intro a b c d e f; simp [LockManager.levelsOf]
  | cons r rest ih =>
    intro a b c d e f
    cases hm : r.lock_mode_ <;>
      simp [LockManager.levelsOf, hm, ih, List.set, Bool.or_assoc]

theorem groupMode_of_queue (l : List LockRequest)
    (hl : ∀ r, r ∈ l → r.lock_mode_ ≠ LockMode.INTENTION_SHARED) :
    (l = [] ↔ LockManager.groupModeOfLevels
      (LockManager.levelsOf l [false, false, false, false, false, false]) =
        GroupLockMode.NON_LOCK) := by
  rw [levelsOf_six]
  cases l with
  | nil => simp [LockManager.groupModeOfLevels]
  | cons r rest =>
    have hr := hl r (by simp)
    constructor
    · intro hc; cases hc
    · intro hc
      exfalso
      unfold LockManager.groupModeOfLevels at hc
      cases hm : r.lock_mode_ <;> simp [hm] at hc hr
      all_goals (split_ifs at hc)

theorem unlock_inv (lm : LockManager) (txn : Transaction) (lockId : LockDataId)
    (hlm : TableInv lm) : TableInv (LockManager.unlock lm txn lockId).1 := by
  unfold LockManager.unlock
  cases hc : LockManager.checkAndSetState txn true with
  | mk txn1 res =>
    cases res with
    | some reason => exact hlm
    | none =>
      simp only
      apply tableInv_setQueue _ _ _ hlm
      have hsub : ∀ r, r ∈ (LockManager.eraseRequest txn1.txn_id_ (lm.queueAt lockId) []
          (lm.queueAt lockId).request_queue_).request_queue_ →
          r.lock_mode_ ≠ LockMode.INTENTION_SHARED := by
        intro r hr
        rcases eraseRequest_spec _ _ _ _ r hr with h | h
        · exact (hlm lockId).2 r (by simpa using h)
        · exact (hlm lockId).2 r h
      exact ⟨groupMode_of_queue _ hsub, hsub⟩

theorem call_inv (w : LockWorld) (c : LockCall) (hw : TableInv w.lm) :
    TableInv (w.call c).1.lm := by
  cases c with
  | lock_shared_on_table t fd => exact addLockOnTable_inv _ _ _ 1 hw (Or.inl rfl)
  | lock_exclusive_on_table t fd => exact addLockOnTable_inv _ _ _ 2 hw (Or.inr (Or.inl rfl))
  | lock_IS_on_table t fd => exact hw
  | lock_IX_on_table t fd => exact addLockOnTable_inv _ _ _ 3 hw (Or.inr (Or.inr rfl))
  | unlock t id => exact unlock_inv _ _ _ hw

theorem run_inv : ∀ (calls : List LockCall) (w : LockWorld), TableInv w.lm →
    TableInv (w.run calls).lm := by
  intro calls
  induction calls with
  | nil => intro w hw; exact hw
  | cons c cs ih => intro w hw; exact ih _ (call_inv w c hw)

theorem init_inv : TableInv LockWorld.init.lm := by
  intro a
  simp [LockWorld.init, LockManager.queueAt, List.lookup, LockRequestQueue.empty, QueueInv]

theorem txn_id_of_world (w : LockWorld) (id : Int) : (w.txn id).txn_id_ = id := by
  unfold LockWorld.txn
  cases h : w.txns.find? (fun t => decide (t.txn_id_ = id)) with
  | none => rfl
  | some t =>
    have := List.find?_some h
    simpa using this

theorem addLockOnTable_exclusive_fresh (lm : LockManager) (txn : Transaction) (tab_fd : Int)
    (hlm : TableInv lm)
    (hstate : txn.state_ = TransactionState.DEFAULT ∨ txn.state_ = TransactionState.GROWING)
    (hno : ∀ r, r ∈ (lm.queueAt (LockDataId.table tab_fd)).request_queue_ →
      r.txn_id_ ≠ txn.txn_id_) :
    ((lm.queueAt (LockDataId.table tab_fd)).request_queue_ = [] →
      (lm.lock_exclusive_on_table txn tab_fd).2.2 = LockOutcome.returned true ∧
      ((lm.lock_exclusive_on_table txn tab_fd).1.queueAt (LockDataId.table tab_fd)).request_queue_ =
        [⟨txn.txn_id_, LockMode.EXLUCSIVE, true⟩] ∧
      LockDataId.table tab_fd ∈ (lm.lock_exclusive_on_table txn tab_fd).2.1.lock_set_) ∧
    ((lm.queueAt (LockDataId.table tab_fd)).request_queue_ ≠ [] →
      (lm.lock_exclusive_on_table txn tab_fd).2.2 =
        LockOutcome.thrown txn.txn_id_ AbortReason.DEADLOCK_PREVENTION ∧
      (lm.lock_exclusive_on_table txn tab_fd).1 = lm) := by
  have hq := hlm (LockDataId.table tab_fd)
  obtain ⟨txn1, hcheck, hid⟩ : ∃ txn1, LockManager.checkAndSetState txn false = (txn1, none) ∧
      txn1.txn_id_ = txn.txn_id_ := by
    rcases hstate with h | h
    · exact ⟨{ txn with state_ := TransactionState.GROWING }, by
        simp [LockManager.checkAndSetState, h], rfl⟩
    · exact ⟨txn, by simp [LockManager.checkAndSetState, h], rfl⟩
  have hqa := queueAt_addLockIfNoPrev lm (LockDataId.table tab_fd) (LockDataId.table tab_fd)
  have hloop : LockManager.upgradeLoop txn1.txn_id_ 2
      ((lm.addLockIfNoPrev (LockDataId.table tab_fd)).queueAt (LockDataId.table tab_fd)) []
      ((lm.addLockIfNoPrev (LockDataId.table tab_fd)).queueAt
        (LockDataId.table tab_fd)).request_queue_ =
      ((lm.addLockIfNoPrev (LockDataId.table tab_fd)).queueAt (LockDataId.table tab_fd), false) := by
    apply upgradeLoop_no_request
    intro r hr
    rw [hqa] at hr
    rw [hid]
    exact hno r hr
  constructor
  · intro hempty
    have hgroup : (lm.queueAt (LockDataId.table tab_fd)).group_lock_mode_ =
        GroupLockMode.NON_LOCK := hq.1.1 hempty
    have hnw : LockManager.noWait
        ((lm.addLockIfNoPrev (LockDataId.table tab_fd)).queueAt (LockDataId.table tab_fd)) 2 =
        none := by
      rw [hqa]; simp [LockManager.noWait, hgroup]
    simp only [LockManager.lock_exclusive_on_table, LockManager.addLockOnTable, hcheck, hloop, hnw]
    refine ⟨trivial, ?_, ?_⟩
    · rw [queueAt_setQueue]
      simp only [if_true, hqa]
      simp [LockManager.addLock, hempty, hid]
    · simp only [LockManager.addLock]
      split_ifs with hm
      · exact hm
      · simp
  · intro hne
    have hgroup : (lm.queueAt (LockDataId.table tab_fd)).group_lock_mode_ ≠
        GroupLockMode.NON_LOCK := fun hc => hne (hq.1.2 hc)
    have hnw : LockManager.noWait
        ((lm.addLockIfNoPrev (LockDataId.table tab_fd)).queueAt (LockDataId.table tab_fd)) 2 =
        some AbortReason.DEADLOCK_PREVENTION := by
      rw [hqa]; simp [LockManager.noWait, hgroup]
    have hsame : lm.addLockIfNoPrev (LockDataId.table tab_fd) = lm := by
      unfold LockManager.addLockIfNoPrev
      cases hl : lm.lock_table_.lookup (LockDataId.table tab_fd) with
      | none =>
        exfalso; apply hne
        simp [LockManager.queueAt, hl, LockRequestQueue.empty]
      | some q => rfl
    simp only [LockManager.lock_exclusive_on_table, LockManager.addLockOnTable, hcheck, hloop, hnw]
    exact ⟨by rw [hid], hsame⟩

/-- C11: in every lock-table state reached by calls on the lock manager, for a
transaction in state DEFAULT or GROWING with no request in the queue of table
`tab_fd`: if the queue is empty, `lock_exclusive_on_table` returns true, the
queue then holds exactly the granted X request of the transaction and the table
is in its lock set; if the queue is not empty, the call throws
`TransactionAbortException` with `DEADLOCK_PREVENTION` and the lock table is
unchanged.  So the X lock is granted exactly when the queue is empty. -/
theorem lock_exclusive_granted_iff_queue_empty (calls : List LockCall) (txn_id tab_fd : Int)
    (hstate : ((LockWorld.init.run calls).txn txn_id).state_ = TransactionState.DEFAULT ∨
      ((LockWorld.init.run calls).txn txn_id).state_ = TransactionState.GROWING)
    (hno : ∀ r, r ∈ ((LockWorld.init.run calls).lm.queueAt
      (LockDataId.table tab_fd)).request_queue_ → r.txn_id_ ≠ txn_id) :
    (((LockWorld.init.run calls).lm.queueAt (LockDataId.table tab_fd)).request_queue_ = [] →
      ((LockWorld.init.run calls).lm.lock_exclusive_on_table
        ((LockWorld.init.run calls).txn txn_id) tab_fd).2.2 = LockOutcome.returned true ∧
      (((LockWorld.init.run calls).lm.lock_exclusive_on_table
        ((LockWorld.init.run calls).txn txn_id) tab_fd).1.queueAt
          (LockDataId.table tab_fd)).request_queue_ = [⟨txn_id, LockMode.EXLUCSIVE, true⟩] ∧
      LockDataId.table tab_fd ∈ ((LockWorld.init.run calls).lm.lock_exclusive_on_table
        ((LockWorld.init.run calls).txn txn_id) tab_fd).2.1.lock_set_) ∧
    (((LockWorld.init.run calls).lm.queueAt (LockDataId.table tab_fd)).request_queue_ ≠ [] →
      ((LockWorld.init.run calls).lm.lock_exclusive_on_table
        ((LockWorld.init.run calls).txn txn_id) tab_fd).2.2 =
        LockOutcome.thrown txn_id AbortReason.DEADLOCK_PREVENTION ∧
      ((LockWorld.init.run calls).lm.lock_exclusive_on_table
        ((LockWorld.init.run calls).txn txn_id) tab_fd).1 = (LockWorld.init.run calls).lm) := by
  have hid := txn_id_of_world (LockWorld.init.run calls) txn_id
  have h := addLockOnTable_exclusive_fresh (LockWorld.init.run calls).lm
    ((LockWorld.init.run calls).txn txn_id) tab_fd (run_inv calls _ init_inv) hstate
    (fun r hr => by rw [hid]; exact hno r hr)
  rw [hid] at h
  exact h

/-- C11 at concrete runs: after transaction 1 took X on table 7, transaction 2
is aborted with `DEADLOCK_PREVENTION`; after transaction 1 unlocked, the fresh
transaction 3 obtains X. -/
theorem lock_exclusive_granted_iff_queue_empty_witness :
    ((LockWorld.init.run [.lock_exclusive_on_table 1 7]).lm.lock_exclusive_on_table
        ((LockWorld.init.run [.lock_exclusive_on_table 1 7]).txn 2) 7).2.2 =
      LockOutcome.thrown 2 AbortReason.DEADLOCK_PREVENTION ∧
    ((LockWorld.init.run [.lock_exclusive_on_table 1 7,
        .unlock 1 (LockDataId.table 7)]).lm.lock_exclusive_on_table
        ((LockWorld.init.run [.lock_exclusive_on_table 1 7,
          .unlock 1 (LockDataId.table 7)]).txn 3) 7).2.2 = LockOutcome.returned true :=
  ⟨((lock_exclusive_granted_iff_queue_empty [.lock_exclusive_on_table 1 7] 2 7
      (by decide!) (by decide!)).2 (by decide!)).1,
   ((lock_exclusive_granted_iff_queue_empty
      [.lock_exclusive_on_table 1 7, .unlock 1 (LockDataId.table 7)] 3 7
      (by decide!) (by decide!)).1 (by decide!)).1⟩

/-! ## Transactions of a lock world -/

theorem find_storeTxn (t : Transaction) (id : Int) :
    ∀ l : List Transaction,
      (storeTxn t l).find? (fun u => decide (u.txn_id_ = id)) =
        if t.txn_id_ = id then some t else l.find? (fun u => decide (u.txn_id_ = id)) := by
  intro l
  induction l with
  | nil => by_cases h : t.txn_id_ = id <;> simp [storeTxn, h]
  | cons u rest ih =>
    by_cases hu : u.txn_id_ = t.txn_id_
    · have hst : storeTxn t (u :: rest) = t :: rest := by simp [storeTxn, hu]
      rw [hst]
      by_cases h : t.txn_id_ = id
      · simp [h]
      · have h2 : ¬u.txn_id_ = id := fun hc => h (hu ▸ hc)
        simp [h, h2]
    · have hst : storeTxn t (u :: rest) = u :: storeTxn t rest := by simp [storeTxn, hu]
      rw [hst]
      by_cases h2 : u.txn_id_ = id
      · have h : ¬t.txn_id_ = id := fun hc => hu (h2.trans hc.symm)
        simp [h, h2]
      · simp [h2, ih]

theorem txn_storeTxn (lm : LockManager) (t : Transaction) (l : List Transaction) (id : Int) :
    ({ lm := lm, txns := storeTxn t l } : LockWorld).txn id =
      if t.txn_id_ = id then t else ({ lm := lm, txns := l } : LockWorld).txn id := by
  unfold LockWorld.txn
  simp only [find_storeTxn]
  by_cases h : t.txn_id_ = id <;> simp [h]

theorem checkAndSetState_txn_id (txn : Transaction) (stage : Bool) :
    (LockManager.checkAndSetState txn stage).1.txn_id_ = txn.txn_id_ := by
  unfold LockManager.checkAndSetState
  cases stage <;> cases txn.state_ <;> rfl

theorem addLockOnTable_txn_id (lm : LockManager) (txn : Transaction) (tab_fd type : Int) :
    (LockManager.addLockOnTable lm txn tab_fd type).2.1.txn_id_ = txn.txn_id_ := by
  have h := checkAndSetState_txn_id txn false
  unfold LockManager.addLockOnTable
  cases hc : LockManager.checkAndSetState txn false with
  | mk txn1 res =>
    rw [hc] at h
    cases res with
    | some reason => exact h
    | none =>
      simp only
      split
      · exact h
      · split
        · exact h
        · simpa [LockManager.addLock] using h

theorem unlock_txn_id (lm : LockManager) (txn : Transaction) (lockId : LockDataId) :
    (LockManager.unlock lm txn lockId).2.1.txn_id_ = txn.txn_id_ := by
  have h := checkAndSetState_txn_id txn true
  unfold LockManager.unlock
  cases hc : LockManager.checkAndSetState txn true with
  | mk txn1 res =>
    rw [hc] at h
    cases res <;> exact h

theorem addLockOnTable_shrinking (lm : LockManager) (txn : Transaction) (tab_fd type : Int)
    (h : txn.state_ = TransactionState.SHRINKING) :
    LockManager.addLockOnTable lm txn tab_fd type =
      (lm, txn, LockOutcome.thrown txn.txn_id_ AbortReason.LOCK_ON_SHIRINKING) := by
  simp [LockManager.addLockOnTable, LockManager.checkAndSetState, h]

theorem unlock_shrinking (lm : LockManager) (txn : Transaction) (lockId : LockDataId)
    (h : txn.state_ = TransactionState.SHRINKING) :
    (LockManager.unlock lm txn lockId).2.1 = txn := by
  simp [LockManager.unlock, LockManager.checkAndSetState, h]

theorem unlock_growing (lm : LockManager) (txn : Transaction) (lockId : LockDataId)
    (h : txn.state_ = TransactionState.GROWING) :
    (LockManager.unlock lm txn lockId).2.1.state_ = TransactionState.SHRINKING := by
  simp [LockManager.unlock, LockManager.checkAndSetState, h]

theorem call_txn_other (w : LockWorld) (c : LockCall) (id : Int) (hc : ¬c.caller = id) :
    (w.call c).1.txn id = w.txn id := by
  have hcid := txn_id_of_world w c.caller
  cases c <;> simp only [LockCall.caller] at hc hcid <;>
    simp only [LockWorld.call, txn_storeTxn, LockManager.lock_shared_on_table,
      LockManager.lock_exclusive_on_table, LockManager.lock_IX_on_table,
      LockManager.lock_IS_on_table, addLockOnTable_txn_id, unlock_txn_id, LockCall.caller,
      hcid, hc, if_false] <;> rfl

theorem call_keeps_shrinking (w : LockWorld) (c : LockCall) (id : Int)
    (h : (w.txn id).state_ = TransactionState.SHRINKING) :
    ((w.call c).1.txn id).state_ = TransactionState.SHRINKING := by
  by_cases hc : c.caller = id
  · have hcid := txn_id_of_world w id
    cases c <;> simp only [LockCall.caller] at hc <;> subst hc <;>
      simp only [LockWorld.call, LockCall.caller, LockManager.lock_shared_on_table,
        LockManager.lock_exclusive_on_table, LockManager.lock_IX_on_table,
        LockManager.lock_IS_on_table, addLockOnTable_shrinking _ _ _ _ h,
        unlock_shrinking _ _ _ h, txn_storeTxn, hcid, if_true] <;> exact h
  · rw [call_txn_other w c id hc]; exact h

theorem run_keeps_shrinking : ∀ (calls : List LockCall) (w : LockWorld) (id : Int),
    (w.txn id).state_ = TransactionState.SHRINKING →
    ((w.run calls).txn id).state_ = TransactionState.SHRINKING := by
  intro calls
  induction calls with
  | nil => intro w id h; exact h
  | cons c cs ih => intro w id h; exact ih _ id (call_keeps_shrinking w c id h)

theorem unlock_call_shrinks (w : LockWorld) (id : Int) (lockId : LockDataId)
    (h : (w.txn id).state_ = TransactionState.GROWING) :
    ((w.call (LockCall.unlock id lockId)).1.txn id).state_ = TransactionState.SHRINKING := by
  have hcid := txn_id_of_world w id
  simp only [LockWorld.call, LockCall.caller, txn_storeTxn, unlock_txn_id, hcid, if_true]
  exact unlock_growing _ _ _ h

/-- C12: once a transaction in state GROWING has called `unlock`, it is in
state SHRINKING and stays so through every later call on the lock manager;
each of its later calls of `lock_shared_on_table`, `lock_exclusive_on_table`
and `lock_IX_on_table` throws `TransactionAbortException` with
`LOCK_ON_SHIRINKING` and leaves the lock table unchanged. -/
theorem lock_after_unlock_is_refused (w : LockWorld) (txn_id : Int) (lock_data_id : LockDataId)
    (calls : List LockCall) (tab_fd : Int)
    (hgrow : (w.txn txn_id).state_ = TransactionState.GROWING) :
    (((w.call (LockCall.unlock txn_id lock_data_id)).1.run calls).txn txn_id).state_ =
      TransactionState.SHRINKING ∧
    (((w.call (LockCall.unlock txn_id lock_data_id)).1.run calls).call
        (LockCall.lock_shared_on_table txn_id tab_fd)).2 =
      LockOutcome.thrown txn_id AbortReason.LOCK_ON_SHIRINKING ∧
    ((((w.call (LockCall.unlock txn_id lock_data_id)).1.run calls).call
        (LockCall.lock_shared_on_table txn_id tab_fd)).1.lm =
      ((w.call (LockCall.unlock txn_id lock_data_id)).1.run calls).lm) ∧
    (((w.call (LockCall.unlock txn_id lock_data_id)).1.run calls).call
        (LockCall.lock_exclusive_on_table txn_id tab_fd)).2 =
      LockOutcome.thrown txn_id AbortReason.LOCK_ON_SHIRINKING ∧
    ((((w.call (LockCall.unlock txn_id lock_data_id)).1.run calls).call
        (LockCall.lock_exclusive_on_table txn_id tab_fd)).1.lm =
      ((w.call (LockCall.unlock txn_id lock_data_id)).1.run calls).lm) ∧
    (((w.call (LockCall.unlock txn_id lock_data_id)).1.run calls).call
        (LockCall.lock_IX_on_table txn_id tab_fd)).2 =
      LockOutcome.thrown txn_id AbortReason.LOCK_ON_SHIRINKING ∧
    ((((w.call (LockCall.unlock txn_id lock_data_id)).1.run calls).call
        (LockCall.lock_IX_on_table txn_id tab_fd)).1.lm =
      ((w.call (LockCall.unlock txn_id lock_data_id)).1.run calls).lm) := by
  have hs := run_keeps_shrinking calls _ txn_id (unlock_call_shrinks w txn_id lock_data_id hgrow)
  have hid := txn_id_of_world ((w.call (LockCall.unlock txn_id lock_data_id)).1.run calls) txn_id
  generalize (w.call (LockCall.unlock txn_id lock_data_id)).1.run calls = w2 at hs hid ⊢
  refine ⟨hs, ?_, ?_, ?_, ?_, ?_, ?_⟩ <;>
    simp only [LockWorld.call, LockCall.caller, LockManager.lock_shared_on_table,
      LockManager.lock_exclusive_on_table, LockManager.lock_IX_on_table,
      addLockOnTable_shrinking _ _ _ _ hs, hid]

/-- C12 at a concrete run: transaction 1 takes S on table 7 and unlocks it; its
later request for X on table 7 is refused with `LOCK_ON_SHIRINKING`. -/
theorem lock_after_unlock_is_refused_witness :
    ((LockWorld.init.run [.lock_shared_on_table 1 7]).txn 1).state_ = TransactionState.GROWING ∧
    ((((LockWorld.init.run [.lock_shared_on_table 1 7]).call
        (LockCall.unlock 1 (LockDataId.table 7))).1.run []).call
        (LockCall.lock_exclusive_on_table 1 7)).2 =
      LockOutcome.thrown 1 AbortReason.LOCK_ON_SHIRINKING :=
  ⟨by decide!, (lock_after_unlock_is_refused (LockWorld.init.run [.lock_shared_on_table 1 7]) 1
    (LockDataId.table 7) [] 7 (by decide!)).2.2.2.1⟩

/-- C13 (the code at a failing input): transaction 1 holds IX on table 7 and
asks for IX again; the call returns true but appends a second IX request and
raises `IX_lock_num_` from 1 to 2.  When transaction 1 holds SIX on table 7 and
asks for IX, the call throws `DEADLOCK_PREVENTION`. -/
theorem repeated_IX_request_changes_queue :
    (LockWorld.init.run [.lock_IX_on_table 1 7]).lm.queueAt (LockDataId.table 7) =
      { request_queue_ := [⟨1, .INTENTION_EXCLUSIVE, true⟩], group_lock_mode_ := .IX,
        shared_lock_num_ := 0, IX_lock_num_ := 1 } ∧
    ((LockWorld.init.run [.lock_IX_on_table 1 7]).call (.lock_IX_on_table 1 7)).2 =
      LockOutcome.returned true ∧
    ((LockWorld.init.run [.lock_IX_on_table 1 7]).call (.lock_IX_on_table 1 7)).1.lm.queueAt
        (LockDataId.table 7) =
      { request_queue_ := [⟨1, .INTENTION_EXCLUSIVE, true⟩, ⟨1, .INTENTION_EXCLUSIVE, true⟩],
        group_lock_mode_ := .IX, shared_lock_num_ := 0, IX_lock_num_ := 2 } ∧
    ((LockWorld.init.run [.lock_IX_on_table 1 7, .lock_shared_on_table 1 7]).lm.queueAt
        (LockDataId.table 7)).request_queue_ = [⟨1, .S_IX, true⟩] ∧
    ((LockWorld.init.run [.lock_IX_on_table 1 7, .lock_shared_on_table 1 7]).call
        (.lock_IX_on_table 1 7)).2 =
      LockOutcome.thrown 1 AbortReason.DEADLOCK_PREVENTION := by
  decide!

/-- C14 (the code at a failing input): transaction 1 holds X on table 7;
`lock_IS_on_table` for transaction 2 on table 7 returns true and leaves the
lock table as it was. -/
theorem lock_IS_ignores_exclusive_holder :
    ((LockWorld.init.run [.lock_exclusive_on_table 1 7]).lm.queueAt
        (LockDataId.table 7)).request_queue_ = [⟨1, .EXLUCSIVE, true⟩] ∧
    ((LockWorld.init.run [.lock_exclusive_on_table 1 7]).call (.lock_IS_on_table 2 7)).2 =
      LockOutcome.returned true ∧
    ((LockWorld.init.run [.lock_exclusive_on_table 1 7]).call (.lock_IS_on_table 2 7)).1.lm =
      (LockWorld.init.run [.lock_exclusive_on_table 1 7]).lm := by
  decide!

/-! ## Buffer pool manager -/

theorem frame_setFrame_same (bpm : BufferPoolManager) (f : Nat) (p : Page)
    (hf : f < bpm.pages_.length) : (bpm.setFrame f p).frame f = p := by
  simp [BufferPoolManager.frame, BufferPoolManager.setFrame, List.getD_eq_getElem?_getD,
    List.getElem?_set, hf]

theorem frame_setFrame_other (bpm : BufferPoolManager) (f g : Nat) (p : Page) (hg : g ≠ f) :
    (bpm.setFrame f p).frame g = bpm.frame g := by
  simp [BufferPoolManager.frame, BufferPoolManager.setFrame, List.getD_eq_getElem?_getD,
    List.getElem?_set, Ne.symm hg]

theorem frame_in_pool (bpm : BufferPoolManager) (f : Nat) (h : (bpm.frame f).pin_count_ ≠ 0) :
    f < bpm.pages_.length := by
  by_contra hlt
  apply h
  have : bpm.pages_.length ≤ f := by omega
  simp [BufferPoolManager.frame, List.getD_eq_getElem?_getD, List.getElem?_eq_none this,
    Page.unused]

theorem frame_out_of_pool (bpm : BufferPoolManager) (f : Nat) (h : bpm.pages_.length ≤ f) :
    bpm.frame f = Page.unused := by
  simp [BufferPoolManager.frame, List.getD_eq_getElem?_getD, List.getElem?_eq_none h]

theorem lookup_tableErase_same (t : List (PageId × Nat)) (page_id : PageId) :
    (BufferPoolManager.tableErase t page_id).lookup page_id = none := by
  induction t with
  | nil => rfl
  | cons e rest ih =>
    obtain ⟨i, f⟩ := e
    by_cases h : i = page_id
    · simp [BufferPoolManager.tableErase, List.filter_cons, h] at ih ⊢
      exact ih
    · have hb : (page_id == i) = false := beq_eq_false_iff_ne.mpr (Ne.symm h)
      simp [BufferPoolManager.tableErase, List.filter_cons, h, List.lookup_cons, hb] at ih ⊢
      exact ih

theorem lookup_tableErase_other (t : List (PageId × Nat)) (page_id q : PageId)
    (hq : q ≠ page_id) :
    (BufferPoolManager.tableErase t page_id).lookup q = t.lookup q := by
  induction t with
  | nil => rfl
  | cons e rest ih =>
    obtain ⟨i, f⟩ := e
    by_cases h : i = page_id
    · subst h
      have hb : (q == i) = false := beq_eq_false_iff_ne.mpr hq
      simp [BufferPoolManager.tableErase, List.filter_cons, List.lookup_cons, hb] at ih ⊢
      exact ih
    · simp only [BufferPoolManager.tableErase, List.filter_cons, bne_iff_ne, ne_eq, h,
        not_false_eq_true, decide_True, ite_true, List.lookup_cons] at ih ⊢
      rw [ih]

theorem lookup_storeBytes_same (id : PageId) (bytes : List Nat) (l : List (PageId × List Nat)) :
    (DiskManager.storeBytes id bytes l).lookup id = some bytes := by
  induction l with
  | nil => simp [DiskManager.storeBytes, List.lookup_cons]
  | cons e rest ih =>
    obtain ⟨i, b⟩ := e
    by_cases h : i = id
    · simp [DiskManager.storeBytes, h, List.lookup_cons]
    · have hb : (id == i) = false := beq_eq_false_iff_ne.mpr (Ne.symm h)
      simp [DiskManager.storeBytes, h, List.lookup_cons, hb, ih]

theorem read_page_write_page (d : DiskManager) (fd page_no : Int) (bytes : List Nat) :
    (d.write_page fd page_no bytes).read_page fd page_no = bytes := by
  simp [DiskManager.read_page, DiskManager.write_page, lookup_storeBytes_same]

/-- C16: `unpin_page(pid, d)` returns false and leaves the pool as it was
when `pid` is not in the page table or the pin count of its frame is 0; otherwise
it returns true, the pin count of that frame goes down by exactly 1, the pin
count of every other frame is unchanged, and the replacer is handed the frame
(`unpin`) exactly when the count reaches 0 and is otherwise untouched. -/
theorem unpin_page_contract (bpm : BufferPoolManager) (page_id : PageId) (d : Bool) :
    (bpm.page_table_.lookup page_id = none → bpm.unpin_page page_id d = (bpm, false)) ∧
    (∀ f, bpm.page_table_.lookup page_id = some f → (bpm.frame f).pin_count_ = 0 →
      bpm.unpin_page page_id d = (bpm, false)) ∧
    (∀ f, bpm.page_table_.lookup page_id = some f → (bpm.frame f).pin_count_ ≠ 0 →
      (bpm.unpin_page page_id d).2 = true ∧
      ((bpm.unpin_page page_id d).1.frame f).pin_count_ + 1 = (bpm.frame f).pin_count_ ∧
      (∀ g, g ≠ f →
        ((bpm.unpin_page page_id d).1.frame g).pin_count_ = (bpm.frame g).pin_count_) ∧
      (bpm.unpin_page page_id d).1.replacer_ =
        (if ((bpm.unpin_page page_id d).1.frame f).pin_count_ = 0 then bpm.replacer_.unpin f
         else bpm.replacer_)) := by
  refine ⟨?_, ?_, ?_⟩
  · intro h
    simp [BufferPoolManager.unpin_page, h]
  · intro f h h0
    simp [BufferPoolManager.unpin_page, h, h0]
  · intro f h h0
    have hf := frame_in_pool bpm f h0
    have hpos : 0 < (bpm.frame f).pin_count_ := Nat.pos_of_ne_zero h0
    by_cases h1 : (bpm.frame f).pin_count_ - 1 = 0
    · have hu : bpm.unpin_page page_id d =
          (({ bpm with replacer_ := bpm.replacer_.unpin f } : BufferPoolManager).setFrame f
            { (bpm.frame f) with pin_count_ := (bpm.frame f).pin_count_ - 1, is_dirty_ := d },
           true) := by
        simp [BufferPoolManager.unpin_page, h, h0, h1]
      rw [hu]
      refine ⟨rfl, ?_, ?_, ?_⟩
      · show ((BufferPoolManager.setFrame _ f _).frame f).pin_count_ + 1 = _
        rw [frame_setFrame_same { bpm with replacer_ := bpm.replacer_.unpin f } f _ hf]
        show (bpm.frame f).pin_count_ - 1 + 1 = _
        omega
      · intro g hg
        show ((BufferPoolManager.setFrame _ f _).frame g).pin_count_ = _
        rw [frame_setFrame_other _ _ _ _ hg]
        rfl
      · show _ = if ((BufferPoolManager.setFrame _ f _).frame f).pin_count_ = 0 then _ else _
        rw [frame_setFrame_same { bpm with replacer_ := bpm.replacer_.unpin f } f _ hf]
        simp [h1, BufferPoolManager.setFrame]
    · have hu : bpm.unpin_page page_id d =
          (bpm.setFrame f
            { (bpm.frame f) with pin_count_ := (bpm.frame f).pin_count_ - 1, is_dirty_ := d },
           true) := by
        simp [BufferPoolManager.unpin_page, h, h0, h1]
      rw [hu]
      refine ⟨rfl, ?_, ?_, ?_⟩
      · show ((BufferPoolManager.setFrame _ f _).frame f).pin_count_ + 1 = _
        rw [frame_setFrame_same _ _ _ hf]
        show (bpm.frame f).pin_count_ - 1 + 1 = _
        omega
      · intro g hg
        show ((BufferPoolManager.setFrame _ f _).frame g).pin_count_ = _
        rw [frame_setFrame_other _ _ _ _ hg]
      · show _ = if ((BufferPoolManager.setFrame _ f _).frame f).pin_count_ = 0 then _ else _
        rw [frame_setFrame_same _ _ _ hf]
        simp [h1, BufferPoolManager.setFrame]

/-- C16 at concrete runs: on the two-frame pool, unpinning a page that is not
resident fails and changes nothing, and after `new_page` on file 1 unpinning
page `(1, 0)` succeeds, brings its pin count from 1 to 0 and hands frame 0 to
the replacer. -/
theorem unpin_page_contract_witness :
    pool2.unpin_page ⟨1, 0⟩ true = (pool2, false) ∧
    ((pool2.run [.new_page 1]).unpin_page ⟨1, 0⟩ true).2 = true ∧
    (((pool2.run [.new_page 1]).unpin_page ⟨1, 0⟩ true).1.frame 0).pin_count_ + 1 =
      ((pool2.run [.new_page 1]).frame 0).pin_count_ ∧
    ((pool2.run [.new_page 1]).unpin_page ⟨1, 0⟩ true).1.replacer_ =
      (if (((pool2.run [.new_page 1]).unpin_page ⟨1, 0⟩ true).1.frame 0).pin_count_ = 0 then
        (pool2.run [.new_page 1]).replacer_.unpin 0
       else (pool2.run [.new_page 1]).replacer_) :=
  ⟨(unpin_page_contract pool2 ⟨1, 0⟩ true).1 (by decide!),
   ((unpin_page_contract (pool2.run [.new_page 1]) ⟨1, 0⟩ true).2.2 0 (by decide!)
      (by decide!)).1,
   ((unpin_page_contract (pool2.run [.new_page 1]) ⟨1, 0⟩ true).2.2 0 (by decide!)
      (by decide!)).2.1,
   ((unpin_page_contract (pool2.run [.new_page 1]) ⟨1, 0⟩ true).2.2 0 (by decide!)
      (by decide!)).2.2.2⟩

/-- C18: `delete_page(pid)` returns true and changes nothing when `pid`
is not resident; returns false and changes nothing when `pid` is resident with a
pin count that is not 0; otherwise it returns true, the pager has been given the
bytes of the frame under the identity the frame carried (so they are what the
disk holds for `pid` when the frame carried `pid`), `pid` is gone from the page
table and no other entry has changed, the frame is reset (identity `(-1,
INVALID_PAGE_ID)`, zero bytes, not dirty, pin count 0) and it has been appended
to the free list. -/
theorem delete_page_contract (bpm : BufferPoolManager) (page_id : PageId) :
    (bpm.page_table_.lookup page_id = none → bpm.delete_page page_id = (bpm, true)) ∧
    (∀ f, bpm.page_table_.lookup page_id = some f → (bpm.frame f).pin_count_ ≠ 0 →
      bpm.delete_page page_id = (bpm, false)) ∧
    (∀ f, bpm.page_table_.lookup page_id = some f → (bpm.frame f).pin_count_ = 0 →
      (bpm.delete_page page_id).2 = true ∧
      (bpm.delete_page page_id).1.disk_manager_ =
        bpm.disk_manager_.write_page (bpm.frame f).id_.fd (bpm.frame f).id_.page_no
          (bpm.frame f).data_ ∧
      ((bpm.frame f).id_ = page_id →
        (bpm.delete_page page_id).1.disk_manager_.read_page page_id.fd page_id.page_no =
          (bpm.frame f).data_) ∧
      (bpm.delete_page page_id).1.page_table_.lookup page_id = none ∧
      (∀ q, q ≠ page_id →
        (bpm.delete_page page_id).1.page_table_.lookup q = bpm.page_table_.lookup q) ∧
      (bpm.delete_page page_id).1.frame f =
        { id_ := ⟨-1, INVALID_PAGE_ID⟩, data_ := List.replicate PAGE_SIZE 0, is_dirty_ := false,
          pin_count_ := 0 } ∧
      (∀ g, g ≠ f → (bpm.delete_page page_id).1.frame g = bpm.frame g) ∧
      (bpm.delete_page page_id).1.free_list_ = bpm.free_list_ ++ [f]) := by
  refine ⟨?_, ?_, ?_⟩
  · intro h
    simp [BufferPoolManager.delete_page, h]
  · intro f h h0
    simp [BufferPoolManager.delete_page, h, h0]
  · intro f h h0
    have hu : bpm.delete_page page_id =
        ({ (({ bpm with
                disk_manager_ := bpm.disk_manager_.write_page (bpm.frame f).id_.fd
                  (bpm.frame f).id_.page_no (bpm.frame f).data_,
                page_table_ := BufferPoolManager.tableErase bpm.page_table_ page_id } :
              BufferPoolManager).setFrame f
              ({ (bpm.frame f) with is_dirty_ := false,
                                    id_ := ⟨-1, INVALID_PAGE_ID⟩ }).reset_memory) with
           free_list_ := bpm.free_list_ ++ [f] }, true) := by
      have hn : ¬ ((bpm.frame f).pin_count_ ≠ 0) := by simp [h0]
      simp only [BufferPoolManager.delete_page, h, hn, if_false]
      rfl
    rw [hu]
    refine ⟨rfl, rfl, ?_, ?_, ?_, ?_, ?_, rfl⟩
    · intro hid
      show (bpm.disk_manager_.write_page _ _ _).read_page _ _ = _
      rw [hid]
      exact read_page_write_page _ _ _ _
    · exact lookup_tableErase_same _ _
    · intro q hq
      exact lookup_tableErase_other _ _ _ hq
    · by_cases hf : f < bpm.pages_.length
      · simp [BufferPoolManager.frame, BufferPoolManager.setFrame, List.getD_eq_getElem?_getD,
          List.getElem?_set, hf, Page.reset_memory] at h0 ⊢
        exact h0
      · have hle : bpm.pages_.length ≤ f := by omega
        simp [BufferPoolManager.frame, BufferPoolManager.setFrame, List.getD_eq_getElem?_getD,
          List.getElem?_set, List.getElem?_eq_none hle, Page.unused, hf]
    · intro g hg
      simp [BufferPoolManager.frame, BufferPoolManager.setFrame, List.getD_eq_getElem?_getD,
        List.getElem?_set, Ne.symm hg]

/-- C18 at concrete runs: on the two-frame pool, deleting a page that is not
resident succeeds and changes nothing, deleting the pinned page `(1, 0)` fails
and changes nothing, and once the page is unpinned deleting it succeeds, leaves
its bytes on disk, drops it from the page table and appends frame 0 to the free
list. -/
theorem delete_page_contract_witness :
    pool2.delete_page ⟨1, 0⟩ = (pool2, true) ∧
    (pool2.run [.new_page 1]).delete_page ⟨1, 0⟩ = (pool2.run [.new_page 1], false) ∧
    ((pool2.run [.new_page 1, .write ⟨1, 0⟩ 0 7, .unpin_page ⟨1, 0⟩ true]).delete_page
        ⟨1, 0⟩).2 = true ∧
    ((pool2.run [.new_page 1, .write ⟨1, 0⟩ 0 7, .unpin_page ⟨1, 0⟩ true]).delete_page
        ⟨1, 0⟩).1.disk_manager_.read_page 1 0 =
      ((pool2.run [.new_page 1, .write ⟨1, 0⟩ 0 7, .unpin_page ⟨1, 0⟩ true]).frame 0).data_ ∧
    ((pool2.run [.new_page 1, .write ⟨1, 0⟩ 0 7, .unpin_page ⟨1, 0⟩ true]).delete_page
        ⟨1, 0⟩).1.page_table_.lookup ⟨1, 0⟩ = none ∧
    ((pool2.run [.new_page 1, .write ⟨1, 0⟩ 0 7, .unpin_page ⟨1, 0⟩ true]).delete_page
        ⟨1, 0⟩).1.free_list_ =
      (pool2.run [.new_page 1, .write ⟨1, 0⟩ 0 7, .unpin_page ⟨1, 0⟩ true]).free_list_ ++ [0] :=
  ⟨(delete_page_contract pool2 ⟨1, 0⟩).1 (by decide!),
   (delete_page_contract (pool2.run [.new_page 1]) ⟨1, 0⟩).2.1 0 (by decide!) (by decide!),
   ((delete_page_contract (pool2.run [.new_page 1, .write ⟨1, 0⟩ 0 7, .unpin_page ⟨1, 0⟩ true])
      ⟨1, 0⟩).2.2 0 (by decide!) (by decide!)).1,
   ((delete_page_contract (pool2.run [.new_page 1, .write ⟨1, 0⟩ 0 7, .unpin_page ⟨1, 0⟩ true])
      ⟨1, 0⟩).2.2 0 (by decide!) (by decide!)).2.2.1 (by decide!),
   ((delete_page_contract (pool2.run [.new_page 1, .write ⟨1, 0⟩ 0 7, .unpin_page ⟨1, 0⟩ true])
      ⟨1, 0⟩).2.2 0 (by decide!) (by decide!)).2.2.2.1,
   ((delete_page_contract (pool2.run [.new_page 1, .write ⟨1, 0⟩ 0 7, .unpin_page ⟨1, 0⟩ true])
      ⟨1, 0⟩).2.2 0 (by decide!) (by decide!)).2.2.2.2.2.2.2⟩

theorem victim_eq_none_iff (r : LRUReplacer) : r.victim = none ↔ r.LRUlist_ = [] := by
  unfold LRUReplacer.victim
  cases h : r.LRUlist_.getLast? with
  | none => simpa using h
  | some a =>
    constructor
    · intro hc
      cases hc
    · intro hnil
      rw [hnil] at h
      simp at h

theorem fetch_page_eq_none_iff (bpm : BufferPoolManager) (page_id : PageId) :
    (bpm.fetch_page page_id).2 = none ↔
      bpm.page_table_.lookup page_id = none ∧ bpm.free_list_ = [] ∧
        bpm.replacer_.LRUlist_ = [] := by
  unfold BufferPoolManager.fetch_page
  cases hl : bpm.page_table_.lookup page_id with
  | some f => simp
  | none =>
    unfold BufferPoolManager.find_victim_page
    cases hfl : bpm.free_list_ with
    | cons a rest => simp
    | nil =>
      cases hv : bpm.replacer_.victim with
      | none =>
        have := (victim_eq_none_iff bpm.replacer_).mp hv
        simp [this]
      | some p =>
        have hne : bpm.replacer_.LRUlist_ ≠ [] := by
          intro hnil
          have := (victim_eq_none_iff bpm.replacer_).mpr hnil
          rw [this] at hv
          cases hv
        simp [hne]

theorem fetch_page_none_unchanged (bpm : BufferPoolManager) (page_id : PageId)
    (h : (bpm.fetch_page page_id).2 = none) : (bpm.fetch_page page_id).1 = bpm := by
  have h3 := (fetch_page_eq_none_iff bpm page_id).mp h
  obtain ⟨hl, hfl, hr⟩ := h3
  have hv := (victim_eq_none_iff bpm.replacer_).mpr hr
  simp [BufferPoolManager.fetch_page, BufferPoolManager.find_victim_page, hl, hfl, hv]

/-- C17: in a pool whose replacer holds exactly the resident frames with
pin count 0, and whose frames are each on the free list or resident,
`fetch_page(pid)` returns null exactly when `pid` is not resident, the free list
is empty and every frame of the pool has a pin count above 0; and when it
returns null the whole pool (page table, frames, free list, replacer, disk) is as
it was. -/
theorem fetch_page_null_iff_all_pinned (bpm : BufferPoolManager) (page_id : PageId)
    (hs : ReplacerSync bpm) (ha : FramesAccounted bpm) :
    ((bpm.fetch_page page_id).2 = none ↔
      bpm.page_table_.lookup page_id = none ∧ bpm.free_list_ = [] ∧
        ∀ f, f < bpm.pages_.length → 0 < (bpm.frame f).pin_count_) ∧
    ((bpm.fetch_page page_id).2 = none → (bpm.fetch_page page_id).1 = bpm) := by
  refine ⟨?_, fetch_page_none_unchanged bpm page_id⟩
  rw [fetch_page_eq_none_iff]
  constructor
  · rintro ⟨hl, hfl, hr⟩
    refine ⟨hl, hfl, ?_⟩
    intro f hf
    rcases ha.1 f hf with hfree | hres
    · rw [hfl] at hfree
      cases hfree
    · by_contra hz
      have hz0 : (bpm.frame f).pin_count_ = 0 := by omega
      have hmem := (hs f).mpr ⟨hres, hz0⟩
      rw [hr] at hmem
      cases hmem
  · rintro ⟨hl, hfl, hp⟩
    refine ⟨hl, hfl, ?_⟩
    apply List.eq_nil_iff_forall_not_mem.mpr
    intro f hmem
    obtain ⟨⟨q, hq⟩, hz⟩ := (hs f).mp hmem
    have := hp f (ha.2 q f hq)
    omega

theorem pinnedPool_fields :
    pinnedPool.page_table_ = [(⟨1, 0⟩, 0)] ∧ pinnedPool.free_list_ = [] ∧
    pinnedPool.replacer_.LRUlist_ = [] ∧ pinnedPool.pages_.length = 1 ∧
    (pinnedPool.frame 0).pin_count_ = 1 := by
  decide!

theorem pinnedPool_resident (q : PageId) (f : Nat)
    (h : pinnedPool.page_table_.lookup q = some f) : f = 0 := by
  rw [pinnedPool_fields.1] at h
  simp only [List.lookup_cons, List.lookup_nil] at h
  split at h
  · cases h
    rfl
  · cases h

theorem pinnedPool_sync : ReplacerSync pinnedPool := by
  intro f
  rw [pinnedPool_fields.2.2.1]
  constructor
  · intro h
    cases h
  · rintro ⟨⟨q, hq⟩, hz⟩
    have := pinnedPool_resident q f hq
    subst this
    rw [pinnedPool_fields.2.2.2.2] at hz
    cases hz

theorem pinnedPool_accounted : FramesAccounted pinnedPool := by
  constructor
  · intro f hf
    rw [pinnedPool_fields.2.2.2.1] at hf
    have : f = 0 := by omega
    subst this
    right
    exact ⟨⟨1, 0⟩, by decide!⟩
  · intro q f hq
    have := pinnedPool_resident q f hq
    subst this
    rw [pinnedPool_fields.2.2.2.1]
    omega

/-- C17 at a concrete pool: the one-frame pool whose frame holds the pinned page
`(1, 0)` meets both assumptions, and there `fetch_page` of another page returns
null and leaves the pool as it was. -/
theorem fetch_page_null_iff_all_pinned_witness :
    ReplacerSync pinnedPool ∧ FramesAccounted pinnedPool ∧
    (pinnedPool.fetch_page ⟨1, 5⟩).2 = none ∧
    ((pinnedPool.fetch_page ⟨1, 5⟩).2 = none ↔
      pinnedPool.page_table_.lookup ⟨1, 5⟩ = none ∧ pinnedPool.free_list_ = [] ∧
        ∀ f, f < pinnedPool.pages_.length → 0 < (pinnedPool.frame f).pin_count_) ∧
    ((pinnedPool.fetch_page ⟨1, 5⟩).2 = none → (pinnedPool.fetch_page ⟨1, 5⟩).1 = pinnedPool) :=
  ⟨pinnedPool_sync, pinnedPool_accounted, by decide!,
   fetch_page_null_iff_all_pinned pinnedPool ⟨1, 5⟩ pinnedPool_sync pinnedPool_accounted⟩

/-- C15 (the code at a failing input): `unpin_page` assigns its argument to the dirty flag.  In
the one-frame pool, page `(1, 0)` is created and fetched once more (pin count
2), a byte is stored in it and one holder unpins it with `true`: the page is
resident with pin count 1 and dirty.  `unpin_page((1, 0), false)` by the other
holder then returns true and leaves the flag false, where old flag OR argument
is true.  The next `new_page` takes the frame without a write, so the disk never
receives the stored byte. -/
theorem unpin_page_false_clears_dirty_flag :
    (pool1.run [.new_page 1, .fetch_page ⟨1, 0⟩, .write ⟨1, 0⟩ 0 7,
        .unpin_page ⟨1, 0⟩ true]).page_table_.lookup ⟨1, 0⟩ = some 0 ∧
    ((pool1.run [.new_page 1, .fetch_page ⟨1, 0⟩, .write ⟨1, 0⟩ 0 7,
        .unpin_page ⟨1, 0⟩ true]).frame 0).pin_count_ = 1 ∧
    ((pool1.run [.new_page 1, .fetch_page ⟨1, 0⟩, .write ⟨1, 0⟩ 0 7,
        .unpin_page ⟨1, 0⟩ true]).frame 0).is_dirty_ = true ∧
    ((pool1.run [.new_page 1, .fetch_page ⟨1, 0⟩, .write ⟨1, 0⟩ 0 7,
        .unpin_page ⟨1, 0⟩ true]).unpin_page ⟨1, 0⟩ false).2 = true ∧
    (((pool1.run [.new_page 1, .fetch_page ⟨1, 0⟩, .write ⟨1, 0⟩ 0 7,
        .unpin_page ⟨1, 0⟩ true]).unpin_page ⟨1, 0⟩ false).1.frame 0).is_dirty_ = false ∧
    (((pool1.run [.new_page 1, .fetch_page ⟨1, 0⟩, .write ⟨1, 0⟩ 0 7,
        .unpin_page ⟨1, 0⟩ true]).unpin_page ⟨1, 0⟩ false).1.frame 0).data_.head? = some 7 ∧
    (pool1.run [.new_page 1, .fetch_page ⟨1, 0⟩, .write ⟨1, 0⟩ 0 7, .unpin_page ⟨1, 0⟩ true,
        .unpin_page ⟨1, 0⟩ false, .new_page 1]).page_table_.lookup ⟨1, 0⟩ = none ∧
    (pool1.run [.new_page 1, .fetch_page ⟨1, 0⟩, .write ⟨1, 0⟩ 0 7, .unpin_page ⟨1, 0⟩ true,
        .unpin_page ⟨1, 0⟩ false, .new_page 1]).disk_manager_.pages = [] := by
  decide!

/-- C19 (the code at failing inputs, one for each direction): first run: page `(1, 0)` is created, a
byte is stored, the page is unpinned with `true` and flushed; it is resident
with pin count 0, its bytes on disk equal its bytes in memory, and its dirty
flag is still true, because `flush_page` writes the page and leaves the flag.
Second run: after the same steps the page is fetched by two callers, one stores
another byte and unpins with `true`, the other unpins with `false`; the page is
resident with pin count 0 and a false dirty flag, and its bytes on disk differ
from its bytes in memory. -/
theorem dirty_flag_does_not_track_disk :
    ((pool2.run [.new_page 1, .write ⟨1, 0⟩ 0 7, .unpin_page ⟨1, 0⟩ true,
        .flush_page ⟨1, 0⟩]).page_table_.lookup ⟨1, 0⟩ = some 0 ∧
     ((pool2.run [.new_page 1, .write ⟨1, 0⟩ 0 7, .unpin_page ⟨1, 0⟩ true,
        .flush_page ⟨1, 0⟩]).frame 0).pin_count_ = 0 ∧
     diskMatchesMemory (pool2.run [.new_page 1, .write ⟨1, 0⟩ 0 7, .unpin_page ⟨1, 0⟩ true,
        .flush_page ⟨1, 0⟩]) ⟨1, 0⟩ = true ∧
     ((pool2.run [.new_page 1, .write ⟨1, 0⟩ 0 7, .unpin_page ⟨1, 0⟩ true,
        .flush_page ⟨1, 0⟩]).frame 0).is_dirty_ = true) ∧
    ((pool2.run [.new_page 1, .write ⟨1, 0⟩ 0 7, .unpin_page ⟨1, 0⟩ true, .flush_page ⟨1, 0⟩,
        .fetch_page ⟨1, 0⟩, .fetch_page ⟨1, 0⟩, .write ⟨1, 0⟩ 0 8, .unpin_page ⟨1, 0⟩ true,
        .unpin_page ⟨1, 0⟩ false]).page_table_.lookup ⟨1, 0⟩ = some 0 ∧
     ((pool2.run [.new_page 1, .write ⟨1, 0⟩ 0 7, .unpin_page ⟨1, 0⟩ true, .flush_page ⟨1, 0⟩,
        .fetch_page ⟨1, 0⟩, .fetch_page ⟨1, 0⟩, .write ⟨1, 0⟩ 0 8, .unpin_page ⟨1, 0⟩ true,
        .unpin_page ⟨1, 0⟩ false]).frame 0).pin_count_ = 0 ∧
     diskMatchesMemory (pool2.run [.new_page 1, .write ⟨1, 0⟩ 0 7, .unpin_page ⟨1, 0⟩ true,
        .flush_page ⟨1, 0⟩, .fetch_page ⟨1, 0⟩, .fetch_page ⟨1, 0⟩, .write ⟨1, 0⟩ 0 8,
        .unpin_page ⟨1, 0⟩ true, .unpin_page ⟨1, 0⟩ false]) ⟨1, 0⟩ = false ∧
     ((pool2.run [.new_page 1, .write ⟨1, 0⟩ 0 7, .unpin_page ⟨1, 0⟩ true, .flush_page ⟨1, 0⟩,
        .fetch_page ⟨1, 0⟩, .fetch_page ⟨1, 0⟩, .write ⟨1, 0⟩ 0 8, .unpin_page ⟨1, 0⟩ true,
        .unpin_page ⟨1, 0⟩ false]).frame 0).is_dirty_ = false) := by
  decide!

/-- C20 (the code at a failing input): `flush_all_pages(fd)` never reads `fd`: it gives the same
pool for every argument.  With page `(1, 0)` of file 1 and page `(2, 0)` of file
2 resident, unpinned and dirty, and nothing on disk yet, `flush_all_pages(1)`
writes the page of file 2 to disk as well. -/
theorem flush_all_pages_ignores_fd :
    (∀ (bpm : BufferPoolManager) (fd fd2 : Int),
      bpm.flush_all_pages fd = bpm.flush_all_pages fd2) ∧
    (pool2.run [.new_page 1, .write ⟨1, 0⟩ 0 7, .unpin_page ⟨1, 0⟩ true, .new_page 2,
        .write ⟨2, 0⟩ 0 9, .unpin_page ⟨2, 0⟩ true]).page_table_ = [(⟨1, 0⟩, 0), (⟨2, 0⟩, 1)] ∧
    (pool2.run [.new_page 1, .write ⟨1, 0⟩ 0 7, .unpin_page ⟨1, 0⟩ true, .new_page 2,
        .write ⟨2, 0⟩ 0 9, .unpin_page ⟨2, 0⟩ true]).disk_manager_.pages = [] ∧
    (((pool2.run [.new_page 1, .write ⟨1, 0⟩ 0 7, .unpin_page ⟨1, 0⟩ true, .new_page 2,
        .write ⟨2, 0⟩ 0 9, .unpin_page ⟨2, 0⟩ true]).flush_all_pages 1).disk_manager_.pages.map
          Prod.fst) = [⟨1, 0⟩, ⟨2, 0⟩] ∧
    ((pool2.run [.new_page 1, .write ⟨1, 0⟩ 0 7, .unpin_page ⟨1, 0⟩ true, .new_page 2,
        .write ⟨2, 0⟩ 0 9, .unpin_page ⟨2, 0⟩ true]).flush_all_pages 1).disk_manager_.read_page
          2 0 =
      ((pool2.run [.new_page 1, .write ⟨1, 0⟩ 0 7, .unpin_page ⟨1, 0⟩ true, .new_page 2,
        .write ⟨2, 0⟩ 0 9, .unpin_page ⟨2, 0⟩ true]).frame 1).data_ := by
  refine ⟨fun _ _ _ => rfl, ?_⟩
  decide!

/-! ## Record scan -/

theorem ctorBitLoop_some (ph : RmPageHandle) (B : Nat) :
    ∀ (cnt b0 b : Nat), RmScan.ctorBitLoop ph B cnt b0 = some b →
      isStored ph B b = true ∧ b0 ≤ b ∧ b < b0 + cnt := by
  intro cnt
  induction cnt with
  | zero => intro b0 b h; simp [RmScan.ctorBitLoop] at h
  | succ cnt ih =>
    intro b0 b h
    unfold RmScan.ctorBitLoop at h
    by_cases hs : isStored ph B b0 = true
    · rw [if_pos hs] at h
      cases h
      exact ⟨hs, by omega, by omega⟩
    · rw [if_neg hs] at h
      have := ih (b0 + 1) b h
      exact ⟨this.1, by omega, by omega⟩

theorem ctorBitLoop_none (ph : RmPageHandle) (B : Nat) :
    ∀ (cnt b0 : Nat), RmScan.ctorBitLoop ph B cnt b0 = none →
      ∀ b, b0 ≤ b → b < b0 + cnt → isStored ph B b = false := by
  intro cnt
  induction cnt with
  | zero => intro b0 _ b h1 h2; omega
  | succ cnt ih =>
    intro b0 h b h1 h2
    unfold RmScan.ctorBitLoop at h
    by_cases hs : isStored ph B b0 = true
    · rw [if_pos hs] at h
      cases h
    · rw [if_neg hs] at h
      by_cases hb : b = b0
      · subst hb
        simpa using hs
      · exact ih (b0 + 1) h b (by omega) (by omega)

theorem ctorByteLoop_some (ph : RmPageHandle) :
    ∀ (cnt B0 B b : Nat), RmScan.ctorByteLoop ph cnt B0 = some (B, b) →
      isStored ph B b = true ∧ b < 8 ∧ B0 ≤ B ∧ B < B0 + cnt := by
  intro cnt
  induction cnt with
  | zero => intro B0 B b h; simp [RmScan.ctorByteLoop] at h
  | succ cnt ih =>
    intro B0 B b h
    unfold RmScan.ctorByteLoop at h
    cases hb : RmScan.ctorBitLoop ph B0 8 0 with
    | some b1 =>
      rw [hb] at h
      simp only [Option.some.injEq, Prod.mk.injEq] at h
      obtain ⟨h1, h2⟩ := h
      subst h1 h2
      have := ctorBitLoop_some ph B0 8 0 b1 hb
      exact ⟨this.1, by omega, by omega, by omega⟩
    | none =>
      rw [hb] at h
      have := ih (B0 + 1) B b h
      exact ⟨this.1, this.2.1, by omega, by omega⟩

theorem ctorByteLoop_none (ph : RmPageHandle) :
    ∀ (cnt B0 : Nat), RmScan.ctorByteLoop ph cnt B0 = none →
      ∀ B b, B0 ≤ B → B < B0 + cnt → b < 8 → isStored ph B b = false := by
  intro cnt
  induction cnt with
  | zero => intro B0 _ B b h1 h2; omega
  | succ cnt ih =>
    intro B0 h B b h1 h2 h3
    unfold RmScan.ctorByteLoop at h
    cases hb : RmScan.ctorBitLoop ph B0 8 0 with
    | some b1 =>
      rw [hb] at h
      cases h
    | none =>
      rw [hb] at h
      by_cases hB : B = B0
      · subst hB
        exact ctorBitLoop_none ph B 8 0 hb b (by omega) (by omega)
      · exact ih (B0 + 1) h B b (by omega) (by omega) h3

theorem fetch_page_handle_some (fh : RmFileHandle)
    (hpages : fh.file_hdr_.num_pages.toNat ≤ fh.pages.length) (p : Int) (h0 : 0 ≤ p)
    (h1 : p < fh.file_hdr_.num_pages) : ∃ ph, fh.fetch_page_handle p = some ph := by
  have hlt : p.toNat < fh.pages.length := by omega
  exact ⟨fh.pages[p.toNat], by simp [RmFileHandle.fetch_page_handle, h0, hlt]⟩

theorem slotGet_div (B b : Nat) (hb : b < 8) :
    ((slotGet B b : Nat) : Int).toNat / 8 = B ∧ ((slotGet B b : Nat) : Int).toNat % 8 = b := by
  simp only [Int.toNat_ofNat, slotGet]
  omega

theorem ctorPageLoop_spec (fh : RmFileHandle) (rid0 : Rid)
    (hpages : fh.file_hdr_.num_pages.toNat ≤ fh.pages.length) :
    ∀ (cnt : Nat) (pg : Int), 1 ≤ pg → pg + cnt ≤ fh.file_hdr_.num_pages →
      ∃ s, RmScan.ctorPageLoop fh rid0 cnt pg = some s ∧
        (fh.occupied s.rid_ ∨
          ∀ r, fh.occupied r → pg ≤ r.page_no → r.page_no < pg + cnt → False) := by
  intro cnt
  induction cnt with
  | zero =>
    intro pg _ _
    exact ⟨⟨rid0⟩, rfl, Or.inr (fun r _ h1 h2 => by omega)⟩
  | succ cnt ih =>
    intro pg h1 h2
    obtain ⟨ph, hph⟩ := fetch_page_handle_some fh hpages pg (by omega) (by omega)
    unfold RmScan.ctorPageLoop
    rw [hph]
    dsimp only
    cases hb : RmScan.ctorByteLoop ph fh.file_hdr_.bitmap_size.toNat 0 with
    | some Bb =>
      obtain ⟨B, b⟩ := Bb
      have hsp := ctorByteLoop_some ph _ 0 B b hb
      have hd := slotGet_div B b hsp.2.1
      refine ⟨⟨⟨pg, slotGet B b⟩⟩, rfl, Or.inl ?_⟩
      refine ⟨h1, by dsimp only; omega, by simp, ?_, ph, hph, ?_⟩
      · show ((slotGet B b : Nat) : Int).toNat / 8 < _
        rw [hd.1]
        omega
      · show isStored ph (((slotGet B b : Nat) : Int).toNat / 8)
          (((slotGet B b : Nat) : Int).toNat % 8) = true
        rw [hd.1, hd.2]
        exact hsp.1
    | none =>
      obtain ⟨s, hs, hor⟩ := ih (pg + 1) (by omega) (by push_cast at h2 ⊢; omega)
      refine ⟨s, hs, ?_⟩
      rcases hor with ho | hno
      · exact Or.inl ho
      · right
        intro r hr hr1 hr2
        by_cases hpg : r.page_no = pg
        · obtain ⟨_, _, _, hB, ph2, hph2, hst⟩ := hr
          rw [hpg, hph] at hph2
          cases hph2
          have := ctorByteLoop_none ph _ 0 hb (r.slot_no.toNat / 8) (r.slot_no.toNat % 8)
            (by omega) (by omega) (Nat.mod_lt _ (by omega))
          rw [this] at hst
          cases hst
        · exact hno r hr (by omega) (by push_cast at hr2 ⊢; omega)

theorem nextBitLoop_some (ph : RmPageHandle) (B : Nat) :
    ∀ (cnt b0 : Nat) (tf tf2 : Bool) (b : Nat),
      RmScan.nextBitLoop ph B cnt b0 tf = (tf2, some b) →
      isStored ph B b = true ∧ b0 ≤ b ∧ b < b0 + cnt := by
  intro cnt
  induction cnt with
  | zero => intro b0 tf tf2 b h; simp [RmScan.nextBitLoop] at h
  | succ cnt ih =>
    intro b0 tf tf2 b h
    unfold RmScan.nextBitLoop at h
    by_cases hs : isStored ph B b0 = true
    · rw [if_pos hs] at h
      simp only [Prod.mk.injEq, Option.some.injEq] at h
      obtain ⟨_, h2⟩ := h
      subst h2
      exact ⟨hs, by omega, by omega⟩
    · rw [if_neg hs] at h
      have := ih (b0 + 1) false tf2 b h
      exact ⟨this.1, by omega, by omega⟩

theorem nextByteLoop_some (ph : RmPageHandle) (bitN : Nat) :
    ∀ (cnt B0 : Nat) (tf tf2 : Bool) (B b : Nat),
      RmScan.nextByteLoop ph bitN cnt B0 tf = (tf2, some (B, b)) →
      isStored ph B b = true ∧ b < 8 ∧ B0 ≤ B ∧ B < B0 + cnt ∧
        (tf = true → B = B0 → bitN + 1 ≤ b) := by
  intro cnt
  induction cnt with
  | zero => intro B0 tf tf2 B b h; simp [RmScan.nextByteLoop] at h
  | succ cnt ih =>
    intro B0 tf tf2 B b h
    unfold RmScan.nextByteLoop at h
    simp only at h
    generalize hstart : (if tf = true then bitN + 1 else 0) = start at h
    cases hb : RmScan.nextBitLoop ph B0 (8 - start) start tf with
    | mk tf3 ob =>
      rw [hb] at h
      cases ob with
      | some b1 =>
        simp only [Prod.mk.injEq, Option.some.injEq] at h
        obtain ⟨_, h1, h2⟩ := h
        subst h1 h2
        have := nextBitLoop_some ph B0 _ _ _ _ _ hb
        refine ⟨this.1, by omega, by omega, by omega, ?_⟩
        intro htf _
        rw [if_pos htf] at hstart
        omega
      | none =>
        simp only at h
        have := ih (B0 + 1) tf3 tf2 B b h
        exact ⟨this.1, this.2.1, by omega, by omega, fun _ hB => by omega⟩

theorem nextPageLoop_spec (fh : RmFileHandle) (byteN bitN : Nat)
    (hpages : fh.file_hdr_.num_pages.toNat ≤ fh.pages.length) :
    ∀ (cnt : Nat) (pg : Int) (tf : Bool), 1 ≤ pg → pg + cnt ≤ fh.file_hdr_.num_pages →
      ∃ s, RmScan.nextPageLoop fh byteN bitN cnt pg tf = some s ∧
        (s.rid_ = ⟨PAGE_END, SLOT_END⟩ ∨
          ∃ (B b : Nat), s.rid_.slot_no = ((slotGet B b : Nat) : Int) ∧ b < 8 ∧
            pg ≤ s.rid_.page_no ∧ fh.occupied s.rid_ ∧
            (tf = true → s.rid_.page_no = pg → byteN ≤ B ∧ (B = byteN → bitN + 1 ≤ b))) := by
  intro cnt
  induction cnt with
  | zero =>
    intro pg tf _ _
    exact ⟨⟨⟨PAGE_END, SLOT_END⟩⟩, rfl, Or.inl rfl⟩
  | succ cnt ih =>
    intro pg tf h1 h2
    obtain ⟨ph, hph⟩ := fetch_page_handle_some fh hpages pg (by omega) (by omega)
    unfold RmScan.nextPageLoop
    rw [hph]
    simp only
    generalize hstart : (if tf = true then byteN else 0) = start
    cases hb : RmScan.nextByteLoop ph bitN (fh.file_hdr_.bitmap_size.toNat - start) start tf with
    | mk tf3 ob =>
      cases ob with
      | some Bb =>
        obtain ⟨B, b⟩ := Bb
        have hsp := nextByteLoop_some ph bitN _ _ _ _ _ _ hb
        have hd := slotGet_div B b hsp.2.1
        refine ⟨⟨⟨pg, slotGet B b⟩⟩, rfl, Or.inr ⟨B, b, rfl, hsp.2.1, le_refl _, ?_, ?_⟩⟩
        · refine ⟨h1, by dsimp only; omega, by simp, ?_, ph, hph, ?_⟩
          · show ((slotGet B b : Nat) : Int).toNat / 8 < _
            rw [hd.1]
            omega
          · show isStored ph (((slotGet B b : Nat) : Int).toNat / 8)
              (((slotGet B b : Nat) : Int).toNat % 8) = true
            rw [hd.1, hd.2]
            exact hsp.1
        · intro htf _
          rw [if_pos htf] at hstart
          subst hstart
          exact ⟨hsp.2.2.1, fun hB => hsp.2.2.2.2 htf hB⟩
      | none =>
        simp only
        obtain ⟨s, hs, hor⟩ := ih (pg + 1) tf3 (by omega) (by push_cast at h2 ⊢; omega)
        refine ⟨s, hs, ?_⟩
        rcases hor with he | ⟨B, b, hsl, hb8, hpg, hocc, _⟩
        · exact Or.inl he
        · exact Or.inr ⟨B, b, hsl, hb8, by omega, hocc, fun _ hp => by omega⟩

theorem occupied_not_end (fh : RmFileHandle) (s : RmScan) (h : fh.occupied s.rid_) :
    s.is_end = false := by
  have h1 := h.1
  simp only [RmScan.is_end, PAGE_END, Bool.and_eq_false_imp, beq_iff_eq]
  intro hp
  omega

theorem next_of_occupied (fh : RmFileHandle)
    (hpages : fh.file_hdr_.num_pages.toNat ≤ fh.pages.length) (s : RmScan)
    (hocc : fh.occupied s.rid_) :
    ∃ s2, s.next fh = some s2 ∧
      (s2.is_end = true ∨ (fh.occupied s2.rid_ ∧ Rid.lt s.rid_ s2.rid_)) := by
  obtain ⟨h1, h2, h3, _, _⟩ := hocc
  have hn : ¬ s.rid_.slot_no < 0 := by omega
  obtain ⟨s2, hs2, hor⟩ := nextPageLoop_spec fh (s.rid_.slot_no.toNat / 8)
    (s.rid_.slot_no.toNat - s.rid_.slot_no.toNat / 8) hpages
    (fh.file_hdr_.num_pages - s.rid_.page_no).toNat s.rid_.page_no true h1 (by omega)
  refine ⟨s2, ?_, ?_⟩
  · simp only [RmScan.next, hn, if_false]
    exact hs2
  · rcases hor with he | ⟨B, b, hsl, hb8, hpg, hocc2, hfirst⟩
    · left
      simp [RmScan.is_end, he]
    · right
      refine ⟨hocc2, ?_⟩
      by_cases hp : s2.rid_.page_no = s.rid_.page_no
      · right
        refine ⟨hp.symm, ?_⟩
        obtain ⟨hB, hb⟩ := hfirst rfl hp
        rw [hsl]
        simp only [slotGet]
        have hz : s.rid_.slot_no = (s.rid_.slot_no.toNat : Int) := by omega
        rw [hz]
        by_cases hBe : B = s.rid_.slot_no.toNat / 8
        · have := hb hBe
          push_cast
          omega
        · push_cast
          omega
      · left
        omega

/-- C24: in a heap file that has its `num_pages` pages and at least one occupied
slot, the Rid a scan holds after construction designates an occupied slot (its
bitmap bit is set); from every Rid that designates an occupied slot `next()`
returns, and the scan is then at the end sentinel or holds a Rid that
designates an occupied slot and is strictly greater in (page, slot) order; so
every Rid held after construction and any number of `next()` calls is the end
sentinel or designates an occupied slot. -/
theorem rmscan_rids_occupied_and_increasing (fh : RmFileHandle) (rid0 : Rid)
    (hpages : fh.file_hdr_.num_pages.toNat ≤ fh.pages.length) (hocc : ∃ r, fh.occupied r) :
    (∃ s0, RmScan.new fh rid0 = some s0 ∧ fh.occupied s0.rid_) ∧
    (∀ s : RmScan, fh.occupied s.rid_ →
      ∃ s2, s.next fh = some s2 ∧
        (s2.is_end = true ∨ (fh.occupied s2.rid_ ∧ Rid.lt s.rid_ s2.rid_))) ∧
    (∀ k s, RmScan.after fh rid0 k = some s → s.is_end = true ∨ fh.occupied s.rid_) := by
  obtain ⟨r, hr⟩ := hocc
  have hnew : ∃ s0, RmScan.new fh rid0 = some s0 ∧ fh.occupied s0.rid_ := by
    have hnp : (1 : Int) ≤ fh.file_hdr_.num_pages := by have := hr.1; have := hr.2.1; omega
    obtain ⟨s, hs, hor⟩ := ctorPageLoop_spec fh rid0 hpages (fh.file_hdr_.num_pages - 1).toNat 1
      (le_refl _) (by omega)
    refine ⟨s, hs, ?_⟩
    rcases hor with ho | hno
    · exact ho
    · exact absurd (hno r hr hr.1 (by have := hr.2.1; omega)) id
  refine ⟨hnew, fun s hs => next_of_occupied fh hpages s hs, ?_⟩
  intro k
  induction k with
  | zero =>
    intro s hs
    obtain ⟨s0, hs0, ho⟩ := hnew
    have : RmScan.after fh rid0 0 = RmScan.new fh rid0 := rfl
    rw [this, hs0] at hs
    cases hs
    exact Or.inr ho
  | succ k ih =>
    intro s hs
    simp only [RmScan.after] at hs
    cases hk : RmScan.after fh rid0 k with
    | none => rw [hk] at hs; cases hs
    | some sk =>
      rw [hk] at hs
      simp only at hs
      rcases ih sk hk with he | ho
      · exfalso
        have hp : sk.rid_.page_no = PAGE_END ∧ sk.rid_.slot_no = SLOT_END := by
          simpa [RmScan.is_end] using he
        have hneg : sk.rid_.slot_no < 0 := by rw [hp.2]; decide
        simp [RmScan.next, hneg] at hs
      · obtain ⟨s2, hs2, hor⟩ := next_of_occupied fh hpages sk ho
        rw [hs2] at hs
        cases hs
        rcases hor with he | ⟨ho2, _⟩
        · exact Or.inl he
        · exact Or.inr ho2

/-- C24 at a concrete file: one record page whose slots 0 and 8 are occupied;
the file has its pages and an occupied slot, the scan starts at `(1, 0)` and
`next()` moves it to `(1, 8)`. -/
theorem rmscan_rids_occupied_and_increasing_witness :
    (onePageFile 0x80 0x80).occupied ⟨1, 0⟩ ∧
    RmScan.after (onePageFile 0x80 0x80) ⟨0, 0⟩ 1 = some ⟨⟨1, 8⟩⟩ ∧
    ((∃ s0, RmScan.new (onePageFile 0x80 0x80) ⟨0, 0⟩ = some s0 ∧
        (onePageFile 0x80 0x80).occupied s0.rid_) ∧
     (∀ s : RmScan, (onePageFile 0x80 0x80).occupied s.rid_ →
        ∃ s2, s.next (onePageFile 0x80 0x80) = some s2 ∧
          (s2.is_end = true ∨
            ((onePageFile 0x80 0x80).occupied s2.rid_ ∧ Rid.lt s.rid_ s2.rid_))) ∧
     (∀ k s, RmScan.after (onePageFile 0x80 0x80) ⟨0, 0⟩ k = some s →
        s.is_end = true ∨ (onePageFile 0x80 0x80).occupied s.rid_)) :=
  ⟨⟨by decide, by decide, by decide, by decide, ⟨[0x80, 0x80], List.replicate 16 [0, 0, 0, 0]⟩,
      by decide, by decide⟩,
   by decide,
   rmscan_rids_occupied_and_increasing (onePageFile 0x80 0x80) ⟨0, 0⟩ (by decide)
     ⟨⟨1, 0⟩, by decide, by decide, by decide, by decide,
       ⟨[0x80, 0x80], List.replicate 16 [0, 0, 0, 0]⟩, by decide, by decide⟩⟩

/-- C23 (the code at failing inputs): in a file of one record page with 16 slots,
(a) with the slots 8 and 9 occupied the scan starts at `(1, 8)` and `next()`
puts it at the end sentinel although slot 9 is occupied: `positionGet` sets
`bitN = slotNo - byteN`, which is 7 for slot 8, so the loop over the bits
starts at 8 and never runs; (b) with the slots 7 and 8 occupied the scan starts
at `(1, 7)` and `next()` puts it at the end sentinel although slot 8 is
occupied: the loop over the bits is empty for bit 7 and `theFirst` stays true;
(c) with all 16 slots occupied the scan holds `(1, 7)` after seven calls of
`next()` and is at the end after the eighth. -/
theorem rmscan_next_skips_occupied_slots :
    (RmScan.new (onePageFile 0x00 0xC0) ⟨0, 0⟩ = some ⟨⟨1, 8⟩⟩ ∧
     isStored ⟨[0x00, 0xC0], []⟩ 1 1 = true ∧
     RmScan.next (onePageFile 0x00 0xC0) ⟨⟨1, 8⟩⟩ = some ⟨⟨PAGE_END, SLOT_END⟩⟩) ∧
    (RmScan.new (onePageFile 0x01 0x80) ⟨0, 0⟩ = some ⟨⟨1, 7⟩⟩ ∧
     isStored ⟨[0x01, 0x80], []⟩ 1 0 = true ∧
     RmScan.next (onePageFile 0x01 0x80) ⟨⟨1, 7⟩⟩ = some ⟨⟨PAGE_END, SLOT_END⟩⟩) ∧
    (RmScan.after (onePageFile 0xFF 0xFF) ⟨0, 0⟩ 7 = some ⟨⟨1, 7⟩⟩ ∧
     RmScan.after (onePageFile 0xFF 0xFF) ⟨0, 0⟩ 8 = some ⟨⟨PAGE_END, SLOT_END⟩⟩) := by
  decide!

/-! ## Sequential scan -/

theorem after_succ (fh : RmFileHandle) (rid0 : Rid) (k : Nat) (sk : RmScan)
    (h : RmScan.after fh rid0 k = some sk) :
    RmScan.after fh rid0 (k + 1) = sk.next fh := by
  simp [RmScan.after, h]

theorem beginLoop_spec (fh : RmFileHandle) (conds_ : List Condition) (cols_ : List ColMeta)
    (rid0 : Rid) (n : Nat)
    (hend : ∃ sn, RmScan.after fh rid0 n = some sn ∧ sn.is_end = true)
    (hmid : ∀ j, j < n → ∃ sj, RmScan.after fh rid0 j = some sj ∧ sj.is_end = false ∧
      ∃ b, SeqScanExecutor.check fh conds_ cols_ sj.rid_ = some b) :
    ∀ (fuel k : Nat) (sk : RmScan), RmScan.after fh rid0 k = some sk → k ≤ n → n - k < fuel →
      ∃ k2 sk2, k ≤ k2 ∧ k2 ≤ n ∧ RmScan.after fh rid0 k2 = some sk2 ∧
        SeqScanExecutor.beginLoop fh conds_ cols_ fuel ⟨sk.rid_, sk⟩ = some ⟨sk2.rid_, sk2⟩ ∧
        (sk2.is_end = true ∨ SeqScanExecutor.check fh conds_ cols_ sk2.rid_ = some true) ∧
        ∀ j sj, k ≤ j → j < k2 → RmScan.after fh rid0 j = some sj →
          SeqScanExecutor.check fh conds_ cols_ sj.rid_ = some false := by
  intro fuel
  induction fuel with
  | zero => intro k sk _ _ h; omega
  | succ fuel ih =>
    intro k sk hk hkn hfuel
    by_cases he : sk.is_end = true
    · refine ⟨k, sk, le_refl _, hkn, hk, ?_, Or.inl he, fun j sj h1 h2 => by omega⟩
      simp [SeqScanExecutor.beginLoop, he]
    · have hlt : k < n := by
        by_contra hc
        have hkn2 : k = n := by omega
        subst hkn2
        obtain ⟨sn, hsn, hse⟩ := hend
        rw [hk] at hsn
        cases hsn
        exact he hse
      obtain ⟨sj, hsj, _, b, hb⟩ := hmid k hlt
      rw [hk] at hsj
      cases hsj
      cases b with
      | true =>
        refine ⟨k, sk, le_refl _, hkn, hk, ?_, Or.inr hb, fun j sj h1 h2 => by omega⟩
        simp [SeqScanExecutor.beginLoop, he, hb]
      | false =>
        have hnext : ∃ s2, RmScan.after fh rid0 (k + 1) = some s2 := by
          by_cases hk1 : k + 1 < n
          · obtain ⟨s2, hs2, _⟩ := hmid (k + 1) hk1
            exact ⟨s2, hs2⟩
          · have : k + 1 = n := by omega
            obtain ⟨sn, hsn, _⟩ := hend
            exact ⟨sn, this ▸ hsn⟩
        obtain ⟨s2, hs2⟩ := hnext
        have hstep : sk.next fh = some s2 := by rw [← after_succ fh rid0 k sk hk]; exact hs2
        obtain ⟨k2, sk2, h1, h2, h3, h4, h5, h6⟩ := ih (k + 1) s2 hs2 (by omega) (by omega)
        refine ⟨k2, sk2, by omega, h2, h3, ?_, h5, ?_⟩
        · simp only [SeqScanExecutor.beginLoop, he, hb, hstep, RmScan.rid]
          exact h4
        · intro j sj hj1 hj2 hsj
          by_cases hjk : j = k
          · subst hjk
            rw [hk] at hsj
            cases hsj
            exact hb
          · exact h6 j sj (by omega) hj2 hsj

theorem nextLoop_spec (fh : RmFileHandle) (conds_ : List Condition) (cols_ : List ColMeta)
    (rid0 : Rid) (n : Nat)
    (hend : ∃ sn, RmScan.after fh rid0 n = some sn ∧ sn.is_end = true)
    (hmid : ∀ j, j < n → ∃ sj, RmScan.after fh rid0 j = some sj ∧ sj.is_end = false ∧
      ∃ b, SeqScanExecutor.check fh conds_ cols_ sj.rid_ = some b) :
    ∀ (fuel k : Nat) (sk : RmScan) (r : Rid), RmScan.after fh rid0 k = some sk → k ≤ n →
      n - k < fuel →
      ∃ k2 sk2 r2, k ≤ k2 ∧ k2 ≤ n ∧ RmScan.after fh rid0 k2 = some sk2 ∧
        SeqScanExecutor.nextLoop fh conds_ cols_ fuel ⟨r, sk⟩ = some ⟨r2, sk2⟩ ∧
        (sk2.is_end = true ∨
          (r2 = sk2.rid_ ∧ SeqScanExecutor.check fh conds_ cols_ sk2.rid_ = some true)) ∧
        ∀ j sj, k ≤ j → j < k2 → RmScan.after fh rid0 j = some sj →
          SeqScanExecutor.check fh conds_ cols_ sj.rid_ = some false := by
  intro fuel
  induction fuel with
  | zero => intro k sk r _ _ h; omega
  | succ fuel ih =>
    intro k sk r hk hkn hfuel
    by_cases he : sk.is_end = true
    · refine ⟨k, sk, r, le_refl _, hkn, hk, ?_, Or.inl he, fun j sj h1 h2 => by omega⟩
      simp [SeqScanExecutor.nextLoop, he]
    · have hlt : k < n := by
        by_contra hc
        have hkn2 : k = n := by omega
        subst hkn2
        obtain ⟨sn, hsn, hse⟩ := hend
        rw [hk] at hsn
        cases hsn
        exact he hse
      obtain ⟨sj, hsj, _, b, hb⟩ := hmid k hlt
      rw [hk] at hsj
      cases hsj
      cases b with
      | true =>
        refine ⟨k, sk, sk.rid_, le_refl _, hkn, hk, ?_, Or.inr ⟨rfl, hb⟩,
          fun j sj h1 h2 => by omega⟩
        simp [SeqScanExecutor.nextLoop, he, hb, RmScan.rid]
      | false =>
        have hnext : ∃ s2, RmScan.after fh rid0 (k + 1) = some s2 := by
          by_cases hk1 : k + 1 < n
          · obtain ⟨s2, hs2, _⟩ := hmid (k + 1) hk1
            exact ⟨s2, hs2⟩
          · have : k + 1 = n := by omega
            obtain ⟨sn, hsn, _⟩ := hend
            exact ⟨sn, this ▸ hsn⟩
        obtain ⟨s2, hs2⟩ := hnext
        have hstep : sk.next fh = some s2 := by rw [← after_succ fh rid0 k sk hk]; exact hs2
        obtain ⟨k2, sk2, r2, h1, h2, h3, h4, h5, h6⟩ :=
          ih (k + 1) s2 sk.rid_ hs2 (by omega) (by omega)
        refine ⟨k2, sk2, r2, by omega, h2, h3, ?_, h5, ?_⟩
        · simp only [SeqScanExecutor.nextLoop, he, hb, hstep, RmScan.rid]
          exact h4
        · intro j sj hj1 hj2 hsj
          by_cases hjk : j = k
          · subst hjk
            rw [hk] at hsj
            cases hsj
            exact hb
          · exact h6 j sj (by omega) hj2 hsj

theorem op_compare_iff (op : CompOp) (cmp : Int) : op_compare op cmp = true ↔ op.Holds cmp := by
  cases op <;> simp only [op_compare, CompOp.Holds, beq_iff_eq, bne_iff_ne, decide_eq_true_eq,
    ne_eq] <;> omega

theorem condCheck_step (record : List Nat) (c : Condition) (rest : List Condition)
    (cols_ : List ColMeta) (b : Bool) (hb : condCheck record (c :: rest) cols_ = some b) :
    (Satisfies cols_ record c ∧ condCheck record rest cols_ = some b) ∨
      (¬Satisfies cols_ record c ∧ b = false) := by
  simp only [condCheck] at hb
  cases hl : get_col cols_ c.lhs_col with
  | none => rw [hl] at hb; cases hb
  | some l_col =>
    rw [hl] at hb
    dsimp only at hb
    cases hv : c.is_rhs_val with
    | true =>
      rw [hv] at hb
      simp only [if_true] at hb
      by_cases hop : op_compare c.op (ix_compare_col (record.drop l_col.offset) c.rhs_val.raw
          c.rhs_val.type l_col.len) = true
      · left
        simp only [hop, Bool.not_true, Bool.false_eq_true, if_false] at hb
        exact ⟨⟨l_col, hl, Or.inl ⟨hv, (op_compare_iff _ _).1 hop⟩⟩, hb⟩
      · right
        have hop2 : op_compare c.op (ix_compare_col (record.drop l_col.offset) c.rhs_val.raw
            c.rhs_val.type l_col.len) = false := by simpa using hop
        simp only [hop2, Bool.not_false, if_true, Option.some.injEq] at hb
        refine ⟨?_, hb.symm⟩
        rintro ⟨l2, hl2, hcase⟩
        rw [hl] at hl2
        cases hl2
        rcases hcase with ⟨_, hh⟩ | ⟨hf, _⟩
        · exact hop ((op_compare_iff _ _).2 hh)
        · rw [hv] at hf
          cases hf
    | false =>
      rw [hv] at hb
      simp only [Bool.false_eq_true, if_false] at hb
      cases hr : get_col cols_ c.rhs_col with
      | none => rw [hr] at hb; cases hb
      | some r_col =>
        rw [hr] at hb
        dsimp only at hb
        by_cases hop : op_compare c.op (ix_compare_col (record.drop l_col.offset)
            (record.drop r_col.offset) r_col.type l_col.len) = true
        · left
          simp only [hop, Bool.not_true, Bool.false_eq_true, if_false] at hb
          exact ⟨⟨l_col, hl, Or.inr ⟨hv, r_col, hr, (op_compare_iff _ _).1 hop⟩⟩, hb⟩
        · right
          have hop2 : op_compare c.op (ix_compare_col (record.drop l_col.offset)
              (record.drop r_col.offset) r_col.type l_col.len) = false := by simpa using hop
          simp only [hop2, Bool.not_false, if_true, Option.some.injEq] at hb
          refine ⟨?_, hb.symm⟩
          rintro ⟨l2, hl2, hcase⟩
          rw [hl] at hl2
          cases hl2
          rcases hcase with ⟨ht, _⟩ | ⟨_, r2, hr2, hh⟩
          · rw [hv] at ht
            cases ht
          · rw [hr] at hr2
            cases hr2
            exact hop ((op_compare_iff _ _).2 hh)

theorem condCheck_true (record : List Nat) (cols_ : List ColMeta) :
    ∀ conds_ : List Condition, condCheck record conds_ cols_ = some true →
      ∀ c, c ∈ conds_ → Satisfies cols_ record c := by
  intro conds_
  induction conds_ with
  | nil => intro _ c hc; cases hc
  | cons c0 rest ih =>
    intro hb c hc
    rcases condCheck_step record c0 rest cols_ true hb with ⟨h1, h2⟩ | ⟨_, h2⟩
    · rcases List.mem_cons.1 hc with rfl | hin
      · exact h1
      · exact ih h2 c hin
    · cases h2

theorem condCheck_false (record : List Nat) (cols_ : List ColMeta) :
    ∀ conds_ : List Condition, condCheck record conds_ cols_ = some false →
      ∃ c, c ∈ conds_ ∧ ¬Satisfies cols_ record c := by
  intro conds_
  induction conds_ with
  | nil => intro hb; simp [condCheck] at hb
  | cons c0 rest ih =>
    intro hb
    rcases condCheck_step record c0 rest cols_ false hb with ⟨_, h2⟩ | ⟨h1, _⟩
    · obtain ⟨c, hc, hn⟩ := ih h2
      exact ⟨c, List.mem_cons_of_mem _ hc, hn⟩
    · exact ⟨c0, List.mem_cons_self _ _, h1⟩

theorem check_true (fh : RmFileHandle) (conds_ : List Condition) (cols_ : List ColMeta)
    (rid : Rid) (h : SeqScanExecutor.check fh conds_ cols_ rid = some true) :
    Qualifies fh conds_ cols_ rid := by
  unfold SeqScanExecutor.check at h
  cases hr : fh.get_record rid with
  | none => rw [hr] at h; cases h
  | some record =>
    rw [hr] at h
    exact ⟨record, hr, condCheck_true record cols_ conds_ h⟩

theorem check_false (fh : RmFileHandle) (conds_ : List Condition) (cols_ : List ColMeta)
    (rid : Rid) (h : SeqScanExecutor.check fh conds_ cols_ rid = some false) :
    Disqualified fh conds_ cols_ rid := by
  unfold SeqScanExecutor.check at h
  cases hr : fh.get_record rid with
  | none => rw [hr] at h; cases h
  | some record =>
    rw [hr] at h
    exact ⟨record, hr, condCheck_false record cols_ conds_ h⟩

theorem seqScan_positions (fh : RmFileHandle) (conds_ : List Condition)
    (cols_ : List ColMeta) (rid0 : Rid) (n fuel : Nat)
    (hend : ∃ sn, RmScan.after fh rid0 n = some sn ∧ sn.is_end = true)
    (hmid : ∀ j, j < n → ∃ sj, RmScan.after fh rid0 j = some sj ∧ sj.is_end = false ∧
      ∃ b, SeqScanExecutor.check fh conds_ cols_ sj.rid_ = some b)
    (hfuel : n < fuel) :
    (∃ k2 sk2, k2 ≤ n ∧ RmScan.after fh rid0 k2 = some sk2 ∧
      SeqScanExecutor.beginTuple fh conds_ cols_ rid0 fuel = some ⟨sk2.rid_, sk2⟩ ∧
      (sk2.is_end = true ∨ SeqScanExecutor.check fh conds_ cols_ sk2.rid_ = some true) ∧
      ∀ j sj, j < k2 → RmScan.after fh rid0 j = some sj →
        SeqScanExecutor.check fh conds_ cols_ sj.rid_ = some false) ∧
    (∀ (k : Nat) (e : SeqScanExecutor), RmScan.after fh rid0 k = some e.scan_ →
      e.is_end = false →
      ∃ k2 e2, k < k2 ∧ k2 ≤ n ∧ RmScan.after fh rid0 k2 = some e2.scan_ ∧
        SeqScanExecutor.nextTuple fh conds_ cols_ fuel e = some e2 ∧
        (e2.is_end = true ∨
          (e2.rid = e2.scan_.rid_ ∧
            SeqScanExecutor.check fh conds_ cols_ e2.rid = some true)) ∧
        ∀ j sj, k < j → j < k2 → RmScan.after fh rid0 j = some sj →
          SeqScanExecutor.check fh conds_ cols_ sj.rid_ = some false) := by
  constructor
  · have h0 : ∃ s0, RmScan.after fh rid0 0 = some s0 := by
      by_cases hn : 0 < n
      · obtain ⟨s, hs, _⟩ := hmid 0 hn
        exact ⟨s, hs⟩
      · have : n = 0 := by omega
        obtain ⟨sn, hsn, _⟩ := hend
        exact ⟨sn, this ▸ hsn⟩
    obtain ⟨s0, hs0⟩ := h0
    obtain ⟨k2, sk2, _, h2, h3, h4, h5, h6⟩ :=
      beginLoop_spec fh conds_ cols_ rid0 n hend hmid fuel 0 s0 hs0 (by omega) (by omega)
    refine ⟨k2, sk2, h2, h3, ?_, h5, fun j sj hj hsj => h6 j sj (by omega) hj hsj⟩
    have hnew : RmScan.new fh rid0 = some s0 := hs0
    simp only [SeqScanExecutor.beginTuple, hnew, RmScan.rid]
    exact h4
  · intro k e hk he
    have hlt : k < n := by
      by_contra hc
      obtain ⟨sn, hsn, hse⟩ := hend
      by_cases hkn : k = n
      · subst hkn
        rw [hk] at hsn
        cases hsn
        simp [SeqScanExecutor.is_end, hse] at he
      · -- positions behind the end do not exist
        have hgt : n < k := by omega
        have hnone : ∀ m, RmScan.after fh rid0 (n + 1 + m) = none := by
          intro m
          induction m with
          | zero =>
            rw [after_succ fh rid0 n sn hsn]
            have hp : sn.rid_.page_no = PAGE_END ∧ sn.rid_.slot_no = SLOT_END := by
              simpa [RmScan.is_end] using hse
            have hneg : sn.rid_.slot_no < 0 := by rw [hp.2]; decide
            simp [RmScan.next, hneg]
          | succ m ihm =>
            show RmScan.after fh rid0 (n + 1 + m + 1) = none
            simp [RmScan.after, ihm]
        have := hnone (k - (n + 1))
        rw [show n + 1 + (k - (n + 1)) = k by omega, hk] at this
        cases this
    have hnext : ∃ s2, RmScan.after fh rid0 (k + 1) = some s2 := by
      by_cases hk1 : k + 1 < n
      · obtain ⟨s2, hs2, _⟩ := hmid (k + 1) hk1
        exact ⟨s2, hs2⟩
      · have : k + 1 = n := by omega
        obtain ⟨sn, hsn, _⟩ := hend
        exact ⟨sn, this ▸ hsn⟩
    obtain ⟨s2, hs2⟩ := hnext
    have hstep : e.scan_.next fh = some s2 := by
      rw [← after_succ fh rid0 k e.scan_ hk]; exact hs2
    obtain ⟨k2, sk2, r2, h1, h2, h3, h4, h5, h6⟩ :=
      nextLoop_spec fh conds_ cols_ rid0 n hend hmid fuel (k + 1) s2 e.rid_ hs2 (by omega)
        (by omega)
    refine ⟨k2, ⟨r2, sk2⟩, by omega, h2, h3, ?_, ?_, fun j sj hj1 hj2 hsj =>
      h6 j sj (by omega) hj2 hsj⟩
    · simp only [SeqScanExecutor.nextTuple, hstep]
      exact h4
    · rcases h5 with h | ⟨hr, hc⟩
      · exact Or.inl h
      · right
        refine ⟨hr, ?_⟩
        show SeqScanExecutor.check fh conds_ cols_ r2 = some true
        rw [hr]
        exact hc

/-- C27: let the underlying `RmScan` produce the Rids held after construction and
0, 1, .. calls of `next()`, reach its end after `n` calls, and let every record
before the end be readable and testable.  With fuel above `n`, `beginTuple()`
returns with the scan at a position `k2` of that sequence, where the scan is
at its end or `rid()` is the Rid of the position, `condCheck` passes its
record and the record satisfies every condition (the value of the left column
stands in the relation of the operator to the right side), while at every
earlier position the record fails a condition.  From a position `k` that is
not the end, `nextTuple()` returns with the scan at a position `k2 > k`, where
the scan is at its end or `rid()` is the Rid of the position and its record
satisfies every condition, while at every position strictly between the
record fails a condition.  So after either call, when `is_end()` is false the
record at `rid()` satisfies all conditions. -/
theorem seq_scan_stops_at_first_match (fh : RmFileHandle) (conds_ : List Condition)
    (cols_ : List ColMeta) (rid0 : Rid) (n fuel : Nat)
    (hend : ∃ sn, RmScan.after fh rid0 n = some sn ∧ sn.is_end = true)
    (hmid : ∀ j, j < n → ∃ sj, RmScan.after fh rid0 j = some sj ∧ sj.is_end = false ∧
      ∃ b, SeqScanExecutor.check fh conds_ cols_ sj.rid_ = some b)
    (hfuel : n < fuel) :
    (∃ k2 sk2, k2 ≤ n ∧ RmScan.after fh rid0 k2 = some sk2 ∧
      SeqScanExecutor.beginTuple fh conds_ cols_ rid0 fuel = some ⟨sk2.rid_, sk2⟩ ∧
      (sk2.is_end = true ∨
        (SeqScanExecutor.check fh conds_ cols_ sk2.rid_ = some true ∧
          Qualifies fh conds_ cols_ sk2.rid_)) ∧
      ∀ j sj, j < k2 → RmScan.after fh rid0 j = some sj →
        SeqScanExecutor.check fh conds_ cols_ sj.rid_ = some false ∧
          Disqualified fh conds_ cols_ sj.rid_) ∧
    (∀ (k : Nat) (e : SeqScanExecutor), RmScan.after fh rid0 k = some e.scan_ →
      e.is_end = false →
      ∃ k2 e2, k < k2 ∧ k2 ≤ n ∧ RmScan.after fh rid0 k2 = some e2.scan_ ∧
        SeqScanExecutor.nextTuple fh conds_ cols_ fuel e = some e2 ∧
        (e2.is_end = true ∨
          (e2.rid = e2.scan_.rid_ ∧
            SeqScanExecutor.check fh conds_ cols_ e2.rid = some true ∧
            Qualifies fh conds_ cols_ e2.rid)) ∧
        ∀ j sj, k < j → j < k2 → RmScan.after fh rid0 j = some sj →
          SeqScanExecutor.check fh conds_ cols_ sj.rid_ = some false ∧
            Disqualified fh conds_ cols_ sj.rid_) := by
  obtain ⟨hb, hn⟩ := seqScan_positions fh conds_ cols_ rid0 n fuel hend hmid hfuel
  constructor
  · obtain ⟨k2, sk2, h1, h2, h3, h4, h5⟩ := hb
    refine ⟨k2, sk2, h1, h2, h3, ?_, ?_⟩
    · rcases h4 with h | h
      · exact Or.inl h
      · exact Or.inr ⟨h, check_true fh conds_ cols_ _ h⟩
    · intro j sj hj hsj
      exact ⟨h5 j sj hj hsj, check_false fh conds_ cols_ _ (h5 j sj hj hsj)⟩
  · intro k e hk he
    obtain ⟨k2, e2, h1, h2, h3, h4, h5, h6⟩ := hn k e hk he
    refine ⟨k2, e2, h1, h2, h3, h4, ?_, ?_⟩
    · rcases h5 with h | ⟨hr, hc⟩
      · exact Or.inl h
      · exact Or.inr ⟨hr, hc, check_true fh conds_ cols_ _ hc⟩
    · intro j sj hj1 hj2 hsj
      exact ⟨h6 j sj hj1 hj2 hsj, check_false fh conds_ cols_ _ (h6 j sj hj1 hj2 hsj)⟩

theorem scanFile_end :
    ∃ sn, RmScan.after scanFile ⟨0, 0⟩ 3 = some sn ∧ sn.is_end = true :=
  ⟨⟨⟨PAGE_END, SLOT_END⟩⟩, by decide!, by decide!⟩

theorem scanFile_mid : ∀ j, j < 3 →
    ∃ sj, RmScan.after scanFile ⟨0, 0⟩ j = some sj ∧ sj.is_end = false ∧
      ∃ b, SeqScanExecutor.check scanFile [scanCond] scanCols sj.rid_ = some b := by
  intro j hj
  interval_cases j
  · exact ⟨⟨⟨1, 0⟩⟩, by decide!, by decide!, false, by decide!⟩
  · exact ⟨⟨⟨1, 1⟩⟩, by decide!, by decide!, true, by decide!⟩
  · exact ⟨⟨⟨1, 2⟩⟩, by decide!, by decide!, true, by decide!⟩

/-- C27 at a concrete file: one record page with the `int` records 5, 7, 9 in the
slots 0, 1, 2 and the condition `a > 6`.  The scan reaches its end after three
calls of `next()`; `beginTuple()` stops at `(1, 1)`, whose record 7 satisfies
the condition while the record 5 before it does not, and the statement of the
theorem holds for this file. -/
theorem seq_scan_stops_at_first_match_witness :
    SeqScanExecutor.beginTuple scanFile [scanCond] scanCols ⟨0, 0⟩ 4 =
      some ⟨⟨1, 1⟩, ⟨⟨1, 1⟩⟩⟩ ∧
    SeqScanExecutor.nextTuple scanFile [scanCond] scanCols 4 ⟨⟨1, 1⟩, ⟨⟨1, 1⟩⟩⟩ =
      some ⟨⟨1, 2⟩, ⟨⟨1, 2⟩⟩⟩ ∧
    scanFile.get_record ⟨1, 0⟩ = some (intKey 5) ∧
    scanFile.get_record ⟨1, 1⟩ = some (intKey 7) ∧
    ¬Satisfies scanCols (intKey 5) scanCond ∧ Satisfies scanCols (intKey 7) scanCond ∧
    ((∃ k2 sk2, k2 ≤ 3 ∧ RmScan.after scanFile ⟨0, 0⟩ k2 = some sk2 ∧
      SeqScanExecutor.beginTuple scanFile [scanCond] scanCols ⟨0, 0⟩ 4 = some ⟨sk2.rid_, sk2⟩ ∧
      (sk2.is_end = true ∨
        (SeqScanExecutor.check scanFile [scanCond] scanCols sk2.rid_ = some true ∧
          Qualifies scanFile [scanCond] scanCols sk2.rid_)) ∧
      ∀ j sj, j < k2 → RmScan.after scanFile ⟨0, 0⟩ j = some sj →
        SeqScanExecutor.check scanFile [scanCond] scanCols sj.rid_ = some false ∧
          Disqualified scanFile [scanCond] scanCols sj.rid_) ∧
    (∀ (k : Nat) (e : SeqScanExecutor), RmScan.after scanFile ⟨0, 0⟩ k = some e.scan_ →
      e.is_end = false →
      ∃ k2 e2, k < k2 ∧ k2 ≤ 3 ∧ RmScan.after scanFile ⟨0, 0⟩ k2 = some e2.scan_ ∧
        SeqScanExecutor.nextTuple scanFile [scanCond] scanCols 4 e = some e2 ∧
        (e2.is_end = true ∨
          (e2.rid = e2.scan_.rid_ ∧
            SeqScanExecutor.check scanFile [scanCond] scanCols e2.rid = some true ∧
            Qualifies scanFile [scanCond] scanCols e2.rid)) ∧
        ∀ j sj, k < j → j < k2 → RmScan.after scanFile ⟨0, 0⟩ j = some sj →
          SeqScanExecutor.check scanFile [scanCond] scanCols sj.rid_ = some false ∧
            Disqualified scanFile [scanCond] scanCols sj.rid_)) :=
  ⟨by decide!, by decide!, by decide!, by decide!,
   (by
     rintro ⟨l_col, hl, hcase⟩
     have hl2 : get_col scanCols scanCond.lhs_col = some ⟨"T", "a", .TYPE_INT, 4, 0⟩ := by
       decide!
     rw [hl2] at hl
     cases hl
     rcases hcase with ⟨_, hh⟩ | ⟨hf, _⟩
     · have h2 : (0 : Int) < ix_compare_col (List.drop 0 (intKey 5)) (intKey 6) .TYPE_INT 4 := hh
       exact absurd h2 (by decide!)
     · exact absurd hf (by decide)),
   ⟨⟨"T", "a", .TYPE_INT, 4, 0⟩, by decide!, Or.inl ⟨rfl,
     (by decide! : (0 : Int) < ix_compare_col (List.drop 0 (intKey 7)) (intKey 6) .TYPE_INT 4)⟩⟩,
   seq_scan_stops_at_first_match scanFile [scanCond] scanCols ⟨0, 0⟩ 3 4 scanFile_end
     scanFile_mid (by decide)⟩

/-! ## Nested loop join -/

/-- C25 (the code at a failing input): `T(a)` with the rows 1, 2, 3 joined with
`U(k, v)` with the rows `(2, 20)`, `(3, 30)`, `(4, 40)` on `T.a = U.k`.  The pairs
that satisfy the condition are `(2, (2, 20))` and `(3, (3, 30))`, two rows.  The
executor produces three rows: `beginTuple()` only positions both children on
their first tuples, so the first row is the pair `(1, (2, 20))`, which
`condCheck` rejects. -/
theorem nested_loop_join_emits_unchecked_first_pair :
    joinPairs joinLeft joinRight [joinCond] =
      [intKey 2 ++ (intKey 2 ++ intKey 20), intKey 3 ++ (intKey 3 ++ intKey 30)] ∧
    (NestedLoopJoinExecutor.new joinLeft joinRight [joinCond]).run =
      some [intKey 1 ++ (intKey 2 ++ intKey 20), intKey 2 ++ (intKey 2 ++ intKey 20),
            intKey 3 ++ (intKey 3 ++ intKey 30)] ∧
    (NestedLoopJoinExecutor.new joinLeft joinRight [joinCond]).condCheck
      (intKey 1 ++ (intKey 2 ++ intKey 20)) = some false := by
  decide!

/-! ## Index scan -/

theorem rangeLoop_no_match (index_col_name : String) (lower upper : Iid) (h : IxIndexHandle) :
    ∀ (conds : List Condition), (∀ c ∈ conds, c.lhs_col.col_name ≠ index_col_name) →
      IndexScanExecutor.rangeLoop index_col_name lower upper conds h = some ((lower, upper), h) := by
  intro conds
  induction conds with
  | nil => intro _; rfl
  | cons c rest ih =>
    intro hno
    have hc : (c.lhs_col.col_name == index_col_name) = false :=
      beq_eq_false_iff_ne.mpr (hno c (List.mem_cons_self _ _))
    unfold IndexScanExecutor.rangeLoop
    simp only [hc, Bool.and_false, Bool.false_eq_true, if_false]
    exact ih (fun d hd => hno d (List.mem_cons_of_mem _ hd))

theorem beginRange_no_match (tab_name_ index_name : String) (conds : List Condition)
    (h : IxIndexHandle) (ht : IndexScanExecutor.condsOnTable tab_name_ conds = true)
    (hno : ∀ c ∈ conds, c.lhs_col.col_name ≠ index_name) (lower upper : Iid)
    (hl : IxIndexHandle.leaf_begin h = some (lower, h))
    (hu : IxIndexHandle.leaf_end h = some (upper, h)) :
    IndexScanExecutor.beginRange tab_name_ index_name conds h = some ((lower, upper), h) := by
  unfold IndexScanExecutor.beginRange
  rw [if_pos ht]
  show IxM.bind IxIndexHandle.leaf_begin _ h = _
  unfold IxM.bind
  rw [hl]
  show IxM.bind IxIndexHandle.leaf_end _ h = _
  unfold IxM.bind
  rw [hu]
  exact rangeLoop_no_match index_name lower upper h conds hno

/-- C26 (the code at a failing input): the index of table `t` on its column `a`
with the leaves `[10, 20]` and `[30, 40, 50]`.  `beginTuple` narrows the range
only for a condition whose column name equals the name of the index
(`get_index_name(tab_name_, index_col_names_)`): with any index name other than
the column name `a`, every literal condition `a op v` leaves the range at
`[leaf_begin, leaf_end)`, the positions `(2, 0)` and `(3, 3)`, where for
`a = 30` the claim has `[lower_bound(30), upper_bound(30))`, the positions
`(3, 0)` and `(3, 1)`.  Were the index name the column name, the six operators
would give the ranges of the claim. -/
theorem index_scan_range_not_narrowed :
    (∀ (index_name : String), index_name ≠ "a" → ∀ (op : CompOp) (v : Nat),
      (IndexScanExecutor.beginRange "t" index_name [litCond op v] twoLeafIndex).map
        (fun q => q.1) = some (⟨2, 0⟩, ⟨3, 3⟩)) ∧
    (IxIndexHandle.lower_bound (intKey 30) twoLeafIndex).map (fun q => q.1) = some ⟨3, 0⟩ ∧
    (IxIndexHandle.upper_bound (intKey 30) twoLeafIndex).map (fun q => q.1) = some ⟨3, 1⟩ ∧
    (IndexScanExecutor.beginRange "t" "a" [litCond .OP_EQ 30] twoLeafIndex).map
      (fun q => q.1) = some (⟨3, 0⟩, ⟨3, 1⟩) ∧
    (IndexScanExecutor.beginRange "t" "a" [litCond .OP_LT 30] twoLeafIndex).map
      (fun q => q.1) = some (⟨2, 0⟩, ⟨3, 0⟩) ∧
    (IndexScanExecutor.beginRange "t" "a" [litCond .OP_LE 30] twoLeafIndex).map
      (fun q => q.1) = some (⟨2, 0⟩, ⟨3, 1⟩) ∧
    (IndexScanExecutor.beginRange "t" "a" [litCond .OP_GT 30] twoLeafIndex).map
      (fun q => q.1) = some (⟨3, 1⟩, ⟨3, 3⟩) ∧
    (IndexScanExecutor.beginRange "t" "a" [litCond .OP_GE 30] twoLeafIndex).map
      (fun q => q.1) = some (⟨3, 0⟩, ⟨3, 3⟩) ∧
    (IndexScanExecutor.beginRange "t" "a" [litCond .OP_NE 30] twoLeafIndex).map
      (fun q => q.1) = some (⟨2, 0⟩, ⟨3, 3⟩) := by
  refine ⟨?_, ?_⟩
  · intro index_name hne op v
    have ht : IndexScanExecutor.condsOnTable "t" [litCond op v] = true := by
      simp [IndexScanExecutor.condsOnTable, litCond]
    have hno : ∀ c ∈ [litCond op v], c.lhs_col.col_name ≠ index_name := by
      intro c hc
      simp only [List.mem_singleton] at hc
      subst hc
      exact fun hx => hne hx.symm
    rw [beginRange_no_match "t" index_name [litCond op v] twoLeafIndex ht hno ⟨2, 0⟩ ⟨3, 3⟩
      (by decide!) (by decide!)]
    rfl
  · decide!

/-! ## Node insertion and node bounds -/

/-- C28 (the code at a failing input): the leaf reached from an empty leaf by
`insert(1)`, `insert(3)`, `remove(3)` has the one key 1 in use, and its slot 1
still holds the bytes of 3.  `insert(3, (7, 0))` compares the key with
`get_key(lower_bound(3))`, the slot 1 behind the keys in use, takes 3 for a
duplicate, returns the size 1 and leaves the node as it was; 3 is not among
the keys in use. -/
theorem node_insert_rejects_key_of_stale_slot :
    ((emptyLeaf.insert intIndex.file_hdr_ (intKey 1) ⟨1, 0⟩).bind (fun p =>
      (p.1.insert intIndex.file_hdr_ (intKey 3) ⟨3, 0⟩).bind (fun q =>
        q.1.remove intIndex.file_hdr_ (intKey 3)))) = some (staleLeaf, 1) ∧
    staleLeaf.num_key = 1 ∧ staleLeaf.keys.take staleLeaf.num_key = [intKey 1] ∧
    staleLeaf.lower_bound intIndex.file_hdr_ (intKey 3) = some 1 ∧
    staleLeaf.insert intIndex.file_hdr_ (intKey 3) ⟨7, 0⟩ = some (staleLeaf, 1) := by
  decide!

theorem goesRight_mono_le {f : IxFileHdr} (target : List Nat) (op : operators)
    {a b : List Nat} (ht : CleanKey f target) (ha : CleanKey f a) (hb : CleanKey f b)
    (hab : keyCmp f a b ≤ 0) (hgo : goesRight f target op b) :
    goesRight f target op a := by
  have h1 : keyCmp f b target ≤ 0 := keyCmp_le_of_ge ht hb hgo.1
  have h2 : keyCmp f a target ≤ 0 := keyCmp_trans ha hb ht hab h1
  have h3 : 0 ≤ keyCmp f target a := keyCmp_ge_of_le ha ht h2
  refine ⟨h3, ?_⟩
  rintro ⟨hop, h0⟩
  have h4 : keyCmp f target b ≠ 0 := fun hc => hgo.2 ⟨hop, hc⟩
  have h5 : keyCmp f target b ≤ 0 := keyCmp_trans ht ha hb (by omega) hab
  have h6 := hgo.1
  omega

theorem halfFindLoop_spec_le {f : IxFileHdr} (n : IxNode) (hs : NodeSortedLe f n)
    (hcn : CleanNode f n) (target : List Nat) (ht : CleanKey f target) (op : operators) :
    ∀ (fuel left right : Nat), left ≤ right → right ≤ n.num_key → right - left ≤ fuel →
      (∀ i x, i < left → n.keys[i]? = some x → goesRight f target op x) →
      (∀ i x, right ≤ i → i < n.num_key → n.keys[i]? = some x → ¬goesRight f target op x) →
      ∃ r, IxNode.halfFindLoop f n target op fuel left right = some r ∧ r ≤ n.num_key ∧
        (∀ i x, i < r → n.keys[i]? = some x → goesRight f target op x) ∧
        (∀ i x, r ≤ i → i < n.num_key → n.keys[i]? = some x → ¬goesRight f target op x) := by
  intro fuel
  induction fuel with
  | zero =>
    intro left right hlr hrn hfuel hL hR
    have : left = right := by omega
    subst this
    refine ⟨left, ?_, hrn, hL, hR⟩
    simp [IxNode.halfFindLoop]
  | succ fuel ih =>
    intro left right hlr hrn hfuel hL hR
    by_cases hlt : left < right
    · have hmid : (left + right) / 2 < n.num_key := by omega
      have hlen : (left + right) / 2 < n.keys.length := by have := hs.1; omega
      obtain ⟨k, hk⟩ : ∃ k, n.keys[(left + right) / 2]? = some k :=
        ⟨n.keys[(left + right) / 2], List.getElem?_eq_getElem hlen⟩
      have hgk : n.get_key ((left + right) / 2) = some k := hk
      have hkc : CleanKey f k := hcn _ k hmid hk
      by_cases hgo : goesRight f target op k
      · have hstep : IxNode.halfFindLoop f n target op (fuel + 1) left right =
            IxNode.halfFindLoop f n target op fuel ((left + right) / 2 + 1) right := by
          have h1 : 0 ≤ ix_compare target k f.col_types_ f.col_lens_ := hgo.1
          have h2 : ¬(op = operators.LOWER ∧ ix_compare target k f.col_types_ f.col_lens_ = 0) := hgo.2
          simp only [IxNode.halfFindLoop, hlt, if_true, hgk, ge_iff_le, h1, h2, if_false]
        rw [hstep]
        apply ih ((left + right) / 2 + 1) right (by omega) hrn (by omega) _ hR
        intro i x hi hx
        by_cases him : i = (left + right) / 2
        · subst him; rw [hk] at hx; cases hx; exact hgo
        · exact goesRight_mono_le target op ht (hcn i x (by omega) hx) hkc
            (hs.2 i ((left + right) / 2) x k (by omega) hmid hx hk) hgo
      · have hstep : IxNode.halfFindLoop f n target op (fuel + 1) left right =
            IxNode.halfFindLoop f n target op fuel left ((left + right) / 2) := by
          unfold goesRight keyCmp at hgo
          by_cases h1 : 0 ≤ ix_compare target k f.col_types_ f.col_lens_
          · have h2 : op = operators.LOWER ∧ ix_compare target k f.col_types_ f.col_lens_ = 0 := by
              by_contra hc; exact hgo ⟨h1, hc⟩
            simp only [IxNode.halfFindLoop, hlt, if_true, hgk, ge_iff_le, h1, h2, and_self, ite_self]
          · simp only [IxNode.halfFindLoop, hlt, if_true, hgk, ge_iff_le, h1, if_false]
        rw [hstep]
        apply ih left ((left + right) / 2) (by omega) (by omega) (by omega) hL
        intro i x hi hin hx
        by_cases him : i = (left + right) / 2
        · subst him; rw [hk] at hx; cases hx; exact hgo
        · intro hc
          exact hgo (goesRight_mono_le target op ht hkc (hcn i x hin hx)
            (hs.2 ((left + right) / 2) i k x (by omega) hin hk hx) hc)
    · have : left = right := by omega
      subst this
      refine ⟨left, ?_, hrn, hL, hR⟩
      simp [IxNode.halfFindLoop]

/-- C29 (amended): for a node whose keys in use are sorted under `ix_compare` and
hold no NaN in a `float` column, and every target `k` without NaN in a `float`
column (every node and target, when the layout has no `float` column): the
binary search returns for both operators; `lower_bound(k)` is an index
`rl ≤ num_key` with every key in use before `rl` below `k` and every key in use
from `rl` on at least `k`, so it is the least index whose key is `≥ k`, and
`num_key` when there is none; `upper_bound(k)` is an index `ru ≤ num_key` with
every key in use before `ru` at most `k` and every key in use from `ru` on
above `k`. -/
theorem node_bounds_are_least_indices {f : IxFileHdr} (n : IxNode)
    (hs : NodeSortedLe f n) (hcn : CleanNode f n) (k : List Nat) (hk : CleanKey f k) :
    ∃ rl ru, IxNode.lower_bound f n k = some rl ∧ IxNode.upper_bound f n k = some ru ∧
      rl ≤ n.num_key ∧ ru ≤ n.num_key ∧
      (∀ i x, i < rl → n.keys[i]? = some x → keyCmp f x k < 0) ∧
      (∀ i x, rl ≤ i → i < n.num_key → n.keys[i]? = some x → 0 ≤ keyCmp f x k) ∧
      (∀ i x, i < ru → n.keys[i]? = some x → keyCmp f x k ≤ 0) ∧
      (∀ i x, ru ≤ i → i < n.num_key → n.keys[i]? = some x → 0 < keyCmp f x k) := by
  obtain ⟨rl, hrl, hrln, hl1, hl2⟩ := halfFindLoop_spec_le n hs hcn k hk operators.LOWER
    n.num_key 0 n.num_key (by omega) (by omega) (by omega) (fun i x hi => by omega)
    (fun i x hi hi2 => by omega)
  obtain ⟨ru, hru, hrun, hu1, hu2⟩ := halfFindLoop_spec_le n hs hcn k hk operators.UPPER
    n.num_key 0 n.num_key (by omega) (by omega) (by omega) (fun i x hi => by omega)
    (fun i x hi hi2 => by omega)
  refine ⟨rl, ru, hrl, hru, hrln, hrun, ?_, ?_, ?_, ?_⟩
  · intro i x hi hx
    have h := hl1 i x hi hx
    have h1 := h.1
    have h2 : keyCmp f k x ≠ 0 := fun hc => h.2 ⟨rfl, hc⟩
    exact ((keyCmp_orders_clean f).1 x k (hcn i x (by omega) hx) hk).2 (by omega)
  · intro i x hi hin hx
    have h := hl2 i x hi hin hx
    have h3 : keyCmp f k x ≤ 0 := by
      by_contra hc
      exact h ⟨by omega, fun hh => by omega⟩
    exact keyCmp_ge_of_le hk (hcn i x hin hx) h3
  · intro i x hi hx
    exact keyCmp_le_of_ge hk (hcn i x (by omega) hx) (hu1 i x hi hx).1
  · intro i x hi hin hx
    have h := hu2 i x hi hin hx
    have h3 : keyCmp f k x < 0 := by
      by_contra hc
      exact h ⟨by omega, fun hh => by cases hh.1⟩
    exact ((keyCmp_orders_clean f).1 k x hk (hcn i x hin hx)).1 h3

theorem sortedLeaf_sorted : NodeSortedLe intIndex.file_hdr_ sortedLeaf := by
  refine ⟨by decide, ?_⟩
  intro i j a b hij hj ha hb
  have hj4 : j < 4 := hj
  interval_cases j <;> interval_cases i <;>
    (simp only [sortedLeaf, List.getElem?_cons_zero, List.getElem?_cons_succ,
      Option.some.injEq] at ha hb) <;> subst ha <;> subst hb <;> decide!

/-- C29 (amended) at a concrete node: the leaf with the keys 10, 20, 20, 30 in
use, a layout of one INT column, and the target 20: `lower_bound` is 1 and
`upper_bound` is 3. -/
theorem node_bounds_are_least_indices_witness :
    CleanNode intIndex.file_hdr_ sortedLeaf ∧ CleanKey intIndex.file_hdr_ (intKey 20) ∧
    NodeSortedLe intIndex.file_hdr_ sortedLeaf ∧
    IxNode.lower_bound intIndex.file_hdr_ sortedLeaf (intKey 20) = some 1 ∧
    IxNode.upper_bound intIndex.file_hdr_ sortedLeaf (intKey 20) = some 3 ∧
    ∃ rl ru, IxNode.lower_bound intIndex.file_hdr_ sortedLeaf (intKey 20) = some rl ∧
      IxNode.upper_bound intIndex.file_hdr_ sortedLeaf (intKey 20) = some ru ∧
      rl ≤ sortedLeaf.num_key ∧ ru ≤ sortedLeaf.num_key ∧
      (∀ i x, i < rl → sortedLeaf.keys[i]? = some x →
        keyCmp intIndex.file_hdr_ x (intKey 20) < 0) ∧
      (∀ i x, rl ≤ i → i < sortedLeaf.num_key → sortedLeaf.keys[i]? = some x →
        0 ≤ keyCmp intIndex.file_hdr_ x (intKey 20)) ∧
      (∀ i x, i < ru → sortedLeaf.keys[i]? = some x →
        keyCmp intIndex.file_hdr_ x (intKey 20) ≤ 0) ∧
      (∀ i x, ru ≤ i → i < sortedLeaf.num_key → sortedLeaf.keys[i]? = some x →
        0 < keyCmp intIndex.file_hdr_ x (intKey 20)) :=
  ⟨fun _ x _ _ => cleanKey_of_no_float _ (by decide) x, cleanKey_of_no_float _ (by decide) _,
   sortedLeaf_sorted, by decide!, by decide!,
   node_bounds_are_least_indices sortedLeaf sortedLeaf_sorted
     (fun _ x _ _ => cleanKey_of_no_float _ (by decide) x) (intKey 20)
     (cleanKey_of_no_float _ (by decide) _)⟩

theorem nanNode_sorted : NodeSortedLe floatIndex.file_hdr_ nanNode := by
  refine ⟨by decide, ?_⟩
  intro i j a b hij hj ha hb
  have hj5 : j < 5 := hj
  interval_cases j <;> interval_cases i <;>
    (simp only [nanNode, List.getElem?_cons_zero, List.getElem?_cons_succ,
      Option.some.injEq] at ha hb) <;> subst ha <;> subst hb <;> decide!

/-- C29 (the claim as stated, at a failing input): the node `nanNode` of a layout
of one `float` column has the keys NaN, 5.0, NaN, 7.0, NaN in use, which are
sorted under `ix_compare`: no key compares above a later one.  For the target
6.0 `upper_bound` returns 5, the number of keys, although the key 7.0 at
index 3 compares above the target; `lower_bound` returns 2, although the key
at index 0 already compares as at least the target and the key at index 2 is a
NaN, so that index 2 is not the least index whose key is `≥ 6.0` in either
reading. -/
theorem node_bounds_miss_key_beside_nan :
    NodeSortedLe floatIndex.file_hdr_ nanNode ∧
    IxNode.lower_bound floatIndex.file_hdr_ nanNode (floatKey 0x40C00000) = some 2 ∧
    IxNode.upper_bound floatIndex.file_hdr_ nanNode (floatKey 0x40C00000) = some 5 ∧
    nanNode.num_key = 5 ∧
    nanNode.keys[3]? = some (floatKey 0x40E00000) ∧
    0 < keyCmp floatIndex.file_hdr_ (floatKey 0x40E00000) (floatKey 0x40C00000) ∧
    nanNode.keys[0]? = some (floatKey 0x7FC00000) ∧
    0 ≤ keyCmp floatIndex.file_hdr_ (floatKey 0x7FC00000) (floatKey 0x40C00000) ∧
    nanNode.keys[2]? = some (floatKey 0x7FC00000) ∧
    floatIsNaN (readU32 (floatKey 0x7FC00000)) = true :=
  ⟨nanNode_sorted, by decide!, by decide!, rfl, rfl, by decide!, rfl, by decide!, rfl,
    by decide!⟩

/-! ## Invariants of the buffer pool over runs -/

theorem frame_setFrame (bpm : BufferPoolManager) (f g : Nat) (p : Page) :
    (bpm.setFrame f p).frame g = if g = f ∧ f < bpm.pages_.length then p else bpm.frame g := by
  by_cases hg : g = f
  · subst hg
    by_cases hf : g < bpm.pages_.length
    · simp [BufferPoolManager.frame, BufferPoolManager.setFrame, List.getD_eq_getElem?_getD,
        List.getElem?_set, hf]
    · have hle : bpm.pages_.length ≤ g := by omega
      simp [BufferPoolManager.frame, BufferPoolManager.setFrame, List.getD_eq_getElem?_getD,
        List.getElem?_set, hf, List.getElem?_eq_none hle]
  · simp [BufferPoolManager.frame, BufferPoolManager.setFrame, List.getD_eq_getElem?_getD,
      List.getElem?_set, hg, Ne.symm hg]

theorem length_setFrame (bpm : BufferPoolManager) (f : Nat) (p : Page) :
    (bpm.setFrame f p).pages_.length = bpm.pages_.length := by
  simp [BufferPoolManager.setFrame]

theorem lookup_tableErase (t : List (PageId × Nat)) (page_id q : PageId) :
    (BufferPoolManager.tableErase t page_id).lookup q =
      if q = page_id then none else t.lookup q := by
  by_cases h : q = page_id
  · subst h
    simp [lookup_tableErase_same]
  · simp [h, lookup_tableErase_other t page_id q h]

theorem lookup_tableStore (page_id : PageId) (frame_id : Nat) (t : List (PageId × Nat))
    (q : PageId) :
    (BufferPoolManager.tableStore page_id frame_id t).lookup q =
      if q = page_id then some frame_id else t.lookup q := by
  induction t with
  | nil =>
    by_cases h : q = page_id
    · simp [BufferPoolManager.tableStore, List.lookup_cons, h]
    · have hb : (q == page_id) = false := beq_eq_false_iff_ne.mpr h
      simp [BufferPoolManager.tableStore, List.lookup_cons, h, hb]
  | cons e rest ih =>
    obtain ⟨i, f⟩ := e
    by_cases hi : i = page_id
    · subst hi
      by_cases h : q = i
      · simp [BufferPoolManager.tableStore, List.lookup_cons, h]
      · have hb : (q == i) = false := beq_eq_false_iff_ne.mpr h
        simp [BufferPoolManager.tableStore, List.lookup_cons, h, hb]
    · by_cases hq : q = i
      · subst hq
        simp [BufferPoolManager.tableStore, List.lookup_cons, hi]
      · have hb : (q == i) = false := beq_eq_false_iff_ne.mpr hq
        simp only [BufferPoolManager.tableStore, hi, if_false, List.lookup_cons, hb]
        exact ih

theorem lookup_append_single (t : List (PageId × Nat)) (page_id q : PageId) (frame_id : Nat) :
    (t ++ [(page_id, frame_id)]).lookup q =
      match t.lookup q with
      | some g => some g
      | none => if q = page_id then some frame_id else none := by
  induction t with
  | nil =>
    by_cases h : q = page_id
    · simp [List.lookup_cons, h]
    · have hb : (q == page_id) = false := beq_eq_false_iff_ne.mpr h
      simp [List.lookup_cons, h, hb]
  | cons e rest ih =>
    obtain ⟨i, f⟩ := e
    by_cases hq : q = i
    · subst hq
      simp [List.lookup_cons]
    · have hb : (q == i) = false := beq_eq_false_iff_ne.mpr hq
      simp only [List.cons_append, List.lookup_cons, hb]
      exact ih

theorem lookup_tableInsert (t : List (PageId × Nat)) (page_id q : PageId) (frame_id : Nat)
    (hnone : t.lookup page_id = none) :
    (BufferPoolManager.tableInsert t page_id frame_id).lookup q =
      if q = page_id then some frame_id else t.lookup q := by
  simp only [BufferPoolManager.tableInsert, hnone]
  rw [lookup_append_single]
  by_cases h : q = page_id
  · subst h
    simp [hnone]
  · simp only [h, if_false]
    cases t.lookup q <;> rfl

theorem poolInv_step (b b2 : BufferPoolManager) (f : Nat) (hinv : PoolInv b)
    (hlen : b2.pages_.length = b.pages_.length)
    (hother : ∀ g, g ≠ f → b2.frame g = b.frame g)
    (htable : ∀ p g, b2.page_table_.lookup p = some g →
      (g ≠ f ∧ b.page_table_.lookup p = some g) ∨
      (g = f ∧ f < b.pages_.length ∧ (b2.frame f).id_ = p))
    (hnodup : b2.free_list_.Nodup)
    (hfree : ∀ g, g ∈ b2.free_list_ →
      (g ≠ f ∧ g ∈ b.free_list_) ∨
      (g = f ∧ f < b.pages_.length ∧ (b2.frame f).pin_count_ = 0))
    (hsep : ∀ p, b2.page_table_.lookup p = some f → f ∉ b2.free_list_)
    (hrepl : ∀ g, g ∈ b2.replacer_.LRUlist_ →
      (g ≠ f ∧ g ∈ b.replacer_.LRUlist_) ∨
      (g = f ∧ f < b.pages_.length ∧ (b2.frame f).pin_count_ = 0)) :
    PoolInv b2 := by
  obtain ⟨h1, _, h3, h4⟩ := hinv
  refine ⟨?_, hnodup, ?_, ?_⟩
  · intro p g hg
    rcases htable p g hg with ⟨hne, hold⟩ | ⟨heq, hf, hid⟩
    · obtain ⟨ha, hb, hc⟩ := h1 p g hold
      refine ⟨by omega, by rw [hother g hne]; exact hb, ?_⟩
      intro hmem
      rcases hfree g hmem with ⟨_, hm⟩ | ⟨he, _⟩
      · exact hc hm
      · exact hne he
    · subst heq
      exact ⟨by omega, hid, hsep p hg⟩
  · intro g hg
    rcases hfree g hg with ⟨hne, hm⟩ | ⟨heq, hf, hp⟩
    · obtain ⟨ha, hb⟩ := h3 g hm
      exact ⟨by omega, by rw [hother g hne]; exact hb⟩
    · subst heq
      exact ⟨by omega, hp⟩
  · intro g hg
    rcases hrepl g hg with ⟨hne, hm⟩ | ⟨heq, hf, hp⟩
    · obtain ⟨ha, hb⟩ := h4 g hm
      exact ⟨by omega, by rw [hother g hne]; exact hb⟩
    · subst heq
      exact ⟨by omega, hp⟩

theorem victim_spec (r : LRUReplacer) (f : Nat) (r2 : LRUReplacer)
    (h : r.victim = some (f, r2)) :
    f ∈ r.LRUlist_ ∧ ∀ g, g ∈ r2.LRUlist_ → g ∈ r.LRUlist_ := by
  unfold LRUReplacer.victim at h
  cases hl : r.LRUlist_.getLast? with
  | none => rw [hl] at h; cases h
  | some a =>
    rw [hl] at h
    simp only [Option.some.injEq, Prod.mk.injEq] at h
    obtain ⟨h1, h2⟩ := h
    subst h1
    subst h2
    refine ⟨List.mem_of_getLast?_eq_some hl, ?_⟩
    intro g hg
    exact List.dropLast_subset _ hg

theorem find_victim_page_cases (b : BufferPoolManager) :
    (∃ a rest, b.free_list_ = a :: rest ∧
      b.find_victim_page = ({ b with free_list_ := rest }, some a)) ∨
    (b.free_list_ = [] ∧ ∃ f r, b.replacer_.victim = some (f, r) ∧
      b.find_victim_page =
        ({ b with replacer_ := r,
                  page_table_ := BufferPoolManager.tableErase b.page_table_ (b.frame f).id_ },
         some f)) ∨
    (b.free_list_ = [] ∧ b.replacer_.victim = none ∧ b.find_victim_page = (b, none)) := by
  unfold BufferPoolManager.find_victim_page
  cases hfl : b.free_list_ with
  | cons a rest =>
    left
    exact ⟨a, rest, rfl, by simp⟩
  | nil =>
    right
    cases hv : b.replacer_.victim with
    | none =>
      right
      simp
    | some p =>
      left
      obtain ⟨f, r⟩ := p
      exact ⟨rfl, f, r, rfl, by simp⟩

/-- A frame handed out by `find_victim_page`: the pool left behind is
consistent, and the frame is a frame of the pool with pin count 0 that is
neither named by the page table nor on the free list. -/
theorem find_victim_page_inv (b b1 : BufferPoolManager) (f : Nat) (hinv : PoolInv b)
    (hv : b.find_victim_page = (b1, some f)) :
    PoolInv b1 ∧ b1.pages_ = b.pages_ ∧ b1.disk_manager_ = b.disk_manager_ ∧
      f < b1.pages_.length ∧ (b1.frame f).pin_count_ = 0 ∧
      (∀ p, b1.page_table_.lookup p ≠ some f) ∧ f ∉ b1.free_list_ ∧
      (∀ p, b.page_table_.lookup p = none → b1.page_table_.lookup p = none) ∧
      (f ∈ b.free_list_ ∨ f ∈ b.replacer_.LRUlist_) := by
  obtain ⟨h1, h2, h3, h4⟩ := hinv
  rcases find_victim_page_cases b with ⟨a, rest, hfl, he⟩ | ⟨hfl, f2, r, hvic, he⟩ | ⟨_, _, he⟩
  · rw [he] at hv
    simp only [Prod.mk.injEq, Option.some.injEq] at hv
    obtain ⟨hb, hf⟩ := hv
    subst hb
    subst hf
    rw [hfl] at h2 h3
    have hnd := List.nodup_cons.mp h2
    refine ⟨⟨?_, hnd.2, ?_, h4⟩, rfl, rfl, (h3 a (List.mem_cons_self _ _)).1,
      (h3 a (List.mem_cons_self _ _)).2, ?_, hnd.1, fun p hp => hp, ?_⟩
    · intro p g hg
      obtain ⟨ha, hb, hc⟩ := h1 p g hg
      refine ⟨ha, hb, ?_⟩
      intro hm
      apply hc
      rw [hfl]
      exact List.mem_cons_of_mem _ hm
    · intro g hg
      exact h3 g (List.mem_cons_of_mem _ hg)
    · intro p hp
      have := (h1 p a hp).2.2
      apply this
      rw [hfl]
      exact List.mem_cons_self _ _
    · left
      rw [hfl]
      exact List.mem_cons_self _ _
  · rw [he] at hv
    simp only [Prod.mk.injEq, Option.some.injEq] at hv
    obtain ⟨hb, hf⟩ := hv
    subst hb
    subst hf
    obtain ⟨hmem, hsub⟩ := victim_spec b.replacer_ f2 r hvic
    refine ⟨⟨?_, h2, h3, fun g hg => h4 g (hsub g hg)⟩, rfl, rfl, (h4 f2 hmem).1,
      (h4 f2 hmem).2, ?_, by rw [hfl]; simp, ?_, Or.inr hmem⟩
    · intro p g hg
      simp only [lookup_tableErase] at hg
      split at hg
      · cases hg
      · exact h1 p g hg
    · intro p hp
      simp only [lookup_tableErase] at hp
      split at hp
      · cases hp
      · rename_i hne
        exact hne (h1 p f2 hp).2.1.symm
    · intro p hp
      simp only [lookup_tableErase]
      split
      · rfl
      · exact hp
  · rw [he] at hv
    simp at hv

theorem poolInv_install (b1 b2 : BufferPoolManager) (f : Nat) (pid : PageId)
    (hinv : PoolInv b1) (hf : f < b1.pages_.length)
    (hnot : ∀ p, b1.page_table_.lookup p ≠ some f) (hfree : f ∉ b1.free_list_)
    (hlen : b2.pages_.length = b1.pages_.length)
    (hother : ∀ g, g ≠ f → b2.frame g = b1.frame g) (hid : (b2.frame f).id_ = pid)
    (htable : ∀ q, b2.page_table_.lookup q =
      if q = pid then some f else b1.page_table_.lookup q)
    (hfl : b2.free_list_ = b1.free_list_) (hr : b2.replacer_ = b1.replacer_.pin f) :
    PoolInv b2 := by
  apply poolInv_step b1 b2 f hinv hlen hother
  · intro p g hg
    rw [htable] at hg
    split at hg
    · rename_i hp
      cases hg
      exact Or.inr ⟨rfl, hf, by rw [hid, hp]⟩
    · left
      refine ⟨?_, hg⟩
      intro he
      subst he
      exact hnot p hg
  · rw [hfl]
    exact hinv.2.1
  · intro g hg
    rw [hfl] at hg
    left
    refine ⟨?_, hg⟩
    intro he
    subst he
    exact hfree hg
  · intro p _
    rw [hfl]
    exact hfree
  · intro g hg
    rw [hr] at hg
    simp only [LRUReplacer.pin, List.mem_filter, bne_iff_ne, ne_eq] at hg
    exact Or.inl ⟨hg.2, hg.1⟩

/-- The result of `fetch_page` on a miss that finds a frame. -/
theorem fetch_page_miss (b b1 : BufferPoolManager) (pid : PageId) (f : Nat)
    (hl : b.page_table_.lookup pid = none) (hv : b.find_victim_page = (b1, some f))
    (hl1 : b1.page_table_.lookup pid = none) (hf : f < b1.pages_.length) :
    (b.fetch_page pid).2 = some f ∧
    (b.fetch_page pid).1.pages_.length = b1.pages_.length ∧
    (∀ g, g ≠ f → (b.fetch_page pid).1.frame g = b1.frame g) ∧
    ((b.fetch_page pid).1.frame f).id_ = pid ∧
    ((b.fetch_page pid).1.frame f).pin_count_ = (b1.frame f).pin_count_ + 1 ∧
    (b.fetch_page pid).1.page_table_ = BufferPoolManager.tableInsert b1.page_table_ pid f ∧
    (b.fetch_page pid).1.free_list_ = b1.free_list_ ∧
    (b.fetch_page pid).1.replacer_ = b1.replacer_.pin f ∧
    (b.fetch_page pid).1.disk_manager_ =
      (if (b1.frame f).is_dirty_ then
        b1.disk_manager_.write_page (b1.frame f).id_.fd (b1.frame f).id_.page_no
          (b1.frame f).data_
       else b1.disk_manager_) := by
  unfold BufferPoolManager.fetch_page
  rw [hl]
  simp only [hv]
  by_cases hd : (b1.frame f).is_dirty_ = true
  · simp only [hd, if_true, BufferPoolManager.update_page, BufferPoolManager.setFrame, hl1]
    refine ⟨trivial, by simp, ?_, ?_, ?_, trivial, trivial, trivial, trivial⟩
    · intro g hg
      simp [BufferPoolManager.frame, List.getD_eq_getElem?_getD, List.getElem?_set, Ne.symm hg]
    · simp [BufferPoolManager.frame, List.getD_eq_getElem?_getD, List.getElem?_set, hf,
        Page.reset_memory]
    · simp [BufferPoolManager.frame, List.getD_eq_getElem?_getD, List.getElem?_set, hf,
        Page.reset_memory]
  · have hd2 : (b1.frame f).is_dirty_ = false := by simpa using hd
    simp only [hd2, Bool.false_eq_true, if_false, BufferPoolManager.setFrame]
    refine ⟨trivial, by simp, ?_, ?_, ?_, trivial, trivial, trivial, trivial⟩
    · intro g hg
      simp [BufferPoolManager.frame, List.getD_eq_getElem?_getD, List.getElem?_set, Ne.symm hg]
    · simp [BufferPoolManager.frame, List.getD_eq_getElem?_getD, List.getElem?_set, hf]
    · simp [BufferPoolManager.frame, List.getD_eq_getElem?_getD, List.getElem?_set, hf]

/-- The result of `new_page` when it finds a frame. -/
theorem new_page_found (b b1 : BufferPoolManager) (pid : PageId) (f : Nat)
    (hv : b.find_victim_page = (b1, some f)) (hf : f < b1.pages_.length) :
    (b.new_page pid).2.1 = some f ∧
    (b.new_page pid).1.pages_.length = b1.pages_.length ∧
    (∀ g, g ≠ f → (b.new_page pid).1.frame g = b1.frame g) ∧
    ((b.new_page pid).1.frame f).id_ = (b.new_page pid).2.2 ∧
    ((b.new_page pid).1.frame f).pin_count_ = (b1.frame f).pin_count_ + 1 ∧
    (b.new_page pid).1.page_table_ =
      BufferPoolManager.tableStore (b.new_page pid).2.2 f b1.page_table_ ∧
    (b.new_page pid).1.free_list_ = b1.free_list_ ∧
    (b.new_page pid).1.replacer_ = b1.replacer_.pin f ∧
    (b.new_page pid).1.disk_manager_.pages =
      (if (b1.frame f).is_dirty_ then
        (b1.disk_manager_.write_page (b1.frame f).id_.fd (b1.frame f).id_.page_no
          (b1.frame f).data_).pages
       else b1.disk_manager_.pages) := by
  unfold BufferPoolManager.new_page
  simp only [hv]
  by_cases hd : (b1.frame f).is_dirty_ = true
  · simp only [hd, if_true, BufferPoolManager.setFrame, DiskManager.allocate_page]
    refine ⟨trivial, by simp, ?_, ?_, ?_, trivial, trivial, trivial, trivial⟩
    · intro g hg
      simp [BufferPoolManager.frame, List.getD_eq_getElem?_getD, List.getElem?_set, Ne.symm hg]
    · simp [BufferPoolManager.frame, List.getD_eq_getElem?_getD, List.getElem?_set, hf,
        Page.reset_memory]
    · simp [BufferPoolManager.frame, List.getD_eq_getElem?_getD, List.getElem?_set, hf,
        Page.reset_memory]
  · have hd2 : (b1.frame f).is_dirty_ = false := by simpa using hd
    simp only [hd2, Bool.false_eq_true, if_false, BufferPoolManager.setFrame,
      DiskManager.allocate_page]
    refine ⟨trivial, by simp, ?_, ?_, ?_, trivial, trivial, trivial, trivial⟩
    · intro g hg
      simp [BufferPoolManager.frame, List.getD_eq_getElem?_getD, List.getElem?_set, Ne.symm hg]
    · simp [BufferPoolManager.frame, List.getD_eq_getElem?_getD, List.getElem?_set, hf,
        Page.reset_memory]
    · simp [BufferPoolManager.frame, List.getD_eq_getElem?_getD, List.getElem?_set, hf,
        Page.reset_memory]

theorem poolInv_of_fields (b b2 : BufferPoolManager) (hinv : PoolInv b)
    (hp : b2.pages_ = b.pages_) (ht : b2.page_table_ = b.page_table_)
    (hf : b2.free_list_ = b.free_list_) (hr : b2.replacer_ = b.replacer_) : PoolInv b2 := by
  unfold PoolInv BufferPoolManager.frame at *
  rw [hp, ht, hf, hr]
  exact hinv

theorem fetch_page_inv (b : BufferPoolManager) (pid : PageId) (hinv : PoolInv b) :
    PoolInv (b.fetch_page pid).1 := by
  cases hl : b.page_table_.lookup pid with
  | some f =>
    obtain ⟨hf, hid, hnf⟩ := hinv.1 pid f hl
    have hu : (b.fetch_page pid).1 =
        ({ b with replacer_ := b.replacer_.pin f } : BufferPoolManager).setFrame f
          { (b.frame f) with pin_count_ := (b.frame f).pin_count_ + 1 } := by
      simp only [BufferPoolManager.fetch_page, hl]
      rfl
    rw [hu]
    apply poolInv_step b _ f hinv
    · simp [BufferPoolManager.setFrame]
    · intro g hg
      rw [frame_setFrame]
      simp [hg]
      rfl
    · intro p g hg
      have hg2 : b.page_table_.lookup p = some g := hg
      by_cases he : g = f
      · subst he
        right
        refine ⟨rfl, hf, ?_⟩
        rw [frame_setFrame]
        have hf2 : g < ({ b with replacer_ := b.replacer_.pin g } :
          BufferPoolManager).pages_.length := hf
        simp only [hf2, and_self, if_true]
        exact (hinv.1 p g hg2).2.1
      · exact Or.inl ⟨he, hg2⟩
    · exact hinv.2.1
    · intro g hg
      have hg2 : g ∈ b.free_list_ := hg
      left
      refine ⟨?_, hg2⟩
      intro he
      subst he
      exact hnf hg2
    · intro p _
      exact hnf
    · intro g hg
      have hg2 : g ∈ (b.replacer_.pin f).LRUlist_ := hg
      simp only [LRUReplacer.pin, List.mem_filter, bne_iff_ne, ne_eq] at hg2
      exact Or.inl ⟨hg2.2, hg2.1⟩
  | none =>
    cases hv : b.find_victim_page with
    | mk b1 of =>
      cases of with
      | none =>
        rcases find_victim_page_cases b with ⟨a, rest, _, he⟩ | ⟨_, f2, r, _, he⟩ | ⟨_, _, he⟩
        · rw [he] at hv; simp at hv
        · rw [he] at hv; simp at hv
        · rw [he] at hv
          simp only [Prod.mk.injEq, and_true] at hv
          subst hv
          have hu : (b.fetch_page pid).1 = b := by
            simp [BufferPoolManager.fetch_page, hl, he]
          rw [hu]
          exact hinv
      | some f =>
        obtain ⟨hinv1, _, _, hf, _, hnot, hfree, hnone, _⟩ := find_victim_page_inv b b1 f hinv hv
        have hl1 := hnone pid hl
        obtain ⟨_, h2, h3, h4, _, h6, h7, h8, _⟩ := fetch_page_miss b b1 pid f hl hv hl1 hf
        apply poolInv_install b1 _ f pid hinv1 hf hnot hfree h2 h3 h4 _ h7 h8
        intro q
        rw [h6]
        exact lookup_tableInsert b1.page_table_ pid q f hl1

theorem new_page_inv (b : BufferPoolManager) (pid : PageId) (hinv : PoolInv b) :
    PoolInv (b.new_page pid).1 := by
  cases hv : b.find_victim_page with
  | mk b1 of =>
    cases of with
    | none =>
      rcases find_victim_page_cases b with ⟨a, rest, _, he⟩ | ⟨_, f2, r, _, he⟩ | ⟨_, _, he⟩
      · rw [he] at hv; simp at hv
      · rw [he] at hv; simp at hv
      · rw [he] at hv
        simp only [Prod.mk.injEq, and_true] at hv
        subst hv
        have hu : (b.new_page pid).1 = b := by
          simp [BufferPoolManager.new_page, he]
        rw [hu]
        exact hinv
    | some f =>
      obtain ⟨hinv1, _, _, hf, _, hnot, hfree, _, _⟩ := find_victim_page_inv b b1 f hinv hv
      obtain ⟨_, h2, h3, h4, _, h6, h7, h8, _⟩ := new_page_found b b1 pid f hv hf
      apply poolInv_install b1 _ f (b.new_page pid).2.2 hinv1 hf hnot hfree h2 h3 h4 _ h7 h8
      intro q
      rw [h6]
      exact lookup_tableStore _ f b1.page_table_ q

theorem unpin_page_inv (b : BufferPoolManager) (pid : PageId) (d : Bool) (hinv : PoolInv b) :
    PoolInv (b.unpin_page pid d).1 := by
  cases hl : b.page_table_.lookup pid with
  | none =>
    rw [(unpin_page_contract b pid d).1 hl]
    exact hinv
  | some f =>
    by_cases h0 : (b.frame f).pin_count_ = 0
    · rw [(unpin_page_contract b pid d).2.1 f hl h0]
      exact hinv
    · obtain ⟨hf, hid, hnf⟩ := hinv.1 pid f hl
      have hnr : f ∉ b.replacer_.LRUlist_ := fun hm => h0 (hinv.2.2.2 f hm).2
      by_cases h1 : (b.frame f).pin_count_ - 1 = 0
      · have hu : b.unpin_page pid d =
            (({ b with replacer_ := b.replacer_.unpin f } : BufferPoolManager).setFrame f
              { (b.frame f) with pin_count_ := (b.frame f).pin_count_ - 1, is_dirty_ := d },
             true) := by
          simp [BufferPoolManager.unpin_page, hl, h0, h1]
        rw [hu]
        have hfr : ((({ b with replacer_ := b.replacer_.unpin f } :
            BufferPoolManager).setFrame f
              { (b.frame f) with pin_count_ := (b.frame f).pin_count_ - 1,
                                 is_dirty_ := d }).frame f) =
            { (b.frame f) with pin_count_ := (b.frame f).pin_count_ - 1, is_dirty_ := d } := by
          rw [frame_setFrame]
          have hf2 : f < ({ b with replacer_ := b.replacer_.unpin f } :
            BufferPoolManager).pages_.length := hf
          simp only [hf2, and_self, if_true]
        apply poolInv_step b _ f hinv
        · simp [BufferPoolManager.setFrame]
        · intro g hg
          rw [frame_setFrame]
          simp [hg]
          rfl
        · intro p g hg
          have hg2 : b.page_table_.lookup p = some g := hg
          by_cases he : g = f
          · subst he
            right
            refine ⟨rfl, hf, ?_⟩
            rw [hfr]
            exact (hinv.1 p g hg2).2.1
          · exact Or.inl ⟨he, hg2⟩
        · exact hinv.2.1
        · intro g hg
          have hg2 : g ∈ b.free_list_ := hg
          left
          refine ⟨?_, hg2⟩
          intro he
          subst he
          exact hnf hg2
        · intro p _
          exact hnf
        · intro g hg
          have hg2 : g ∈ (b.replacer_.unpin f).LRUlist_ := hg
          simp only [LRUReplacer.unpin, hnr, if_false, List.mem_cons] at hg2
          rcases hg2 with he | hm
          · right
            refine ⟨he, hf, ?_⟩
            rw [hfr]
            exact h1
          · left
            refine ⟨?_, hm⟩
            intro he
            subst he
            exact hnr hm
      · have hu : b.unpin_page pid d =
            (b.setFrame f
              { (b.frame f) with pin_count_ := (b.frame f).pin_count_ - 1, is_dirty_ := d },
             true) := by
          simp [BufferPoolManager.unpin_page, hl, h0, h1]
        rw [hu]
        have hfr : ((b.setFrame f
              { (b.frame f) with pin_count_ := (b.frame f).pin_count_ - 1,
                                 is_dirty_ := d }).frame f) =
            { (b.frame f) with pin_count_ := (b.frame f).pin_count_ - 1, is_dirty_ := d } := by
          rw [frame_setFrame]
          simp only [hf, and_self, if_true]
        apply poolInv_step b _ f hinv
        · simp [BufferPoolManager.setFrame]
        · intro g hg
          rw [frame_setFrame]
          simp [hg]
        · intro p g hg
          have hg2 : b.page_table_.lookup p = some g := hg
          by_cases he : g = f
          · subst he
            right
            refine ⟨rfl, hf, ?_⟩
            rw [hfr]
            exact (hinv.1 p g hg2).2.1
          · exact Or.inl ⟨he, hg2⟩
        · exact hinv.2.1
        · intro g hg
          have hg2 : g ∈ b.free_list_ := hg
          left
          refine ⟨?_, hg2⟩
          intro he
          subst he
          exact hnf hg2
        · intro p _
          exact hnf
        · intro g hg
          have hg2 : g ∈ b.replacer_.LRUlist_ := hg
          left
          refine ⟨?_, hg2⟩
          intro he
          subst he
          exact hnr hg2

theorem flush_page_inv (b : BufferPoolManager) (pid : PageId) (hinv : PoolInv b) :
    PoolInv (b.flush_page pid).1 := by
  unfold BufferPoolManager.flush_page
  by_cases hi : pid.page_no = INVALID_PAGE_ID
  · simp only [hi, if_true]
    exact hinv
  · simp only [hi, if_false]
    cases hl : b.page_table_.lookup pid with
    | none => exact hinv
    | some f => exact poolInv_of_fields b _ hinv rfl rfl rfl rfl

theorem delete_page_inv (b : BufferPoolManager) (pid : PageId) (hinv : PoolInv b) :
    PoolInv (b.delete_page pid).1 := by
  cases hl : b.page_table_.lookup pid with
  | none =>
    rw [(delete_page_contract b pid).1 hl]
    exact hinv
  | some f =>
    by_cases h0 : (b.frame f).pin_count_ = 0
    · obtain ⟨hf, hid, hnf⟩ := hinv.1 pid f hl
      obtain ⟨_, _, _, hnone, hother, hfr, hfo, hfl⟩ := (delete_page_contract b pid).2.2 f hl h0
      have hlen : (b.delete_page pid).1.pages_.length = b.pages_.length := by
        have hn : ¬ ((b.frame f).pin_count_ ≠ 0) := by simp [h0]
        simp only [BufferPoolManager.delete_page, hl, hn, if_false]
        simp [BufferPoolManager.setFrame]
      have hrep : (b.delete_page pid).1.replacer_ = b.replacer_ := by
        have hn : ¬ ((b.frame f).pin_count_ ≠ 0) := by simp [h0]
        simp only [BufferPoolManager.delete_page, hl, hn, if_false]
        rfl
      apply poolInv_step b _ f hinv hlen hfo
      · intro p g hg
        by_cases hp : p = pid
        · subst hp
          rw [hnone] at hg
          cases hg
        · rw [hother p hp] at hg
          left
          refine ⟨?_, hg⟩
          intro he
          subst he
          exact hp ((hinv.1 p g hg).2.1.symm.trans hid)
      · rw [hfl]
        refine List.Nodup.append hinv.2.1 (List.nodup_singleton f) ?_
        intro x hx1 hx2
        simp only [List.mem_singleton] at hx2
        subst hx2
        exact hnf hx1
      · intro g hg
        rw [hfl] at hg
        simp only [List.mem_append, List.mem_singleton] at hg
        rcases hg with hm | he
        · left
          refine ⟨?_, hm⟩
          intro he
          subst he
          exact hnf hm
        · right
          refine ⟨he, hf, ?_⟩
          rw [hfr]
      · intro p hp
        exfalso
        by_cases hpp : p = pid
        · subst hpp
          rw [hnone] at hp
          cases hp
        · rw [hother p hpp] at hp
          exact hpp ((hinv.1 p f hp).2.1.symm.trans hid)
      · intro g hg
        rw [hrep] at hg
        by_cases he : g = f
        · right
          refine ⟨he, hf, ?_⟩
          rw [hfr]
        · exact Or.inl ⟨he, hg⟩
    · rw [(delete_page_contract b pid).2.1 f hl h0]
      exact hinv

theorem call_poolInv (b : BufferPoolManager) (c : PoolCall) (hinv : PoolInv b) :
    PoolInv (b.call c) := by
  cases c with
  | fetch_page pid => exact fetch_page_inv b pid hinv
  | new_page fd => exact new_page_inv b _ hinv
  | unpin_page pid d => exact unpin_page_inv b pid d hinv
  | flush_page pid => exact flush_page_inv b pid hinv
  | delete_page pid => exact delete_page_inv b pid hinv
  | write pid offset byte =>
    simp only [BufferPoolManager.call]
    cases hl : b.page_table_.lookup pid with
    | none => exact hinv
    | some f =>
      simp only
      by_cases h0 : (b.frame f).pin_count_ = 0
      · simp only [h0, if_true]
        exact hinv
      · simp only [h0, if_false]
        obtain ⟨hf, hid, hnf⟩ := hinv.1 pid f hl
        have hfr : (b.writeData f offset byte).frame f =
            { (b.frame f) with data_ := (b.frame f).data_.set offset byte } := by
          unfold BufferPoolManager.writeData
          rw [frame_setFrame]
          simp only [hf, and_self, if_true]
        apply poolInv_step b _ f hinv
        · simp [BufferPoolManager.writeData, BufferPoolManager.setFrame]
        · intro g hg
          unfold BufferPoolManager.writeData
          rw [frame_setFrame]
          simp [hg]
        · intro p g hg
          have hg2 : b.page_table_.lookup p = some g := hg
          by_cases he : g = f
          · subst he
            right
            refine ⟨rfl, hf, ?_⟩
            rw [hfr]
            exact (hinv.1 p g hg2).2.1
          · exact Or.inl ⟨he, hg2⟩
        · exact hinv.2.1
        · intro g hg
          have hg2 : g ∈ b.free_list_ := hg
          left
          refine ⟨?_, hg2⟩
          intro he
          subst he
          exact hnf hg2
        · intro p _
          exact hnf
        · intro g hg
          have hg2 : g ∈ b.replacer_.LRUlist_ := hg
          by_cases he : g = f
          · right
            refine ⟨he, hf, ?_⟩
            rw [hfr]
            subst he
            exact (hinv.2.2.2 g hg2).2
          · exact Or.inl ⟨he, hg2⟩

theorem run_poolInv : ∀ (calls : List PoolCall) (b : BufferPoolManager), PoolInv b →
    PoolInv (b.run calls) := by
  intro calls
  induction calls with
  | nil => intro b h; exact h
  | cons c cs ih =>
    intro b h
    exact ih (b.call c) (call_poolInv b c h)

theorem init_poolInv (pool_size : Nat) (disk : DiskManager) :
    PoolInv (BufferPoolManager.init pool_size disk) := by
  refine ⟨?_, ?_, ?_, ?_⟩
  · intro p f h
    simp [BufferPoolManager.init] at h
  · exact List.nodup_range pool_size
  · intro f hf
    simp only [BufferPoolManager.init, List.mem_range] at hf
    refine ⟨by simp [BufferPoolManager.init, hf], ?_⟩
    simp [BufferPoolManager.frame, BufferPoolManager.init, List.getD_eq_getElem?_getD,
      List.getElem?_replicate, hf, Page.unused]
  · intro f hf
    simp [BufferPoolManager.init] at hf

theorem reached_poolInv (pool_size : Nat) (disk : DiskManager) (calls : List PoolCall) :
    PoolInv (BufferPoolManager.reached pool_size disk calls) :=
  run_poolInv calls _ (init_poolInv pool_size disk)

/-- C21: in every pool state reached from the initial state through `fetch_page`,
`new_page`, `unpin_page`, `flush_page`, `delete_page` and writes of callers into
pinned pages, over any disk: no two page ids are mapped to the same frame,
the identity stored in a mapped frame is its key, and no frame named by the
page table is on the free list. -/
theorem page_table_consistent_over_runs (pool_size : Nat) (disk : DiskManager)
    (calls : List PoolCall) :
    (∀ p q f, (BufferPoolManager.reached pool_size disk calls).page_table_.lookup p = some f →
      (BufferPoolManager.reached pool_size disk calls).page_table_.lookup q = some f → p = q) ∧
    (∀ p f, (BufferPoolManager.reached pool_size disk calls).page_table_.lookup p = some f →
      ((BufferPoolManager.reached pool_size disk calls).frame f).id_ = p) ∧
    (∀ p f, (BufferPoolManager.reached pool_size disk calls).page_table_.lookup p = some f →
      f ∉ (BufferPoolManager.reached pool_size disk calls).free_list_) := by
  have hinv := reached_poolInv pool_size disk calls
  refine ⟨?_, ?_, ?_⟩
  · intro p q f hp hq
    exact (hinv.1 p f hp).2.1.symm.trans (hinv.1 q f hq).2.1
  · intro p f hp
    exact (hinv.1 p f hp).2.1
  · intro p f hp
    exact (hinv.1 p f hp).2.2

/-- C21 at a concrete run: two frames; page `(1, 0)` is created, unpinned and
deleted, then the pages `(1, 1)` and `(2, 0)` are created.  The page table maps
`(1, 1)` to frame 1 and `(2, 0)` to frame 0, and the statement holds there. -/
theorem page_table_consistent_over_runs_witness :
    (BufferPoolManager.reached 2 ⟨[], []⟩
      [.new_page 1, .unpin_page ⟨1, 0⟩ true, .delete_page ⟨1, 0⟩, .new_page 1,
       .new_page 2]).page_table_ = [(⟨1, 1⟩, 1), (⟨2, 0⟩, 0)] ∧
    ((∀ p q f, (BufferPoolManager.reached 2 ⟨[], []⟩
        [.new_page 1, .unpin_page ⟨1, 0⟩ true, .delete_page ⟨1, 0⟩, .new_page 1,
         .new_page 2]).page_table_.lookup p = some f →
      (BufferPoolManager.reached 2 ⟨[], []⟩
        [.new_page 1, .unpin_page ⟨1, 0⟩ true, .delete_page ⟨1, 0⟩, .new_page 1,
         .new_page 2]).page_table_.lookup q = some f → p = q) ∧
    (∀ p f, (BufferPoolManager.reached 2 ⟨[], []⟩
        [.new_page 1, .unpin_page ⟨1, 0⟩ true, .delete_page ⟨1, 0⟩, .new_page 1,
         .new_page 2]).page_table_.lookup p = some f →
      ((BufferPoolManager.reached 2 ⟨[], []⟩
        [.new_page 1, .unpin_page ⟨1, 0⟩ true, .delete_page ⟨1, 0⟩, .new_page 1,
         .new_page 2]).frame f).id_ = p) ∧
    (∀ p f, (BufferPoolManager.reached 2 ⟨[], []⟩
        [.new_page 1, .unpin_page ⟨1, 0⟩ true, .delete_page ⟨1, 0⟩, .new_page 1,
         .new_page 2]).page_table_.lookup p = some f →
      f ∉ (BufferPoolManager.reached 2 ⟨[], []⟩
        [.new_page 1, .unpin_page ⟨1, 0⟩ true, .delete_page ⟨1, 0⟩, .new_page 1,
         .new_page 2]).free_list_)) :=
  ⟨by decide!,
   page_table_consistent_over_runs 2 ⟨[], []⟩
     [.new_page 1, .unpin_page ⟨1, 0⟩ true, .delete_page ⟨1, 0⟩, .new_page 1, .new_page 2]⟩

/-- C22: in every pool state reached from the initial state through calls,
every frame in the replacer or on the free list has pin count 0, so the frame
`find_victim_page` returns has pin count 0.  When that frame is dirty,
`fetch_page` (on a miss) and `new_page` return it with the new identity, and the
disk then holds the bytes the frame had under the `(fd, page_no)` it had: the
pager is given them before the identity is overwritten. -/
theorem victim_frames_unpinned_and_written_back (pool_size : Nat) (disk : DiskManager)
    (calls : List PoolCall) :
    (∀ f, f ∈ (BufferPoolManager.reached pool_size disk calls).replacer_.LRUlist_ ∨
        f ∈ (BufferPoolManager.reached pool_size disk calls).free_list_ →
      ((BufferPoolManager.reached pool_size disk calls).frame f).pin_count_ = 0) ∧
    (∀ b1 f, (BufferPoolManager.reached pool_size disk calls).find_victim_page = (b1, some f) →
      ((BufferPoolManager.reached pool_size disk calls).frame f).pin_count_ = 0) ∧
    (∀ pid b1 f,
      (BufferPoolManager.reached pool_size disk calls).page_table_.lookup pid = none →
      (BufferPoolManager.reached pool_size disk calls).find_victim_page = (b1, some f) →
      ((BufferPoolManager.reached pool_size disk calls).frame f).is_dirty_ = true →
      ((BufferPoolManager.reached pool_size disk calls).fetch_page pid).2 = some f ∧
      ((((BufferPoolManager.reached pool_size disk calls).fetch_page pid).1.frame f).id_ = pid) ∧
      ((BufferPoolManager.reached pool_size disk calls).fetch_page pid).1.disk_manager_ =
        (BufferPoolManager.reached pool_size disk calls).disk_manager_.write_page
          ((BufferPoolManager.reached pool_size disk calls).frame f).id_.fd
          ((BufferPoolManager.reached pool_size disk calls).frame f).id_.page_no
          ((BufferPoolManager.reached pool_size disk calls).frame f).data_) ∧
    (∀ pid b1 f,
      (BufferPoolManager.reached pool_size disk calls).find_victim_page = (b1, some f) →
      ((BufferPoolManager.reached pool_size disk calls).frame f).is_dirty_ = true →
      ((BufferPoolManager.reached pool_size disk calls).new_page pid).2.1 = some f ∧
      ((((BufferPoolManager.reached pool_size disk calls).new_page pid).1.frame f).id_ =
        ((BufferPoolManager.reached pool_size disk calls).new_page pid).2.2) ∧
      ((BufferPoolManager.reached pool_size disk calls).new_page pid).1.disk_manager_.read_page
          ((BufferPoolManager.reached pool_size disk calls).frame f).id_.fd
          ((BufferPoolManager.reached pool_size disk calls).frame f).id_.page_no =
        ((BufferPoolManager.reached pool_size disk calls).frame f).data_) := by
  have hinv := reached_poolInv pool_size disk calls
  generalize BufferPoolManager.reached pool_size disk calls = b at hinv ⊢
  refine ⟨?_, ?_, ?_, ?_⟩
  · intro f hf
    rcases hf with h | h
    · exact (hinv.2.2.2 f h).2
    · exact (hinv.2.2.1 f h).2
  · intro b1 f hv
    obtain ⟨_, _, _, _, _, _, _, _, hmem⟩ := find_victim_page_inv b b1 f hinv hv
    rcases hmem with h | h
    · exact (hinv.2.2.1 f h).2
    · exact (hinv.2.2.2 f h).2
  · intro pid b1 f hl hv hd
    obtain ⟨_, hp, hdm, hf, _, _, _, hnone, _⟩ := find_victim_page_inv b b1 f hinv hv
    have hfr : b1.frame f = b.frame f := by simp [BufferPoolManager.frame, hp]
    obtain ⟨h1, _, _, h4, _, _, _, _, h9⟩ := fetch_page_miss b b1 pid f hl hv (hnone pid hl) hf
    refine ⟨h1, h4, ?_⟩
    rw [h9, hfr, hdm]
    simp [hd]
  · intro pid b1 f hv hd
    obtain ⟨_, hp, hdm, hf, _, _, _, _, _⟩ := find_victim_page_inv b b1 f hinv hv
    have hfr : b1.frame f = b.frame f := by simp [BufferPoolManager.frame, hp]
    obtain ⟨h1, _, _, h4, _, _, _, _, h9⟩ := new_page_found b b1 pid f hv hf
    refine ⟨h1, h4, ?_⟩
    rw [hfr, hdm] at h9
    simp only [hd, if_true] at h9
    have := read_page_write_page b.disk_manager_ (b.frame f).id_.fd (b.frame f).id_.page_no
      (b.frame f).data_
    simp only [DiskManager.read_page] at this ⊢
    rw [h9]
    exact this

/-- C22 at a concrete run: one frame; page `(1, 0)` is created, a byte is stored
in it and it is unpinned dirty.  `find_victim_page` returns frame 0, whose pin
count is 0, and after `fetch_page((1, 5))` the frame holds `(1, 5)` and the disk
holds the stored byte under `(1, 0)`. -/
theorem victim_frames_unpinned_and_written_back_witness :
    ((BufferPoolManager.reached 1 ⟨[], []⟩
        [.new_page 1, .write ⟨1, 0⟩ 0 7, .unpin_page ⟨1, 0⟩ true]).frame 0).pin_count_ = 0 ∧
    (((BufferPoolManager.reached 1 ⟨[], []⟩
        [.new_page 1, .write ⟨1, 0⟩ 0 7, .unpin_page ⟨1, 0⟩ true]).fetch_page ⟨1, 5⟩).1.frame
          0).id_ = ⟨1, 5⟩ ∧
    (((BufferPoolManager.reached 1 ⟨[], []⟩
        [.new_page 1, .write ⟨1, 0⟩ 0 7, .unpin_page ⟨1, 0⟩ true]).fetch_page
          ⟨1, 5⟩).1.disk_manager_.read_page 1 0).head? = some 7 :=
  ⟨(victim_frames_unpinned_and_written_back 1 ⟨[], []⟩
      [.new_page 1, .write ⟨1, 0⟩ 0 7, .unpin_page ⟨1, 0⟩ true]).2.1
      (BufferPoolManager.reached 1 ⟨[], []⟩
        [.new_page 1, .write ⟨1, 0⟩ 0 7, .unpin_page ⟨1, 0⟩ true]).find_victim_page.1 0
      (by decide!),
   ((victim_frames_unpinned_and_written_back 1 ⟨[], []⟩
      [.new_page 1, .write ⟨1, 0⟩ 0 7, .unpin_page ⟨1, 0⟩ true]).2.2.1 ⟨1, 5⟩
      (BufferPoolManager.reached 1 ⟨[], []⟩
        [.new_page 1, .write ⟨1, 0⟩ 0 7, .unpin_page ⟨1, 0⟩ true]).find_victim_page.1 0
      (by decide!) (by decide!) (by decide!)).2.1,
   by decide!⟩

/-! ## The split of a full leaf -/

theorem ixm_bind_some {α β : Type} (x : IxM α) (f : α → IxM β) (h h2 : IxIndexHandle) (a : α)
    (hx : x h = some (a, h2)) : (x >>= f) h = f a h2 := by
  show IxM.bind x f h = _
  unfold IxM.bind
  rw [hx]

theorem lookup_storePage (p q : Int) (n : IxNode) (l : List (Int × IxNode)) :
    (storePage p n l).lookup q = if q = p then some n else l.lookup q := by
  induction l with
  | nil =>
    by_cases h : q = p
    · simp [storePage, List.lookup_cons, h]
    · have hb : (q == p) = false := beq_eq_false_iff_ne.mpr h
      simp [storePage, List.lookup_cons, h, hb]
  | cons e rest ih =>
    obtain ⟨i, m⟩ := e
    by_cases hi : i = p
    · subst hi
      by_cases h : q = i
      · simp [storePage, List.lookup_cons, h]
      · have hb : (q == i) = false := beq_eq_false_iff_ne.mpr h
        simp [storePage, List.lookup_cons, h, hb]
    · by_cases hq : q = i
      · subst hq
        simp [storePage, List.lookup_cons, hi]
      · have hb : (q == i) = false := beq_eq_false_iff_ne.mpr hq
        simp only [storePage, hi, if_false, List.lookup_cons, hb]
        exact ih

theorem fetch_node_some (h : IxIndexHandle) (p : Int) (n : IxNode)
    (hn : h.pages.lookup p = some n) : IxIndexHandle.fetch_node p h = some (n, h) := by
  simp [IxIndexHandle.fetch_node, hn]

theorem writeSlots_single {α : Type} (l : List α) (i : Nat) (x : α) (hi : i < l.length) :
    IxNode.writeSlots l i [x] = some (l.set i x) := by
  have h1 : i + 1 ≤ l.length := by omega
  simp [IxNode.writeSlots, h1, List.set_eq_take_append_cons_drop, hi]

theorem copyPairs_spec (newNo originNo : Int) (hne : newNo ≠ originNo) (k : Nat) (o : IxNode) :
    ∀ (cnt i : Nat) (g : IxIndexHandle) (w : IxNode),
      g.pages.lookup originNo = some o → g.pages.lookup newNo = some w →
      k + i + cnt ≤ o.keys.length → k + i + cnt ≤ o.rids.length →
      i + cnt ≤ w.keys.length → i + cnt ≤ w.rids.length →
      ∃ g2 w2, IxIndexHandle.copyPairs newNo originNo k cnt i g = some ((), g2) ∧
        g2.file_hdr_ = g.file_hdr_ ∧ g2.next_page_no = g.next_page_no ∧
        (∀ x, x ≠ newNo → g2.pages.lookup x = g.pages.lookup x) ∧
        g2.pages.lookup newNo = some w2 ∧
        w2 = { w with keys := w2.keys, rids := w2.rids } ∧
        w2.keys.length = w.keys.length ∧ w2.rids.length = w.rids.length ∧
        (∀ j, w2.keys[j]? = if i ≤ j ∧ j < i + cnt then o.keys[k + j]? else w.keys[j]?) ∧
        (∀ j, w2.rids[j]? = if i ≤ j ∧ j < i + cnt then o.rids[k + j]? else w.rids[j]?) := by
  intro cnt
  induction cnt with
  | zero =>
    intro i g w _ hw _ _ _ _
    refine ⟨g, w, rfl, rfl, rfl, fun _ _ => rfl, hw, rfl, rfl, rfl, ?_, ?_⟩
    · intro j
      have : ¬ (i ≤ j ∧ j < i) := by omega
      rw [Nat.add_zero, if_neg this]
    · intro j
      have : ¬ (i ≤ j ∧ j < i) := by omega
      rw [Nat.add_zero, if_neg this]
  | succ cnt ih =>
    intro i g w ho hw hk hr hwk hwr
    have hki : k + i < o.keys.length := by omega
    have hri : k + i < o.rids.length := by omega
    have hgk : o.get_key (k + i) = some (o.keys[k + i]) := List.getElem?_eq_getElem hki
    have hgr : o.get_rid (k + i) = some (o.rids[k + i]) := List.getElem?_eq_getElem hri
    have hsk : w.set_key i (o.keys[k + i]) = some { w with keys := w.keys.set i (o.keys[k + i]) } := by
      simp [IxNode.set_key, writeSlots_single w.keys i _ (by omega)]
    have hsr : ({ w with keys := w.keys.set i (o.keys[k + i]) } : IxNode).set_rid i (o.rids[k + i]) =
        some { w with keys := w.keys.set i (o.keys[k + i]),
                      rids := w.rids.set i (o.rids[k + i]) } := by
      simp [IxNode.set_rid, writeSlots_single w.rids i _ (by omega)]
    let w1 : IxNode := { w with keys := w.keys.set i (o.keys[k + i]),
                                rids := w.rids.set i (o.rids[k + i]) }
    let g1 : IxIndexHandle := { g with pages := storePage newNo w1 g.pages }
    have ho1 : g1.pages.lookup originNo = some o := by
      show (storePage newNo w1 g.pages).lookup originNo = _
      rw [lookup_storePage, if_neg (Ne.symm hne)]
      exact ho
    have hw1 : g1.pages.lookup newNo = some w1 := by
      show (storePage newNo w1 g.pages).lookup newNo = _
      rw [lookup_storePage, if_pos rfl]
    obtain ⟨g2, w2, hrun, hf, hnp, hoth, hl2, hw2, hlk, hlr, hkeys, hrids⟩ :=
      ih (i + 1) g1 w1 ho1 hw1 (by omega) (by omega)
        (by show i + 1 + cnt ≤ (w.keys.set i _).length; simp; omega)
        (by show i + 1 + cnt ≤ (w.rids.set i _).length; simp; omega)
    refine ⟨g2, w2, ?_, hf, hnp, ?_, hl2, ?_, ?_, ?_, ?_, ?_⟩
    · have hstep : IxIndexHandle.copyPairs newNo originNo k (cnt + 1) i g =
          IxIndexHandle.copyPairs newNo originNo k cnt (i + 1) g1 := by
        simp only [IxIndexHandle.copyPairs, bind, IxM.bind, IxIndexHandle.fetch_node, ho, hw,
          Option.map_some', IxIndexHandle.liftOpt, hgk, hgr, hsk, hsr, IxIndexHandle.put_node]
      rw [hstep]
      exact hrun
    · intro x hx
      rw [hoth x hx]
      show (storePage newNo w1 g.pages).lookup x = _
      rw [lookup_storePage, if_neg hx]
    · rw [hw2]
    · rw [hlk]
      show (w.keys.set i _).length = _
      simp
    · rw [hlr]
      show (w.rids.set i _).length = _
      simp
    · intro j
      rw [hkeys j]
      show (if i + 1 ≤ j ∧ j < i + 1 + cnt then o.keys[k + j]? else (w.keys.set i _)[j]?) = _
      by_cases hj : j = i
      · subst hj
        have h1 : ¬ (j + 1 ≤ j ∧ j < j + 1 + cnt) := by omega
        have h2 : j ≤ j ∧ j < j + (cnt + 1) := by omega
        simp only [h1, h2, if_false, if_true, List.getElem?_set, and_self]
        simp only [show j < w.keys.length by omega, if_true]
        exact (List.getElem?_eq_getElem hki).symm
      · by_cases hin : i + 1 ≤ j ∧ j < i + 1 + cnt
        · have h2 : i ≤ j ∧ j < i + (cnt + 1) := by omega
          simp only [hin, h2, and_self, if_true]
        · have h2 : ¬ (i ≤ j ∧ j < i + (cnt + 1)) := by omega
          simp only [hin, h2, if_false, List.getElem?_set, Ne.symm hj]
    · intro j
      rw [hrids j]
      show (if i + 1 ≤ j ∧ j < i + 1 + cnt then o.rids[k + j]? else (w.rids.set i _)[j]?) = _
      by_cases hj : j = i
      · subst hj
        have h1 : ¬ (j + 1 ≤ j ∧ j < j + 1 + cnt) := by omega
        have h2 : j ≤ j ∧ j < j + (cnt + 1) := by omega
        simp only [h1, h2, if_false, if_true, List.getElem?_set, and_self]
        simp only [show j < w.rids.length by omega, if_true]
        exact (List.getElem?_eq_getElem hri).symm
      · by_cases hin : i + 1 ≤ j ∧ j < i + 1 + cnt
        · have h2 : i ≤ j ∧ j < i + (cnt + 1) := by omega
          simp only [hin, h2, and_self, if_true]
        · have h2 : ¬ (i ≤ j ∧ j < i + (cnt + 1)) := by omega
          simp only [hin, h2, if_false, List.getElem?_set, Ne.symm hj]

theorem evenlyDistributePairs_spec (newNo originNo : Int) (hne : newNo ≠ originNo)
    (g : IxIndexHandle) (o w : IxNode)
    (ho : g.pages.lookup originNo = some o) (hw : g.pages.lookup newNo = some w)
    (hok : o.num_key ≤ o.keys.length) (hor : o.num_key ≤ o.rids.length)
    (hwk : o.num_key - o.num_key / 2 ≤ w.keys.length)
    (hwr : o.num_key - o.num_key / 2 ≤ w.rids.length) :
    ∃ g2 w2, IxIndexHandle.evenlyDistributePairs newNo originNo g = some ((), g2) ∧
      g2.file_hdr_ = g.file_hdr_ ∧ g2.next_page_no = g.next_page_no ∧
      (∀ x, x ≠ newNo → x ≠ originNo → g2.pages.lookup x = g.pages.lookup x) ∧
      g2.pages.lookup originNo = some { o with num_key := o.num_key / 2 } ∧
      g2.pages.lookup newNo = some w2 ∧
      w2.is_leaf = o.is_leaf ∧ w2.num_key = o.num_key - o.num_key / 2 ∧ w2.parent = o.parent ∧
      w2.prev_leaf = w.prev_leaf ∧ w2.next_leaf = w.next_leaf ∧
      w2.keys.length = w.keys.length ∧ w2.rids.length = w.rids.length ∧
      (∀ j, j < o.num_key - o.num_key / 2 →
        w2.keys[j]? = o.keys[o.num_key / 2 + j]? ∧ w2.rids[j]? = o.rids[o.num_key / 2 + j]?) := by
  let w1 : IxNode := { w with is_leaf := o.is_leaf, num_key := o.num_key - o.num_key / 2,
                              parent := o.parent }
  let o1 : IxNode := { o with num_key := o.num_key / 2 }
  let w0 : IxNode := { w with is_leaf := o.is_leaf, num_key := o.num_key - o.num_key / 2 }
  let g1 : IxIndexHandle :=
    { g with pages := storePage newNo w1 (storePage originNo o1 (storePage newNo w0 g.pages)) }
  have ho1 : g1.pages.lookup originNo = some o1 := by
    show (storePage newNo w1 _).lookup originNo = _
    rw [lookup_storePage, if_neg (Ne.symm hne), lookup_storePage, if_pos rfl]
  have hw1 : g1.pages.lookup newNo = some w1 := by
    show (storePage newNo w1 _).lookup newNo = _
    rw [lookup_storePage, if_pos rfl]
  obtain ⟨g2, w2, hrun, hf, hnp, hoth, hl2, hw2, hlk, hlr, hkeys, hrids⟩ :=
    copyPairs_spec newNo originNo hne (o.num_key / 2) o1 (o.num_key - o.num_key / 2) 0 g1 w1
      ho1 hw1 (by show _ ≤ o.keys.length; omega) (by show _ ≤ o.rids.length; omega)
      (by show _ ≤ w.keys.length; omega) (by show _ ≤ w.rids.length; omega)
  refine ⟨g2, w2, ?_, hf, hnp, ?_, ?_, hl2, ?_, ?_, ?_, ?_, ?_, hlk, hlr, ?_⟩
  · have hstep : IxIndexHandle.evenlyDistributePairs newNo originNo g =
        IxIndexHandle.copyPairs newNo originNo (o.num_key / 2) (o.num_key - o.num_key / 2) 0
          g1 := by
      have e1 : (storePage newNo w0 g.pages).lookup originNo = some o := by
        rw [lookup_storePage, if_neg (Ne.symm hne)]; exact ho
      have e2 : (storePage originNo o1 (storePage newNo w0 g.pages)).lookup originNo =
          some o1 := by
        rw [lookup_storePage, if_pos rfl]
      have e3 : (storePage originNo o1 (storePage newNo w0 g.pages)).lookup newNo = some w0 := by
        rw [lookup_storePage, if_neg hne, lookup_storePage, if_pos rfl]
      have hne2 : ¬ originNo = newNo := fun hc => hne hc.symm
      simp only [IxIndexHandle.evenlyDistributePairs, bind, IxM.bind, IxIndexHandle.fetch_node,
        ho, hw, Option.map_some', IxIndexHandle.put_node, IxNode.get_size, lookup_storePage,
        hne2, hne, if_false, if_true]
    rw [hstep]
    exact hrun
  · intro x hx1 hx2
    rw [hoth x hx1]
    show (storePage newNo w1 _).lookup x = _
    rw [lookup_storePage, if_neg hx1, lookup_storePage, if_neg hx2, lookup_storePage, if_neg hx1]
  · rw [hoth originNo (Ne.symm hne)]
    exact ho1
  · rw [hw2]
  · rw [hw2]
  · rw [hw2]
  · rw [hw2]
  · rw [hw2]
  · intro j hj
    have hin : 0 ≤ j ∧ j < 0 + (o.num_key - o.num_key / 2) := by omega
    rw [hkeys j, hrids j]
    simp only [hin, and_self, if_true]

theorem maintain_children_spec (node_no : Int) (rs : List Rid) :
    ∀ (cnt start : Nat) (g : IxIndexHandle),
      (∃ w, g.pages.lookup node_no = some w ∧ w.is_leaf = false ∧ w.rids = rs) →
      (∀ i, start ≤ i → i < start + cnt →
        ∃ r c, rs[i]? = some r ∧ g.pages.lookup r.page_no = some c) →
      ∃ g2, IxIndexHandle.maintain_children node_no cnt start g = some ((), g2) ∧
        g2.file_hdr_ = g.file_hdr_ ∧ g2.next_page_no = g.next_page_no ∧
        ∀ x, g2.pages.lookup x = g.pages.lookup x ∨
          ((∃ i r, start ≤ i ∧ i < start + cnt ∧ rs[i]? = some r ∧ r.page_no = x) ∧
            ∃ n pp, g.pages.lookup x = some n ∧
              g2.pages.lookup x = some { n with parent := pp }) := by
  intro cnt
  induction cnt with
  | zero =>
    intro start g _ _
    exact ⟨g, rfl, rfl, rfl, fun x => Or.inl rfl⟩
  | succ cnt ih =>
    intro start g hw hch
    obtain ⟨w, hwl, hwleaf, hwr⟩ := hw
    obtain ⟨r, c, hr, hc⟩ := hch start (le_refl _) (by omega)
    let g1 : IxIndexHandle :=
      { g with pages := storePage r.page_no { c with parent := node_no } g.pages }
    have hstep : IxIndexHandle.maintain_children node_no (cnt + 1) start g =
        IxIndexHandle.maintain_children node_no cnt (start + 1) g1 := by
      have hv : w.value_at start = some r.page_no := by
        simp [IxNode.value_at, IxNode.get_rid, hwr, hr]
      simp only [IxIndexHandle.maintain_children, IxIndexHandle.maintain_child, bind, IxM.bind,
        IxIndexHandle.fetch_node, hwl, Option.map_some', hwleaf, Bool.not_false, if_true,
        IxIndexHandle.liftOpt, hv, hc, IxIndexHandle.put_node]
    have hg1 : ∀ x, g1.pages.lookup x =
        if x = r.page_no then some { c with parent := node_no } else g.pages.lookup x := by
      intro x
      show (storePage _ _ g.pages).lookup x = _
      rw [lookup_storePage]
    have hw1 : ∃ w1, g1.pages.lookup node_no = some w1 ∧ w1.is_leaf = false ∧ w1.rids = rs := by
      rw [hg1]
      by_cases hx : node_no = r.page_no
      · rw [if_pos hx]
        rw [← hx, hwl] at hc
        cases hc
        exact ⟨_, rfl, hwleaf, hwr⟩
      · rw [if_neg hx]
        exact ⟨w, hwl, hwleaf, hwr⟩
    have hch1 : ∀ i, start + 1 ≤ i → i < start + 1 + cnt →
        ∃ r2 c2, rs[i]? = some r2 ∧ g1.pages.lookup r2.page_no = some c2 := by
      intro i hi1 hi2
      obtain ⟨r2, c2, hr2, hc2⟩ := hch i (by omega) (by omega)
      by_cases hx : r2.page_no = r.page_no
      · exact ⟨r2, _, hr2, by rw [hg1, if_pos hx]⟩
      · exact ⟨r2, c2, hr2, by rw [hg1, if_neg hx]; exact hc2⟩
    obtain ⟨g2, hrun, hf, hnp, hall⟩ := ih (start + 1) g1 hw1 hch1
    refine ⟨g2, by rw [hstep]; exact hrun, hf, hnp, ?_⟩
    intro x
    rcases hall x with heq | ⟨⟨i, r2, hi1, hi2, hr2, hx2⟩, n1, pp, hn1, hn2⟩
    · rw [heq, hg1]
      by_cases hx : x = r.page_no
      · right
        rw [if_pos hx]
        refine ⟨⟨start, r, le_refl _, by omega, hr, hx.symm⟩, c, node_no, ?_, rfl⟩
        rw [hx]
        exact hc
      · left
        rw [if_neg hx]
    · right
      refine ⟨⟨i, r2, by omega, by omega, hr2, hx2⟩, ?_⟩
      rw [hg1] at hn1
      by_cases hx : x = r.page_no
      · rw [if_pos hx] at hn1
        cases hn1
        refine ⟨c, pp, ?_, hn2⟩
        rw [hx]
        exact hc
      · rw [if_neg hx] at hn1
        exact ⟨n1, pp, hn1, hn2⟩

theorem insertLeaf_spec (originNo newNo : Int) (hne : newNo ≠ originNo) (g : IxIndexHandle)
    (o w : IxNode) (ho : g.pages.lookup originNo = some o)
    (hw : g.pages.lookup newNo = some w)
    (hnext : o.next_leaf = INVALID_PAGE_ID ∨
      (o.next_leaf ≠ newNo ∧ ∃ nn, g.pages.lookup o.next_leaf = some nn)) :
    ∃ g2 o2, IxIndexHandle.insertLeaf originNo newNo true g = some ((), g2) ∧
      g2.file_hdr_ = g.file_hdr_ ∧ g2.next_page_no = g.next_page_no ∧
      g2.pages.lookup originNo = some o2 ∧
      o2 = { o with next_leaf := newNo, prev_leaf := o2.prev_leaf } ∧
      g2.pages.lookup newNo = some { w with next_leaf := o.next_leaf, prev_leaf := originNo } ∧
      (∀ x, x ≠ originNo → x ≠ newNo → x ≠ o.next_leaf →
        g2.pages.lookup x = g.pages.lookup x) ∧
      (∀ x n, g.pages.lookup x = some n → ∃ n2, g2.pages.lookup x = some n2) := by
  have hne2 : ¬ originNo = newNo := fun hc => hne hc.symm
  let w1 : IxNode := { w with next_leaf := o.next_leaf }
  let w2 : IxNode := { w with next_leaf := o.next_leaf, prev_leaf := originNo }
  let o1 : IxNode := { o with next_leaf := newNo }
  let P2 : List (Int × IxNode) :=
    storePage originNo o1 (storePage newNo w2 (storePage newNo w1 g.pages))
  have hP2 : ∀ x, P2.lookup x =
      if x = originNo then some o1 else if x = newNo then some w2 else g.pages.lookup x := by
    intro x
    show (storePage originNo o1 (storePage newNo w2 (storePage newNo w1 g.pages))).lookup x = _
    simp only [lookup_storePage]
    by_cases h1 : x = originNo
    · simp only [h1, if_true]
    · by_cases h2 : x = newNo
      · simp only [h1, h2, if_false, if_true]
      · simp only [h1, h2, if_false]
  have hhead : IxIndexHandle.insertLeaf originNo newNo true g =
      (if w2.next_leaf ≠ INVALID_PAGE_ID then
        (IxIndexHandle.fetch_node w2.next_leaf).bind (fun nextNode =>
          IxIndexHandle.put_node w2.next_leaf { nextNode with prev_leaf := newNo })
       else IxM.pure ()) { g with pages := P2 } := by
    simp only [IxIndexHandle.insertLeaf, bind, IxM.bind, IxIndexHandle.fetch_node, ho, hw,
      Option.map_some', IxIndexHandle.put_node, lookup_storePage, hne2, hne, if_false, if_true,
      pure]
  by_cases hinv : o.next_leaf = INVALID_PAGE_ID
  · have hrun : IxIndexHandle.insertLeaf originNo newNo true g =
        some ((), { g with pages := P2 }) := by
      rw [hhead]
      have : ¬ (w2.next_leaf ≠ INVALID_PAGE_ID) := by
        show ¬ (o.next_leaf ≠ INVALID_PAGE_ID)
        simp [hinv]
      rw [if_neg this]
      rfl
    refine ⟨_, o1, hrun, rfl, rfl, ?_, rfl, ?_, ?_, ?_⟩
    · show P2.lookup originNo = _
      rw [hP2, if_pos rfl]
    · show P2.lookup newNo = _
      rw [hP2, if_neg hne, if_pos rfl]
    · intro x hx1 hx2 _
      show P2.lookup x = _
      rw [hP2, if_neg hx1, if_neg hx2]
    · intro x n hx
      show ∃ n2, P2.lookup x = some n2
      rw [hP2]
      split
      · exact ⟨_, rfl⟩
      · split
        · exact ⟨_, rfl⟩
        · exact ⟨n, hx⟩
  · rcases hnext with hc | ⟨hnn, nn, hnl⟩
    · exact absurd hc hinv
    · have hcond : w2.next_leaf ≠ INVALID_PAGE_ID := hinv
      have hnx : ∃ nx, P2.lookup o.next_leaf = some nx ∧
          (o.next_leaf = originNo → nx = o1) := by
        rw [hP2]
        by_cases h1 : o.next_leaf = originNo
        · exact ⟨o1, by rw [if_pos h1], fun _ => rfl⟩
        · exact ⟨nn, by rw [if_neg h1, if_neg hnn]; exact hnl, fun hc => absurd hc h1⟩
      obtain ⟨nx, hnx1, hnx2⟩ := hnx
      have hrun : IxIndexHandle.insertLeaf originNo newNo true g =
          some ((), { g with pages := storePage o.next_leaf { nx with prev_leaf := newNo } P2 }) := by
        rw [hhead, if_pos hcond]
        show IxM.bind (IxIndexHandle.fetch_node o.next_leaf) _ _ = _
        unfold IxM.bind
        have hf : IxIndexHandle.fetch_node o.next_leaf ({ g with pages := P2 } : IxIndexHandle) =
            some (nx, { g with pages := P2 }) := fetch_node_some _ _ _ hnx1
        rw [hf]
        rfl
      have hP3 : ∀ x, (storePage o.next_leaf { nx with prev_leaf := newNo } P2).lookup x =
          if x = o.next_leaf then some { nx with prev_leaf := newNo } else P2.lookup x := by
        intro x
        rw [lookup_storePage]
      by_cases h1 : o.next_leaf = originNo
      · have hnxo : nx = o1 := hnx2 h1
        refine ⟨_, { o1 with prev_leaf := newNo }, hrun, rfl, rfl, ?_, rfl, ?_, ?_, ?_⟩
        · show (storePage o.next_leaf { nx with prev_leaf := newNo } P2).lookup originNo = _
          rw [hP3, if_pos h1.symm, hnxo]
        · show (storePage o.next_leaf { nx with prev_leaf := newNo } P2).lookup newNo = _
          rw [hP3, if_neg (Ne.symm hnn), hP2, if_neg hne, if_pos rfl]
        · intro x hx1 hx2 hx3
          show (storePage o.next_leaf { nx with prev_leaf := newNo } P2).lookup x = _
          rw [hP3, if_neg hx3, hP2, if_neg hx1, if_neg hx2]
        · intro x n hx
          show ∃ n2, (storePage o.next_leaf { nx with prev_leaf := newNo } P2).lookup x = some n2
          rw [hP3, hP2]
          split
          · exact ⟨_, rfl⟩
          · split
            · exact ⟨_, rfl⟩
            · split
              · exact ⟨_, rfl⟩
              · exact ⟨n, hx⟩
      · refine ⟨_, o1, hrun, rfl, rfl, ?_, rfl, ?_, ?_, ?_⟩
        · show (storePage o.next_leaf { nx with prev_leaf := newNo } P2).lookup originNo = _
          rw [hP3, if_neg (Ne.symm h1), hP2, if_pos rfl]
        · show (storePage o.next_leaf { nx with prev_leaf := newNo } P2).lookup newNo = _
          rw [hP3, if_neg (Ne.symm hnn), hP2, if_neg hne, if_pos rfl]
        · intro x hx1 hx2 hx3
          show (storePage o.next_leaf { nx with prev_leaf := newNo } P2).lookup x = _
          rw [hP3, if_neg hx3, hP2, if_neg hx1, if_neg hx2]
        · intro x n hx
          show ∃ n2, (storePage o.next_leaf { nx with prev_leaf := newNo } P2).lookup x = some n2
          rw [hP3, hP2]
          split
          · exact ⟨_, rfl⟩
          · split
            · exact ⟨_, rfl⟩
            · split
              · exact ⟨_, rfl⟩
              · exact ⟨n, hx⟩

theorem create_node_spec (h : IxIndexHandle) :
    IxIndexHandle.create_node h = some (h.next_page_no,
      { file_hdr_ := { h.file_hdr_ with num_pages_ := h.file_hdr_.num_pages_ + 1 },
        pages := storePage h.next_page_no (zeroPage h.file_hdr_) h.pages,
        next_page_no := h.next_page_no + 1 }) := rfl

theorem split_leaf_spec (h : IxIndexHandle) (leaf_no : Int) (n : IxNode)
    (hn : h.pages.lookup leaf_no = some n) (hleaf : n.is_leaf = true)
    (hk : n.num_key ≤ n.keys.length) (hr : n.num_key ≤ n.rids.length)
    (hcap : n.num_key - n.num_key / 2 ≤ h.file_hdr_.btree_order_ + 1) (hfresh : Fresh h)
    (hnext : n.next_leaf = INVALID_PAGE_ID ∨ ∃ nn, h.pages.lookup n.next_leaf = some nn) :
    ∃ h1 o2 w2, IxIndexHandle.split leaf_no h = some (h.next_page_no, h1) ∧
      h1.file_hdr_ = { h.file_hdr_ with num_pages_ := h.file_hdr_.num_pages_ + 1 } ∧
      h1.next_page_no = h.next_page_no + 1 ∧
      h1.pages.lookup leaf_no = some o2 ∧
      o2 = { n with num_key := n.num_key / 2, next_leaf := h.next_page_no,
                    prev_leaf := o2.prev_leaf } ∧
      h1.pages.lookup h.next_page_no = some w2 ∧
      w2.is_leaf = true ∧ w2.num_key = n.num_key - n.num_key / 2 ∧ w2.parent = n.parent ∧
      w2.prev_leaf = leaf_no ∧ w2.next_leaf = n.next_leaf ∧
      w2.keys.length = h.file_hdr_.btree_order_ + 1 ∧
      (∀ j, j < n.num_key - n.num_key / 2 →
        w2.keys[j]? = n.keys[n.num_key / 2 + j]? ∧ w2.rids[j]? = n.rids[n.num_key / 2 + j]?) ∧
      (∀ x, x ≠ leaf_no → x ≠ h.next_page_no → x ≠ n.next_leaf →
        h1.pages.lookup x = h.pages.lookup x) ∧
      (∀ x m, h.pages.lookup x = some m → ∃ m2, h1.pages.lookup x = some m2) ∧
      Fresh h1 := by
  have hnew : h.pages.lookup h.next_page_no = none := hfresh.2 _ (le_refl _)
  have hne : h.next_page_no ≠ leaf_no := by
    intro hc
    rw [hc, hn] at hnew
    cases hnew
  let hc : IxIndexHandle :=
    { file_hdr_ := { h.file_hdr_ with num_pages_ := h.file_hdr_.num_pages_ + 1 },
      pages := storePage h.next_page_no (zeroPage h.file_hdr_) h.pages,
      next_page_no := h.next_page_no + 1 }
  have hcl : ∀ x, hc.pages.lookup x =
      if x = h.next_page_no then some (zeroPage h.file_hdr_) else h.pages.lookup x := by
    intro x
    show (storePage _ _ h.pages).lookup x = _
    rw [lookup_storePage]
  have hco : hc.pages.lookup leaf_no = some n := by rw [hcl, if_neg (Ne.symm hne)]; exact hn
  have hcw : hc.pages.lookup h.next_page_no = some (zeroPage h.file_hdr_) := by
    rw [hcl, if_pos rfl]
  obtain ⟨g2, w2, hrun2, hf2, hnp2, hoth2, ho2, hw2, hwleaf, hwnum, hwpar, hwprev, hwnext, hwkl, _,
      hwslots⟩ :=
    evenlyDistributePairs_spec h.next_page_no leaf_no hne hc n (zeroPage h.file_hdr_) hco hcw hk hr
      (by simp [zeroPage]; omega) (by simp [zeroPage]; omega)
  have hnext2 : ({ n with num_key := n.num_key / 2 } : IxNode).next_leaf = INVALID_PAGE_ID ∨
      (({ n with num_key := n.num_key / 2 } : IxNode).next_leaf ≠ h.next_page_no ∧
        ∃ nn, g2.pages.lookup ({ n with num_key := n.num_key / 2 } : IxNode).next_leaf =
          some nn) := by
    rcases hnext with hi | ⟨nn, hnn⟩
    · exact Or.inl hi
    · right
      have hx : n.next_leaf ≠ h.next_page_no := by
        intro hc2
        rw [hc2, hnew] at hnn
        cases hnn
      refine ⟨hx, ?_⟩
      show ∃ nn, g2.pages.lookup n.next_leaf = some nn
      by_cases hxo : n.next_leaf = leaf_no
      · rw [hxo]
        exact ⟨_, ho2⟩
      · rw [hoth2 _ hx hxo, hcl, if_neg hx]
        exact ⟨nn, hnn⟩
  obtain ⟨g3, o3, hrun3, hf3, hnp3, ho3, ho3eq, hw3, hoth3, hpers3⟩ :=
    insertLeaf_spec leaf_no h.next_page_no hne g2 _ w2 ho2 hw2 hnext2
  have hsplit : IxIndexHandle.split leaf_no h = some (h.next_page_no, g3) := by
    have hfw : IxIndexHandle.fetch_node h.next_page_no g2 = some (w2, g2) :=
      fetch_node_some _ _ _ hw2
    have hwl : w2.is_leaf = true := by rw [hwleaf, hleaf]
    simp only [IxIndexHandle.split, bind, IxM.bind, create_node_spec, hrun2, hfw, hwl,
      if_true, hrun3, pure, IxM.pure]
  refine ⟨g3, o3, { w2 with next_leaf := n.next_leaf, prev_leaf := leaf_no }, hsplit, ?_, ?_, ho3,
    ?_, hw3, ?_, hwnum, hwpar, rfl, rfl, ?_, hwslots, ?_, ?_, ?_⟩
  · rw [hf3, hf2]
  · rw [hnp3, hnp2]
  · rw [ho3eq]
  · show w2.is_leaf = true
    rw [hwleaf, hleaf]
  · show w2.keys.length = _
    rw [hwkl]
    simp [zeroPage]
  · intro x hx1 hx2 hx3
    rw [hoth3 x hx1 hx2 hx3, hoth2 x hx2 hx1, hcl, if_neg hx2]
  · intro x m hx
    have h1 : ∃ m1, hc.pages.lookup x = some m1 := by
      rw [hcl]
      split
      · exact ⟨_, rfl⟩
      · exact ⟨m, hx⟩
    obtain ⟨m1, hm1⟩ := h1
    have h2 : ∃ m2, g2.pages.lookup x = some m2 := by
      by_cases hx1 : x = h.next_page_no
      · rw [hx1]; exact ⟨_, hw2⟩
      · by_cases hx2 : x = leaf_no
        · rw [hx2]; exact ⟨_, ho2⟩
        · rw [hoth2 x hx1 hx2]; exact ⟨m1, hm1⟩
    obtain ⟨m2, hm2⟩ := h2
    exact hpers3 x m2 hm2
  · have h0 := hfresh.1
    refine ⟨?_, ?_⟩
    · rw [hnp3, hnp2]
      show 0 ≤ h.next_page_no + 1
      omega
    intro q hq
    rw [hnp3, hnp2] at hq
    have hq0 : h.next_page_no + 1 ≤ q := hq
    have hqn : h.pages.lookup q = none := hfresh.2 q (by omega)
    have hx1 : q ≠ leaf_no := by
      intro hc2
      rw [hc2, hn] at hqn
      cases hqn
    have hx2 : q ≠ h.next_page_no := by omega
    have hx3 : q ≠ n.next_leaf := by
      intro hc2
      rcases hnext with hi | ⟨nn, hnn⟩
      · rw [hc2, hi] at hq0
        simp only [INVALID_PAGE_ID] at hq0
        omega
      · rw [← hc2, hqn] at hnn
        cases hnn
    rw [hoth3 q hx1 hx2 hx3, hoth2 q hx2 hx1, hcl, if_neg hx2]
    exact hqn

theorem split_internal_spec (h : IxIndexHandle) (p : Int) (n : IxNode)
    (hn : h.pages.lookup p = some n) (hleaf : n.is_leaf = false)
    (hk : n.num_key ≤ n.keys.length) (hr : n.num_key ≤ n.rids.length)
    (hcap : n.num_key - n.num_key / 2 ≤ h.file_hdr_.btree_order_ + 1) (hfresh : Fresh h)
    (hch : ∀ i, n.num_key / 2 ≤ i → i < n.num_key →
      ∃ r c, n.rids[i]? = some r ∧ h.pages.lookup r.page_no = some c)
    (hself : NotChild n p) :
    ∃ h1 w2, IxIndexHandle.split p h = some (h.next_page_no, h1) ∧
      h1.file_hdr_ = { h.file_hdr_ with num_pages_ := h.file_hdr_.num_pages_ + 1 } ∧
      h1.next_page_no = h.next_page_no + 1 ∧
      h1.pages.lookup p = some { n with num_key := n.num_key / 2 } ∧
      h1.pages.lookup h.next_page_no = some w2 ∧
      w2.is_leaf = false ∧ w2.num_key = n.num_key - n.num_key / 2 ∧ w2.parent = n.parent ∧
      w2.keys.length = h.file_hdr_.btree_order_ + 1 ∧
      w2.rids.length = h.file_hdr_.btree_order_ + 1 ∧
      (∀ j, j < n.num_key - n.num_key / 2 →
        w2.keys[j]? = n.keys[n.num_key / 2 + j]? ∧ w2.rids[j]? = n.rids[n.num_key / 2 + j]?) ∧
      (∀ x, x ≠ p → x ≠ h.next_page_no →
        h1.pages.lookup x = h.pages.lookup x ∨
          ((∃ i r, n.num_key / 2 ≤ i ∧ i < n.num_key ∧ n.rids[i]? = some r ∧ r.page_no = x) ∧
            ∃ m pp, h.pages.lookup x = some m ∧
              h1.pages.lookup x = some { m with parent := pp })) ∧
      Fresh h1 := by
  have hnew : h.pages.lookup h.next_page_no = none := hfresh.2 _ (le_refl _)
  have hne : h.next_page_no ≠ p := by
    intro hc
    rw [hc, hn] at hnew
    cases hnew
  let hc : IxIndexHandle :=
    { file_hdr_ := { h.file_hdr_ with num_pages_ := h.file_hdr_.num_pages_ + 1 },
      pages := storePage h.next_page_no (zeroPage h.file_hdr_) h.pages,
      next_page_no := h.next_page_no + 1 }
  have hcl : ∀ x, hc.pages.lookup x =
      if x = h.next_page_no then some (zeroPage h.file_hdr_) else h.pages.lookup x := by
    intro x
    show (storePage _ _ h.pages).lookup x = _
    rw [lookup_storePage]
  have hco : hc.pages.lookup p = some n := by rw [hcl, if_neg (Ne.symm hne)]; exact hn
  have hcw : hc.pages.lookup h.next_page_no = some (zeroPage h.file_hdr_) := by
    rw [hcl, if_pos rfl]
  obtain ⟨g2, w2, hrun2, hf2, hnp2, hoth2, ho2, hw2, hwleaf, hwnum, hwpar, hwprev, hwnext, hwkl,
      hwrl, hwslots⟩ :=
    evenlyDistributePairs_spec h.next_page_no p hne hc n (zeroPage h.file_hdr_) hco hcw hk hr
      (by simp [zeroPage]; omega) (by simp [zeroPage]; omega)
  have hwl : w2.is_leaf = false := by rw [hwleaf, hleaf]
  -- the children of the new node, as slots of the old one
  have hchild : ∀ i, i < w2.num_key → ∃ r c, w2.rids[i]? = some r ∧
      n.rids[n.num_key / 2 + i]? = some r ∧ h.pages.lookup r.page_no = some c ∧
      r.page_no ≠ p ∧ r.page_no ≠ h.next_page_no := by
    intro i hi
    rw [hwnum] at hi
    obtain ⟨r, c, hr1, hc1⟩ := hch (n.num_key / 2 + i) (by omega) (by omega)
    refine ⟨r, c, ?_, hr1, hc1, hself _ r (by omega) hr1, ?_⟩
    · rw [(hwslots i hi).2, hr1]
    · intro hc2
      rw [hc2, hnew] at hc1
      cases hc1
  have hg2h : ∀ x, x ≠ p → x ≠ h.next_page_no → g2.pages.lookup x = h.pages.lookup x := by
    intro x hx1 hx2
    rw [hoth2 x hx2 hx1, hcl, if_neg hx2]
  obtain ⟨g3, hrun3, hf3, hnp3, hpages3⟩ :=
    maintain_children_spec h.next_page_no w2.rids w2.num_key 0 g2 ⟨w2, hw2, hwl, rfl⟩
      (by
        intro i _ hi
        obtain ⟨r, c, hr1, _, hc1, hrp, hrn⟩ := hchild i (by omega)
        exact ⟨r, c, hr1, by rw [hg2h _ hrp hrn]; exact hc1⟩)
  have hsplit : IxIndexHandle.split p h = some (h.next_page_no, g3) := by
    have hfw : IxIndexHandle.fetch_node h.next_page_no g2 = some (w2, g2) :=
      fetch_node_some _ _ _ hw2
    simp only [IxIndexHandle.split, bind, IxM.bind, create_node_spec, hrun2, hfw, hwl,
      if_false, Bool.false_eq_true, IxNode.get_size, hrun3, pure, IxM.pure]
  have hp3 : g3.pages.lookup p = some { n with num_key := n.num_key / 2 } := by
    rcases hpages3 p with hsame | ⟨⟨i, r, _, hi, hri, hrp⟩, _⟩
    · rw [hsame, ho2]
    · obtain ⟨r2, c, hr1, _, _, hrp2, _⟩ := hchild i (by omega)
      rw [hri] at hr1
      cases hr1
      exact absurd hrp hrp2
  have hw3 : g3.pages.lookup h.next_page_no = some w2 := by
    rcases hpages3 h.next_page_no with hsame | ⟨⟨i, r, _, hi, hri, hrp⟩, _⟩
    · rw [hsame, hw2]
    · obtain ⟨r2, c, hr1, _, _, _, hrn⟩ := hchild i (by omega)
      rw [hri] at hr1
      cases hr1
      exact absurd hrp hrn
  have hother : ∀ x, x ≠ p → x ≠ h.next_page_no →
      g3.pages.lookup x = h.pages.lookup x ∨
        ((∃ i r, n.num_key / 2 ≤ i ∧ i < n.num_key ∧ n.rids[i]? = some r ∧ r.page_no = x) ∧
          ∃ m pp, h.pages.lookup x = some m ∧
            g3.pages.lookup x = some { m with parent := pp }) := by
    intro x hx1 hx2
    rcases hpages3 x with hsame | ⟨⟨i, r, _, hi, hri, hrp⟩, m, pp, hm, hm3⟩
    · left
      rw [hsame, hg2h x hx1 hx2]
    · right
      obtain ⟨r2, c, hr1, hr2, _, _, _⟩ := hchild i (by omega)
      rw [hri] at hr1
      cases hr1
      refine ⟨⟨n.num_key / 2 + i, r, by omega, ?_, hr2, hrp⟩, m, pp, ?_, hm3⟩
      · rw [hwnum] at hi
        omega
      · rw [← hg2h x hx1 hx2]
        exact hm
  refine ⟨g3, w2, hsplit, ?_, ?_, hp3, hw3, hwl, hwnum, hwpar, ?_, ?_, hwslots, hother, ?_⟩
  · rw [hf3, hf2]
  · rw [hnp3, hnp2]
  · rw [hwkl]
    simp [zeroPage]
  · rw [hwrl]
    simp [zeroPage]
  · have h0 := hfresh.1
    refine ⟨?_, ?_⟩
    · rw [hnp3, hnp2]
      show 0 ≤ h.next_page_no + 1
      omega
    intro q hq
    rw [hnp3, hnp2] at hq
    have hq0 : h.next_page_no + 1 ≤ q := hq
    have hqn : h.pages.lookup q = none := hfresh.2 q (by omega)
    have hx1 : q ≠ p := by
      intro hc2
      rw [hc2, hn] at hqn
      cases hqn
    have hx2 : q ≠ h.next_page_no := by omega
    rcases hother q hx1 hx2 with hsame | ⟨_, m, pp, hm, _⟩
    · rw [hsame, hqn]
    · rw [hqn] at hm
      cases hm

theorem halfFindLoop_total (hdr : IxFileHdr) (n : IxNode) (target : List Nat) (op : operators) :
    ∀ (fuel left right : Nat), left ≤ right → right - left ≤ fuel → right ≤ n.keys.length →
      ∃ idx, IxNode.halfFindLoop hdr n target op fuel left right = some idx ∧
        left ≤ idx ∧ idx ≤ right := by
  intro fuel
  induction fuel with
  | zero =>
    intro left right hle hfuel _
    have : ¬ left < right := by omega
    exact ⟨left, by simp [IxNode.halfFindLoop, this], le_refl _, hle⟩
  | succ fuel ih =>
    intro left right hle hfuel hlen
    by_cases hlt : left < right
    · have hmid : (left + right) / 2 < n.keys.length := by omega
      obtain ⟨k, hkk⟩ : ∃ k, n.keys[(left + right) / 2]? = some k :=
        ⟨_, List.getElem?_eq_getElem hmid⟩
      have h1 := ih left ((left + right) / 2) (by omega) (by omega) (by omega)
      have h2 := ih ((left + right) / 2 + 1) right (by omega) (by omega) hlen
      simp only [IxNode.halfFindLoop, hlt, if_true, IxNode.get_key, hkk]
      split
      · split
        · obtain ⟨idx, hi, ha, hb⟩ := h1
          exact ⟨idx, hi, ha, by omega⟩
        · obtain ⟨idx, hi, ha, hb⟩ := h2
          exact ⟨idx, hi, by omega, hb⟩
      · obtain ⟨idx, hi, ha, hb⟩ := h1
        exact ⟨idx, hi, ha, by omega⟩
    · exact ⟨left, by simp [IxNode.halfFindLoop, hlt], le_refl _, hle⟩

theorem insert_pair_room (n : IxNode) (pos : Nat) (key : List Nat) (rid : Rid)
    (hpos : pos ≤ n.num_key) (hk : n.num_key < n.keys.length) (hr : n.num_key < n.rids.length) :
    ∃ n2, IxNode.insert_pair n pos key rid = some n2 ∧
      n2.is_leaf = n.is_leaf ∧ n2.parent = n.parent ∧ n2.prev_leaf = n.prev_leaf ∧
      n2.next_leaf = n.next_leaf ∧ n2.keys.length = n.keys.length ∧
      n2.rids.length = n.rids.length ∧ n2.num_key = n.num_key + 1 ∧
      (∀ i, i < n.num_key + 1 → n2.rids[i]? =
        if i < pos then n.rids[i]? else if i = pos then some rid else n.rids[i - 1]?) ∧
      (∀ i, i < n.num_key + 1 → n2.keys[i]? =
        if i < pos then n.keys[i]? else if i = pos then some key else n.keys[i - 1]?) := by
  have key_fact : ∀ {α : Type} (l : List α) (x : α), n.num_key < l.length →
      ∃ l2, (match IxNode.writeSlots l (pos + 1) ((l.drop pos).take (n.num_key - pos)) with
             | some ks => IxNode.writeSlots ks pos [x]
             | none => none) = some l2 ∧ l2.length = l.length ∧
        ∀ i, i < n.num_key + 1 → l2[i]? =
          if i < pos then l[i]? else if i = pos then some x else l[i - 1]? := by
    intro α l x hl
    have hlen : ((l.drop pos).take (n.num_key - pos)).length = n.num_key - pos := by
      simp only [List.length_take, List.length_drop]
      omega
    have hw : IxNode.writeSlots l (pos + 1) ((l.drop pos).take (n.num_key - pos)) =
        some (l.take (pos + 1) ++ (l.drop pos).take (n.num_key - pos) ++
          l.drop (pos + 1 + (n.num_key - pos))) := by
      unfold IxNode.writeSlots
      rw [hlen, if_pos (by omega)]
    have hlen2 : (l.take (pos + 1) ++ (l.drop pos).take (n.num_key - pos) ++
          l.drop (pos + 1 + (n.num_key - pos))).length = l.length := by
      simp only [List.length_append, List.length_take, List.length_drop]
      omega
    rw [hw]
    dsimp only
    rw [writeSlots_single _ _ _ (by rw [hlen2]; omega)]
    refine ⟨_, rfl, by rw [List.length_set, hlen2], ?_⟩
    intro i hi
    rw [List.getElem?_set]
    by_cases hip : i = pos
    · subst hip
      simp [hlen2]
      omega
    · rw [if_neg (fun hc => hip hc.symm)]
      by_cases hlt : i < pos
      · rw [if_pos hlt, List.append_assoc, List.getElem?_append_left (by
          simp only [List.length_take]; omega), List.getElem?_take_of_lt (by omega)]
      · rw [if_neg hlt, if_neg hip, List.append_assoc, List.getElem?_append_right (by
          simp only [List.length_take]; omega)]
        have h1 : (l.take (pos + 1)).length = pos + 1 := by
          simp only [List.length_take]; omega
        rw [h1, List.getElem?_append_left (by rw [hlen]; omega),
          List.getElem?_take_of_lt (by omega), List.getElem?_drop]
        congr 1
        omega
  obtain ⟨ks2, hks, hksl, hkse⟩ := key_fact n.keys key hk
  obtain ⟨rs2, hrs, hrsl, hrse⟩ := key_fact n.rids rid hr
  have hks1 : ∃ ks, IxNode.writeSlots n.keys (pos + 1) ((n.keys.drop pos).take (n.num_key - pos))
      = some ks ∧ IxNode.writeSlots ks pos [key] = some ks2 := by
    cases hw : IxNode.writeSlots n.keys (pos + 1) ((n.keys.drop pos).take (n.num_key - pos)) with
    | none => rw [hw] at hks; cases hks
    | some ks => rw [hw] at hks; exact ⟨ks, rfl, hks⟩
  have hrs1 : ∃ rs, IxNode.writeSlots n.rids (pos + 1) ((n.rids.drop pos).take (n.num_key - pos))
      = some rs ∧ IxNode.writeSlots rs pos [rid] = some rs2 := by
    cases hw : IxNode.writeSlots n.rids (pos + 1) ((n.rids.drop pos).take (n.num_key - pos)) with
    | none => rw [hw] at hrs; cases hrs
    | some rs => rw [hw] at hrs; exact ⟨rs, rfl, hrs⟩
  obtain ⟨ks, hka, hkb⟩ := hks1
  obtain ⟨rs, hra, hrb⟩ := hrs1
  refine ⟨{ n with keys := ks2, rids := rs2, num_key := n.num_key + 1 }, ?_, rfl, rfl, rfl, rfl,
    hksl, hrsl, rfl, hrse, hkse⟩
  simp only [IxNode.insert_pair, IxNode.insert_pairs, IxNode.get_size, hpos, if_true,
    List.length_singleton, hka, hra, hkb, hrb]

theorem node_insert_room (hdr : IxFileHdr) (n : IxNode) (key : List Nat) (value : Rid)
    (hk : n.num_key < n.keys.length) (hr : n.num_key < n.rids.length) :
    ∃ n2 sz, IxNode.insert hdr n key value = some (n2, sz) ∧
      n2.is_leaf = n.is_leaf ∧ n2.parent = n.parent ∧ n2.keys.length = n.keys.length ∧
      n2.rids.length = n.rids.length ∧ n.num_key ≤ n2.num_key ∧ n2.num_key ≤ n.num_key + 1 ∧
      ∀ i, i < n2.num_key → ∃ r, n2.rids[i]? = some r ∧
        (r = value ∨ ∃ j, j < n.num_key ∧ n.rids[j]? = some r) := by
  obtain ⟨idx, hidx, _, hle⟩ :=
    halfFindLoop_total hdr n key operators.LOWER n.num_key 0 n.num_key (Nat.zero_le _)
      (by omega) (by omega)
  obtain ⟨k, hkk⟩ : ∃ k, n.keys[idx]? = some k := ⟨_, List.getElem?_eq_getElem (by omega)⟩
  have hold : ∀ i, i < n.num_key → ∃ r, n.rids[i]? = some r :=
    fun i hi => ⟨_, List.getElem?_eq_getElem (by omega)⟩
  by_cases heq : ix_compare key k hdr.col_types_ hdr.col_lens_ = 0
  · refine ⟨n, n.get_size, ?_, rfl, rfl, rfl, rfl, le_refl _, by omega, ?_⟩
    · simp only [IxNode.insert, IxNode.lower_bound, IxNode.halfFind, hidx, IxNode.get_key, hkk,
        heq, if_true]
    · intro i hi
      obtain ⟨r, hr1⟩ := hold i hi
      exact ⟨r, hr1, Or.inr ⟨i, hi, hr1⟩⟩
  · obtain ⟨n2, hins, h1, h2, _, _, h5, h6, h7, h8, _⟩ := insert_pair_room n idx key value hle hk hr
    refine ⟨n2, n2.get_size, ?_, h1, h2, h5, h6, by omega, by omega, ?_⟩
    · simp only [IxNode.insert, IxNode.lower_bound, IxNode.halfFind, hidx, IxNode.get_key, hkk,
        heq, if_false, hins]
    · intro i hi
      rw [h7] at hi
      rw [h8 i hi]
      by_cases hlt : i < idx
      · rw [if_pos hlt]
        obtain ⟨r, hr1⟩ := hold i (by omega)
        exact ⟨r, hr1, Or.inr ⟨i, by omega, hr1⟩⟩
      · rw [if_neg hlt]
        by_cases hie : i = idx
        · rw [if_pos hie]
          exact ⟨value, rfl, Or.inl rfl⟩
        · rw [if_neg hie]
          obtain ⟨r, hr1⟩ := hold (i - 1) (by omega)
          exact ⟨r, hr1, Or.inr ⟨i - 1, by omega, hr1⟩⟩

theorem setNewRoot_spec (root_no left_no right_no : Int) (g : IxIndexHandle) (z l r : IxNode)
    (hz : g.pages.lookup root_no = some z) (hl : g.pages.lookup left_no = some l)
    (hr : g.pages.lookup right_no = some r)
    (hzk : 2 ≤ z.keys.length) (hzr : 2 ≤ z.rids.length)
    (hlk : 1 ≤ l.keys.length) (hrk : 1 ≤ r.keys.length)
    (hnl : left_no ≠ root_no) (hnr : right_no ≠ root_no) :
    ∃ g2, IxIndexHandle.setNewRoot root_no left_no right_no g = some ((), g2) ∧
      g2.file_hdr_ = { g.file_hdr_ with root_page_ := root_no } ∧
      g2.next_page_no = g.next_page_no ∧
      (∃ m, g2.pages.lookup root_no = some m) ∧
      ∀ x, x ≠ root_no → (g2.pages.lookup x = g.pages.lookup x ∨
        ∃ m pp, g.pages.lookup x = some m ∧ g2.pages.lookup x = some { m with parent := pp }) := by
  obtain ⟨lk, hlk0⟩ : ∃ k, l.keys[0]? = some k := ⟨_, List.getElem?_eq_getElem (by omega)⟩
  obtain ⟨rk, hrk0⟩ : ∃ k, r.keys[0]? = some k := ⟨_, List.getElem?_eq_getElem (by omega)⟩
  let z1 : IxNode := { z with is_leaf := false, num_key := 2, parent := INVALID_PAGE_ID }
  let r2 : IxNode := { z1 with keys := z.keys.set 0 lk, rids := z.rids.set 0 ⟨left_no, -1⟩ }
  let r4 : IxNode := { z1 with keys := (z.keys.set 0 lk).set 1 rk,
                               rids := (z.rids.set 0 ⟨left_no, -1⟩).set 1 ⟨right_no, -1⟩ }
  let P : List (Int × IxNode) := storePage root_no r4 (storePage root_no r2 (storePage root_no z1 g.pages))
  let g4 : IxIndexHandle :=
    { file_hdr_ := { g.file_hdr_ with root_page_ := root_no }, pages := P,
      next_page_no := g.next_page_no }
  have hP : ∀ x, P.lookup x = if x = root_no then some r4 else g.pages.lookup x := by
    intro x
    show (storePage root_no r4 (storePage root_no r2 (storePage root_no z1 g.pages))).lookup x = _
    simp only [lookup_storePage]
    by_cases h1 : x = root_no
    · simp only [h1, if_true]
    · simp only [h1, if_false]
  have hw1 : IxNode.writeSlots z.keys 0 [lk] = some (z.keys.set 0 lk) :=
    writeSlots_single _ _ _ (by omega)
  have hw2 : IxNode.writeSlots z.rids 0 [(⟨left_no, -1⟩ : Rid)] = some (z.rids.set 0 ⟨left_no, -1⟩) :=
    writeSlots_single _ _ _ (by omega)
  have hw3 : IxNode.writeSlots (z.keys.set 0 lk) 1 [rk] = some ((z.keys.set 0 lk).set 1 rk) :=
    writeSlots_single _ _ _ (by rw [List.length_set]; omega)
  have hw4 : IxNode.writeSlots (z.rids.set 0 ⟨left_no, -1⟩) 1 [(⟨right_no, -1⟩ : Rid)] =
      some ((z.rids.set 0 ⟨left_no, -1⟩).set 1 ⟨right_no, -1⟩) :=
    writeSlots_single _ _ _ (by rw [List.length_set]; omega)
  have hhead : IxIndexHandle.setNewRoot root_no left_no right_no g =
      IxIndexHandle.maintain_children root_no 2 0 g4 := by
    simp only [IxIndexHandle.setNewRoot, bind, IxM.bind, IxIndexHandle.fetch_node, hz, hl, hr,
      Option.map_some', IxIndexHandle.put_node, IxIndexHandle.update_root_page_no,
      IxIndexHandle.set_hdr, lookup_storePage, hnl, hnr, if_false, if_true,
      IxIndexHandle.liftOpt, IxNode.get_key, IxNode.set_key, IxNode.set_rid, hlk0, hrk0, hw1, hw2,
      hw3, hw4, IxNode.get_size]
  have hl4 : g4.pages.lookup left_no = some l := by
    show P.lookup left_no = _
    rw [hP, if_neg hnl, hl]
  have hr4 : g4.pages.lookup right_no = some r := by
    show P.lookup right_no = _
    rw [hP, if_neg hnr, hr]
  have hroot4 : g4.pages.lookup root_no = some r4 := by
    show P.lookup root_no = _
    rw [hP, if_pos rfl]
  obtain ⟨g5, hrun, hf5, hnp5, hpages5⟩ :=
    maintain_children_spec root_no r4.rids 2 0 g4 ⟨r4, hroot4, rfl, rfl⟩
      (by
        intro i _ hi
        have hi2 : i = 0 ∨ i = 1 := by omega
        rcases hi2 with h0 | h1
        · subst h0
          refine ⟨⟨left_no, -1⟩, l, ?_, hl4⟩
          show ((z.rids.set 0 ⟨left_no, -1⟩).set 1 ⟨right_no, -1⟩)[0]? = _
          rw [List.getElem?_set_ne (by omega), List.getElem?_set_self (by omega)]
        · subst h1
          refine ⟨⟨right_no, -1⟩, r, ?_, hr4⟩
          show ((z.rids.set 0 ⟨left_no, -1⟩).set 1 ⟨right_no, -1⟩)[1]? = _
          rw [List.getElem?_set_self (by rw [List.length_set]; omega)])
  refine ⟨g5, by rw [hhead]; exact hrun, by rw [hf5], by rw [hnp5], ?_, ?_⟩
  · rcases hpages5 root_no with hsame | ⟨_, m, pp, _, hm2⟩
    · exact ⟨r4, by rw [hsame]; exact hroot4⟩
    · exact ⟨_, hm2⟩
  · intro x hx
    have hg4 : g4.pages.lookup x = g.pages.lookup x := by
      show P.lookup x = _
      rw [hP, if_neg hx]
    rcases hpages5 x with hsame | ⟨_, m, pp, hm, hm2⟩
    · left
      rw [hsame, hg4]
    · right
      exact ⟨m, pp, by rw [← hg4]; exact hm, hm2⟩

theorem sameButParent_refl (m : IxNode) : SameButParent m m := rfl

theorem sameButParent_parent (m : IxNode) (pp : Int) : SameButParent m { m with parent := pp } :=
  rfl

theorem sameButParent_trans {m m2 m3 : IxNode} (h12 : SameButParent m m2)
    (h23 : SameButParent m2 m3) : SameButParent m m3 := by
  unfold SameButParent at *
  rw [h23, h12]

theorem chainOK_mem (h : IxIndexHandle) :
    ∀ (c : List Int) (par : Int), ChainOK h par c → ∀ x, x ∈ c → ∃ m, h.pages.lookup x = some m := by
  intro c
  induction c with
  | nil =>
    intro par _ x hx
    cases hx
  | cons q rest ih =>
    intro par hc x hx
    obtain ⟨_, _, n, hq, _, _, _, hrest⟩ := hc
    rcases List.mem_cons.mp hx with hxq | hxr
    · rw [hxq]
      exact ⟨n, hq⟩
    · exact ih _ hrest x hxr

theorem chainOK_transfer (h h2 : IxIndexHandle)
    (hord : h2.file_hdr_.btree_order_ = h.file_hdr_.btree_order_)
    (hpers : ∀ x m, h.pages.lookup x = some m → ∃ m2, h2.pages.lookup x = some m2) :
    ∀ (c : List Int) (par : Int), ChainOK h par c →
      (∀ x, x ∈ c → h2.pages.lookup x = h.pages.lookup x) → ChainOK h2 par c := by
  intro c
  induction c with
  | nil =>
    intro par hc _
    exact hc
  | cons q rest ih =>
    intro par hc hsame
    obtain ⟨hpar, hqinv, n, hq, ⟨hl, hkl, hrl, hnum, hch⟩, hself, hrestq, hrest⟩ := hc
    refine ⟨hpar, hqinv, n, ?_, ⟨hl, ?_, ?_, ?_, ?_⟩, hself, hrestq, ?_⟩
    · rw [hsame q (List.mem_cons_self _ _)]
      exact hq
    · rw [hord]; exact hkl
    · rw [hord]; exact hrl
    · rw [hord]; exact hnum
    · intro i hi
      obtain ⟨r, c, hr, hc⟩ := hch i hi
      obtain ⟨m2, hm2⟩ := hpers _ _ hc
      exact ⟨r, m2, hr, hm2⟩
    · exact ih _ hrest (fun x hx => hsame x (List.mem_cons_of_mem _ hx))

theorem insert_into_parent_root (f : Nat) (h1 : IxIndexHandle) (old_no new_no : Int)
    (o w : IxNode) (key : List Nat) (hord : 1 ≤ h1.file_hdr_.btree_order_) (hfresh : Fresh h1)
    (ho : h1.pages.lookup old_no = some o) (hw : h1.pages.lookup new_no = some w)
    (hok : 1 ≤ o.keys.length) (hwk : 1 ≤ w.keys.length) (hroot : o.parent = INVALID_PAGE_ID) :
    ∃ h3, IxIndexHandle.insert_into_parent (IxIndexHandle.splitNodeIfFull f) old_no key new_no h1
        = some ((), h3) ∧ Climbed [] h1 h3 := by
  have hnew : h1.pages.lookup h1.next_page_no = none := hfresh.2 _ (le_refl _)
  have hno : old_no ≠ h1.next_page_no := by
    intro hc
    rw [← hc, ho] at hnew
    cases hnew
  have hnn : new_no ≠ h1.next_page_no := by
    intro hc
    rw [← hc, hw] at hnew
    cases hnew
  let hc : IxIndexHandle :=
    { file_hdr_ := { h1.file_hdr_ with num_pages_ := h1.file_hdr_.num_pages_ + 1 },
      pages := storePage h1.next_page_no (zeroPage h1.file_hdr_) h1.pages,
      next_page_no := h1.next_page_no + 1 }
  have hcl : ∀ x, hc.pages.lookup x =
      if x = h1.next_page_no then some (zeroPage h1.file_hdr_) else h1.pages.lookup x := by
    intro x
    show (storePage _ _ h1.pages).lookup x = _
    rw [lookup_storePage]
  obtain ⟨g2, hset, hf2, hnp2, _, hpages2⟩ :=
    setNewRoot_spec h1.next_page_no old_no new_no hc (zeroPage h1.file_hdr_) o w
      (by rw [hcl, if_pos rfl]) (by rw [hcl, if_neg hno]; exact ho)
      (by rw [hcl, if_neg hnn]; exact hw) (by simp [zeroPage]; omega) (by simp [zeroPage]; omega)
      hok hwk hno hnn
  have hrp : o.is_root_page = true := by
    simp [IxNode.is_root_page, hroot]
  have hfo : IxIndexHandle.fetch_node old_no h1 = some (o, h1) := fetch_node_some _ _ _ ho
  have hrun : IxIndexHandle.insert_into_parent (IxIndexHandle.splitNodeIfFull f) old_no key
      new_no h1 = some ((), g2) := by
    simp only [IxIndexHandle.insert_into_parent, bind, IxM.bind, hfo, hrp, if_true,
      create_node_spec, hset]
  refine ⟨g2, hrun, ?_, ?_, ?_, ⟨?_, ?_⟩, ?_⟩
  · rw [hf2]
  · rw [hf2]
  · rw [hf2]
  · rw [hnp2]
    show 0 ≤ h1.next_page_no + 1
    have := hfresh.1
    omega
  · intro q hq
    rw [hnp2] at hq
    have hq0 : h1.next_page_no + 1 ≤ q := hq
    have hqn : h1.pages.lookup q = none := hfresh.2 q (by omega)
    have hx : q ≠ h1.next_page_no := by omega
    have hcq : hc.pages.lookup q = none := by rw [hcl, if_neg hx]; exact hqn
    rcases hpages2 q hx with hsame | ⟨m, pp, hm, _⟩
    · rw [hsame, hcq]
    · rw [hcq] at hm
      cases hm
  · intro x m _ hx
    have hxn : x ≠ h1.next_page_no := by
      intro hc2
      rw [hc2, hnew] at hx
      cases hx
    have hcx : hc.pages.lookup x = some m := by rw [hcl, if_neg hxn]; exact hx
    rcases hpages2 x hxn with hsame | ⟨m1, pp, hm, hm2⟩
    · exact ⟨m, by rw [hsame, hcx], sameButParent_refl m⟩
    · rw [hcx] at hm
      cases hm
      exact ⟨_, hm2, sameButParent_parent m pp⟩

theorem insert_into_parent_spec :
    ∀ (c : List Int) (f : Nat) (h1 : IxIndexHandle) (old_no new_no : Int) (o w : IxNode)
      (key : List Nat),
      c.length ≤ f → 1 ≤ h1.file_hdr_.btree_order_ → Fresh h1 →
      h1.pages.lookup old_no = some o → h1.pages.lookup new_no = some w →
      1 ≤ o.keys.length → 1 ≤ w.keys.length →
      ChainOK h1 o.parent c → (∀ x, x ∈ c → x ≠ old_no ∧ x ≠ new_no) →
      ∃ h3, IxIndexHandle.insert_into_parent (IxIndexHandle.splitNodeIfFull f) old_no key
          new_no h1 = some ((), h3) ∧ Climbed c h1 h3 := by
  intro c
  induction c with
  | nil =>
    intro f h1 old_no new_no o w key _ hord hfresh ho hw hok hwk hchain _
    exact insert_into_parent_root f h1 old_no new_no o w key hord hfresh ho hw hok hwk hchain
  | cons q rest ih =>
    intro f h1 old_no new_no o w key hf hord hfresh ho hw hok hwk hchain hcx
    obtain ⟨hpar, hqinv, pn, hq, ⟨hpl, hpkl, hprl, hpnum, hpch⟩, hself, hrestq, hchain2⟩ := hchain
    obtain ⟨pn2, sz, hins, h_leaf, h_par, h_kl, h_rl, h_lo, h_hi, h_ch⟩ :=
      node_insert_room h1.file_hdr_ pn key ⟨new_no, -1⟩ (by omega) (by omega)
    -- the children of the parent after the insert
    have hch2 : ∀ i r, i < pn2.num_key → pn2.rids[i]? = some r →
        r.page_no = new_no ∨ ∃ j, j < pn.num_key ∧ pn.rids[j]? = some r := by
      intro i r hi hr
      obtain ⟨r2, hr2, hcase⟩ := h_ch i hi
      rw [hr] at hr2
      cases hr2
      rcases hcase with hv | hold
      · left
        rw [hv]
      · exact Or.inr hold
    let h2 : IxIndexHandle := { h1 with pages := storePage q pn2 h1.pages }
    have h2l : ∀ x, h2.pages.lookup x = if x = q then some pn2 else h1.pages.lookup x := by
      intro x
      show (storePage _ _ h1.pages).lookup x = _
      rw [lookup_storePage]
    have hq2 : h2.pages.lookup q = some pn2 := by rw [h2l, if_pos rfl]
    have hnrp : o.is_root_page = false := by
      simp [IxNode.is_root_page, hpar, hqinv]
    have hfo : IxIndexHandle.fetch_node old_no h1 = some (o, h1) := fetch_node_some _ _ _ ho
    have hfq : IxIndexHandle.fetch_node q h1 = some (pn, h1) := fetch_node_some _ _ _ hq
    have hhead : IxIndexHandle.insert_into_parent (IxIndexHandle.splitNodeIfFull f) old_no key
        new_no h1 = IxIndexHandle.splitNodeIfFull f q h2 := by
      simp only [IxIndexHandle.insert_into_parent, bind, IxM.bind, hfo, hnrp, if_false,
        Bool.false_eq_true, hpar, hfq, IxIndexHandle.hdr, IxIndexHandle.liftOpt, hins,
        Option.map_some', IxIndexHandle.put_node]
    have hfresh2 : Fresh h2 := by
      refine ⟨hfresh.1, ?_⟩
      intro x hx
      have hxn : h1.pages.lookup x = none := hfresh.2 x hx
      have hxq : x ≠ q := by
        intro hc2
        rw [hc2, hq] at hxn
        cases hxn
      rw [h2l, if_neg hxq]
      exact hxn
    have hfq2 : IxIndexHandle.fetch_node q h2 = some (pn2, h2) := fetch_node_some _ _ _ hq2
    cases f with
    | zero => simp at hf
    | succ f =>
    by_cases hfull : pn2.num_key = h1.file_hdr_.btree_order_ + 1
    · -- the parent is full now: it is split and the climb goes on
      have hnewq : q ≠ new_no := (hcx q (List.mem_cons_self _ _)).2
      obtain ⟨h2s, wq, hsplit, hfs, hnps, hq2s, hN, hwl, hwnum, _, hwkl, _, _, hother, hfresh2s⟩ :=
        split_internal_spec h2 q pn2 hq2 (by rw [h_leaf, hpl]) (by rw [h_kl, hpkl]; exact hfull.le)
          (by rw [h_rl, hprl]; exact hfull.le)
          (by show pn2.num_key - pn2.num_key / 2 ≤ h1.file_hdr_.btree_order_ + 1; omega) hfresh2
          (by
            intro i _ hi
            obtain ⟨r, hr⟩ : ∃ r, pn2.rids[i]? = some r :=
              ⟨_, List.getElem?_eq_getElem (by rw [h_rl, hprl]; omega)⟩
            rcases hch2 i r hi hr with hv | ⟨j, hj, hrj⟩
            · refine ⟨r, w, hr, ?_⟩
              rw [hv, h2l, if_neg (Ne.symm hnewq)]
              exact hw
            · obtain ⟨r2, c2, hr2, hc2⟩ := hpch j hj
              rw [hrj] at hr2
              cases hr2
              by_cases hrq : r.page_no = q
              · exact ⟨r, pn2, hr, by rw [hrq]; exact hq2⟩
              · exact ⟨r, c2, hr, by rw [h2l, if_neg hrq]; exact hc2⟩)
          (by
            intro i r hi hr
            rcases hch2 i r hi hr with hv | ⟨j, hj, hrj⟩
            · rw [hv]
              exact Ne.symm hnewq
            · exact hself j r hj hrj)
      have hN1 : h2.next_page_no = h1.next_page_no := rfl
      have hnewN : h1.pages.lookup h1.next_page_no = none := hfresh.2 _ (le_refl _)
      obtain ⟨k2, hk2⟩ : ∃ k, wq.keys[0]? = some k :=
        ⟨_, List.getElem?_eq_getElem (by rw [hwkl]; omega)⟩
      have hpers : ∀ x m, h1.pages.lookup x = some m → ∃ m2, h2s.pages.lookup x = some m2 := by
        intro x m hx
        by_cases hxq : x = q
        · rw [hxq]
          exact ⟨_, hq2s⟩
        · have hxN : x ≠ h2.next_page_no := by
            intro hc2
            rw [hc2, hN1, hnewN] at hx
            cases hx
          rcases hother x hxq hxN with hsame | ⟨_, m1, pp, _, hm2⟩
          · exact ⟨m, by rw [hsame, h2l, if_neg hxq]; exact hx⟩
          · exact ⟨_, hm2⟩
      have hrestsame : ∀ x, x ∈ rest → h2s.pages.lookup x = h1.pages.lookup x := by
        intro x hx
        have hxq : x ≠ q := (hrestq x hx).1
        obtain ⟨m, hm⟩ := chainOK_mem h1 rest _ hchain2 x hx
        have hxN : x ≠ h2.next_page_no := by
          intro hc2
          rw [hc2, hN1, hnewN] at hm
          cases hm
        rcases hother x hxq hxN with hsame | ⟨⟨i, r, _, hi, hri, hrx⟩, _⟩
        · rw [hsame, h2l, if_neg hxq]
        · rcases hch2 i r hi hri with hv | ⟨j, hj, hrj⟩
          · exact absurd (hrx.symm.trans hv) (hcx x (List.mem_cons_of_mem _ hx)).2
          · exact absurd hrx ((hrestq x hx).2 j r hj hrj)
      have hords : h2s.file_hdr_.btree_order_ = h1.file_hdr_.btree_order_ := by rw [hfs]
      obtain ⟨h3, hrun3, hc1, hc2, hc3, hc4, hc5⟩ :=
        ih f h2s q h2.next_page_no { pn2 with num_key := pn2.num_key / 2 } wq k2
          (by simp at hf; omega) (by rw [hords]; exact hord) hfresh2s hq2s hN
          (by show 1 ≤ pn2.keys.length; rw [h_kl, hpkl]; omega) (by rw [hwkl]; omega)
          (by
            show ChainOK h2s pn2.parent rest
            rw [h_par]
            exact chainOK_transfer h1 h2s hords hpers rest _ hchain2 hrestsame)
          (by
            intro x hx
            refine ⟨(hrestq x hx).1, ?_⟩
            obtain ⟨m, hm⟩ := chainOK_mem h1 rest _ hchain2 x hx
            intro hc2
            rw [hc2, hN1, hnewN] at hm
            cases hm)
      have hqrest : q ∉ rest := fun hx => (hrestq q hx).1 rfl
      obtain ⟨mq, hmq, hmqs⟩ := hc5 q _ hqrest hq2s
      have hmql : mq.is_leaf = false := by
        rw [hmqs]
        show pn2.is_leaf = false
        rw [h_leaf, hpl]
      have hfw : IxIndexHandle.fetch_node h2.next_page_no h2s = some (wq, h2s) :=
        fetch_node_some _ _ _ hN
      have hfq3 : IxIndexHandle.fetch_node q h3 = some (mq, h3) := fetch_node_some _ _ _ hmq
      have hisfull : pn2.is_full h2.file_hdr_ = true := by
        show (pn2.num_key == h1.file_hdr_.btree_order_ + 1) = true
        simp [hfull]
      have hrun : IxIndexHandle.splitNodeIfFull (f + 1) q h2 = some ((), h3) := by
        simp only [IxIndexHandle.splitNodeIfFull, bind, IxM.bind, hfq2, IxIndexHandle.hdr,
          hisfull, if_true, hsplit, hfw, IxIndexHandle.liftOpt, IxNode.get_key, hk2,
          Option.map_some', hrun3, hfq3, hmql, if_false, Bool.false_eq_true, pure, IxM.pure]
      refine ⟨h3, by rw [hhead]; exact hrun, ?_, ?_, ?_, hc4, ?_⟩
      · rw [hc1, hfs]
      · rw [hc2, hfs]
      · rw [hc3, hfs]
      · intro x m hx hm
        have hxq : x ≠ q := fun hc => hx (hc ▸ List.mem_cons_self _ _)
        have hxr : x ∉ rest := fun hc => hx (List.mem_cons_of_mem _ hc)
        have hxN : x ≠ h2.next_page_no := by
          intro hc
          rw [hc, hN1, hnewN] at hm
          cases hm
        have h2x : h2.pages.lookup x = some m := by rw [h2l, if_neg hxq]; exact hm
        rcases hother x hxq hxN with hsame | ⟨_, m1, pp, hm1, hm2⟩
        · exact hc5 x m hxr (by rw [hsame]; exact h2x)
        · rw [h2x] at hm1
          cases hm1
          obtain ⟨m3, hm3, hs3⟩ := hc5 x _ hxr hm2
          exact ⟨m3, hm3, sameButParent_trans (sameButParent_parent m pp) hs3⟩
    · -- the parent has room: nothing more happens
      have hisfull : pn2.is_full h2.file_hdr_ = false := by
        show (pn2.num_key == h1.file_hdr_.btree_order_ + 1) = false
        simp [hfull]
      have hrun : IxIndexHandle.splitNodeIfFull (f + 1) q h2 = some ((), h2) := by
        simp only [IxIndexHandle.splitNodeIfFull, bind, IxM.bind, hfq2, IxIndexHandle.hdr,
          hisfull, if_false, Bool.false_eq_true, pure, IxM.pure]
      refine ⟨h2, by rw [hhead]; exact hrun, rfl, rfl, rfl, hfresh2, ?_⟩
      intro x m hx hm
      have hxq : x ≠ q := fun hc => hx (hc ▸ List.mem_cons_self _ _)
      exact ⟨m, by rw [h2l, if_neg hxq]; exact hm, sameButParent_refl m⟩

theorem sameButParent_fields {m m2 : IxNode} (h : SameButParent m m2) :
    m2.num_key = m.num_key ∧ m2.is_leaf = m.is_leaf ∧ m2.keys = m.keys ∧ m2.rids = m.rids ∧
      m2.prev_leaf = m.prev_leaf ∧ m2.next_leaf = m.next_leaf := by
  unfold SameButParent at h
  refine ⟨?_, ?_, ?_, ?_, ?_, ?_⟩ <;> rw [h]

theorem updateLastLeaf_spec (a b : Int) (g : IxIndexHandle) :
    ∃ g2, IxIndexHandle.updateLastLeaf a b g = some ((), g2) ∧ g2.pages = g.pages ∧
      g2.file_hdr_.first_leaf_ = g.file_hdr_.first_leaf_ ∧
      g2.file_hdr_.last_leaf_ = (if a = g.file_hdr_.last_leaf_ then b else g.file_hdr_.last_leaf_) := by
  by_cases hl : a = g.file_hdr_.last_leaf_
  · refine ⟨{ g with file_hdr_ := { g.file_hdr_ with last_leaf_ := b } }, ?_, rfl, rfl, ?_⟩
    · simp only [IxIndexHandle.updateLastLeaf, bind, IxM.bind, IxIndexHandle.hdr, ← hl, if_true,
        IxIndexHandle.set_hdr]
    · rw [if_pos hl]
  · refine ⟨g, ?_, rfl, rfl, ?_⟩
    · simp only [IxIndexHandle.updateLastLeaf, bind, IxM.bind, IxIndexHandle.hdr, hl, if_false,
        pure, IxM.pure]
    · rw [if_neg hl]

theorem splitNodeIfFull_full_run (f : Nat) (h h1 h3 : IxIndexHandle) (leaf_no : Int)
    (n w2 m1 : IxNode) (k0 : List Nat)
    (hn : h.pages.lookup leaf_no = some n)
    (hfull : n.num_key = h.file_hdr_.btree_order_ + 1)
    (hsplit : IxIndexHandle.split leaf_no h = some (h.next_page_no, h1))
    (hw2 : h1.pages.lookup h.next_page_no = some w2) (hk0 : w2.keys[0]? = some k0)
    (hrun3 : IxIndexHandle.insert_into_parent (IxIndexHandle.splitNodeIfFull f) leaf_no k0
      h.next_page_no h1 = some ((), h3))
    (hm1 : h3.pages.lookup leaf_no = some m1) (hm1leaf : m1.is_leaf = true) :
    IxIndexHandle.splitNodeIfFull (f + 1) leaf_no h =
      IxIndexHandle.updateLastLeaf leaf_no h.next_page_no h3 := by
  have hfn : IxIndexHandle.fetch_node leaf_no h = some (n, h) := fetch_node_some _ _ _ hn
  have hfw : IxIndexHandle.fetch_node h.next_page_no h1 = some (w2, h1) :=
    fetch_node_some _ _ _ hw2
  have hfm : IxIndexHandle.fetch_node leaf_no h3 = some (m1, h3) := fetch_node_some _ _ _ hm1
  have hisfull : n.is_full h.file_hdr_ = true := by
    show (n.num_key == h.file_hdr_.btree_order_ + 1) = true
    simp [hfull]
  simp only [IxIndexHandle.splitNodeIfFull, bind, IxM.bind, hfn, IxIndexHandle.hdr,
    hisfull, if_true, hsplit, hfw, IxIndexHandle.liftOpt, IxNode.get_key, hk0,
    Option.map_some', hrun3, hfm, hm1leaf]

theorem half_bounds (k : Nat) (hk : 1 ≤ k) :
    (k + 1) / 2 ≤ k ∧ (k + 1) / 2 ≤ k + 1 - (k + 1) / 2 ∧ k + 1 - (k + 1) / 2 ≤ k := by
  omega

/-- C30: `splitNodeIfFull` on a leaf that an insert brought to exactly
`order + 1` keys returns, and afterwards the original leaf holds the first
`(order + 1) / 2` pairs, the new right sibling (the page just created, linked
in after the leaf) holds the remaining pairs in order, both hold between
`(order + 1) / 2` (that is, the ceiling of `order / 2`) and `order` keys,
`first_leaf_` is unchanged, and `last_leaf_` is the new sibling if the split
leaf was the last leaf and is unchanged otherwise.  The ancestors of the leaf
are the pages of `c`; splits of ancestors and a new root are part of the run. -/
theorem full_leaf_split_halves_pairs_and_keeps_leaf_ends (h : IxIndexHandle) (leaf_no : Int)
    (n : IxNode) (c : List Int) (fuel : Nat)
    (hord : 1 ≤ h.file_hdr_.btree_order_)
    (hn : h.pages.lookup leaf_no = some n) (hleaf : n.is_leaf = true)
    (hfull : n.num_key = h.file_hdr_.btree_order_ + 1)
    (hk : n.keys.length = h.file_hdr_.btree_order_ + 1)
    (hr : n.rids.length = h.file_hdr_.btree_order_ + 1)
    (hnext : n.next_leaf = INVALID_PAGE_ID ∨ ∃ nn, h.pages.lookup n.next_leaf = some nn)
    (hfresh : Fresh h) (hchain : ChainOK h n.parent c)
    (hc : ∀ x, x ∈ c → x ≠ leaf_no ∧ x ≠ n.next_leaf) (hfuel : c.length < fuel) :
    ∃ h2 n1 n2, IxIndexHandle.splitNodeIfFull fuel leaf_no h = some ((), h2) ∧
      h2.pages.lookup leaf_no = some n1 ∧ h2.pages.lookup h.next_page_no = some n2 ∧
      n1.is_leaf = true ∧ n2.is_leaf = true ∧
      n1.num_key = (h.file_hdr_.btree_order_ + 1) / 2 ∧
      n2.num_key = h.file_hdr_.btree_order_ + 1 - (h.file_hdr_.btree_order_ + 1) / 2 ∧
      (∀ j, j < n1.num_key → n1.keys[j]? = n.keys[j]? ∧ n1.rids[j]? = n.rids[j]?) ∧
      (∀ j, j < n2.num_key →
        n2.keys[j]? = n.keys[(h.file_hdr_.btree_order_ + 1) / 2 + j]? ∧
        n2.rids[j]? = n.rids[(h.file_hdr_.btree_order_ + 1) / 2 + j]?) ∧
      n1.next_leaf = h.next_page_no ∧ n2.prev_leaf = leaf_no ∧ n2.next_leaf = n.next_leaf ∧
      (h.file_hdr_.btree_order_ + 1) / 2 ≤ n1.num_key ∧ n1.num_key ≤ h.file_hdr_.btree_order_ ∧
      (h.file_hdr_.btree_order_ + 1) / 2 ≤ n2.num_key ∧ n2.num_key ≤ h.file_hdr_.btree_order_ ∧
      h2.file_hdr_.first_leaf_ = h.file_hdr_.first_leaf_ ∧
      h2.file_hdr_.last_leaf_ =
        (if leaf_no = h.file_hdr_.last_leaf_ then h.next_page_no else h.file_hdr_.last_leaf_) := by
  cases fuel with
  | zero => simp at hfuel
  | succ f =>
  obtain ⟨h1, o2, w2, hsplit, hf1, hnp1, ho2, ho2eq, hw2, hw2leaf, hw2num, hw2par, hw2prev,
      hw2next, hw2kl, hw2slots, hoth1, hpers1, hfresh1⟩ :=
    split_leaf_spec h leaf_no n hn hleaf (by omega) (by omega) (by omega) hfresh hnext
  have hnewN : h.pages.lookup h.next_page_no = none := hfresh.2 _ (le_refl _)
  have hord1 : h1.file_hdr_.btree_order_ = h.file_hdr_.btree_order_ := by rw [hf1]
  have ho2k : o2.keys = n.keys := by rw [ho2eq]
  have ho2r : o2.rids = n.rids := by rw [ho2eq]
  have ho2num : o2.num_key = n.num_key / 2 := by rw [ho2eq]
  have ho2leaf : o2.is_leaf = true := by rw [ho2eq]; exact hleaf
  have ho2next : o2.next_leaf = h.next_page_no := by rw [ho2eq]
  have ho2par : o2.parent = n.parent := by rw [ho2eq]
  have hcN : ∀ x, x ∈ c → x ≠ h.next_page_no := by
    intro x hx hc2
    obtain ⟨m, hm⟩ := chainOK_mem h c _ hchain x hx
    rw [hc2, hnewN] at hm
    cases hm
  have hw2k1 : 0 < w2.keys.length := by rw [hw2kl]; omega
  have hk0 : w2.keys[0]? = some (w2.keys.get ⟨0, hw2k1⟩) := List.getElem?_eq_getElem hw2k1
  have hchain1 : ChainOK h1 o2.parent c := by
    rw [ho2par]
    exact chainOK_transfer h h1 hord1 hpers1 c _ hchain
      (fun x hx => hoth1 x (hc x hx).1 (hcN x hx) (hc x hx).2)
  have hlen : c.length ≤ f := by omega
  have hord2 : 1 ≤ h1.file_hdr_.btree_order_ := by rw [hord1]; exact hord
  have hok1 : 1 ≤ o2.keys.length := by rw [ho2k, hk]; omega
  obtain ⟨h3, hrun3, hc1, hc2, hc3, _, hc5⟩ :=
    insert_into_parent_spec c f h1 leaf_no h.next_page_no o2 w2 _ hlen hord2 hfresh1 ho2 hw2
      hok1 hw2k1 hchain1 (fun x hx => ⟨(hc x hx).1, hcN x hx⟩)
  have hleafc : leaf_no ∉ c := fun hx => (hc leaf_no hx).1 rfl
  have hNc : h.next_page_no ∉ c := fun hx => hcN _ hx rfl
  obtain ⟨m1, hm1, hs1⟩ := hc5 leaf_no o2 hleafc ho2
  obtain ⟨m2, hm2, hs2⟩ := hc5 h.next_page_no w2 hNc hw2
  obtain ⟨a1, a2, a3, a4, _, a6⟩ := sameButParent_fields hs1
  obtain ⟨b1, b2, b3, b4, b5, b6⟩ := sameButParent_fields hs2
  have hm1leaf : m1.is_leaf = true := by rw [a2, ho2leaf]
  have hrun := splitNodeIfFull_full_run f h h1 h3 leaf_no n w2 m1 _ hn hfull hsplit hw2 hk0
    hrun3 hm1 hm1leaf
  obtain ⟨h4, hrun4, hp4, hfirst4, hlast4⟩ := updateLastLeaf_spec leaf_no h.next_page_no h3
  have g1 : m1.num_key = (h.file_hdr_.btree_order_ + 1) / 2 := by rw [a1, ho2num, hfull]
  have g2 : m2.num_key = h.file_hdr_.btree_order_ + 1 - (h.file_hdr_.btree_order_ + 1) / 2 := by
    rw [b1, hw2num, hfull]
  have g3 : (h.file_hdr_.btree_order_ + 1) / 2 ≤ m1.num_key := by rw [g1]
  have g4 : m1.num_key ≤ h.file_hdr_.btree_order_ := by
    rw [g1]; exact (half_bounds _ hord).1
  have g5 : (h.file_hdr_.btree_order_ + 1) / 2 ≤ m2.num_key := by
    rw [g2]; exact (half_bounds _ hord).2.1
  have g6 : m2.num_key ≤ h.file_hdr_.btree_order_ := by
    rw [g2]; exact (half_bounds _ hord).2.2
  have g7 : ∀ j, j < m1.num_key → m1.keys[j]? = n.keys[j]? ∧ m1.rids[j]? = n.rids[j]? := by
    intro j _
    rw [a3, a4, ho2k, ho2r]
    exact ⟨rfl, rfl⟩
  have g8 : ∀ j, j < m2.num_key →
      m2.keys[j]? = n.keys[(h.file_hdr_.btree_order_ + 1) / 2 + j]? ∧
      m2.rids[j]? = n.rids[(h.file_hdr_.btree_order_ + 1) / 2 + j]? := by
    intro j hj
    rw [b1, hw2num] at hj
    rw [b3, b4]
    have := hw2slots j hj
    rw [hfull] at this
    exact this
  have g9 : h4.file_hdr_.first_leaf_ = h.file_hdr_.first_leaf_ := by rw [hfirst4, hc1, hf1]
  have g10 : h4.file_hdr_.last_leaf_ =
      (if leaf_no = h.file_hdr_.last_leaf_ then h.next_page_no else h.file_hdr_.last_leaf_) := by
    have : h3.file_hdr_.last_leaf_ = h.file_hdr_.last_leaf_ := by rw [hc2, hf1]
    rw [hlast4, this]
  have g11 : m2.is_leaf = true := by rw [b2, hw2leaf]
  have g12 : m1.next_leaf = h.next_page_no := by rw [a6, ho2next]
  have g13 : m2.prev_leaf = leaf_no := by rw [b5, hw2prev]
  have g14 : m2.next_leaf = n.next_leaf := by rw [b6, hw2next]
  have g15 : h4.pages.lookup leaf_no = some m1 := by rw [hp4]; exact hm1
  have g16 : h4.pages.lookup h.next_page_no = some m2 := by rw [hp4]; exact hm2
  have g17 := hrun.trans hrun4
  exact ⟨h4, m1, m2, g17, g15, g16, hm1leaf, g11, g1, g2, g7, g8, g12,
    g13, g14, g3, g4, g5, g6, g9, g10⟩

theorem fullLeafIndex_pages : fullLeafIndex.pages =
    [(1, { parent := -1, num_key := 0, is_leaf := true, prev_leaf := 3, next_leaf := 2,
           keys := List.replicate 5 (intKey 0), rids := List.replicate 5 ⟨0, 0⟩ }),
     (2, { parent := 4, num_key := 2, is_leaf := true, prev_leaf := 1, next_leaf := 3,
           keys := [intKey 10, intKey 20, intKey 30, intKey 40, intKey 50],
           rids := [⟨10, 0⟩, ⟨20, 0⟩, ⟨30, 0⟩, ⟨40, 0⟩, ⟨50, 0⟩] }),
     (3, fullLeaf),
     (4, fullLeafParent)] := by
  decide!

theorem fullLeafIndex_fresh : Fresh fullLeafIndex := by
  refine ⟨by decide, ?_⟩
  intro q hq
  have hq5 : (5 : Int) ≤ q := hq
  rw [fullLeafIndex_pages]
  have h1 : (q == 1) = false := beq_eq_false_iff_ne.mpr (by omega)
  have h2 : (q == 2) = false := beq_eq_false_iff_ne.mpr (by omega)
  have h3 : (q == 3) = false := beq_eq_false_iff_ne.mpr (by omega)
  have h4 : (q == 4) = false := beq_eq_false_iff_ne.mpr (by omega)
  simp only [List.lookup, h1, h2, h3, h4]

theorem fullLeafIndex_chain : ChainOK fullLeafIndex fullLeaf.parent [4] := by
  refine ⟨rfl, by decide, fullLeafParent, by rw [fullLeafIndex_pages]; rfl,
    ⟨rfl, rfl, rfl, by decide, ?_⟩, ?_, ?_, rfl⟩
  · intro i hi
    have hi2 : i < 2 := hi
    have hcase : i = 0 ∨ i = 1 := by omega
    rcases hcase with h0 | h1
    · subst h0
      exact ⟨⟨2, -1⟩, _, rfl, by rw [fullLeafIndex_pages]; rfl⟩
    · subst h1
      exact ⟨⟨3, -1⟩, _, rfl, by rw [fullLeafIndex_pages]; rfl⟩
  · intro i r hi hr
    have hi2 : i < 2 := hi
    have hcase : i = 0 ∨ i = 1 := by omega
    rcases hcase with h0 | h1
    · subst h0
      cases hr
      decide
    · subst h1
      cases hr
      decide
  · intro x hx
    cases hx

/-- C30 at a concrete index of order 4: the last leaf (page 3, under the root
page 4) holds 30, 40, 50, 60, 70 when `splitNodeIfFull` is called; afterwards
page 3 holds 30, 40, the new page 5 holds 50, 60, 70, `first_leaf_` is still 2
and `last_leaf_` is 5.  The state is the one the inserts of 60 and 70 into
`twoLeafIndex` pass through. -/
theorem full_leaf_split_halves_pairs_and_keeps_leaf_ends_witness :
    fullLeafIndex.pages.lookup 3 = some fullLeaf ∧ Fresh fullLeafIndex ∧
    ChainOK fullLeafIndex fullLeaf.parent [4] ∧
    (IxIndexHandle.insert_entry (intKey 60) ⟨60, 0⟩ twoLeafIndex).bind
        (fun s => IxIndexHandle.insert_entry (intKey 70) ⟨70, 0⟩ s.2) =
      (IxIndexHandle.splitNodeIfFull 5 3 fullLeafIndex).map (fun s => (1, s.2)) ∧
    (IxIndexHandle.splitNodeIfFull 2 3 fullLeafIndex).map
        (fun s => [s.2.file_hdr_.first_leaf_, s.2.file_hdr_.last_leaf_]) = some [2, 5] ∧
    (IxIndexHandle.splitNodeIfFull 2 3 fullLeafIndex).map
        (fun s => [(s.2.pages.lookup 3).map (fun n => n.keys.take n.num_key),
                   (s.2.pages.lookup 5).map (fun n => n.keys.take n.num_key)]) =
      some [some [intKey 30, intKey 40], some [intKey 50, intKey 60, intKey 70]] ∧
    ∃ h2 n1 n2, IxIndexHandle.splitNodeIfFull 2 3 fullLeafIndex = some ((), h2) ∧
      h2.pages.lookup 3 = some n1 ∧ h2.pages.lookup fullLeafIndex.next_page_no = some n2 ∧
      n1.is_leaf = true ∧ n2.is_leaf = true ∧
      n1.num_key = (fullLeafIndex.file_hdr_.btree_order_ + 1) / 2 ∧
      n2.num_key = fullLeafIndex.file_hdr_.btree_order_ + 1 -
        (fullLeafIndex.file_hdr_.btree_order_ + 1) / 2 ∧
      (∀ j, j < n1.num_key → n1.keys[j]? = fullLeaf.keys[j]? ∧ n1.rids[j]? = fullLeaf.rids[j]?) ∧
      (∀ j, j < n2.num_key →
        n2.keys[j]? = fullLeaf.keys[(fullLeafIndex.file_hdr_.btree_order_ + 1) / 2 + j]? ∧
        n2.rids[j]? = fullLeaf.rids[(fullLeafIndex.file_hdr_.btree_order_ + 1) / 2 + j]?) ∧
      n1.next_leaf = fullLeafIndex.next_page_no ∧ n2.prev_leaf = 3 ∧
      n2.next_leaf = fullLeaf.next_leaf ∧
      (fullLeafIndex.file_hdr_.btree_order_ + 1) / 2 ≤ n1.num_key ∧
      n1.num_key ≤ fullLeafIndex.file_hdr_.btree_order_ ∧
      (fullLeafIndex.file_hdr_.btree_order_ + 1) / 2 ≤ n2.num_key ∧
      n2.num_key ≤ fullLeafIndex.file_hdr_.btree_order_ ∧
      h2.file_hdr_.first_leaf_ = fullLeafIndex.file_hdr_.first_leaf_ ∧
      h2.file_hdr_.last_leaf_ =
        (if (3 : Int) = fullLeafIndex.file_hdr_.last_leaf_ then fullLeafIndex.next_page_no
         else fullLeafIndex.file_hdr_.last_leaf_) :=
  ⟨by rw [fullLeafIndex_pages]; rfl, fullLeafIndex_fresh, fullLeafIndex_chain, by decide!,
   by decide!, by decide!,
   full_leaf_split_halves_pairs_and_keeps_leaf_ends fullLeafIndex 3 fullLeaf [4] 2 (by decide)
     (by rw [fullLeafIndex_pages]; rfl) rfl rfl rfl rfl
     (Or.inr ⟨_, by rw [fullLeafIndex_pages]; rfl⟩) fullLeafIndex_fresh fullLeafIndex_chain
     (by
       intro x hx
       have hx4 : x = 4 := by simpa using hx
       subst hx4
       exact ⟨by decide, by decide⟩)
     (by decide)⟩

theorem memcmp_sign_flip (n : Nat) (a b : List Nat) :
    (memcmp a b n < 0 ↔ 0 < memcmp b a n) ∧ (memcmp a b n = 0 ↔ memcmp b a n = 0) ∧
      (0 < memcmp a b n ↔ memcmp b a n < 0) := by
  have h1 := memcmp_antisymm n a b
  have h2 := memcmp_antisymm n b a
  refine ⟨h1, ?_, h2.symm⟩
  constructor <;> intro h <;> omega

theorem ix_compare_col_sign_flip (t : ColType) (len : Nat) (a b : List Nat) :
    (ix_compare_col a b t len < 0 ↔ 0 < ix_compare_col b a t len) ∧
      (ix_compare_col a b t len = 0 ↔ ix_compare_col b a t len = 0) ∧
      (0 < ix_compare_col a b t len ↔ ix_compare_col b a t len < 0) := by
  cases t with
  | TYPE_INT =>
    rcases lt_trichotomy (readInt a) (readInt b) with h | h | h
    · have h1 : ¬ readInt b < readInt a := by omega
      have h2 : ¬ readInt a > readInt b := by omega
      simp [ix_compare_col, h, h1, h2]
    · simp [ix_compare_col, h]
    · have h1 : ¬ readInt a < readInt b := by omega
      simp [ix_compare_col, h, h1]
  | TYPE_FLOAT =>
    have hno : ¬ (floatLt a b = true ∧ floatLt b a = true) := by
      simp only [floatLt, Bool.and_eq_true, decide_eq_true_eq]
      intro h
      omega
    simp only [ix_compare_col]
    by_cases h1 : floatLt a b = true <;> by_cases h2 : floatLt b a = true
    · exact absurd ⟨h1, h2⟩ hno
    · simp [h1, h2]
    · simp [h1, h2]
    · simp [h1, h2]
  | TYPE_STRING => exact memcmp_sign_flip len a b

/-- C34: the operator map `swap_op` that the constructor of `IndexScanExecutor`
applies when it swaps the sides of a condition is an involution, and the test
of `eval_cond` gives for `op` on `ix_compare(a, b)` what it gives for
`swap_op(op)` on `ix_compare(b, a)`, for every column type and length. -/
theorem swap_op_involutive_and_preserves_meaning (op : CompOp) (t : ColType) (len : Nat)
    (a b : List Nat) :
    IndexScanExecutor.swap_op (IndexScanExecutor.swap_op op) = op ∧
    IndexScanExecutor.opHolds op (ix_compare_col a b t len) =
      IndexScanExecutor.opHolds (IndexScanExecutor.swap_op op) (ix_compare_col b a t len) := by
  obtain ⟨h1, h2, h3⟩ := ix_compare_col_sign_flip t len a b
  refine ⟨by cases op <;> rfl, ?_⟩
  cases op <;>
    simp only [IndexScanExecutor.swap_op, IndexScanExecutor.opHolds, if_true, if_false,
      reduceCtorEq, beq_iff_eq, bne_iff_ne, ne_eq, Bool.decide_eq_true, decide_eq_decide,
      beq_eq_decide, bne, Bool.not_eq_eq_eq_not] <;>
    first
      | (constructor <;> intro h <;> omega)
      | (rw [Bool.eq_iff_iff]; simp; constructor <;> intro h <;> omega)

/-- C37: `adjust_root` on the page of a node `root` returns in each case.  An
internal root with exactly one key: child 0 gets the parent
`INVALID_PAGE_ID`, no other page changes, `root_page_` becomes the page number
of that child, `num_pages_` goes down by 1, and the result is `true`.  A leaf
root with zero keys: `root_page_` becomes the no-page value, `num_pages_` goes
down by 1, no page changes, and the result is `true`.  Every other root: the
result is `false` and the handle (file header and pages) is unchanged. -/
theorem adjust_root_three_cases (h : IxIndexHandle) (root_no : Int) (root : IxNode)
    (hroot : h.pages.lookup root_no = some root)
    (hchild : root.is_leaf = false → root.num_key = 1 →
      ∃ r c, root.rids[0]? = some r ∧ h.pages.lookup r.page_no = some c) :
    (root.is_leaf = false ∧ root.num_key = 1 →
      ∃ r c h2, root.rids[0]? = some r ∧ h.pages.lookup r.page_no = some c ∧
        IxIndexHandle.adjust_root root_no h = some (true, h2) ∧
        h2.pages.lookup r.page_no = some { c with parent := INVALID_PAGE_ID } ∧
        (∀ x, x ≠ r.page_no → h2.pages.lookup x = h.pages.lookup x) ∧
        h2.file_hdr_.root_page_ = r.page_no ∧
        h2.file_hdr_ = { h.file_hdr_ with
          root_page_ := h2.file_hdr_.root_page_, num_pages_ := h.file_hdr_.num_pages_ - 1 }) ∧
    (root.is_leaf = true ∧ root.num_key = 0 →
      ∃ h2, IxIndexHandle.adjust_root root_no h = some (true, h2) ∧
        h2.pages = h.pages ∧
        h2.file_hdr_.root_page_ = IX_NO_PAGE ∧
        h2.file_hdr_ = { h.file_hdr_ with
          root_page_ := h2.file_hdr_.root_page_, num_pages_ := h.file_hdr_.num_pages_ - 1 }) ∧
    (¬ (root.is_leaf = false ∧ root.num_key = 1) → ¬ (root.is_leaf = true ∧ root.num_key = 0) →
      IxIndexHandle.adjust_root root_no h = some (false, h)) := by
  have hf : IxIndexHandle.fetch_node root_no h = some (root, h) := fetch_node_some _ _ _ hroot
  refine ⟨?_, ?_, ?_⟩
  · rintro ⟨hl, hk⟩
    obtain ⟨r, c, hr, hc⟩ := hchild hl hk
    have hv : root.value_at 0 = some r.page_no := by
      simp [IxNode.value_at, IxNode.get_rid, hr]
    let f2 : IxFileHdr := { h.file_hdr_ with root_page_ := r.page_no, num_pages_ := h.file_hdr_.num_pages_ - 1 }
    let h2 : IxIndexHandle := { file_hdr_ := f2, pages := storePage r.page_no { c with parent := INVALID_PAGE_ID } h.pages, next_page_no := h.next_page_no }
    have hrun : IxIndexHandle.adjust_root root_no h = some (true, h2) := by
      simp only [IxIndexHandle.adjust_root, bind, IxM.bind, hf, hl, hk, IxNode.get_size,
        Bool.not_false, beq_self_eq_true, Bool.and_self, if_true, IxIndexHandle.liftOpt, hv,
        Option.map_some', IxIndexHandle.fetch_node, hroot, hc, IxIndexHandle.put_node,
        IxIndexHandle.update_root_page_no, IxIndexHandle.set_hdr,
        IxIndexHandle.release_node_handle, pure, IxM.pure]
    refine ⟨r, c, h2, hr, hc, hrun, ?_, ?_, rfl, rfl⟩
    · show (storePage _ _ h.pages).lookup r.page_no = _
      rw [lookup_storePage, if_pos rfl]
    · intro x hx
      show (storePage _ _ h.pages).lookup x = _
      rw [lookup_storePage, if_neg hx]
  · rintro ⟨hl, hk⟩
    let f2 : IxFileHdr := { h.file_hdr_ with root_page_ := INVALID_PAGE_ID, num_pages_ := h.file_hdr_.num_pages_ - 1 }
    have hrun : IxIndexHandle.adjust_root root_no h = some (true, { h with file_hdr_ := f2 }) := by
      simp only [IxIndexHandle.adjust_root, bind, IxM.bind, hf, hl, hk, IxNode.get_size,
        Bool.not_true, Bool.false_and, Bool.false_eq_true, if_false, beq_self_eq_true,
        Bool.and_self, if_true, IxIndexHandle.update_root_page_no, IxIndexHandle.set_hdr,
        IxIndexHandle.release_node_handle, IxIndexHandle.fetch_node, hroot, Option.map_some',
        pure, IxM.pure]
    exact ⟨_, hrun, rfl, rfl, rfl⟩
  · intro h1 h2
    have c1 : (!root.is_leaf && root.get_size == 1) = false := by
      cases hl : root.is_leaf
      · have : root.num_key ≠ 1 := fun hk => h1 ⟨hl, hk⟩
        simp [IxNode.get_size, this]
      · simp
    have c2 : (root.is_leaf && root.get_size == 0) = false := by
      cases hl : root.is_leaf
      · simp
      · have : root.num_key ≠ 0 := fun hk => h2 ⟨hl, hk⟩
        simp [IxNode.get_size, this]
    simp only [IxIndexHandle.adjust_root, bind, IxM.bind, hf, c1, c2, Bool.false_eq_true,
      if_false, pure, IxM.pure]

/-- C37 at a concrete index: the root page 4 of `loneChildIndex` is internal
with one key over the leaf page 2; `adjust_root` returns `true`, page 2 gets
the parent `INVALID_PAGE_ID`, `root_page_` becomes 2 and `num_pages_` goes
from 5 to 4. -/
theorem adjust_root_three_cases_witness :
    (IxIndexHandle.adjust_root 4 loneChildIndex).map
        (fun s => (s.1, s.2.file_hdr_.root_page_, s.2.file_hdr_.num_pages_,
          (s.2.pages.lookup 2).map (fun n => n.parent))) = some (true, 2, 4, some (-1)) ∧
    ∃ r c h2, loneChildRoot.rids[0]? = some r ∧
      loneChildIndex.pages.lookup r.page_no = some c ∧
      IxIndexHandle.adjust_root 4 loneChildIndex = some (true, h2) ∧
      h2.pages.lookup r.page_no = some { c with parent := INVALID_PAGE_ID } ∧
      (∀ x, x ≠ r.page_no → h2.pages.lookup x = loneChildIndex.pages.lookup x) ∧
      h2.file_hdr_.root_page_ = r.page_no ∧
      h2.file_hdr_ = { loneChildIndex.file_hdr_ with
        root_page_ := h2.file_hdr_.root_page_,
        num_pages_ := loneChildIndex.file_hdr_.num_pages_ - 1 } :=
  ⟨by decide!,
   (adjust_root_three_cases loneChildIndex 4 loneChildRoot (by decide!)
     (fun _ _ => ⟨⟨2, -1⟩, twoLeafIndex.pages.lookup 2 |>.getD loneChildRoot, rfl,
       by decide!⟩)).1 ⟨rfl, rfl⟩⟩

/-- C32 (the code at a failing input): `delete_entry(50)` on `twoLeafIndex`
removes 50 from the leaf page 3, which then still holds 30 and 40, two keys
for order 4; the call nevertheless rebalances: the sibling page 2 loses its
last pair (size 2 to 1), page 3 takes it in (keys 20, 30, 40) and key 1 of the
parent changes from 30 to 20. -/
theorem delete_entry_rebalances_leaf_above_minimum :
    ((twoLeafIndex.pages.lookup 3).bind
        (fun leaf => (leaf.remove twoLeafIndex.file_hdr_ (intKey 50)).map
          (fun p => (p.1.keys.take p.1.num_key, p.1.parent)))) =
      some ([intKey 30, intKey 40], 4) ∧
    (twoLeafIndex.pages.lookup 2).map (fun n => n.keys.take n.num_key) =
      some [intKey 10, intKey 20] ∧
    (twoLeafIndex.pages.lookup 4).map (fun n => n.keys.take n.num_key) =
      some [intKey 10, intKey 30] ∧
    (IxIndexHandle.delete_entry (intKey 50) twoLeafIndex).map
        (fun s => [(s.2.pages.lookup 2).map (fun n => n.keys.take n.num_key),
                   (s.2.pages.lookup 3).map (fun n => n.keys.take n.num_key),
                   (s.2.pages.lookup 4).map (fun n => n.keys.take n.num_key)]) =
      some [some [intKey 10], some [intKey 20, intKey 30, intKey 40],
            some [intKey 10, intKey 20]] := by
  decide!

/-- C35 (the code at a failing input): in `delete_entry(10)` on `twoLeafIndex`
the leaf page 2 is left with the key 20 and `coalesce_or_redistribute` only
moves the pair 30 from the sibling page 3 into it; both leaves stay children
of the root, `num_pages_` stays 5, and the call returns `true`. -/
theorem coalesce_or_redistribute_true_after_redistribute :
    ((twoLeafIndex.pages.lookup 2).bind
        (fun leaf => (leaf.remove twoLeafIndex.file_hdr_ (intKey 10)).map
          (fun p => storePage 2 p.1 twoLeafIndex.pages))) = some afterRemoveIndex.pages ∧
    (IxIndexHandle.coalesce_or_redistribute 5 2 afterRemoveIndex).map (fun s => s.1) =
      some true ∧
    (IxIndexHandle.coalesce_or_redistribute 5 2 afterRemoveIndex).map
        (fun s => [(s.2.pages.lookup 2).map (fun n => n.keys.take n.num_key),
                   (s.2.pages.lookup 3).map (fun n => n.keys.take n.num_key)]) =
      some [some [intKey 20, intKey 30], some [intKey 40, intKey 50]] ∧
    (IxIndexHandle.coalesce_or_redistribute 5 2 afterRemoveIndex).map
        (fun s => (s.2.file_hdr_.num_pages_, s.2.file_hdr_.root_page_,
          (s.2.pages.lookup 4).map (fun n => (n.rids.take n.num_key).map Rid.page_no))) =
      some (5, 4, some [2, 3]) ∧
    (IxIndexHandle.delete_entry (intKey 10) twoLeafIndex).map (fun s => s.2) =
      (IxIndexHandle.coalesce_or_redistribute 5 2 afterRemoveIndex).map (fun s => s.2) := by
  decide!

/-- C36 (the code at a failing input): transactions 1 and 2 hold IX on table 7;
transaction 1 asks for S.  The call returns `true` and turns the request of
transaction 1 into SIX, next to the IX request of transaction 2; no
`DEADLOCK_PREVENTION` is thrown. -/
theorem shared_request_upgrades_to_six_beside_other_ix :
    ((LockWorld.init.run [.lock_IX_on_table 1 7, .lock_IX_on_table 2 7]).lm.queueAt
        (LockDataId.table 7)).request_queue_ =
      [⟨1, .INTENTION_EXCLUSIVE, true⟩, ⟨2, .INTENTION_EXCLUSIVE, true⟩] ∧
    ((LockWorld.init.run [.lock_IX_on_table 1 7, .lock_IX_on_table 2 7]).call
        (.lock_shared_on_table 1 7)).2 = LockOutcome.returned true ∧
    (((LockWorld.init.run [.lock_IX_on_table 1 7, .lock_IX_on_table 2 7]).call
        (.lock_shared_on_table 1 7)).1.lm.queueAt (LockDataId.table 7)).request_queue_ =
      [⟨1, .S_IX, true⟩, ⟨2, .INTENTION_EXCLUSIVE, true⟩] ∧
    (((LockWorld.init.run [.lock_IX_on_table 1 7, .lock_IX_on_table 2 7]).call
        (.lock_shared_on_table 1 7)).1.txn 1).state_ = TransactionState.GROWING := by
  decide!

/-- C38 (the code at a failing input): in the index reached from `twoLeafIndex`
by `staleRootCalls` the key 40 is found with its rid; after `insert_entry(60)`
the keys 40 and 50 are not found any more.  The insert splits the leaf page 3
into 30, 35 and the new page 6 with 40, 50, 60; the root has the keys 10, 30
in use and the key 40, left by `erase_pair`, in the slot behind them, so
`insert` of the separator 40 into the root finds the key equal to that slot
and adds nothing: page 6 is not a child of the root. -/
theorem insert_entry_hides_other_keys :
    ((runOps staleRootCalls twoLeafIndex).bind
        (fun s => (IxIndexHandle.get_value (intKey 40) [] s).map (fun x => x.1))) =
      some (true, [⟨40, 0⟩]) ∧
    ((runOps staleRootCalls twoLeafIndex).bind
        (fun s => (IxIndexHandle.get_value (intKey 50) [] s).map (fun x => x.1))) =
      some (true, [⟨50, 0⟩]) ∧
    ((runOps (staleRootCalls ++ [ins 60]) twoLeafIndex).bind
        (fun s => (IxIndexHandle.get_value (intKey 40) [] s).map (fun x => x.1))) =
      some (false, []) ∧
    ((runOps (staleRootCalls ++ [ins 60]) twoLeafIndex).bind
        (fun s => (IxIndexHandle.get_value (intKey 50) [] s).map (fun x => x.1))) =
      some (false, []) ∧
    ((runOps staleRootCalls twoLeafIndex).bind
        (fun s => (s.pages.lookup 4).map (fun n => (n.num_key, n.keys.take 3)))) =
      some (2, [intKey 10, intKey 30, intKey 40]) ∧
    ((runOps (staleRootCalls ++ [ins 60]) twoLeafIndex).bind
        (fun s => (s.pages.lookup 4).map
          (fun n => (n.rids.take n.num_key).map Rid.page_no))) = some [2, 3] ∧
    ((runOps (staleRootCalls ++ [ins 60]) twoLeafIndex).bind
        (fun s => (s.pages.lookup 6).map (fun n => n.keys.take n.num_key))) =
      some [intKey 40, intKey 50, intKey 60] := by
  decide!

/-- C39 (the code at a failing input): transaction 1 takes S on table 7 and then
asks for X.  The request is upgraded to X, the only request of the queue, and
`shared_lock_num_` stays 1 although no request has the mode SHARED or S_IX.
Likewise after IX and X: `IX_lock_num_` stays 1 beside the one X request. -/
theorem upgrade_to_exclusive_keeps_counters :
    (LockWorld.init.run [.lock_shared_on_table 1 7, .lock_exclusive_on_table 1 7]).lm.queueAt
        (LockDataId.table 7) =
      { request_queue_ := [⟨1, .EXLUCSIVE, true⟩], group_lock_mode_ := .X,
        shared_lock_num_ := 1, IX_lock_num_ := 0 } ∧
    (LockWorld.init.run [.lock_IX_on_table 1 7, .lock_exclusive_on_table 1 7]).lm.queueAt
        (LockDataId.table 7) =
      { request_queue_ := [⟨1, .EXLUCSIVE, true⟩], group_lock_mode_ := .X,
        shared_lock_num_ := 0, IX_lock_num_ := 1 } ∧
    (LockWorld.init.run [.lock_shared_on_table 1 7, .lock_exclusive_on_table 1 7,
        .unlock 1 (LockDataId.table 7)]).lm.queueAt (LockDataId.table 7) =
      { request_queue_ := [], group_lock_mode_ := .NON_LOCK,
        shared_lock_num_ := 1, IX_lock_num_ := 0 } := by
  decide!

/-- C40 (the code at a failing input): on a heap file without record pages,
and on one whose only record page has no slot bit set, the constructor of
`RmScan` finds nothing and leaves `rid_` as it was, so `is_end()` holds
afterwards only if `rid_` happened to hold the end sentinel; with `rid_` at
`(0, 0)` the scan is not at its end, and `beginTuple` of the sequential scan
goes on to `get_record` of `(0, 0)`, where no record is stored. -/
theorem rmscan_on_empty_file_keeps_unset_rid :
    (∀ rid0, RmScan.new noRecordPageFile rid0 = some ⟨rid0⟩) ∧
    (∀ rid0, RmScan.new (onePageFile 0 0) rid0 = some ⟨rid0⟩) ∧
    (RmScan.new noRecordPageFile ⟨0, 0⟩).map RmScan.is_end = some false ∧
    (RmScan.new (onePageFile 0 0) ⟨0, 0⟩).map RmScan.is_end = some false ∧
    (RmScan.new noRecordPageFile ⟨PAGE_END, SLOT_END⟩).map RmScan.is_end = some true ∧
    SeqScanExecutor.beginTuple noRecordPageFile [] scanCols ⟨0, 0⟩ 4 = none := by
  refine ⟨fun _ => rfl, fun _ => rfl, ?_, ?_, ?_, ?_⟩ <;> decide!

theorem set_key_spec (n : IxNode) (i : Nat) (k : List Nat) (hi : i < n.keys.length) :
    n.set_key i k = some { n with keys := n.keys.set i k } := by
  simp [IxNode.set_key, writeSlots_single _ _ _ hi]

theorem set_rid_spec (n : IxNode) (i : Nat) (r : Rid) (hi : i < n.rids.length) :
    n.set_rid i r = some { n with rids := n.rids.set i r } := by
  simp [IxNode.set_rid, writeSlots_single _ _ _ hi]

theorem writeSlots_shift {α : Type} (l : List α) (pos num : Nat) (hp : pos < num)
    (hn : num ≤ l.length) :
    ∃ l2, IxNode.writeSlots l pos ((l.drop (pos + 1)).take (num - pos - 1)) = some l2 ∧
      l2.length = l.length ∧
      ∀ i, i < num - 1 → l2[i]? = if i < pos then l[i]? else l[i + 1]? := by
  have hlen : ((l.drop (pos + 1)).take (num - pos - 1)).length = num - pos - 1 := by
    simp only [List.length_take, List.length_drop]
    omega
  have hw : IxNode.writeSlots l pos ((l.drop (pos + 1)).take (num - pos - 1)) =
      some (l.take pos ++ (l.drop (pos + 1)).take (num - pos - 1) ++
        l.drop (pos + (num - pos - 1))) := by
    unfold IxNode.writeSlots
    rw [hlen, if_pos (by omega)]
  refine ⟨_, hw, ?_, ?_⟩
  · simp only [List.length_append, List.length_take, List.length_drop]
    omega
  · intro i hi
    have h1 : (l.take pos).length = pos := by
      simp only [List.length_take]; omega
    by_cases hlt : i < pos
    · rw [if_pos hlt, List.append_assoc, List.getElem?_append_left (by rw [h1]; exact hlt),
        List.getElem?_take_of_lt hlt]
    · rw [if_neg hlt, List.append_assoc, List.getElem?_append_right (by rw [h1]; omega), h1,
        List.getElem?_append_left (by rw [hlen]; omega),
        List.getElem?_take_of_lt (by omega), List.getElem?_drop]
      congr 1
      omega

theorem erase_pair_spec (n : IxNode) (pos : Nat) (hp : pos < n.num_key)
    (hk : n.num_key ≤ n.keys.length) (hr : n.num_key ≤ n.rids.length) :
    ∃ n2, n.erase_pair pos = some n2 ∧ n2.is_leaf = n.is_leaf ∧ n2.parent = n.parent ∧
      n2.prev_leaf = n.prev_leaf ∧ n2.next_leaf = n.next_leaf ∧
      n2.keys.length = n.keys.length ∧ n2.rids.length = n.rids.length ∧
      n2.num_key = n.num_key - 1 ∧
      (∀ i, i < n.num_key - 1 → n2.keys[i]? = if i < pos then n.keys[i]? else n.keys[i + 1]?) ∧
      (∀ i, i < n.num_key - 1 → n2.rids[i]? = if i < pos then n.rids[i]? else n.rids[i + 1]?) := by
  obtain ⟨ks, hks, hkl, hke⟩ := writeSlots_shift n.keys pos n.num_key hp hk
  obtain ⟨rs, hrs, hrl, hre⟩ := writeSlots_shift n.rids pos n.num_key hp hr
  refine ⟨{ n with keys := ks, rids := rs, num_key := n.num_key - 1 }, ?_, rfl, rfl, rfl, rfl,
    hkl, hrl, rfl, hke, hre⟩
  simp only [IxNode.erase_pair, IxNode.get_size, hp, if_true, hks, hrs]

theorem find_child_loop_congr (n n2 : IxNode) (hr : n2.rids = n.rids) (child : Int) :
    ∀ (cnt i : Nat), IxNode.find_child_loop n2 child cnt i = IxNode.find_child_loop n child cnt i := by
  intro cnt
  induction cnt with
  | zero => intro i; rfl
  | succ cnt ih =>
    intro i
    simp only [IxNode.find_child_loop, IxNode.get_rid, hr, ih]

theorem find_child_congr (n n2 : IxNode) (hr : n2.rids = n.rids) (hn : n2.num_key = n.num_key)
    (child : Int) : n2.find_child child = n.find_child child := by
  unfold IxNode.find_child
  rw [hn]
  exact find_child_loop_congr n n2 hr child _ _

theorem maintain_child_leaf (g : IxIndexHandle) (node_no : Int) (w : IxNode) (i : Nat)
    (hw : g.pages.lookup node_no = some w) (hl : w.is_leaf = true) :
    IxIndexHandle.maintain_child node_no i g = some ((), g) := by
  simp only [IxIndexHandle.maintain_child, bind, IxM.bind, IxIndexHandle.fetch_node, hw,
    Option.map_some', hl, Bool.not_true, Bool.false_eq_true, if_false, pure, IxM.pure]

theorem maintain_child_inner (g : IxIndexHandle) (node_no : Int) (w : IxNode) (i : Nat)
    (r : Rid) (c : IxNode) (hw : g.pages.lookup node_no = some w) (hl : w.is_leaf = false)
    (hr : w.rids[i]? = some r) (hc : g.pages.lookup r.page_no = some c) :
    IxIndexHandle.maintain_child node_no i g =
      some ((), { g with pages := storePage r.page_no { c with parent := node_no } g.pages }) := by
  have hv : w.value_at i = some r.page_no := by
    simp [IxNode.value_at, IxNode.get_rid, hr]
  simp only [IxIndexHandle.maintain_child, bind, IxM.bind, IxIndexHandle.fetch_node, hw,
    Option.map_some', hl, Bool.not_false, if_true, IxIndexHandle.liftOpt, hv, hc,
    IxIndexHandle.put_node]

theorem sameButKeys_refl (m : IxNode) : SameButKeys m m := ⟨rfl, rfl⟩

theorem sameButKeys_trans {m m2 m3 : IxNode} (h12 : SameButKeys m m2) (h23 : SameButKeys m2 m3) :
    SameButKeys m m3 := by
  obtain ⟨a1, a2⟩ := h12
  obtain ⟨b1, b2⟩ := h23
  refine ⟨?_, by rw [b2, a2]⟩
  rw [b1, a1]

theorem sameButKeys_fields {m m2 : IxNode} (h : SameButKeys m m2) :
    m2.num_key = m.num_key ∧ m2.is_leaf = m.is_leaf ∧ m2.rids = m.rids ∧ m2.parent = m.parent ∧
      m2.prev_leaf = m.prev_leaf ∧ m2.next_leaf = m.next_leaf ∧ m2.keys.length = m.keys.length := by
  obtain ⟨h1, h2⟩ := h
  refine ⟨?_, ?_, ?_, ?_, ?_, ?_, h2⟩ <;> rw [h1]

theorem keysOnly_refl (c : List Int) (h : IxIndexHandle) : KeysOnly c h h :=
  ⟨rfl, rfl, fun _ _ => rfl, fun _ m hm => ⟨m, hm, sameButKeys_refl m⟩⟩

theorem keysOnly_trans {c : List Int} {h h2 h3 : IxIndexHandle} (h12 : KeysOnly c h h2)
    (h23 : KeysOnly c h2 h3) : KeysOnly c h h3 := by
  obtain ⟨a1, a2, a3, a4⟩ := h12
  obtain ⟨b1, b2, b3, b4⟩ := h23
  refine ⟨by rw [b1, a1], by rw [b2, a2], fun x hx => by rw [b3 x hx, a3 x hx], ?_⟩
  intro x m hm
  obtain ⟨m2, hm2, hs2⟩ := a4 x m hm
  obtain ⟨m3, hm3, hs3⟩ := b4 x m2 hm2
  exact ⟨m3, hm3, sameButKeys_trans hs2 hs3⟩

theorem parentLinks_transfer (h h2 : IxIndexHandle) :
    ∀ (c : List Int) (child par : Int), ParentLinks h child par c →
      (∀ x, x ∈ c → ∀ m, h.pages.lookup x = some m →
        ∃ m2, h2.pages.lookup x = some m2 ∧ SameButKeys m m2) →
      ParentLinks h2 child par c := by
  intro c
  induction c with
  | nil =>
    intro child par hc _
    exact hc
  | cons q rest ih =>
    intro child par hc hrel
    obtain ⟨hpar, hq, hqr, n, rank, hn, hfind, hrank, hrest⟩ := hc
    obtain ⟨m2, hm2, hs⟩ := hrel q (List.mem_cons_self _ _) n hn
    obtain ⟨f1, _, f3, f4, _, _, f7⟩ := sameButKeys_fields hs
    refine ⟨hpar, hq, hqr, m2, rank, hm2, ?_, by rw [f7]; exact hrank, ?_⟩
    · rw [find_child_congr n m2 f3 f1]
      exact hfind
    · rw [f4]
      exact ih q n.parent hrest (fun x hx => hrel x (List.mem_cons_of_mem _ hx))

theorem parentLinks_mem (h : IxIndexHandle) :
    ∀ (c : List Int) (child par : Int), ParentLinks h child par c →
      ∀ x, x ∈ c → ∃ m, h.pages.lookup x = some m := by
  intro c
  induction c with
  | nil =>
    intro child par _ x hx
    cases hx
  | cons q rest ih =>
    intro child par hc x hx
    obtain ⟨_, _, _, n, rank, hn, _, _, hrest⟩ := hc
    rcases List.mem_cons.mp hx with hxq | hxr
    · rw [hxq]
      exact ⟨n, hn⟩
    · exact ih q n.parent hrest x hxr

theorem parentLinks_nodup (h : IxIndexHandle) :
    ∀ (c : List Int) (child par : Int), ParentLinks h child par c → c.Nodup := by
  intro c
  induction c with
  | nil =>
    intro child par _
    exact List.nodup_nil
  | cons q rest ih =>
    intro child par hc
    obtain ⟨_, _, hqr, n, rank, _, _, _, hrest⟩ := hc
    exact List.nodup_cons.mpr ⟨hqr, ih q n.parent hrest⟩

theorem lookup_some_mem_keys (l : List (Int × IxNode)) (x : Int) (m : IxNode)
    (hx : l.lookup x = some m) : x ∈ l.map Prod.fst := by
  induction l with
  | nil => cases hx
  | cons e rest ih =>
    obtain ⟨i, n⟩ := e
    by_cases hxi : x = i
    · rw [hxi]
      exact List.mem_cons_self _ _
    · have hb : (x == i) = false := beq_eq_false_iff_ne.mpr hxi
      simp only [List.lookup_cons, hb] at hx
      exact List.mem_cons_of_mem _ (ih hx)

theorem parentLinks_length (h : IxIndexHandle) (c : List Int) (child par : Int)
    (hc : ParentLinks h child par c) : c.length ≤ h.pages.length := by
  have hsub : c ⊆ h.pages.map Prod.fst := by
    intro x hx
    obtain ⟨m, hm⟩ := parentLinks_mem h c child par hc x hx
    exact lookup_some_mem_keys _ x m hm
  have := ((parentLinks_nodup h c child par hc).subperm hsub).length_le
  simpa using this

theorem maintain_parent_loop_spec :
    ∀ (c : List Int) (fuel : Nat) (h : IxIndexHandle) (curr_no : Int) (curr : IxNode),
      c.length < fuel → h.pages.lookup curr_no = some curr → 1 ≤ curr.keys.length →
      ParentLinks h curr_no curr.parent c → curr_no ∉ c →
      ∃ h2, IxIndexHandle.maintain_parent_loop fuel curr_no h = some ((), h2) ∧ KeysOnly c h h2 := by
  intro c
  induction c with
  | nil =>
    intro fuel h curr_no curr hfuel hcurr _ hlinks _
    cases fuel with
    | zero => simp at hfuel
    | succ f =>
    have hp : curr.parent = IX_NO_PAGE := hlinks
    refine ⟨h, ?_, keysOnly_refl _ h⟩
    simp only [IxIndexHandle.maintain_parent_loop, bind, IxM.bind, IxIndexHandle.fetch_node,
      hcurr, Option.map_some', hp, ne_eq, not_true_eq_false, if_false, pure, IxM.pure]
  | cons q rest ih =>
    intro fuel h curr_no curr hfuel hcurr hck hlinks hnot
    cases fuel with
    | zero => simp at hfuel
    | succ f =>
    obtain ⟨hpar, hq, hqr, n, rank, hn, hfind, hrank, hrest⟩ := hlinks
    have hcq : curr_no ≠ q := fun hc => hnot (hc ▸ List.mem_cons_self _ _)
    obtain ⟨pk, hpk⟩ : ∃ k, n.keys[rank]? = some k := ⟨_, List.getElem?_eq_getElem hrank⟩
    obtain ⟨ck, hckk⟩ : ∃ k, curr.keys[0]? = some k :=
      ⟨_, List.getElem?_eq_getElem (by omega)⟩
    have hpne : curr.parent ≠ IX_NO_PAGE := by rw [hpar]; exact hq
    by_cases heq : memcmp pk ck h.file_hdr_.col_tot_len_ = 0
    · refine ⟨h, ?_, keysOnly_refl _ h⟩
      simp only [IxIndexHandle.maintain_parent_loop, bind, IxM.bind, IxIndexHandle.fetch_node,
        hcurr, Option.map_some', hpne, hq, ne_eq, not_false_eq_true, if_true, hpar, hn,
        IxIndexHandle.liftOpt, hfind, IxNode.get_key, hpk, hckk, IxIndexHandle.hdr, heq,
        pure, IxM.pure]
    · let n2 : IxNode := { n with keys := n.keys.set rank ck }
      let h1 : IxIndexHandle := { h with pages := storePage q n2 h.pages }
      have h1l : ∀ x, h1.pages.lookup x = if x = q then some n2 else h.pages.lookup x := by
        intro x
        show (storePage _ _ h.pages).lookup x = _
        rw [lookup_storePage]
      have hstep : IxIndexHandle.maintain_parent_loop (f + 1) curr_no h =
          IxIndexHandle.maintain_parent_loop f q h1 := by
        simp only [IxIndexHandle.maintain_parent_loop, bind, IxM.bind, IxIndexHandle.fetch_node,
          hcurr, Option.map_some', hpne, hq, ne_eq, not_false_eq_true, if_true, hpar, hn,
          IxIndexHandle.liftOpt, hfind, IxNode.get_key, hpk, hckk, IxIndexHandle.hdr, heq,
          if_false, set_key_spec n rank ck hrank, IxIndexHandle.put_node]
      have hrel : ∀ x m, h.pages.lookup x = some m →
          ∃ m2, h1.pages.lookup x = some m2 ∧ SameButKeys m m2 := by
        intro x m hm
        by_cases hxq : x = q
        · rw [hxq, hn] at hm
          cases hm
          exact ⟨n2, by rw [h1l, if_pos hxq], rfl, by simp [n2]⟩
        · exact ⟨m, by rw [h1l, if_neg hxq]; exact hm, sameButKeys_refl m⟩
      obtain ⟨h2, hrun, hk1, hk2, hk3, hk4⟩ :=
        ih f h1 q n2 (by simp at hfuel; omega) (by rw [h1l, if_pos rfl])
          (by show 1 ≤ (n.keys.set rank ck).length; rw [List.length_set]; omega)
          (parentLinks_transfer h h1 rest q n.parent hrest (fun x _ m hm => hrel x m hm)) hqr
      refine ⟨h2, by rw [hstep]; exact hrun, by rw [hk1], by rw [hk2], ?_, ?_⟩
      · intro x hx
        have hxq : x ≠ q := fun hc => hx (hc ▸ List.mem_cons_self _ _)
        have hxr : x ∉ rest := fun hc => hx (List.mem_cons_of_mem _ hc)
        rw [hk3 x hxr, h1l, if_neg hxq]
      · intro x m hm
        obtain ⟨m1, hm1, hs1⟩ := hrel x m hm
        obtain ⟨m2, hm2, hs2⟩ := hk4 x m1 hm1
        exact ⟨m2, hm2, sameButKeys_trans hs1 hs2⟩

theorem maintain_parent_spec (c : List Int) (h : IxIndexHandle) (curr_no : Int) (curr : IxNode)
    (hcurr : h.pages.lookup curr_no = some curr) (hk : 1 ≤ curr.keys.length)
    (hlinks : ParentLinks h curr_no curr.parent c) (hnot : curr_no ∉ c) :
    ∃ h2, IxIndexHandle.maintain_parent curr_no h = some ((), h2) ∧ KeysOnly c h h2 := by
  have hlen := parentLinks_length h c curr_no curr.parent hlinks
  obtain ⟨h2, hrun, hk2⟩ := maintain_parent_loop_spec c (h.pages.length + 1) h curr_no curr
    (by omega) hcurr hk hlinks hnot
  refine ⟨h2, ?_, hk2⟩
  simp only [IxIndexHandle.maintain_parent, bind, IxM.bind, IxM.handle, hrun]

theorem redistribute_left_spec (g : IxIndexHandle) (node_no nb_no p : Int) (index : Nat)
    (node nb par : IxNode) (avoid : List Int)
    (hnode : g.pages.lookup node_no = some node) (hnb : g.pages.lookup nb_no = some nb)
    (hpar : g.pages.lookup p = some par)
    (h1 : node_no ≠ nb_no) (h2 : node_no ≠ p) (h3 : nb_no ≠ p)
    (hidx : index ≠ 0) (hnbpos : 1 ≤ nb.num_key)
    (hnbk : nb.num_key ≤ nb.keys.length) (hnbr : nb.num_key ≤ nb.rids.length)
    (hnk : node.num_key < node.keys.length) (hnr : node.num_key < node.rids.length)
    (hpk : index < par.keys.length)
    (hkid : node.is_leaf = true ∨ ∃ r c, nb.rids[nb.num_key - 1]? = some r ∧
      g.pages.lookup r.page_no = some c ∧ r.page_no ≠ node_no ∧ r.page_no ≠ nb_no ∧
      r.page_no ≠ p ∧ r.page_no ∉ avoid) :
    ∃ g2 node2 nb2 par2, IxIndexHandle.redistribute nb_no node_no p index g = some ((), g2) ∧
      g2.file_hdr_ = g.file_hdr_ ∧ g2.next_page_no = g.next_page_no ∧
      g2.pages.lookup node_no = some node2 ∧ g2.pages.lookup nb_no = some nb2 ∧
      g2.pages.lookup p = some par2 ∧ SameButKeys par par2 ∧
      (∀ x, x ∈ avoid → x ≠ node_no → x ≠ nb_no → x ≠ p →
        g2.pages.lookup x = g.pages.lookup x) ∧
      node2.is_leaf = node.is_leaf ∧ node2.parent = node.parent ∧
      node2.keys.length = node.keys.length ∧ node2.rids.length = node.rids.length ∧
      node2.num_key = node.num_key + 1 ∧
      node2.keys[0]? = nb.keys[nb.num_key - 1]? ∧ node2.rids[0]? = nb.rids[nb.num_key - 1]? ∧
      (∀ j, j < node.num_key →
        node2.keys[j + 1]? = node.keys[j]? ∧ node2.rids[j + 1]? = node.rids[j]?) ∧
      nb2.is_leaf = nb.is_leaf ∧ nb2.parent = nb.parent ∧
      nb2.keys.length = nb.keys.length ∧ nb2.rids.length = nb.rids.length ∧
      nb2.num_key = nb.num_key - 1 ∧
      (∀ j, j < nb.num_key - 1 → nb2.keys[j]? = nb.keys[j]? ∧ nb2.rids[j]? = nb.rids[j]?) := by
  obtain ⟨k, hk⟩ : ∃ k, nb.keys[nb.num_key - 1]? = some k :=
    ⟨_, List.getElem?_eq_getElem (by omega)⟩
  obtain ⟨r, hr⟩ : ∃ r, nb.rids[nb.num_key - 1]? = some r :=
    ⟨_, List.getElem?_eq_getElem (by omega)⟩
  obtain ⟨node2, hins, a1, a2, _, _, a5, a6, a7, a8, a9⟩ :=
    insert_pair_room node 0 k r (Nat.zero_le _) hnk hnr
  obtain ⟨nb2, hers, b1, b2, _, _, b5, b6, b7, b8, b9⟩ :=
    erase_pair_spec nb (nb.num_key - 1) (by omega) hnbk hnbr
  have hk0 : node2.keys[0]? = some k := by
    rw [a9 0 (by omega)]
    simp
  have hr0 : node2.rids[0]? = some r := by
    rw [a8 0 (by omega)]
    simp
  let par2 : IxNode := { par with keys := par.keys.set index k }
  let P : List (Int × IxNode) :=
    storePage p par2 (storePage nb_no nb2 (storePage node_no node2 g.pages))
  have hP : ∀ x, P.lookup x = if x = p then some par2 else if x = nb_no then some nb2
      else if x = node_no then some node2 else g.pages.lookup x := by
    intro x
    show (storePage p par2 (storePage nb_no nb2 (storePage node_no node2 g.pages))).lookup x = _
    simp only [lookup_storePage]
  have h1s : ¬ nb_no = node_no := fun hc => h1 hc.symm
  have h2s : ¬ p = node_no := fun hc => h2 hc.symm
  have h3s : ¬ p = nb_no := fun hc => h3 hc.symm
  have hnb0 : ¬ nb.num_key = 0 := by omega
  have hhead : IxIndexHandle.redistribute nb_no node_no p index g =
      IxIndexHandle.maintain_child node_no 0 { g with pages := P } := by
    simp only [IxIndexHandle.redistribute, hidx, ne_eq, not_false_eq_true, if_true, bind,
      IxM.bind, IxIndexHandle.fetch_node, hnb, hnode, hpar, Option.map_some', IxNode.get_size,
      hnb0, if_false, pure, IxM.pure, IxIndexHandle.liftOpt, IxNode.get_key, IxNode.get_rid, hk,
      hr, hins, IxIndexHandle.put_node, lookup_storePage, h1, h2, h3, h1s, h2s, h3s, hers, hk0,
      set_key_spec par index k hpk]
  have hnodeP : ({ g with pages := P } : IxIndexHandle).pages.lookup node_no = some node2 := by
    show P.lookup node_no = _
    rw [hP, if_neg h2, if_neg h1, if_pos rfl]
  have hfacts : node2.is_leaf = node.is_leaf ∧ node2.parent = node.parent ∧
      node2.keys.length = node.keys.length ∧ node2.rids.length = node.rids.length ∧
      node2.num_key = node.num_key + 1 ∧
      node2.keys[0]? = nb.keys[nb.num_key - 1]? ∧ node2.rids[0]? = nb.rids[nb.num_key - 1]? ∧
      (∀ j, j < node.num_key →
        node2.keys[j + 1]? = node.keys[j]? ∧ node2.rids[j + 1]? = node.rids[j]?) ∧
      nb2.is_leaf = nb.is_leaf ∧ nb2.parent = nb.parent ∧
      nb2.keys.length = nb.keys.length ∧ nb2.rids.length = nb.rids.length ∧
      nb2.num_key = nb.num_key - 1 ∧
      (∀ j, j < nb.num_key - 1 → nb2.keys[j]? = nb.keys[j]? ∧ nb2.rids[j]? = nb.rids[j]?) := by
    refine ⟨a1, a2, a5, a6, a7, by rw [hk0, hk], by rw [hr0, hr], ?_, b1, b2, b5, b6, b7, ?_⟩
    · intro j hj
      rw [a9 (j + 1) (by omega), a8 (j + 1) (by omega)]
      simp
    · intro j hj
      rw [b8 j hj, b9 j hj, if_pos hj, if_pos hj]
      exact ⟨rfl, rfl⟩
  have hspar : SameButKeys par par2 := ⟨rfl, by simp [par2]⟩
  by_cases hleaf : node.is_leaf = true
  · refine ⟨{ g with pages := P }, node2, nb2, par2, ?_, rfl, rfl, hnodeP, ?_, ?_, hspar, ?_,
      hfacts⟩
    · rw [hhead]
      exact maintain_child_leaf _ node_no node2 0 hnodeP (by rw [a1]; exact hleaf)
    · show P.lookup nb_no = _
      rw [hP, if_neg h3, if_pos rfl]
    · show P.lookup p = _
      rw [hP, if_pos rfl]
    · intro x _ hx1 hx2 hx3
      show P.lookup x = _
      rw [hP, if_neg hx3, if_neg hx2, if_neg hx1]
  · rcases hkid with hl | ⟨r2, c, hr2, hc, hc1, hc2, hc3, hc4⟩
    · exact absurd hl hleaf
    · rw [hr] at hr2
      cases hr2
      have hcP : ({ g with pages := P } : IxIndexHandle).pages.lookup r.page_no = some c := by
        show P.lookup r.page_no = _
        rw [hP, if_neg hc3, if_neg hc2, if_neg hc1]
        exact hc
      have hrun := maintain_child_inner { g with pages := P } node_no node2 0 r c hnodeP
        (by rw [a1]; simpa using hleaf) hr0 hcP
      have hQ : ∀ x, (storePage r.page_no { c with parent := node_no } P).lookup x =
          if x = r.page_no then some { c with parent := node_no } else P.lookup x := by
        intro x
        rw [lookup_storePage]
      refine ⟨{ g with pages := storePage r.page_no { c with parent := node_no } P }, node2, nb2,
        par2, by rw [hhead]; exact hrun, rfl, rfl, ?_, ?_, ?_, hspar, ?_, hfacts⟩
      · show (storePage r.page_no { c with parent := node_no } P).lookup node_no = _
        rw [hQ, if_neg (Ne.symm hc1), hP, if_neg h2, if_neg h1, if_pos rfl]
      · show (storePage r.page_no { c with parent := node_no } P).lookup nb_no = _
        rw [hQ, if_neg (Ne.symm hc2), hP, if_neg h3, if_pos rfl]
      · show (storePage r.page_no { c with parent := node_no } P).lookup p = _
        rw [hQ, if_neg (Ne.symm hc3), hP, if_pos rfl]
      · intro x hxa hx1 hx2 hx3
        have hxr : x ≠ r.page_no := fun hcc => hc4 (hcc ▸ hxa)
        show (storePage r.page_no { c with parent := node_no } P).lookup x = _
        rw [hQ, if_neg hxr, hP, if_neg hx3, if_neg hx2, if_neg hx1]

theorem redistribute_right_spec (g : IxIndexHandle) (node_no nb_no p : Int)
    (node nb par : IxNode) (avoid : List Int)
    (hnode : g.pages.lookup node_no = some node) (hnb : g.pages.lookup nb_no = some nb)
    (hpar : g.pages.lookup p = some par)
    (h1 : node_no ≠ nb_no) (h2 : node_no ≠ p) (h3 : nb_no ≠ p)
    (hnbpos : 1 ≤ nb.num_key)
    (hnbk : nb.num_key ≤ nb.keys.length) (hnbr : nb.num_key ≤ nb.rids.length)
    (hnk : node.num_key < node.keys.length) (hnr : node.num_key < node.rids.length)
    (hpk : 1 < par.keys.length)
    (hkid : node.is_leaf = true ∨ ∃ r c, nb.rids[0]? = some r ∧
      g.pages.lookup r.page_no = some c ∧ r.page_no ≠ node_no ∧ r.page_no ≠ nb_no ∧
      r.page_no ≠ p ∧ r.page_no ∉ avoid) :
    ∃ g2 node2 nb2 par2, IxIndexHandle.redistribute nb_no node_no p 0 g = some ((), g2) ∧
      g2.file_hdr_ = g.file_hdr_ ∧ g2.next_page_no = g.next_page_no ∧
      g2.pages.lookup node_no = some node2 ∧ g2.pages.lookup nb_no = some nb2 ∧
      g2.pages.lookup p = some par2 ∧ SameButKeys par par2 ∧
      (∀ x, x ∈ avoid → x ≠ node_no → x ≠ nb_no → x ≠ p →
        g2.pages.lookup x = g.pages.lookup x) ∧
      node2.is_leaf = node.is_leaf ∧ node2.parent = node.parent ∧
      node2.keys.length = node.keys.length ∧ node2.rids.length = node.rids.length ∧
      node2.num_key = node.num_key + 1 ∧
      node2.keys[node.num_key]? = nb.keys[0]? ∧ node2.rids[node.num_key]? = nb.rids[0]? ∧
      (∀ j, j < node.num_key → node2.keys[j]? = node.keys[j]? ∧ node2.rids[j]? = node.rids[j]?) ∧
      nb2.is_leaf = nb.is_leaf ∧ nb2.parent = nb.parent ∧
      nb2.keys.length = nb.keys.length ∧ nb2.rids.length = nb.rids.length ∧
      nb2.num_key = nb.num_key - 1 ∧
      (∀ j, j < nb.num_key - 1 →
        nb2.keys[j]? = nb.keys[j + 1]? ∧ nb2.rids[j]? = nb.rids[j + 1]?) := by
  obtain ⟨k, hk⟩ : ∃ k, nb.keys[0]? = some k := ⟨_, List.getElem?_eq_getElem (by omega)⟩
  obtain ⟨r, hr⟩ : ∃ r, nb.rids[0]? = some r := ⟨_, List.getElem?_eq_getElem (by omega)⟩
  obtain ⟨node2, hins, a1, a2, _, _, a5, a6, a7, a8, a9⟩ :=
    insert_pair_room node node.num_key k r (le_refl _) hnk hnr
  obtain ⟨nb2, hers, b1, b2, _, _, b5, b6, b7, b8, b9⟩ :=
    erase_pair_spec nb 0 (by omega) hnbk hnbr
  have hkl : node2.keys[node.num_key]? = some k := by
    rw [a9 node.num_key (by omega)]
    simp
  have hrl : node2.rids[node.num_key]? = some r := by
    rw [a8 node.num_key (by omega)]
    simp
  obtain ⟨k0, hk0⟩ : ∃ k0, nb2.keys[0]? = some k0 :=
    ⟨_, List.getElem?_eq_getElem (by rw [b5]; omega)⟩
  let par2 : IxNode := { par with keys := par.keys.set 1 k0 }
  let P : List (Int × IxNode) :=
    storePage p par2 (storePage nb_no nb2 (storePage node_no node2 g.pages))
  have hP : ∀ x, P.lookup x = if x = p then some par2 else if x = nb_no then some nb2
      else if x = node_no then some node2 else g.pages.lookup x := by
    intro x
    show (storePage p par2 (storePage nb_no nb2 (storePage node_no node2 g.pages))).lookup x = _
    simp only [lookup_storePage]
  have h1s : ¬ nb_no = node_no := fun hc => h1 hc.symm
  have h2s : ¬ p = node_no := fun hc => h2 hc.symm
  have h3s : ¬ p = nb_no := fun hc => h3 hc.symm
  have hn20 : ¬ node2.num_key = 0 := by omega
  have hsz : node2.num_key - 1 = node.num_key := by omega
  have hhead : IxIndexHandle.redistribute nb_no node_no p 0 g =
      IxIndexHandle.maintain_child node_no node.num_key { g with pages := P } := by
    simp only [IxIndexHandle.redistribute, ne_eq, not_true_eq_false, if_false, bind,
      IxM.bind, IxIndexHandle.fetch_node, hnb, hnode, hpar, Option.map_some', IxNode.get_size,
      pure, IxM.pure, IxIndexHandle.liftOpt, IxNode.get_key, IxNode.get_rid, hk,
      hr, hins, IxIndexHandle.put_node, lookup_storePage, h1, h2, h3, h1s, h2s, h3s, hers, hk0,
      set_key_spec par 1 k0 hpk, if_true, hn20, hsz]
  have hnodeP : ({ g with pages := P } : IxIndexHandle).pages.lookup node_no = some node2 := by
    show P.lookup node_no = _
    rw [hP, if_neg h2, if_neg h1, if_pos rfl]
  have hfacts : node2.is_leaf = node.is_leaf ∧ node2.parent = node.parent ∧
      node2.keys.length = node.keys.length ∧ node2.rids.length = node.rids.length ∧
      node2.num_key = node.num_key + 1 ∧
      node2.keys[node.num_key]? = nb.keys[0]? ∧ node2.rids[node.num_key]? = nb.rids[0]? ∧
      (∀ j, j < node.num_key → node2.keys[j]? = node.keys[j]? ∧ node2.rids[j]? = node.rids[j]?) ∧
      nb2.is_leaf = nb.is_leaf ∧ nb2.parent = nb.parent ∧
      nb2.keys.length = nb.keys.length ∧ nb2.rids.length = nb.rids.length ∧
      nb2.num_key = nb.num_key - 1 ∧
      (∀ j, j < nb.num_key - 1 →
        nb2.keys[j]? = nb.keys[j + 1]? ∧ nb2.rids[j]? = nb.rids[j + 1]?) := by
    refine ⟨a1, a2, a5, a6, a7, by rw [hkl, hk], by rw [hrl, hr], ?_, b1, b2, b5, b6, b7, ?_⟩
    · intro j hj
      rw [a9 j (by omega), a8 j (by omega), if_pos hj, if_pos hj]
      exact ⟨rfl, rfl⟩
    · intro j hj
      rw [b8 j hj, b9 j hj]
      simp
  have hspar : SameButKeys par par2 := ⟨rfl, by simp [par2]⟩
  by_cases hleaf : node.is_leaf = true
  · refine ⟨{ g with pages := P }, node2, nb2, par2, ?_, rfl, rfl, hnodeP, ?_, ?_, hspar, ?_,
      hfacts⟩
    · rw [hhead]
      exact maintain_child_leaf _ node_no node2 _ hnodeP (by rw [a1]; exact hleaf)
    · show P.lookup nb_no = _
      rw [hP, if_neg h3, if_pos rfl]
    · show P.lookup p = _
      rw [hP, if_pos rfl]
    · intro x _ hx1 hx2 hx3
      show P.lookup x = _
      rw [hP, if_neg hx3, if_neg hx2, if_neg hx1]
  · rcases hkid with hl | ⟨r2, c, hr2, hc, hc1, hc2, hc3, hc4⟩
    · exact absurd hl hleaf
    · rw [hr] at hr2
      cases hr2
      have hcP : ({ g with pages := P } : IxIndexHandle).pages.lookup r.page_no = some c := by
        show P.lookup r.page_no = _
        rw [hP, if_neg hc3, if_neg hc2, if_neg hc1]
        exact hc
      have hrun := maintain_child_inner { g with pages := P } node_no node2 node.num_key r c
        hnodeP (by rw [a1]; simpa using hleaf) hrl hcP
      have hQ : ∀ x, (storePage r.page_no { c with parent := node_no } P).lookup x =
          if x = r.page_no then some { c with parent := node_no } else P.lookup x := by
        intro x
        rw [lookup_storePage]
      refine ⟨{ g with pages := storePage r.page_no { c with parent := node_no } P }, node2, nb2,
        par2, by rw [hhead]; exact hrun, rfl, rfl, ?_, ?_, ?_, hspar, ?_, hfacts⟩
      · show (storePage r.page_no { c with parent := node_no } P).lookup node_no = _
        rw [hQ, if_neg (Ne.symm hc1), hP, if_neg h2, if_neg h1, if_pos rfl]
      · show (storePage r.page_no { c with parent := node_no } P).lookup nb_no = _
        rw [hQ, if_neg (Ne.symm hc2), hP, if_neg h3, if_pos rfl]
      · show (storePage r.page_no { c with parent := node_no } P).lookup p = _
        rw [hQ, if_neg (Ne.symm hc3), hP, if_pos rfl]
      · intro x hxa hx1 hx2 hx3
        have hxr : x ≠ r.page_no := fun hcc => hc4 (hcc ▸ hxa)
        show (storePage r.page_no { c with parent := node_no } P).lookup x = _
        rw [hQ, if_neg hxr, hP, if_neg hx3, if_neg hx2, if_neg hx1]

theorem coalesceMove_spec (L R : Int) (hLR : L ≠ R) (Rn : IxNode) (Lsize : Nat)
    (avoid : List Int) (hRk : Rn.num_key ≤ Rn.keys.length) (hRr : Rn.num_key ≤ Rn.rids.length) :
    ∀ (cnt i : Nat) (g : IxIndexHandle) (Lc : IxNode),
      g.pages.lookup L = some Lc → g.pages.lookup R = some Rn →
      Lc.num_key = Lsize + i → i + cnt ≤ Rn.num_key →
      Lsize + i + cnt ≤ Lc.keys.length → Lsize + i + cnt ≤ Lc.rids.length →
      (Lc.is_leaf = true ∨ ∀ j, i ≤ j → j < i + cnt →
        ∃ r, Rn.rids[j]? = some r ∧ (∃ c, g.pages.lookup r.page_no = some c) ∧
          r.page_no ≠ L ∧ r.page_no ≠ R ∧ r.page_no ∉ avoid) →
      ∃ g2 L2, IxIndexHandle.coalesceMove L R Lsize cnt i g = some ((), g2) ∧
        g2.file_hdr_ = g.file_hdr_ ∧ g2.next_page_no = g.next_page_no ∧
        g2.pages.lookup L = some L2 ∧ g2.pages.lookup R = some Rn ∧
        L2.num_key = Lsize + i + cnt ∧ L2.is_leaf = Lc.is_leaf ∧ L2.parent = Lc.parent ∧
        L2.prev_leaf = Lc.prev_leaf ∧ L2.next_leaf = Lc.next_leaf ∧
        L2.keys.length = Lc.keys.length ∧ L2.rids.length = Lc.rids.length ∧
        (∀ j, j < Lsize + i → L2.keys[j]? = Lc.keys[j]? ∧ L2.rids[j]? = Lc.rids[j]?) ∧
        (∀ j, i ≤ j → j < i + cnt →
          L2.keys[Lsize + j]? = Rn.keys[j]? ∧ L2.rids[Lsize + j]? = Rn.rids[j]?) ∧
        (∀ x, x ∈ avoid → x ≠ L → x ≠ R → g2.pages.lookup x = g.pages.lookup x) ∧
        (∀ x m, g.pages.lookup x = some m → ∃ m2, g2.pages.lookup x = some m2) := by
  intro cnt
  induction cnt with
  | zero =>
    intro i g Lc hL hR hsz _ _ _ _
    refine ⟨g, Lc, rfl, rfl, rfl, hL, hR, by omega, rfl, rfl, rfl, rfl, rfl, rfl,
      fun j _ => ⟨rfl, rfl⟩, fun j h1 h2 => by omega, fun _ _ _ _ => rfl,
      fun x m hm => ⟨m, hm⟩⟩
  | succ cnt ih =>
    intro i g Lc hL hR hsz hcnt hLk hLr hkids
    obtain ⟨k, hk⟩ : ∃ k, Rn.keys[i]? = some k := ⟨_, List.getElem?_eq_getElem (by omega)⟩
    obtain ⟨r, hr⟩ : ∃ r, Rn.rids[i]? = some r := ⟨_, List.getElem?_eq_getElem (by omega)⟩
    obtain ⟨L1, hins, a1, a2, a3, a4, a5, a6, a7, a8, a9⟩ :=
      insert_pair_room Lc (Lsize + i) k r (by omega) (by omega) (by omega)
    let g1 : IxIndexHandle := { g with pages := storePage L L1 g.pages }
    have hg1 : ∀ x, g1.pages.lookup x = if x = L then some L1 else g.pages.lookup x := by
      intro x
      show (storePage _ _ g.pages).lookup x = _
      rw [lookup_storePage]
    have hL1 : g1.pages.lookup L = some L1 := by rw [hg1, if_pos rfl]
    have hRL : ¬ R = L := fun hc => hLR hc.symm
    have hhead : IxIndexHandle.coalesceMove L R Lsize (cnt + 1) i g =
        (IxIndexHandle.maintain_child L (Lsize + i) >>= fun _ =>
          IxIndexHandle.coalesceMove L R Lsize cnt (i + 1)) g1 := by
      simp only [IxIndexHandle.coalesceMove, bind, IxM.bind, IxIndexHandle.fetch_node, hR, hL,
        Option.map_some', IxIndexHandle.liftOpt, IxNode.get_key, IxNode.get_rid, hk, hr, hins,
        IxIndexHandle.put_node]
    have hkl : L1.keys[Lsize + i]? = some k := by
      rw [a9 (Lsize + i) (by omega)]
      simp
    have hrl : L1.rids[Lsize + i]? = some r := by
      rw [a8 (Lsize + i) (by omega)]
      simp
    -- the state after `maintain_child`
    have hmc : ∃ g1b, IxIndexHandle.maintain_child L (Lsize + i) g1 = some ((), g1b) ∧
        g1b.file_hdr_ = g.file_hdr_ ∧ g1b.next_page_no = g.next_page_no ∧
        g1b.pages.lookup L = some L1 ∧ g1b.pages.lookup R = some Rn ∧
        (∀ x, x ∈ avoid → x ≠ L → x ≠ R → g1b.pages.lookup x = g.pages.lookup x) ∧
        (∀ x m, g.pages.lookup x = some m → ∃ m2, g1b.pages.lookup x = some m2) := by
      by_cases hleaf : Lc.is_leaf = true
      · refine ⟨g1, maintain_child_leaf g1 L L1 _ hL1 (by rw [a1]; exact hleaf), rfl, rfl, hL1,
          by rw [hg1, if_neg hRL]; exact hR, ?_, ?_⟩
        · intro x _ hx1 _
          rw [hg1, if_neg hx1]
        · intro x m hm
          rw [hg1]
          split
          · exact ⟨_, rfl⟩
          · exact ⟨m, hm⟩
      · rcases hkids with hl | hk2
        · exact absurd hl hleaf
        · obtain ⟨r2, hr2, ⟨c, hc⟩, hc1, hc2, hc3⟩ := hk2 i (le_refl _) (by omega)
          rw [hr] at hr2
          cases hr2
          have hc1b : g1.pages.lookup r.page_no = some c := by
            rw [hg1, if_neg hc1]
            exact hc
          have hrun := maintain_child_inner g1 L L1 (Lsize + i) r c hL1
            (by rw [a1]; simpa using hleaf) hrl hc1b
          have hQ : ∀ x, (storePage r.page_no { c with parent := L } g1.pages).lookup x =
              if x = r.page_no then some { c with parent := L } else g1.pages.lookup x := by
            intro x
            rw [lookup_storePage]
          refine ⟨{ g1 with pages := storePage r.page_no { c with parent := L } g1.pages },
            hrun, rfl, rfl, ?_, ?_, ?_, ?_⟩
          · show (storePage r.page_no { c with parent := L } g1.pages).lookup L = _
            rw [hQ, if_neg (Ne.symm hc1), hL1]
          · show (storePage r.page_no { c with parent := L } g1.pages).lookup R = _
            rw [hQ, if_neg (Ne.symm hc2), hg1, if_neg hRL]
            exact hR
          · intro x hxa hx1 _
            have hxr : x ≠ r.page_no := fun hcc => hc3 (hcc ▸ hxa)
            show (storePage r.page_no { c with parent := L } g1.pages).lookup x = _
            rw [hQ, if_neg hxr, hg1, if_neg hx1]
          · intro x m hm
            show ∃ m2, (storePage r.page_no { c with parent := L } g1.pages).lookup x = some m2
            rw [hQ, hg1]
            split
            · exact ⟨_, rfl⟩
            · split
              · exact ⟨_, rfl⟩
              · exact ⟨m, hm⟩
    obtain ⟨g1b, hmrun, hm1, hm2, hmL, hmR, hmav, hmpers⟩ := hmc
    obtain ⟨g2, L2, hrun, c1, c2, c3, c4, c5, c6, c7, c8, c9, c10, c11, c12, c13, c14, c15⟩ :=
      ih (i + 1) g1b L1 hmL hmR (by rw [a7, hsz]; omega) (by omega)
        (by rw [a5]; omega) (by rw [a6]; omega)
        (by
          rcases hkids with hl | hk2
          · left
            rw [a1]
            exact hl
          · right
            intro j hj1 hj2
            obtain ⟨r2, hr2, ⟨c, hc⟩, hd1, hd2, hd3⟩ := hk2 j (by omega) (by omega)
            obtain ⟨m2, hm2b⟩ := hmpers _ _ hc
            exact ⟨r2, hr2, ⟨m2, hm2b⟩, hd1, hd2, hd3⟩)
    refine ⟨g2, L2, ?_, by rw [c1, hm1], by rw [c2, hm2], c3, c4, by rw [c5]; omega,
      by rw [c6, a1], by rw [c7, a2], by rw [c8, a3], by rw [c9, a4], by rw [c10, a5],
      by rw [c11, a6], ?_, ?_, ?_, ?_⟩
    · rw [hhead]
      show IxM.bind _ _ g1 = _
      unfold IxM.bind
      rw [hmrun]
      exact hrun
    · intro j hj
      have := c12 j (by omega)
      rw [this.1, this.2, a9 j (by omega), a8 j (by omega), if_pos hj, if_pos hj]
      exact ⟨rfl, rfl⟩
    · intro j hj1 hj2
      by_cases hji : j = i
      · subst hji
        have := c12 (Lsize + j) (by omega)
        rw [this.1, this.2, hkl, hrl, hk, hr]
        exact ⟨rfl, rfl⟩
      · exact c13 j (by omega) (by omega)
    · intro x hxa hx1 hx2
      rw [c14 x hxa hx1 hx2, hmav x hxa hx1 hx2]
    · intro x m hm
      obtain ⟨m1, hm1b⟩ := hmpers x m hm
      exact c15 x m1 hm1b

theorem updateLastLeaf_eq (a b : Int) (g : IxIndexHandle) :
    IxIndexHandle.updateLastLeaf a b g = some ((), { g with file_hdr_ := { g.file_hdr_ with
      last_leaf_ := if a = g.file_hdr_.last_leaf_ then b else g.file_hdr_.last_leaf_ } }) := by
  by_cases hl : a = g.file_hdr_.last_leaf_
  · simp only [IxIndexHandle.updateLastLeaf, bind, IxM.bind, IxIndexHandle.hdr, ← hl, if_true,
      IxIndexHandle.set_hdr]
  · simp only [IxIndexHandle.updateLastLeaf, bind, IxM.bind, IxIndexHandle.hdr, hl, if_false,
      pure, IxM.pure]

theorem insertLeaf_false_spec (originNo newNo : Int) (g : IxIndexHandle) (o w : IxNode)
    (ho : g.pages.lookup originNo = some o) (hw : g.pages.lookup newNo = some w)
    (hnext : o.next_leaf = INVALID_PAGE_ID ∨
      (o.next_leaf ≠ newNo ∧ ∃ nn, g.pages.lookup o.next_leaf = some nn)) :
    ∃ g2, IxIndexHandle.insertLeaf originNo newNo false g = some ((), g2) ∧
      g2.file_hdr_ = g.file_hdr_ ∧ g2.next_page_no = g.next_page_no ∧
      g2.pages.lookup newNo = some { w with next_leaf := o.next_leaf } ∧
      (∀ x, x ≠ newNo → (o.next_leaf = INVALID_PAGE_ID ∨ x ≠ o.next_leaf) →
        g2.pages.lookup x = g.pages.lookup x) ∧
      (∀ x m, g.pages.lookup x = some m → ∃ m2, g2.pages.lookup x = some m2) := by
  let w1 : IxNode := { w with next_leaf := o.next_leaf }
  have hhead : IxIndexHandle.insertLeaf originNo newNo false g =
      (if w1.next_leaf ≠ INVALID_PAGE_ID then
        (IxIndexHandle.fetch_node w1.next_leaf).bind (fun nextNode =>
          IxIndexHandle.put_node w1.next_leaf { nextNode with prev_leaf := newNo })
       else IxM.pure ()) { g with pages := storePage newNo w1 g.pages } := by
    simp only [IxIndexHandle.insertLeaf, bind, IxM.bind, IxIndexHandle.fetch_node, ho, hw,
      Option.map_some', IxIndexHandle.put_node, lookup_storePage, if_true, Bool.false_eq_true,
      if_false, pure, IxM.pure]
  have hP : ∀ x, (storePage newNo w1 g.pages).lookup x =
      if x = newNo then some w1 else g.pages.lookup x := by
    intro x
    rw [lookup_storePage]
  by_cases hinv : o.next_leaf = INVALID_PAGE_ID
  · refine ⟨{ g with pages := storePage newNo w1 g.pages }, ?_, rfl, rfl, ?_, ?_, ?_⟩
    · rw [hhead]
      have : ¬ (w1.next_leaf ≠ INVALID_PAGE_ID) := by
        show ¬ (o.next_leaf ≠ INVALID_PAGE_ID)
        simp [hinv]
      rw [if_neg this]
      rfl
    · show (storePage newNo w1 g.pages).lookup newNo = _
      rw [hP, if_pos rfl]
    · intro x hx _
      show (storePage newNo w1 g.pages).lookup x = _
      rw [hP, if_neg hx]
    · intro x m hm
      show ∃ m2, (storePage newNo w1 g.pages).lookup x = some m2
      rw [hP]
      split
      · exact ⟨_, rfl⟩
      · exact ⟨m, hm⟩
  · rcases hnext with hc | ⟨hnn, nn, hnl⟩
    · exact absurd hc hinv
    · have hcond : w1.next_leaf ≠ INVALID_PAGE_ID := hinv
      have hf : IxIndexHandle.fetch_node o.next_leaf
          ({ g with pages := storePage newNo w1 g.pages } : IxIndexHandle) =
          some (nn, { g with pages := storePage newNo w1 g.pages }) := by
        apply fetch_node_some
        show (storePage newNo w1 g.pages).lookup o.next_leaf = _
        rw [hP, if_neg hnn]
        exact hnl
      let P2 : List (Int × IxNode) :=
        storePage o.next_leaf { nn with prev_leaf := newNo } (storePage newNo w1 g.pages)
      refine ⟨{ g with pages := P2 }, ?_, rfl, rfl, ?_, ?_, ?_⟩
      · rw [hhead, if_pos hcond]
        show IxM.bind (IxIndexHandle.fetch_node o.next_leaf) _ _ = _
        unfold IxM.bind
        rw [hf]
        rfl
      · show (storePage o.next_leaf _ (storePage newNo w1 g.pages)).lookup newNo = _
        rw [lookup_storePage, if_neg (Ne.symm hnn), hP, if_pos rfl]
      · intro x hx hx2
        have hx3 : x ≠ o.next_leaf := by
          rcases hx2 with hc | hc
          · exact absurd hc hinv
          · exact hc
        show (storePage o.next_leaf _ (storePage newNo w1 g.pages)).lookup x = _
        rw [lookup_storePage, if_neg hx3, hP, if_neg hx]
      · intro x m hm
        show ∃ m2, (storePage o.next_leaf _ (storePage newNo w1 g.pages)).lookup x = some m2
        rw [lookup_storePage, hP]
        split
        · exact ⟨_, rfl⟩
        · split
          · exact ⟨_, rfl⟩
          · exact ⟨m, hm⟩

theorem adjust_root_total (h : IxIndexHandle) (root_no : Int) (root : IxNode)
    (hroot : h.pages.lookup root_no = some root)
    (hchild : root.is_leaf = false → root.num_key = 1 →
      ∃ r c, root.rids[0]? = some r ∧ h.pages.lookup r.page_no = some c) :
    ∃ b h2, IxIndexHandle.adjust_root root_no h = some (b, h2) ∧
      ∀ x m, h.pages.lookup x = some m →
        ∃ m2, h2.pages.lookup x = some m2 ∧ SameButParent m m2 := by
  by_cases c1 : (!root.is_leaf && root.get_size == 1) = true
  · have hl : root.is_leaf = false := by
      cases hh : root.is_leaf
      · rfl
      · rw [hh] at c1
        simp at c1
    have hk : root.num_key = 1 := by
      rw [hl] at c1
      simpa [IxNode.get_size] using c1
    obtain ⟨r, c, hr, hc⟩ := hchild hl hk
    have hv : root.value_at 0 = some r.page_no := by
      simp [IxNode.value_at, IxNode.get_rid, hr]
    let f2 : IxFileHdr := { h.file_hdr_ with root_page_ := r.page_no, num_pages_ := h.file_hdr_.num_pages_ - 1 }
    let P2 : List (Int × IxNode) := storePage r.page_no { c with parent := INVALID_PAGE_ID } h.pages
    refine ⟨true, { file_hdr_ := f2, pages := P2, next_page_no := h.next_page_no }, ?_, ?_⟩
    · simp only [IxIndexHandle.adjust_root, bind, IxM.bind, IxIndexHandle.fetch_node, hroot,
        Option.map_some', c1, if_true, IxIndexHandle.liftOpt, hv, hc, IxIndexHandle.put_node,
        IxIndexHandle.update_root_page_no, IxIndexHandle.set_hdr,
        IxIndexHandle.release_node_handle, pure, IxM.pure]
    · intro x m hm
      show ∃ m2, (storePage r.page_no { c with parent := INVALID_PAGE_ID } h.pages).lookup x =
        some m2 ∧ SameButParent m m2
      rw [lookup_storePage]
      by_cases hx : x = r.page_no
      · rw [if_pos hx]
        rw [hx, hc] at hm
        cases hm
        exact ⟨_, rfl, sameButParent_parent _ _⟩
      · rw [if_neg hx]
        exact ⟨m, hm, sameButParent_refl m⟩
  · by_cases c2 : (root.is_leaf && root.get_size == 0) = true
    · let f2 : IxFileHdr := { h.file_hdr_ with root_page_ := INVALID_PAGE_ID, num_pages_ := h.file_hdr_.num_pages_ - 1 }
      refine ⟨true, { h with file_hdr_ := f2 }, ?_, ?_⟩
      · simp only [IxIndexHandle.adjust_root, bind, IxM.bind, IxIndexHandle.fetch_node, hroot,
          Option.map_some', c1, c2, if_true, if_false, Bool.false_eq_true,
          IxIndexHandle.update_root_page_no, IxIndexHandle.set_hdr,
          IxIndexHandle.release_node_handle, pure, IxM.pure]
      · intro x m hm
        exact ⟨m, hm, sameButParent_refl m⟩
    · refine ⟨false, h, ?_, fun x m hm => ⟨m, hm, sameButParent_refl m⟩⟩
      simp only [IxIndexHandle.adjust_root, bind, IxM.bind, IxIndexHandle.fetch_node, hroot,
        Option.map_some', c1, c2, if_false, Bool.false_eq_true, pure, IxM.pure]

theorem coalesce_run (recurse : Int → IxM Bool) (g g2 g3a g3 : IxIndexHandle)
    (nb_no node_no p : Int) (index : Nat) (L R : Int) (idx : Nat)
    (hsw : (if index = 0 then (node_no, nb_no, 1) else (nb_no, node_no, index)) = (L, R, idx))
    (Ln Rn R2 L3 par par1 par2 par3 : IxNode) (k0 : List Nat)
    (hL : g.pages.lookup L = some Ln) (hR : g.pages.lookup R = some Rn)
    (hmove : IxIndexHandle.coalesceMove L R Ln.num_key Rn.num_key 0 g = some ((), g2))
    (hR2 : g2.pages.lookup R = some R2)
    (hleaf : R2.is_leaf = true → IxIndexHandle.updateLastLeaf R L g2 = some ((), g3a) ∧
      IxIndexHandle.insertLeaf R L false g3a = some ((), g3))
    (hnoleaf : R2.is_leaf = false → g3 = g2)
    (hp3 : g3.pages.lookup p = some par) (hers : par.erase_pair idx = some par1)
    (hL3 : g3.pages.lookup L = some L3) (hLp : L ≠ p) (hk0 : L3.keys[0]? = some k0)
    (hsk : par1.set_key (idx - 1) k0 = some par2)
    (hsr : par2.set_rid (idx - 1) ⟨L, -1⟩ = some par3)
    (hpl : par3.is_leaf = false) (hval : par3.rids[idx - 1]? = some ⟨L, -1⟩) :
    IxIndexHandle.coalesce recurse nb_no node_no p index g =
      recurse p
        { file_hdr_ := { g3.file_hdr_ with num_pages_ := g3.file_hdr_.num_pages_ - 1 },
          pages := storePage L { L3 with parent := p } (storePage p par3 (storePage p par1 g3.pages)),
          next_page_no := g3.next_page_no } := by
  have hpL : ¬ p = L := fun hc => hLp hc.symm
  have hv : par3.value_at (idx - 1) = some L := by
    simp [IxNode.value_at, IxNode.get_rid, hval]
  cases hl : R2.is_leaf
  · have hg3 := hnoleaf hl
    subst hg3
    simp only [IxIndexHandle.coalesce, hsw, bind, IxM.bind, IxIndexHandle.fetch_node, hL, hR,
      Option.map_some', IxNode.get_size, hmove, hR2, hl, Bool.false_eq_true, if_false, pure,
      IxM.pure, IxIndexHandle.release_node_handle, IxIndexHandle.set_hdr, hp3,
      IxIndexHandle.liftOpt, hers, IxIndexHandle.put_node, lookup_storePage, hLp, hpL, hL3,
      IxNode.get_key, hk0, if_true, hsk, hsr, IxIndexHandle.maintain_child, hpl, Bool.not_false,
      hv]
  · obtain ⟨hul, hil⟩ := hleaf hl
    simp only [IxIndexHandle.coalesce, hsw, bind, IxM.bind, IxIndexHandle.fetch_node, hL, hR,
      Option.map_some', IxNode.get_size, hmove, hR2, hl, if_true, hul, hil, pure,
      IxM.pure, IxIndexHandle.release_node_handle, IxIndexHandle.set_hdr, hp3,
      IxIndexHandle.liftOpt, hers, IxIndexHandle.put_node, lookup_storePage, hLp, hpL, hL3,
      IxNode.get_key, hk0, if_false, hsk, hsr, IxIndexHandle.maintain_child, hpl, Bool.not_false,
      hv]

theorem coalesce_head_spec (recurse : Int → IxM Bool) (g : IxIndexHandle)
    (nb_no node_no p : Int) (index : Nat) (L R : Int) (idx : Nat)
    (hsw : (if index = 0 then (node_no, nb_no, 1) else (nb_no, node_no, index)) = (L, R, idx))
    (Ln Rn par : IxNode) (avoid : List Int)
    (hL : g.pages.lookup L = some Ln) (hR : g.pages.lookup R = some Rn)
    (hp : g.pages.lookup p = some par)
    (hLR : L ≠ R) (hLp : L ≠ p) (hRp : R ≠ p) (hpav : p ∈ avoid)
    (hRk : Rn.num_key ≤ Rn.keys.length) (hRr : Rn.num_key ≤ Rn.rids.length)
    (hLk : Ln.num_key + Rn.num_key ≤ Ln.keys.length)
    (hLr : Ln.num_key + Rn.num_key ≤ Ln.rids.length) (hLk1 : 1 ≤ Ln.keys.length)
    (hkids : Ln.is_leaf = true ∨ ∀ j, j < Rn.num_key →
      ∃ r, Rn.rids[j]? = some r ∧ (∃ c, g.pages.lookup r.page_no = some c) ∧
        r.page_no ≠ L ∧ r.page_no ≠ R ∧ r.page_no ∉ avoid)
    (hlink : Rn.is_leaf = true → Rn.next_leaf = INVALID_PAGE_ID ∨
      (Rn.next_leaf ≠ L ∧ Rn.next_leaf ≠ p ∧ ∃ nn, g.pages.lookup Rn.next_leaf = some nn))
    (hpl : par.is_leaf = false) (hidx1 : 1 ≤ idx) (hidx2 : idx < par.num_key)
    (hpk : par.num_key ≤ par.keys.length) (hpr : par.num_key ≤ par.rids.length) :
    ∃ g2 L2 par2, IxIndexHandle.coalesce recurse nb_no node_no p index g = recurse p g2 ∧
      g2.file_hdr_.num_pages_ = g.file_hdr_.num_pages_ - 1 ∧
      g2.pages.lookup L = some L2 ∧ g2.pages.lookup p = some par2 ∧
      Appended Ln Rn L2 ∧ EntryErased par par2 idx L ∧
      par2.is_leaf = false ∧ par2.parent = par.parent ∧
      (∀ x m, g.pages.lookup x = some m → ∃ m2, g2.pages.lookup x = some m2) := by
  obtain ⟨g2, L2, hmove, c1, c2, c3, c4, c5, c6, c7, c8, c9, c10, c11, c12, c13, c14, c15⟩ :=
    coalesceMove_spec L R hLR Rn Ln.num_key avoid hRk hRr Rn.num_key 0 g Ln hL hR rfl
      (by omega) (by omega) (by omega)
      (by
        rcases hkids with hl | hk
        · exact Or.inl hl
        · exact Or.inr (fun j _ hj => hk j (by omega)))
  have hp2 : g2.pages.lookup p = some par := by
    rw [c14 p hpav (Ne.symm hLp) (Ne.symm hRp)]
    exact hp
  -- the relinking of the leaves
  have hpart : ∃ g3a g3 L3, (Rn.is_leaf = true →
        IxIndexHandle.updateLastLeaf R L g2 = some ((), g3a) ∧
        IxIndexHandle.insertLeaf R L false g3a = some ((), g3)) ∧
      (Rn.is_leaf = false → g3 = g2) ∧
      g3.file_hdr_.num_pages_ = g.file_hdr_.num_pages_ ∧ g3.pages.lookup p = some par ∧
      g3.pages.lookup L = some L3 ∧ L3.keys = L2.keys ∧ L3.rids = L2.rids ∧
      L3.num_key = L2.num_key ∧
      (∀ x m, g2.pages.lookup x = some m → ∃ m2, g3.pages.lookup x = some m2) := by
    cases hl : Rn.is_leaf
    · exact ⟨g2, g2, L2, (fun hc => by cases hc), (fun _ => rfl), (by rw [c1]), hp2, c3, rfl, rfl,
        rfl, (fun x m hm => ⟨m, hm⟩)⟩
    · let f3 : IxFileHdr := { g2.file_hdr_ with last_leaf_ := if R = g2.file_hdr_.last_leaf_ then L else g2.file_hdr_.last_leaf_ }
      let g3a : IxIndexHandle := { g2 with file_hdr_ := f3 }
      have hnext : Rn.next_leaf = INVALID_PAGE_ID ∨
          (Rn.next_leaf ≠ L ∧ ∃ nn, g3a.pages.lookup Rn.next_leaf = some nn) := by
        rcases hlink hl with hi | ⟨hn1, _, nn, hnn⟩
        · exact Or.inl hi
        · obtain ⟨m2, hm2⟩ := c15 _ _ hnn
          exact Or.inr ⟨hn1, m2, hm2⟩
      obtain ⟨g3, hil, d1, d2, d3, d4, d5⟩ := insertLeaf_false_spec R L g3a Rn L2 c4 c3 hnext
      have hpn : Rn.next_leaf = INVALID_PAGE_ID ∨ p ≠ Rn.next_leaf := by
        rcases hlink hl with hi | ⟨_, hn2, _⟩
        · exact Or.inl hi
        · exact Or.inr (Ne.symm hn2)
      have hnum : g3.file_hdr_.num_pages_ = g.file_hdr_.num_pages_ := by
        rw [d1]
        show g2.file_hdr_.num_pages_ = _
        rw [c1]
      have hp3 : g3.pages.lookup p = some par := by
        rw [d4 p (Ne.symm hLp) hpn]
        exact hp2
      exact ⟨g3a, g3, _, (fun _ => ⟨updateLastLeaf_eq R L g2, hil⟩), (fun hc => by cases hc),
        hnum, hp3, d3, rfl, rfl, rfl, (fun x m hm => d5 x m hm)⟩
  obtain ⟨g3a, g3, L3, hleafp, hnoleafp, e1, e2, e3, e4, e5, e6, e7⟩ := hpart
  obtain ⟨par1, hers, b1, b2, _, _, b5, b6, b7, b8, b9⟩ := erase_pair_spec par idx hidx2 hpk hpr
  obtain ⟨k0, hk0⟩ : ∃ k, L3.keys[0]? = some k :=
    ⟨_, List.getElem?_eq_getElem (by rw [e4, c10]; omega)⟩
  have hi1 : idx - 1 < par1.keys.length := by rw [b5]; omega
  have hi2 : idx - 1 < par1.rids.length := by rw [b6]; omega
  let par2 : IxNode := { par1 with keys := par1.keys.set (idx - 1) k0 }
  let par3 : IxNode := { par2 with rids := par1.rids.set (idx - 1) ⟨L, -1⟩ }
  have hval : par3.rids[idx - 1]? = some ⟨L, -1⟩ := by
    show (par1.rids.set (idx - 1) ⟨L, -1⟩)[idx - 1]? = _
    rw [List.getElem?_set_self hi2]
  have hrun := coalesce_run recurse g g2 g3a g3 nb_no node_no p index L R idx hsw Ln Rn Rn L3 par
    par1 par2 par3 k0 hL hR hmove c4 hleafp hnoleafp e2 hers e3 hLp hk0
    (set_key_spec par1 (idx - 1) k0 hi1) (set_rid_spec par2 (idx - 1) ⟨L, -1⟩ hi2)
    (b1.trans hpl) hval
  let P : List (Int × IxNode) :=
    storePage L { L3 with parent := p } (storePage p par3 (storePage p par1 g3.pages))
  have hP : ∀ x, P.lookup x = if x = L then some { L3 with parent := p }
      else if x = p then some par3 else g3.pages.lookup x := by
    intro x
    show (storePage L _ (storePage p par3 (storePage p par1 g3.pages))).lookup x = _
    simp only [lookup_storePage]
    by_cases h1 : x = L
    · simp only [h1, if_true]
    · by_cases h2 : x = p
      · simp only [h1, h2, if_false, if_true]
      · simp only [h1, h2, if_false]
  refine ⟨_, { L3 with parent := p }, par3, hrun, ?_, ?_, ?_, ?_, ?_, ?_, b2, ?_⟩
  · show g3.file_hdr_.num_pages_ - 1 = _
    rw [e1]
  · show P.lookup L = _
    rw [hP, if_pos rfl]
  · show P.lookup p = _
    rw [hP, if_neg (Ne.symm hLp), if_pos rfl]
  · refine ⟨?_, ?_, ?_⟩
    · show L3.num_key = _
      rw [e6, c5]
      omega
    · intro j hj
      show L3.keys[j]? = _ ∧ L3.rids[j]? = _
      rw [e4, e5]
      exact c12 j (by omega)
    · intro j hj
      show L3.keys[Ln.num_key + j]? = _ ∧ L3.rids[Ln.num_key + j]? = _
      rw [e4, e5]
      exact c13 j (by omega) (by omega)
  · refine ⟨b7, ?_, hval, ?_⟩
    · intro j hj
      show (par1.keys.set (idx - 1) k0)[j]? = _ ∧ (par1.rids.set (idx - 1) ⟨L, -1⟩)[j]? = _
      rw [List.getElem?_set_ne (by omega), List.getElem?_set_ne (by omega), b8 j (by omega),
        b9 j (by omega), if_pos (by omega), if_pos (by omega)]
      exact ⟨rfl, rfl⟩
    · intro j hj1 hj2
      show (par1.keys.set (idx - 1) k0)[j]? = _ ∧ (par1.rids.set (idx - 1) ⟨L, -1⟩)[j]? = _
      rw [List.getElem?_set_ne (by omega), List.getElem?_set_ne (by omega), b8 j hj2,
        b9 j hj2, if_neg (by omega), if_neg (by omega)]
      exact ⟨rfl, rfl⟩
  · exact b1.trans hpl
  · intro x m hm
    obtain ⟨m2, hm2⟩ := c15 x m hm
    obtain ⟨m3, hm3⟩ := e7 x m2 hm2
    show ∃ m4, P.lookup x = some m4
    rw [hP]
    split
    · exact ⟨_, rfl⟩
    · split
      · exact ⟨_, rfl⟩
      · exact ⟨m3, hm3⟩

theorem find_child_loop_lt (n : IxNode) (child : Int) :
    ∀ (cnt i r : Nat), IxNode.find_child_loop n child cnt i = some r → i ≤ r ∧ r < i + cnt := by
  intro cnt
  induction cnt with
  | zero =>
    intro i r hr
    simp [IxNode.find_child_loop] at hr
  | succ cnt ih =>
    intro i r hr
    simp only [IxNode.find_child_loop] at hr
    cases hg : n.get_rid i with
    | none =>
      rw [hg] at hr
      cases hr
    | some x =>
      rw [hg] at hr
      dsimp only at hr
      by_cases hx : x.page_no = child
      · rw [if_pos hx] at hr
        cases hr
        omega
      · rw [if_neg hx] at hr
        have := ih (i + 1) r hr
        omega

theorem find_child_lt (n : IxNode) (child : Int) (r : Nat) (hr : n.find_child child = some r) :
    r < n.num_key := by
  have := find_child_loop_lt n child n.num_key 0 r hr
  omega

theorem cor_head (fuel : Nat) (h : IxIndexHandle) (node_no nb_no p : Int) (index : Nat)
    (node nb par : IxNode)
    (hnode : h.pages.lookup node_no = some node) (hnb : h.pages.lookup nb_no = some nb)
    (hpar : h.pages.lookup p = some par) (hnp : node.parent = p) (hp : p ≠ INVALID_PAGE_ID)
    (hfind : par.find_child node_no = some index)
    (hsib : par.value_at (if index ≠ 0 then index - 1 else index + 1) = some nb_no) :
    IxIndexHandle.coalesce_or_redistribute (fuel + 1) node_no h =
      (if node.num_key + nb.num_key ≥ (h.file_hdr_.btree_order_ + 1) / 2 * 2 then
        (IxIndexHandle.redistribute nb_no node_no p index >>= fun _ =>
          IxIndexHandle.maintain_parent node_no >>= fun _ =>
          IxIndexHandle.maintain_parent nb_no >>= fun _ => (pure true : IxM Bool)) h
       else IxIndexHandle.coalesce (IxIndexHandle.coalesce_or_redistribute fuel) nb_no node_no p
        index h) := by
  have hroot : node.is_root_page = false := by
    simp [IxNode.is_root_page, hnp, hp]
  have hgn : IxIndexHandle.getNeighbor index par h = some (nb_no, h) := by
    unfold IxIndexHandle.getNeighbor
    by_cases hi : index ≠ 0
    · rw [if_pos hi]
      rw [if_pos hi] at hsib
      simp [IxIndexHandle.liftOpt, hsib]
    · rw [if_neg hi]
      rw [if_neg hi] at hsib
      simp [IxIndexHandle.liftOpt, hsib]
  by_cases hc : node.num_key + nb.num_key ≥ (h.file_hdr_.btree_order_ + 1) / 2 * 2
  · rw [if_pos hc]
    simp only [IxIndexHandle.coalesce_or_redistribute, bind, IxM.bind, IxIndexHandle.fetch_node,
      hnode, Option.map_some', hroot, Bool.false_eq_true, if_false, hnp, hpar,
      IxIndexHandle.liftOpt, hfind, hgn, hnb, IxIndexHandle.hdr, IxNode.get_size,
      IxNode.get_min_size, IxNode.get_max_size, hc, if_true]
  · rw [if_neg hc]
    simp only [IxIndexHandle.coalesce_or_redistribute, bind, IxM.bind, IxIndexHandle.fetch_node,
      hnode, Option.map_some', hroot, Bool.false_eq_true, if_false, hnp, hpar,
      IxIndexHandle.liftOpt, hfind, hgn, hnb, IxIndexHandle.hdr, IxNode.get_size,
      IxNode.get_min_size, IxNode.get_max_size, hc]

theorem cor_redistribute_run (h g2 g3 g4 : IxIndexHandle) (node_no nb_no p : Int)
    (index : Nat)
    (hred : IxIndexHandle.redistribute nb_no node_no p index h = some ((), g2))
    (hm1 : IxIndexHandle.maintain_parent node_no g2 = some ((), g3))
    (hm2 : IxIndexHandle.maintain_parent nb_no g3 = some ((), g4)) :
    (IxIndexHandle.redistribute nb_no node_no p index >>= fun _ =>
      IxIndexHandle.maintain_parent node_no >>= fun _ =>
      IxIndexHandle.maintain_parent nb_no >>= fun _ => (pure true : IxM Bool)) h =
      some (true, g4) := by
  simp only [bind, IxM.bind, hred, hm1, hm2, pure, IxM.pure]

theorem kidsApart_kids (h : IxIndexHandle) (n m : IxNode) (a b : Int) (c : List Int)
    (hk : KidsApart h n (a :: b :: c)) (hsame : m.is_leaf = n.is_leaf) :
    m.is_leaf = true ∨ ∀ j, j < n.num_key →
      ∃ r, n.rids[j]? = some r ∧ (∃ x, h.pages.lookup r.page_no = some x) ∧
        r.page_no ≠ a ∧ r.page_no ≠ b ∧ r.page_no ∉ a :: b :: c := by
  rcases hk with hl | hk
  · left
    rw [hsame]
    exact hl
  · right
    intro j hj
    obtain ⟨r, x, hr, hx, hout⟩ := hk j hj
    refine ⟨r, hr, ⟨x, hx⟩, ?_, ?_, hout⟩
    · intro hc
      exact hout (hc ▸ List.mem_cons_self _ _)
    · intro hc
      exact hout (hc ▸ List.mem_cons_of_mem _ (List.mem_cons_self _ _))

theorem cor_redistribute_branch (h : IxIndexHandle) (node_no nb_no p : Int) (index : Nat)
    (node nb par : IxNode) (rest : List Int)
    (hnode : h.pages.lookup node_no = some node) (hnb : h.pages.lookup nb_no = some nb)
    (hpar : h.pages.lookup p = some par)
    (hnp : node.parent = p) (hbp : nb.parent = p) (hd1 : node_no ≠ nb_no)
    (hn_out : node_no ∉ p :: rest) (hb_out : nb_no ∉ p :: rest)
    (hcn : ParentLinks h node_no p (p :: rest)) (hcb : ParentLinks h nb_no p (p :: rest))
    (hfind : par.find_child node_no = some index) (hsibuse : index = 0 → 1 < par.num_key)
    (hpk : par.num_key ≤ par.keys.length)
    (hnk : node.num_key < node.keys.length) (hnr : node.num_key < node.rids.length)
    (hbk : nb.num_key ≤ nb.keys.length) (hbr : nb.num_key ≤ nb.rids.length)
    (hb1 : 1 ≤ nb.keys.length) (hbpos : 1 ≤ nb.num_key)
    (hsame : node.is_leaf = nb.is_leaf)
    (hkb : KidsApart h nb (node_no :: nb_no :: p :: rest)) :
    ∃ h2 node2 nb2 par2,
      (IxIndexHandle.redistribute nb_no node_no p index >>= fun _ =>
        IxIndexHandle.maintain_parent node_no >>= fun _ =>
        IxIndexHandle.maintain_parent nb_no >>= fun _ => (pure true : IxM Bool)) h =
        some (true, h2) ∧
      h2.file_hdr_ = h.file_hdr_ ∧
      h2.pages.lookup node_no = some node2 ∧ h2.pages.lookup nb_no = some nb2 ∧
      h2.pages.lookup p = some par2 ∧ SameButKeys par par2 ∧
      (index ≠ 0 → MovedLast node nb node2 nb2) ∧ (index = 0 → MovedFirst node nb node2 nb2) := by
  have hnp2 : node_no ≠ p := fun hc => hn_out (hc ▸ List.mem_cons_self _ _)
  have hbp2 : nb_no ≠ p := fun hc => hb_out (hc ▸ List.mem_cons_self _ _)
  have hidxlt : index < par.num_key := find_child_lt par node_no index hfind
  have hprest : p ∉ rest := hcn.2.2.1
  have hkids := kidsApart_kids h nb node node_no nb_no (p :: rest) hkb hsame
  have hkid : ∀ i, i < nb.num_key → (node.is_leaf = true ∨ ∃ r c, nb.rids[i]? = some r ∧
      h.pages.lookup r.page_no = some c ∧ r.page_no ≠ node_no ∧ r.page_no ≠ nb_no ∧
      r.page_no ≠ p ∧ r.page_no ∉ p :: rest) := by
    intro i hi
    rcases hkids with hl | hk
    · exact Or.inl hl
    · right
      obtain ⟨r, hr, ⟨c, hc⟩, h1, h2, h3⟩ := hk i hi
      have h4 : r.page_no ∉ p :: rest := fun hm =>
        h3 (List.mem_cons_of_mem _ (List.mem_cons_of_mem _ hm))
      exact ⟨r, c, hr, hc, h1, h2, fun hcp => h4 (hcp ▸ List.mem_cons_self _ _), h4⟩
  -- the state after `redistribute`
  have hred : ∃ g2 node2 nb2 par2,
      IxIndexHandle.redistribute nb_no node_no p index h = some ((), g2) ∧
      g2.file_hdr_ = h.file_hdr_ ∧
      g2.pages.lookup node_no = some node2 ∧ g2.pages.lookup nb_no = some nb2 ∧
      g2.pages.lookup p = some par2 ∧ SameButKeys par par2 ∧
      (∀ x, x ∈ p :: rest → x ≠ node_no → x ≠ nb_no → x ≠ p →
        g2.pages.lookup x = h.pages.lookup x) ∧
      node2.parent = node.parent ∧ node2.keys.length = node.keys.length ∧
      nb2.parent = nb.parent ∧ nb2.keys.length = nb.keys.length ∧
      (index ≠ 0 → MovedLast node nb node2 nb2) ∧
      (index = 0 → MovedFirst node nb node2 nb2) := by
    by_cases hi : index = 0
    · subst hi
      obtain ⟨g2, node2, nb2, par2, r1, r2, _, r4, r5, r6, r7, r8, _, r10, r11, _, r13, r14, r15,
          r16, _, r18, r19, _, r21, r22⟩ :=
        redistribute_right_spec h node_no nb_no p node nb par (p :: rest) hnode hnb hpar hd1 hnp2
          hbp2 hbpos hbk hbr hnk hnr (by have := hsibuse rfl; omega) (hkid 0 (by omega))
      exact ⟨g2, node2, nb2, par2, r1, r2, r4, r5, r6, r7, r8, r10, r11, r18, r19,
        fun hc => absurd rfl hc, fun _ => ⟨r13, r21, r14, r15, r16, r22⟩⟩
    · obtain ⟨g2, node2, nb2, par2, r1, r2, _, r4, r5, r6, r7, r8, _, r10, r11, _, r13, r14, r15,
          r16, _, r18, r19, _, r21, r22⟩ :=
        redistribute_left_spec h node_no nb_no p index node nb par (p :: rest) hnode hnb hpar hd1
          hnp2 hbp2 hi hbpos hbk hbr hnk hnr (by omega) (hkid (nb.num_key - 1) (by omega))
      exact ⟨g2, node2, nb2, par2, r1, r2, r4, r5, r6, r7, r8, r10, r11, r18, r19,
        fun _ => ⟨r13, r21, r14, r15, r16, r22⟩, fun hc => absurd hc hi⟩
  obtain ⟨g2, node2, nb2, par2, hrun1, hf2, hn2, hb2, hp2, hs2, hav2, a1, a2, b1, b2, hml, hmf⟩ :=
    hred
  have hrel2 : ∀ x, x ∈ p :: rest → ∀ m, h.pages.lookup x = some m →
      ∃ m2, g2.pages.lookup x = some m2 ∧ SameButKeys m m2 := by
    intro x hx m hm
    by_cases hxp : x = p
    · rw [hxp, hpar] at hm
      cases hm
      rw [hxp]
      exact ⟨par2, hp2, hs2⟩
    · have hx1 : x ≠ node_no := fun hc => hn_out (hc ▸ hx)
      have hx2 : x ≠ nb_no := fun hc => hb_out (hc ▸ hx)
      exact ⟨m, by rw [hav2 x hx hx1 hx2 hxp]; exact hm, sameButKeys_refl m⟩
  obtain ⟨g3, hrun2, hk3⟩ := maintain_parent_spec (p :: rest) g2 node_no node2 hn2
    (by rw [a2]; omega)
    (by rw [a1, hnp]; exact parentLinks_transfer h g2 _ node_no p hcn hrel2) hn_out
  obtain ⟨hf3, _, hout3, hin3⟩ := hk3
  have hb3 : g3.pages.lookup nb_no = some nb2 := by rw [hout3 nb_no hb_out]; exact hb2
  have hrel3 : ∀ x, x ∈ p :: rest → ∀ m, h.pages.lookup x = some m →
      ∃ m2, g3.pages.lookup x = some m2 ∧ SameButKeys m m2 := by
    intro x hx m hm
    obtain ⟨m2, hm2, hs⟩ := hrel2 x hx m hm
    obtain ⟨m3, hm3, hs3⟩ := hin3 x m2 hm2
    exact ⟨m3, hm3, sameButKeys_trans hs hs3⟩
  obtain ⟨g4, hrun3, hk4⟩ := maintain_parent_spec (p :: rest) g3 nb_no nb2 hb3
    (by rw [b2]; exact hb1)
    (by rw [b1, hbp]; exact parentLinks_transfer h g3 _ nb_no p hcb hrel3) hb_out
  obtain ⟨hf4, _, hout4, hin4⟩ := hk4
  obtain ⟨par3, hp3, hs3⟩ := hin3 p par2 hp2
  obtain ⟨par4, hp4, hs4⟩ := hin4 p par3 hp3
  refine ⟨g4, node2, nb2, par4, cor_redistribute_run h g2 g3 g4 node_no nb_no p index hrun1 hrun2
    hrun3, by rw [hf4, hf3, hf2], ?_, ?_, hp4,
    sameButKeys_trans hs2 (sameButKeys_trans hs3 hs4), hml, hmf⟩
  · rw [hout4 node_no hn_out, hout3 node_no hn_out]
    exact hn2
  · rw [hout4 nb_no hb_out]
    exact hb3

theorem cor_root (fuel : Nat) (g : IxIndexHandle) (p : Int) (par : IxNode)
    (hp : g.pages.lookup p = some par) (hroot : par.parent = INVALID_PAGE_ID) :
    IxIndexHandle.coalesce_or_redistribute (fuel + 1) p g = IxIndexHandle.adjust_root p g := by
  have hr : par.is_root_page = true := by
    simp [IxNode.is_root_page, hroot]
  simp only [IxIndexHandle.coalesce_or_redistribute, bind, IxM.bind, IxIndexHandle.fetch_node,
    hp, Option.map_some', hr, if_true]

theorem cor_coalesce_branch (fuel : Nat) (g : IxIndexHandle)
    (nb_no node_no p : Int) (index : Nat) (L R : Int) (idx : Nat)
    (hsw : (if index = 0 then (node_no, nb_no, 1) else (nb_no, node_no, index)) = (L, R, idx))
    (Ln Rn par : IxNode) (avoid : List Int)
    (hL : g.pages.lookup L = some Ln) (hR : g.pages.lookup R = some Rn)
    (hp : g.pages.lookup p = some par)
    (hLR : L ≠ R) (hLp : L ≠ p) (hRp : R ≠ p) (hpav : p ∈ avoid)
    (hRk : Rn.num_key ≤ Rn.keys.length) (hRr : Rn.num_key ≤ Rn.rids.length)
    (hLk : Ln.num_key + Rn.num_key ≤ Ln.keys.length)
    (hLr : Ln.num_key + Rn.num_key ≤ Ln.rids.length) (hLk1 : 1 ≤ Ln.keys.length)
    (hkids : Ln.is_leaf = true ∨ ∀ j, j < Rn.num_key →
      ∃ r, Rn.rids[j]? = some r ∧ (∃ c, g.pages.lookup r.page_no = some c) ∧
        r.page_no ≠ L ∧ r.page_no ≠ R ∧ r.page_no ∉ avoid)
    (hlink : Rn.is_leaf = true → Rn.next_leaf = INVALID_PAGE_ID ∨
      (Rn.next_leaf ≠ L ∧ Rn.next_leaf ≠ p ∧ ∃ nn, g.pages.lookup Rn.next_leaf = some nn))
    (hpl : par.is_leaf = false) (hidx1 : 1 ≤ idx) (hidx2 : idx < par.num_key)
    (hpk : par.num_key ≤ par.keys.length) (hpr : par.num_key ≤ par.rids.length) :
    ∃ g2 L2 par2,
      IxIndexHandle.coalesce (IxIndexHandle.coalesce_or_redistribute fuel) nb_no node_no p index g =
        IxIndexHandle.coalesce_or_redistribute fuel p g2 ∧
      g2.file_hdr_.num_pages_ = g.file_hdr_.num_pages_ - 1 ∧
      g2.pages.lookup L = some L2 ∧ g2.pages.lookup p = some par2 ∧
      Appended Ln Rn L2 ∧ EntryErased par par2 idx L ∧
      (par.parent = INVALID_PAGE_ID → 1 ≤ fuel →
        ∃ b g3 L3, IxIndexHandle.coalesce_or_redistribute fuel p g2 = some (b, g3) ∧
          g3.pages.lookup L = some L3 ∧ Appended Ln Rn L3) := by
  obtain ⟨g2, L2, par2, hrun, hnum, hL2, hp2, happ, hers, hpl2, hpp2, _⟩ :=
    coalesce_head_spec (IxIndexHandle.coalesce_or_redistribute fuel) g nb_no node_no p index L R
      idx hsw Ln Rn par avoid hL hR hp hLR hLp hRp hpav hRk hRr hLk hLr hLk1 hkids hlink hpl
      hidx1 hidx2 hpk hpr
  refine ⟨g2, L2, par2, hrun, hnum, hL2, hp2, happ, hers, ?_⟩
  intro hroot hfuel
  obtain ⟨f, rfl⟩ : ∃ f, fuel = f + 1 := ⟨fuel - 1, by omega⟩
  rw [cor_root f g2 p par2 hp2 (by rw [hpp2]; exact hroot)]
  have hchild : par2.is_leaf = false → par2.num_key = 1 →
      ∃ r c, par2.rids[0]? = some r ∧ g2.pages.lookup r.page_no = some c := by
    intro _ h1
    obtain ⟨e1, _, e3, _⟩ := hers
    have hi : idx = 1 := by omega
    rw [hi] at e3
    exact ⟨⟨L, -1⟩, L2, e3, hL2⟩
  obtain ⟨b, g3, hadj, hsame⟩ := adjust_root_total g2 p par2 hp2 hchild
  obtain ⟨L3, hL3, hs⟩ := hsame L L2 hL2
  obtain ⟨s1, _, s3, s4, _, _⟩ := sameButParent_fields hs
  refine ⟨b, g3, L3, hadj, hL3, ?_⟩
  obtain ⟨a1, a2, a3⟩ := happ
  refine ⟨by rw [s1]; exact a1, ?_, ?_⟩
  · intro j hj
    rw [s3, s4]
    exact a2 j hj
  · intro j hj
    rw [s3, s4]
    exact a3 j hj

/-- C31: `coalesce_or_redistribute` on the page of a node that is not the root,
whose parent `par` (page `p`) lists it as child `index`, with the sibling `nb`
read from the parent at `index - 1`, or at `index + 1` when `index` is 0.  The
two nodes are of the same kind, lie apart from their ancestors `p :: rest`, and
have slot arrays with room.  With `min_size = (btree_order_ + 1) / 2`:
when the two sizes add up to `2 * min_size` or more the call redistributes and
returns `true`: the file header stays, both pages stay children of the parent,
which only changes key slots, and one pair has moved from the sibling to the
node (the sibling's last pair to the front of the node for a left sibling, its
first pair to the end of the node for a right sibling).  When the sizes add up
to less the call coalesces: the left of the two nodes then holds its pairs
followed by the pairs of the right node, the right node's entry is erased from
the parent, `num_pages_` is one less, and the call goes on with
`coalesce_or_redistribute` on the parent, which returns when the parent is the
root. -/
theorem coalesce_or_redistribute_threshold (fuel : Nat) (h : IxIndexHandle)
    (node_no nb_no p : Int) (index : Nat) (node nb par : IxNode) (rest : List Int)
    (hnode : h.pages.lookup node_no = some node) (hnb : h.pages.lookup nb_no = some nb)
    (hpar : h.pages.lookup p = some par)
    (hnp : node.parent = p) (hbp : nb.parent = p) (hpl : par.is_leaf = false)
    (hd1 : node_no ≠ nb_no) (hn_out : node_no ∉ p :: rest) (hb_out : nb_no ∉ p :: rest)
    (hcn : ParentLinks h node_no p (p :: rest)) (hcb : ParentLinks h nb_no p (p :: rest))
    (hfind : par.find_child node_no = some index)
    (hsib : par.value_at (if index ≠ 0 then index - 1 else index + 1) = some nb_no)
    (hsibuse : index = 0 → 1 < par.num_key)
    (hpk : par.num_key ≤ par.keys.length) (hpr : par.num_key ≤ par.rids.length)
    (hnk : node.keys.length = h.file_hdr_.btree_order_ + 1)
    (hnr : node.rids.length = h.file_hdr_.btree_order_ + 1)
    (hbk : nb.keys.length = h.file_hdr_.btree_order_ + 1)
    (hbr : nb.rids.length = h.file_hdr_.btree_order_ + 1)
    (hnsz : node.num_key ≤ h.file_hdr_.btree_order_)
    (hbsz : nb.num_key ≤ h.file_hdr_.btree_order_ + 1) (hbpos : 1 ≤ nb.num_key)
    (hsame : node.is_leaf = nb.is_leaf)
    (hkn : KidsApart h node (node_no :: nb_no :: p :: rest))
    (hkb : KidsApart h nb (node_no :: nb_no :: p :: rest))
    (hln : index ≠ 0 → node.is_leaf = true → node.next_leaf = INVALID_PAGE_ID ∨
      (node.next_leaf ≠ nb_no ∧ node.next_leaf ≠ p ∧
        ∃ nn, h.pages.lookup node.next_leaf = some nn))
    (hlb : index = 0 → nb.is_leaf = true → nb.next_leaf = INVALID_PAGE_ID ∨
      (nb.next_leaf ≠ node_no ∧ nb.next_leaf ≠ p ∧
        ∃ nn, h.pages.lookup nb.next_leaf = some nn)) :
    (2 * ((h.file_hdr_.btree_order_ + 1) / 2) ≤ node.num_key + nb.num_key →
      ∃ h2 node2 nb2 par2,
        IxIndexHandle.coalesce_or_redistribute (fuel + 1) node_no h = some (true, h2) ∧
        h2.file_hdr_ = h.file_hdr_ ∧
        h2.pages.lookup node_no = some node2 ∧ h2.pages.lookup nb_no = some nb2 ∧
        h2.pages.lookup p = some par2 ∧ SameButKeys par par2 ∧
        (index ≠ 0 → MovedLast node nb node2 nb2) ∧
        (index = 0 → MovedFirst node nb node2 nb2)) ∧
    (node.num_key + nb.num_key < 2 * ((h.file_hdr_.btree_order_ + 1) / 2) →
      ∃ h2 left2 par2,
        IxIndexHandle.coalesce_or_redistribute (fuel + 1) node_no h =
          IxIndexHandle.coalesce_or_redistribute fuel p h2 ∧
        h2.file_hdr_.num_pages_ = h.file_hdr_.num_pages_ - 1 ∧
        h2.pages.lookup (if index = 0 then node_no else nb_no) = some left2 ∧
        h2.pages.lookup p = some par2 ∧
        (index ≠ 0 → Appended nb node left2 ∧ EntryErased par par2 index nb_no) ∧
        (index = 0 → Appended node nb left2 ∧ EntryErased par par2 1 node_no) ∧
        (par.parent = INVALID_PAGE_ID → 1 ≤ fuel →
          ∃ b h3 left3, IxIndexHandle.coalesce_or_redistribute (fuel + 1) node_no h = some (b, h3) ∧
            h3.pages.lookup (if index = 0 then node_no else nb_no) = some left3 ∧
            (index ≠ 0 → Appended nb node left3) ∧ (index = 0 → Appended node nb left3))) := by
  have hp : p ≠ INVALID_PAGE_ID := hcn.2.1
  have hnp2 : node_no ≠ p := fun hc => hn_out (hc ▸ List.mem_cons_self _ _)
  have hbp2 : nb_no ≠ p := fun hc => hb_out (hc ▸ List.mem_cons_self _ _)
  have hidxlt : index < par.num_key := find_child_lt par node_no index hfind
  have hhead := cor_head fuel h node_no nb_no p index node nb par hnode hnb hpar hnp hp hfind hsib
  have hpav : p ∈ node_no :: nb_no :: p :: rest :=
    List.mem_cons_of_mem _ (List.mem_cons_of_mem _ (List.mem_cons_self _ _))
  constructor
  · intro hsum
    have hc : node.num_key + nb.num_key ≥ (h.file_hdr_.btree_order_ + 1) / 2 * 2 := by omega
    rw [hhead, if_pos hc]
    exact cor_redistribute_branch h node_no nb_no p index node nb par rest hnode hnb hpar hnp hbp
      hd1 hn_out hb_out hcn hcb hfind hsibuse hpk (by omega) (by omega) (by omega) (by omega)
      (by omega) hbpos hsame hkb
  · intro hsum
    have hc : ¬ node.num_key + nb.num_key ≥ (h.file_hdr_.btree_order_ + 1) / 2 * 2 := by omega
    rw [hhead, if_neg hc]
    by_cases hi : index = 0
    · subst hi
      obtain ⟨g2, L2, par2, hrun, hnum, hL2, hp2, happ, hers, htot⟩ :=
        cor_coalesce_branch fuel h nb_no node_no p 0 node_no nb_no 1 (by rw [if_pos rfl])
          node nb par (node_no :: nb_no :: p :: rest) hnode hnb hpar hd1 hnp2 hbp2 hpav
          (by omega) (by omega) (by omega) (by omega) (by omega)
          (kidsApart_kids h nb node node_no nb_no (p :: rest) hkb hsame)
          (hlb rfl) hpl (le_refl 1) (hsibuse rfl) hpk hpr
      refine ⟨g2, L2, par2, hrun, hnum, by rw [if_pos rfl]; exact hL2, hp2,
        fun hc0 => absurd rfl hc0, fun _ => ⟨happ, hers⟩, ?_⟩
      intro hroot hfuel
      obtain ⟨b, g3, L3, hfin, hL3, happ3⟩ := htot hroot hfuel
      exact ⟨b, g3, L3, by rw [hrun]; exact hfin, by rw [if_pos rfl]; exact hL3,
        fun hc0 => absurd rfl hc0, fun _ => happ3⟩
    · have hkids : nb.is_leaf = true ∨ ∀ j, j < node.num_key →
          ∃ r, node.rids[j]? = some r ∧ (∃ c, h.pages.lookup r.page_no = some c) ∧
            r.page_no ≠ nb_no ∧ r.page_no ≠ node_no ∧
            r.page_no ∉ node_no :: nb_no :: p :: rest := by
        rcases kidsApart_kids h node nb node_no nb_no (p :: rest) hkn hsame.symm with hl | hk
        · exact Or.inl hl
        · right
          intro j hj
          obtain ⟨r, hr, hx, k1, k2, k3⟩ := hk j hj
          exact ⟨r, hr, hx, k2, k1, k3⟩
      obtain ⟨g2, L2, par2, hrun, hnum, hL2, hp2, happ, hers, htot⟩ :=
        cor_coalesce_branch fuel h nb_no node_no p index nb_no node_no index (by rw [if_neg hi])
          nb node par (node_no :: nb_no :: p :: rest) hnb hnode hpar (Ne.symm hd1) hbp2 hnp2 hpav
          (by omega) (by omega) (by omega) (by omega) (by omega) hkids
          (hln hi) hpl (by omega) hidxlt hpk hpr
      refine ⟨g2, L2, par2, hrun, hnum, by rw [if_neg hi]; exact hL2, hp2,
        fun _ => ⟨happ, hers⟩, fun hc0 => absurd hc0 hi, ?_⟩
      intro hroot hfuel
      obtain ⟨b, g3, L3, hfin, hL3, happ3⟩ := htot hroot hfuel
      exact ⟨b, g3, L3, by rw [hrun]; exact hfin, by rw [if_neg hi]; exact hL3,
        fun _ => happ3, fun hc0 => absurd hc0 hi⟩

/-- C31 at two concrete indexes of order 4, where `2 * min_size` is 4.  In
`afterRemoveIndex` the leaf page 2 (child 0 of the root page 4) holds one key
and its right sibling page 3 holds three: the call redistributes, and the
first pair of page 3 has moved to the end of page 2.  In `thinLeafIndex` the
leaf page 3 (child 1) holds one key and its left sibling page 2 holds two: the
call coalesces, page 2 then holds its pairs followed by the pair of page 3,
and, the parent being the root, the call returns. -/
theorem coalesce_or_redistribute_threshold_witness :
    (afterRemoveIndex.pages.lookup 2 = some shortLeaf ∧
      afterRemoveIndex.pages.lookup 3 = some twoLeafRight ∧
      2 * ((afterRemoveIndex.file_hdr_.btree_order_ + 1) / 2) ≤
        shortLeaf.num_key + twoLeafRight.num_key ∧
      ∃ h2 node2 nb2, IxIndexHandle.coalesce_or_redistribute 1 2 afterRemoveIndex =
          some (true, h2) ∧
        h2.file_hdr_ = afterRemoveIndex.file_hdr_ ∧
        h2.pages.lookup 2 = some node2 ∧ h2.pages.lookup 3 = some nb2 ∧
        MovedFirst shortLeaf twoLeafRight node2 nb2) ∧
    (thinLeafIndex.pages.lookup 3 = some thinLeaf ∧
      thinLeafIndex.pages.lookup 2 = some twoLeafLeft ∧
      thinLeaf.num_key + twoLeafLeft.num_key <
        2 * ((thinLeafIndex.file_hdr_.btree_order_ + 1) / 2) ∧
      ∃ b h3 left3, IxIndexHandle.coalesce_or_redistribute 2 3 thinLeafIndex = some (b, h3) ∧
        h3.pages.lookup 2 = some left3 ∧ Appended twoLeafLeft thinLeaf left3) ∧
    (IxIndexHandle.coalesce_or_redistribute 2 3 thinLeafIndex).map
        (fun s => (s.1, [s.2.file_hdr_.num_pages_, s.2.file_hdr_.root_page_])) =
      some (true, [3, 2]) ∧
    (IxIndexHandle.coalesce_or_redistribute 2 3 thinLeafIndex).map
        (fun s => (s.2.pages.lookup 2).map (fun n => n.keys.take n.num_key)) =
      some (some [intKey 10, intKey 20, intKey 30]) := by
  refine ⟨⟨rfl, rfl, by decide, ?_⟩, ⟨rfl, rfl, by decide, ?_⟩, by decide!, by decide!⟩
  · obtain ⟨h2, node2, nb2, _, hrun, hf, hn, hb, _, _, _, hmf⟩ :=
      (coalesce_or_redistribute_threshold 0 afterRemoveIndex 2 3 4 0 shortLeaf twoLeafRight
        twoLeafRoot [] rfl rfl rfl rfl rfl rfl (by decide) (by decide) (by decide)
        ⟨rfl, by decide, List.not_mem_nil _, twoLeafRoot, 0, rfl, by decide!, by decide, rfl⟩
        ⟨rfl, by decide, List.not_mem_nil _, twoLeafRoot, 1, rfl, by decide!, by decide, rfl⟩
        (by decide!) (by decide!) (fun _ => by decide) (by decide) (by decide) rfl rfl rfl rfl
        (by decide) (by decide) (by decide) rfl (Or.inl rfl) (Or.inl rfl)
        (fun hc => absurd rfl hc)
        (fun _ _ => Or.inr ⟨by decide, by decide, _, rfl⟩)).1 (by decide)
    exact ⟨h2, node2, nb2, hrun, hf, hn, hb, hmf rfl⟩
  · obtain ⟨_, _, _, _, _, _, _, _, _, htot⟩ :=
      (coalesce_or_redistribute_threshold 1 thinLeafIndex 3 2 4 1 thinLeaf twoLeafLeft
        twoLeafRoot [] rfl rfl rfl rfl rfl rfl (by decide) (by decide) (by decide)
        ⟨rfl, by decide, List.not_mem_nil _, twoLeafRoot, 1, rfl, by decide!, by decide, rfl⟩
        ⟨rfl, by decide, List.not_mem_nil _, twoLeafRoot, 0, rfl, by decide!, by decide, rfl⟩
        (by decide!) (by decide!) (fun hc => absurd hc (by decide)) (by decide) (by decide)
        rfl rfl rfl rfl (by decide) (by decide) (by decide) rfl (Or.inl rfl) (Or.inl rfl)
        (fun _ _ => Or.inr ⟨by decide, by decide, _, rfl⟩)
        (fun hc => absurd hc (by decide))).2 (by decide)
    obtain ⟨b, h3, left3, hrun, hl, happ, _⟩ := htot rfl (le_refl 1)
    exact ⟨b, h3, left3, hrun, hl, happ (by decide)⟩

end Rucbase
